import Mathlib

/-!
# CppAD `llvm_ir::to_graph`

A shallow embedding of `cppad_lib/llvm/ir_to_graph.cpp`: the translation of an LLVM IR
function into a CppAD `cpp_graph`, followed by theorems about it.

Conventions of the embedding.

* `size_t` quantities count objects held in memory (nodes, operands, vector elements); they
  are embedded as `Nat`.
* A `const llvm::Value*` is an identity-keyed handle; it is embedded as the type `Value`,
  compared by equality.  The handle of an instruction (its result) is the position of the
  instruction in the function together with its result type.
* The source has two builds.  With `debug = true` every `CPPAD_ASSERT_UNKNOWN` (and the bound
  check of `CppAD::vector`) is active and a failing one stops the translation with
  `Stop.assert_fail`.  With `debug = false` (`NDEBUG`) the assertions are compiled out; an
  access outside a vector or through a null pointer then has no defined behaviour
  (`Stop.undefined`) and `std::string::substr` past the end throws (`Stop.out_of_range`).
-/

namespace CppAD

/-! ## The IR provider (LLVM) -/

/-- The type identifiers of `llvm::Type::TypeID` that the translator distinguishes. -/
inductive TypeID
  | VoidTyID
  | DoubleTyID
  | IntegerTyID
  | PointerTyID
  | LabelTyID
  | OtherTyID
  deriving DecidableEq, Repr

/-- The predicates of `llvm::CmpInst::Predicate`; `FCMP_FALSE` has the value zero. -/
inductive Predicate
  | FCMP_FALSE | FCMP_OEQ | FCMP_OGT | FCMP_OGE | FCMP_OLT | FCMP_OLE | FCMP_ONE | FCMP_ORD
  | FCMP_UNO | FCMP_UEQ | FCMP_UGT | FCMP_UGE | FCMP_ULT | FCMP_ULE | FCMP_UNE | FCMP_TRUE
  | ICMP_EQ | ICMP_NE | ICMP_UGT | ICMP_UGE | ICMP_ULT | ICMP_ULE
  | ICMP_SGT | ICMP_SGE | ICMP_SLT | ICMP_SLE
  deriving DecidableEq, Repr

/-- A value handle (`const llvm::Value*`).  `ConstantFP h dbl` is the float literal handle `h`
whose value has the bit pattern `dbl`; `Inst k ty` is the instruction at position `k`;
`ConstantInt raw` is an integer literal with raw data `raw`; `Global name` is a named global such as a callee. -/
inductive Value
  | Inst (k : Nat) (ty : TypeID)
  | Argument (i : Nat)
  | ConstantFP (h : Nat) (dbl : Nat)
  | ConstantInt (raw : Nat)
  | Global (name : String)
  | BasicBlock (b : Nat)
  deriving DecidableEq, Repr

/-- The instruction operator codes: the seventeen cases of the switch in `to_graph`, and
`Other name` for any other opcode, `name` being what `getOpcodeName` returns for it. -/
inductive Opcode
  | Alloca | Load | Br | Call | FAdd | FSub | FMul | FDiv | FCmp | GetElementPtr | ICmp
  | FNeg | ZExt | Or | Ret | Select | Store
  | Other (name : String)
  deriving DecidableEq, Repr

/-- An `llvm::Instruction`: opcode, operands, type of the result and, for a compare
instruction, its predicate. -/
structure Instruction where
  opcode : Opcode
  operands : List Value
  type_id : TypeID
  predicate : Predicate
  deriving DecidableEq, Repr

/-- The handle of the instruction at position `k` (`dyn_cast<Value>(&(*itr))`). -/
def Instruction.result (k : Nat) (I : Instruction) : Value :=
  Value.Inst k I.type_id

/-- Embeds `get_type_id`; the six formal arguments are
`(len_input, input_ptr, len_output, output_ptr, len_msg, msg_ptr)`. -/
def get_type_id : Value → TypeID
  | Value.Inst _ ty => ty
  | Value.Argument i => if i % 2 = 1 then TypeID.PointerTyID else TypeID.IntegerTyID
  | Value.ConstantFP _ _ => TypeID.DoubleTyID
  | Value.ConstantInt _ => TypeID.IntegerTyID
  | Value.Global _ => TypeID.PointerTyID
  | Value.BasicBlock _ => TypeID.LabelTyID

/-- Embeds `Value::getName`: only globals carry a name here. -/
def Value.getName : Value → String
  | Value.Global name => name
  | _ => ""

/-- Embeds `llvm::isa<llvm::ConstantFP>` together with `convertToDouble`. -/
def Value.constantFP? : Value → Option Nat
  | Value.ConstantFP _ dbl => some dbl
  | _ => none

/-- The formal argument `function_ir->arg_begin() + 1`. -/
def input_ptr : Value := Value.Argument 1

/-- The formal argument `function_ir->arg_begin() + 3`. -/
def output_ptr : Value := Value.Argument 3

/-- The formal argument `function_ir->arg_begin() + 5`. -/
def msg_ptr : Value := Value.Argument 5

/-! ## `llvm::DenseMap` -/

/-- An `llvm::DenseMap` keyed by value handles (or an `llvm::StringMap`), as the list of its
entries in insertion order. -/
abbrev DenseMap (κ : Type) (β : Type) := List (κ × β)

/-- The entry stored under `k`, if there is one. -/
def DenseMap.find? {κ β : Type} [DecidableEq κ] : DenseMap κ β → κ → Option β
  | [], _ => none
  | (k', v) :: m, k => if k' = k then some v else DenseMap.find? m k

/-- Embeds `DenseMap::lookup`: the stored value, or a default constructed one. -/
def DenseMap.lookup {κ β : Type} [DecidableEq κ] [Inhabited β] (m : DenseMap κ β) (k : κ) : β :=
  (DenseMap.find? m k).getD default

/-- Embeds `DenseMap::insert`: a key that is already present keeps its value. -/
def DenseMap.insert {κ β : Type} [DecidableEq κ] (m : DenseMap κ β) (k : κ) (v : β) :
    DenseMap κ β :=
  match DenseMap.find? m k with
  | some _ => m
  | none => m ++ [(k, v)]

/-! ## The graph sink (`CppAD::cpp_graph`) -/

/-- Modelled from the spec: the operator tags `graph::graph_op_enum` of the graph library
(declared in `cppad/core/graph/graph_op_enum.hpp`), in enumeration order, ending with the
count `n_graph_op`. -/
inductive graph_op_enum
  | abs_graph_op | acos_graph_op | acosh_graph_op | add_graph_op | asin_graph_op
  | asinh_graph_op | atan_graph_op | atanh_graph_op | atom_graph_op | azmul_graph_op
  | cexp_eq_graph_op | cexp_le_graph_op | cexp_lt_graph_op | comp_eq_graph_op
  | comp_le_graph_op | comp_lt_graph_op | comp_ne_graph_op | cos_graph_op | cosh_graph_op
  | discrete_graph_op | div_graph_op | erf_graph_op | erfc_graph_op | exp_graph_op
  | expm1_graph_op | log1p_graph_op | log_graph_op | mul_graph_op | neg_graph_op
  | pow_graph_op | print_graph_op | sign_graph_op | sin_graph_op | sinh_graph_op
  | sqrt_graph_op | sub_graph_op | sum_graph_op | tan_graph_op | tanh_graph_op
  | n_graph_op
  deriving DecidableEq, Repr

open graph_op_enum in
/-- Modelled from the spec: the valid operator tags in enumeration order, so that the tag
with integer value `i` is the `i`-th entry. -/
def graph_op_list : List graph_op_enum :=
  [abs_graph_op, acos_graph_op, acosh_graph_op, add_graph_op, asin_graph_op,
   asinh_graph_op, atan_graph_op, atanh_graph_op, atom_graph_op, azmul_graph_op,
   cexp_eq_graph_op, cexp_le_graph_op, cexp_lt_graph_op, comp_eq_graph_op,
   comp_le_graph_op, comp_lt_graph_op, comp_ne_graph_op, cos_graph_op, cosh_graph_op,
   discrete_graph_op, div_graph_op, erf_graph_op, erfc_graph_op, exp_graph_op,
   expm1_graph_op, log1p_graph_op, log_graph_op, mul_graph_op, neg_graph_op,
   pow_graph_op, print_graph_op, sign_graph_op, sin_graph_op, sinh_graph_op,
   sqrt_graph_op, sub_graph_op, sum_graph_op, tan_graph_op, tanh_graph_op]

/-- The cast `graph_op_enum( i_op )` of an integer to an operator tag. -/
def graph_op_cast (i_op : Nat) : graph_op_enum :=
  graph_op_list.getD i_op graph_op_enum.n_graph_op

/-- Modelled from the spec: the table `local::graph::op_enum2name` of the graph library,
which names every operator by the literal name of its function. -/
def op_enum2name : graph_op_enum → String
  | .abs_graph_op => "abs" | .acos_graph_op => "acos" | .acosh_graph_op => "acosh"
  | .add_graph_op => "add" | .asin_graph_op => "asin" | .asinh_graph_op => "asinh"
  | .atan_graph_op => "atan" | .atanh_graph_op => "atanh" | .atom_graph_op => "atom"
  | .azmul_graph_op => "azmul" | .cexp_eq_graph_op => "cexp_eq"
  | .cexp_le_graph_op => "cexp_le" | .cexp_lt_graph_op => "cexp_lt"
  | .comp_eq_graph_op => "comp_eq" | .comp_le_graph_op => "comp_le"
  | .comp_lt_graph_op => "comp_lt" | .comp_ne_graph_op => "comp_ne"
  | .cos_graph_op => "cos" | .cosh_graph_op => "cosh" | .discrete_graph_op => "discrete"
  | .div_graph_op => "div" | .erf_graph_op => "erf" | .erfc_graph_op => "erfc"
  | .exp_graph_op => "exp" | .expm1_graph_op => "expm1" | .log1p_graph_op => "log1p"
  | .log_graph_op => "log" | .mul_graph_op => "mul" | .neg_graph_op => "neg"
  | .pow_graph_op => "pow" | .print_graph_op => "print" | .sign_graph_op => "sign"
  | .sin_graph_op => "sin" | .sinh_graph_op => "sinh" | .sqrt_graph_op => "sqrt"
  | .sub_graph_op => "sub" | .sum_graph_op => "sum" | .tan_graph_op => "tan"
  | .tanh_graph_op => "tanh" | .n_graph_op => "n_graph_op"

/-- Modelled from the spec: the graph container `CppAD::cpp_graph` (declared in
`cppad/core/graph/cpp_graph.hpp`), with the content that its append operations write. -/
structure cpp_graph where
  function_name : String
  n_dynamic_ind : Nat
  n_variable_ind : Nat
  constant_vec : List Nat
  operator_vec : List graph_op_enum
  operator_arg : List Nat
  atomic_name_vec : List String
  discrete_name_vec : List String
  dependent_vec : List Nat
  deriving DecidableEq, Repr

/-- Modelled from the spec: `cpp_graph::initialize`, which drops all the content. -/
def cpp_graph.initialize (_g : cpp_graph) : cpp_graph :=
  { function_name := "", n_dynamic_ind := 0, n_variable_ind := 0, constant_vec := [],
    operator_vec := [], operator_arg := [], atomic_name_vec := [],
    discrete_name_vec := [], dependent_vec := [] }

/-- Modelled from the spec: `cpp_graph::operator_vec_push_back`. -/
def cpp_graph.operator_vec_push_back (g : cpp_graph) (op : graph_op_enum) : cpp_graph :=
  { g with operator_vec := g.operator_vec ++ [op] }

/-- Modelled from the spec: `cpp_graph::operator_arg_push_back`. -/
def cpp_graph.operator_arg_push_back (g : cpp_graph) (a : Nat) : cpp_graph :=
  { g with operator_arg := g.operator_arg ++ [a] }

/-- Modelled from the spec: `cpp_graph::constant_vec_push_back`. -/
def cpp_graph.constant_vec_push_back (g : cpp_graph) (dbl : Nat) : cpp_graph :=
  { g with constant_vec := g.constant_vec ++ [dbl] }

/-- Modelled from the spec: `cpp_graph::atomic_name_vec_push_back`. -/
def cpp_graph.atomic_name_vec_push_back (g : cpp_graph) (name : String) : cpp_graph :=
  { g with atomic_name_vec := g.atomic_name_vec ++ [name] }

/-- Modelled from the spec: `cpp_graph::discrete_name_vec_push_back`. -/
def cpp_graph.discrete_name_vec_push_back (g : cpp_graph) (name : String) : cpp_graph :=
  { g with discrete_name_vec := g.discrete_name_vec ++ [name] }

/-- Modelled from the spec: `cpp_graph::dependent_vec_push_back`. -/
def cpp_graph.dependent_vec_push_back (g : cpp_graph) (node : Nat) : cpp_graph :=
  { g with dependent_vec := g.dependent_vec ++ [node] }

/-! ## Outcomes that end a translation early -/

/-- How a run of `to_graph` stops before it reaches its last statement: `ret msg graph_obj` is a
`return msg;` with the graph as it stands; `assert_fail` is a failing `CPPAD_ASSERT_UNKNOWN`
or vector bound check of the debug build; `undefined` is an access outside a vector or
through a null pointer in the build with `NDEBUG`; `out_of_range` is the exception of
`std::string::substr`. -/
inductive Stop
  | ret (msg : String) (graph_obj : cpp_graph)
  | assert_fail
  | undefined
  | out_of_range
  deriving DecidableEq, Repr

/-- Equality of outcomes is decidable, so that a run on a concrete input can be evaluated. -/
instance instDecidableEqExcept {ε α : Type} [DecidableEq ε] [DecidableEq α] :
    DecidableEq (Except ε α)
  | Except.ok a, Except.ok b =>
    if h : a = b then isTrue (by rw [h]) else isFalse (fun h2 => h (Except.ok.inj h2))
  | Except.error a, Except.error b =>
    if h : a = b then isTrue (by rw [h]) else isFalse (fun h2 => h (Except.error.inj h2))
  | Except.ok _, Except.error _ => isFalse (fun h => Except.noConfusion h)
  | Except.error _, Except.ok _ => isFalse (fun h => Except.noConfusion h)

/-- Embeds `CPPAD_ASSERT_UNKNOWN( c )`. -/
def CPPAD_ASSERT_UNKNOWN (debug : Bool) (c : Bool) : Except Stop Unit :=
  if debug = true ∧ c = false then Except.error Stop.assert_fail else Except.ok ()

/-- What an access that the debug build asserts against does when it is invalid. -/
def invalid_access (debug : Bool) : Stop :=
  if debug = true then Stop.assert_fail else Stop.undefined

/-- Embeds `vec[i]` as a read. -/
def vec_get {α : Type} (debug : Bool) (vec : List α) (i : Nat) : Except Stop α :=
  match vec[i]? with
  | some x => Except.ok x
  | none => Except.error (invalid_access debug)

/-- Embeds `vec[i] = x`. -/
def vec_set {α : Type} (debug : Bool) (vec : List α) (i : Nat) (x : α) : Except Stop (List α) :=
  if i < vec.length then Except.ok (vec.set i x) else Except.error (invalid_access debug)

/-- Embeds `get_int_constant`: the raw data of an integer constant. -/
def get_int_constant (debug : Bool) : Value → Except Stop Nat
  | Value.ConstantInt raw => Except.ok raw
  | _ => Except.error (invalid_access debug)

/-- Embeds `str.substr(pos, std::string::npos)` for `pos <= str.size()`. -/
def substr_from (str : String) (pos : Nat) : String :=
  String.mk (str.data.drop pos)

/-- Embeds the test `str.size() > n && str.substr(0, n) == pre` with `n = pre.size()`. -/
def starts_with (str pre : String) : Bool :=
  decide (str.length > pre.length ∧ str.data.take pre.length = pre.data)

/-- Embeds `std::to_string` of a `size_t`. -/
def to_string (i : Nat) : String :=
  Nat.repr i

/-! ## The local tables of `to_graph` -/

/-- The `compare_info` of the source; a null `left` or `right` is `none`. -/
structure compare_info where
  pred : Predicate
  left : Option Value
  right : Option Value
  deriving DecidableEq, Repr

/-- The value initialised `compare_info` that `DenseMap::lookup` returns for a missing key. -/
instance : Inhabited compare_info :=
  ⟨{ pred := Predicate.FCMP_FALSE, left := none, right := none }⟩

/-- The `element_info` of the source; a null `base` is `none`. -/
structure element_info where
  base : Option Value
  index : Nat
  deriving DecidableEq, Repr

/-- The value initialised `element_info` that `DenseMap::lookup` returns for a missing key. -/
instance : Inhabited element_info :=
  ⟨{ base := none, index := 0 }⟩

/-- The local variables of `to_graph` that live across instructions.  `llvm_base2length` and
`count_zext` exist in the debug build only and are written only there. -/
structure State where
  graph_obj : cpp_graph
  llvm_value2graph_node : DenseMap Value Nat
  llvm_ptr2graph_node : DenseMap Value Nat
  llvm_compare2info : DenseMap Value compare_info
  llvm_element2info : DenseMap Value element_info
  vec_index2node : List (List Nat)
  llvm_base2index2node : DenseMap Value Nat
  llvm_base2first_node : DenseMap Value Nat
  llvm_base2length : DenseMap Value Nat
  count_zext : Nat
  result_node : Nat
  deriving DecidableEq, Repr

/-- The node of a possibly null handle: `llvm_value2graph_node.lookup(value)`. -/
def State.node (s : State) : Option Value → Nat
  | none => 0
  | some v => s.llvm_value2graph_node.lookup v

/-- The initial value of `msg`. -/
def msg_init : String := "llvm_ir::to_graph: "

/-! ## The operator name table -/

open graph_op_enum in
/-- Embeds the body of the loop that builds `name2graph_op`, for the operator `i_op`. -/
def name2graph_op_step (tbl : DenseMap String Nat) (i_op : Nat) : DenseMap String Nat :=
  let op_enum := graph_op_cast i_op
  let name := op_enum2name op_enum
  match op_enum with
  | acos_graph_op | acosh_graph_op | asin_graph_op | asinh_graph_op | atan_graph_op
  | atanh_graph_op | cos_graph_op | cosh_graph_op | erf_graph_op | erfc_graph_op
  | exp_graph_op | expm1_graph_op | log1p_graph_op | log_graph_op | pow_graph_op
  | sin_graph_op | sinh_graph_op | sqrt_graph_op | tan_graph_op | tanh_graph_op =>
      tbl.insert name (i_op + 1)
  | azmul_graph_op => tbl.insert "cppad_link_azmul" (i_op + 1)
  | abs_graph_op => tbl.insert "cppad_link_fabs" (i_op + 1)
  | sign_graph_op => tbl.insert "cppad_link_sign" (i_op + 1)
  | _ => tbl

/-- The count `graph::n_graph_op` of operator tags. -/
def n_graph_op : Nat := graph_op_list.length

/-- The table `name2graph_op`: callee name to operator value plus one. -/
def name2graph_op : DenseMap String Nat :=
  (List.range n_graph_op).foldl name2graph_op_step []

/-! ## First pass -/

/-- Embeds the body of the loop `constant_vec in graph.obj` of the first pass, for one
operand. -/
def pass1_operand (n_dynamic_ind n_variable_ind : Nat) (s : State) (operand : Value) : State :=
  match operand.constantFP? with
  | none => s
  | some dbl =>
    let node := s.llvm_value2graph_node.lookup operand
    if node = 0 then
      let n_constant := s.graph_obj.constant_vec.length
      let node := 1 + n_dynamic_ind + n_variable_ind + n_constant
      { s with
        llvm_value2graph_node := s.llvm_value2graph_node.insert operand node
        graph_obj := s.graph_obj.constant_vec_push_back dbl }
    else s

/-- Embeds the block of the first pass that registers the argument vector of an atomic
function call. -/
def pass1_atomic (debug : Bool) (s : State) (I : Instruction) : Except Stop State :=
  if I.operands.length = 7 ∧ I.opcode = Opcode.Call then do
    let operand0 ← vec_get debug I.operands 0
    let n_arg ← get_int_constant debug operand0
    let base ← vec_get debug I.operands 1
    let index2node := List.replicate n_arg 0
    let info : element_info := { base := some base, index := 0 }
    let vec_index := s.vec_index2node.length
    pure { s with
      llvm_element2info := s.llvm_element2info.insert base info
      vec_index2node := s.vec_index2node ++ [index2node]
      llvm_base2index2node := s.llvm_base2index2node.insert base vec_index }
  else pure s

/-- Embeds the body of the first pass for one instruction. -/
def pass1_step (debug : Bool) (n_dynamic_ind n_variable_ind : Nat) (s : State)
    (I : Instruction) : Except Stop State :=
  pass1_atomic debug (I.operands.foldl (pass1_operand n_dynamic_ind n_variable_ind) s) I

/-- Embeds the loop of the first pass. -/
def pass1 (debug : Bool) (n_dynamic_ind n_variable_ind : Nat) :
    State → List Instruction → Except Stop State
  | s, [] => pure s
  | s, I :: rest => do
    let s1 ← pass1_step debug n_dynamic_ind n_variable_ind s I
    pass1 debug n_dynamic_ind n_variable_ind s1 rest

/-- Embeds the statements between the two passes: the input vector is registered as
contiguous from node 1, the output vector as scattered, and `result_node` is set. -/
def between_passes (debug : Bool) (n_dynamic_ind n_variable_ind n_variable_dep : Nat)
    (s : State) : State :=
  let n_constant := s.graph_obj.constant_vec.length
  let info : element_info := { base := some output_ptr, index := 0 }
  let index2node := List.replicate n_variable_dep 0
  let vec_index := s.vec_index2node.length
  { s with
    llvm_ptr2graph_node := s.llvm_ptr2graph_node.insert input_ptr 1
    llvm_base2first_node := s.llvm_base2first_node.insert input_ptr 1
    llvm_base2length :=
      if debug = true then s.llvm_base2length.insert input_ptr (n_dynamic_ind + n_variable_ind)
      else s.llvm_base2length
    llvm_element2info := s.llvm_element2info.insert output_ptr info
    vec_index2node := s.vec_index2node ++ [index2node]
    llvm_base2index2node := s.llvm_base2index2node.insert output_ptr vec_index
    count_zext := 0
    result_node := n_dynamic_ind + n_variable_ind + n_constant }

/-- The state of the locals before the first pass: the graph is initialised and its scalars
are set, `vec_index2node` has its unused element zero, and the maps are empty. -/
def init_state (function_name : String) (n_dynamic_ind n_variable_ind : Nat)
    (graph_obj : cpp_graph) : State :=
  { graph_obj :=
      { cpp_graph.initialize graph_obj with
        function_name := function_name
        n_dynamic_ind := n_dynamic_ind
        n_variable_ind := n_variable_ind }
    llvm_value2graph_node := []
    llvm_ptr2graph_node := []
    llvm_compare2info := []
    llvm_element2info := []
    vec_index2node := [[]]
    llvm_base2index2node := []
    llvm_base2first_node := []
    llvm_base2length := []
    count_zext := 0
    result_node := 0 }

/-! ## Second pass -/

/-- Embeds the loop that determines the index of `str` in a name vector: `index` starts at the
size, and the loop `for(i = 0; i < index; ++i) if( get(i) == str ) index = i;` runs over the
names from position `i` on. -/
def name_index_loop (str : String) : List String → Nat → Nat → Nat
  | [], _, index => index
  | name :: rest, i, index =>
    if i < index then name_index_loop str rest (i + 1) (if name = str then i else index)
    else index

/-- The index of `str` in `name_vec` as the source computes it. -/
def name_index (name_vec : List String) (str : String) : Nat :=
  name_index_loop str name_vec 0 name_vec.length

/-- Appends `str` to a name vector when `index` is its size. -/
def name_vec_update (name_vec : List String) (index : Nat) (str : String) : List String :=
  if index = name_vec.length then name_vec ++ [str] else name_vec

/-- Embeds the loop that puts the argument nodes of an atomic call in the argument vector. -/
def atomic_arg_loop (debug : Bool) (index2node : List Nat) :
    Nat → Nat → cpp_graph → Except Stop cpp_graph
  | 0, _, g => pure g
  | n + 1, i, g => do
    let node ← vec_get debug index2node i
    CPPAD_ASSERT_UNKNOWN debug (decide (node ≠ 0))
    atomic_arg_loop debug index2node n (i + 1) (g.operator_arg_push_back node)

/-- Embeds the branch `n_operand == 7` of the `Call` case: an atomic function call with
callee name `str`. -/
def call_atomic (debug : Bool) (s : State) (I : Instruction) (str : String) :
    Except Stop State := do
  if str.length < 7 then throw Stop.out_of_range
  let str := substr_from str 7
  let g := s.graph_obj.operator_vec_push_back graph_op_enum.atom_graph_op
  let index := name_index g.atomic_name_vec str
  let g := { g with atomic_name_vec := name_vec_update g.atomic_name_vec index str }
  let g := g.operator_arg_push_back index
  let operand2 ← vec_get debug I.operands 2
  let n_result ← get_int_constant debug operand2
  let g := g.operator_arg_push_back n_result
  let operand0 ← vec_get debug I.operands 0
  let n_arg ← get_int_constant debug operand0
  let g := g.operator_arg_push_back n_arg
  let base ← vec_get debug I.operands 1
  let vec_index := s.llvm_base2index2node.lookup base
  CPPAD_ASSERT_UNKNOWN debug (decide (vec_index ≠ 0))
  let index2node ← vec_get debug s.vec_index2node vec_index
  CPPAD_ASSERT_UNKNOWN debug (decide (index2node.length = n_arg))
  let g ← atomic_arg_loop debug index2node n_arg 0 g
  let base ← vec_get debug I.operands 3
  let first_node := s.result_node + 1
  pure { s with
    graph_obj := g
    result_node := s.result_node + n_result
    llvm_ptr2graph_node := s.llvm_ptr2graph_node.insert base first_node
    llvm_base2first_node := s.llvm_base2first_node.insert base first_node
    llvm_base2length :=
      if debug = true then s.llvm_base2length.insert base n_result else s.llvm_base2length }

/-- Embeds the branch of the `Call` case for a callee name with the prefix `discrete_`. -/
def call_discrete (debug : Bool) (s : State) (k : Nat) (I : Instruction) (str : String) :
    Except Stop State := do
  CPPAD_ASSERT_UNKNOWN debug (decide (I.operands.length = 2))
  let str := substr_from str 9
  let g := s.graph_obj.operator_vec_push_back graph_op_enum.discrete_graph_op
  let result_node := s.result_node + 1
  let value2node := s.llvm_value2graph_node.insert (I.result k) result_node
  let index := name_index g.discrete_name_vec str
  let g := { g with discrete_name_vec := name_vec_update g.discrete_name_vec index str }
  let g := g.operator_arg_push_back index
  let operand0 ← vec_get debug I.operands 0
  let node := value2node.lookup operand0
  CPPAD_ASSERT_UNKNOWN debug (decide (node ≠ 0))
  let g := g.operator_arg_push_back node
  pure { s with graph_obj := g, result_node := result_node, llvm_value2graph_node := value2node }

/-- Embeds the last branch of the `Call` case: the callee name is looked up in
`name2graph_op`, and a miss returns the message `Cannot call the function`. -/
def call_math (debug : Bool) (s : State) (k : Nat) (I : Instruction) (str : String) :
    Except Stop State := do
  let i_op := name2graph_op.lookup str
  if i_op = 0 then throw (Stop.ret (msg_init ++ ("Cannot call the function " ++ str)) s.graph_obj)
  let g := s.graph_obj.operator_vec_push_back (graph_op_cast (i_op - 1))
  let result_node := s.result_node + 1
  let value2node := s.llvm_value2graph_node.insert (I.result k) result_node
  let operand0 ← vec_get debug I.operands 0
  let node := value2node.lookup operand0
  CPPAD_ASSERT_UNKNOWN debug (decide (node ≠ 0))
  let g := g.operator_arg_push_back node
  if I.operands.length = 3 then do
    let operand1 ← vec_get debug I.operands 1
    let node := value2node.lookup operand1
    CPPAD_ASSERT_UNKNOWN debug (decide (node ≠ 0))
    let g := g.operator_arg_push_back node
    pure { s with graph_obj := g, result_node := result_node, llvm_value2graph_node := value2node }
  else
    pure { s with graph_obj := g, result_node := result_node, llvm_value2graph_node := value2node }

/-- Embeds the first `if` of the `Call` case, which sets `str` to the name of the callee. -/
def call_name (debug : Bool) (I : Instruction) : Except Stop String := do
  if I.operands.length = 2 then do
    let operand0 ← vec_get debug I.operands 0
    let operand1 ← vec_get debug I.operands 1
    CPPAD_ASSERT_UNKNOWN debug (decide (get_type_id operand0 = TypeID.DoubleTyID))
    CPPAD_ASSERT_UNKNOWN debug (decide (get_type_id operand1 = TypeID.PointerTyID))
    pure operand1.getName
  else if I.operands.length = 3 then do
    let operand0 ← vec_get debug I.operands 0
    let operand1 ← vec_get debug I.operands 1
    let operand2 ← vec_get debug I.operands 2
    CPPAD_ASSERT_UNKNOWN debug (decide (get_type_id operand0 = TypeID.DoubleTyID))
    CPPAD_ASSERT_UNKNOWN debug (decide (get_type_id operand1 = TypeID.DoubleTyID))
    CPPAD_ASSERT_UNKNOWN debug (decide (get_type_id operand2 = TypeID.PointerTyID))
    pure operand2.getName
  else do
    CPPAD_ASSERT_UNKNOWN debug (decide (I.operands.length = 7))
    let type_ok (i : Nat) (ty : TypeID) : Bool :=
      decide (I.operands[i]?.map get_type_id = some ty)
    CPPAD_ASSERT_UNKNOWN debug (type_ok 0 TypeID.IntegerTyID)
    CPPAD_ASSERT_UNKNOWN debug (type_ok 1 TypeID.PointerTyID)
    CPPAD_ASSERT_UNKNOWN debug (type_ok 2 TypeID.IntegerTyID)
    CPPAD_ASSERT_UNKNOWN debug (type_ok 3 TypeID.PointerTyID)
    CPPAD_ASSERT_UNKNOWN debug (type_ok 4 TypeID.IntegerTyID)
    CPPAD_ASSERT_UNKNOWN debug (type_ok 5 TypeID.PointerTyID)
    let operand6 ← vec_get debug I.operands 6
    let str := operand6.getName
    CPPAD_ASSERT_UNKNOWN debug (starts_with str "atomic_")
    pure str

/-- Embeds the case `llvm::Instruction::Call`. -/
def step_call (debug : Bool) (s : State) (k : Nat) (I : Instruction) : Except Stop State := do
  let str ← call_name debug I
  if I.operands.length = 7 then call_atomic debug s I str
  else if starts_with str "discrete_" = true then call_discrete debug s k I str
  else call_math debug s k I str

/-- Embeds the inner switch of the case `FAdd, FSub, FMul, FDiv`. -/
def binary_op_push (op_code : Opcode) (g : cpp_graph) : cpp_graph :=
  match op_code with
  | Opcode.FAdd => g.operator_vec_push_back graph_op_enum.add_graph_op
  | Opcode.FSub => g.operator_vec_push_back graph_op_enum.sub_graph_op
  | Opcode.FMul => g.operator_vec_push_back graph_op_enum.mul_graph_op
  | Opcode.FDiv => g.operator_vec_push_back graph_op_enum.div_graph_op
  | _ => g

/-- Embeds the case `FAdd, FSub, FMul, FDiv`. -/
def step_binary (debug : Bool) (s : State) (k : Nat) (I : Instruction) : Except Stop State := do
  CPPAD_ASSERT_UNKNOWN debug (decide (I.operands.length = 2))
  CPPAD_ASSERT_UNKNOWN debug (decide (I.type_id = TypeID.DoubleTyID))
  let operand0 ← vec_get debug I.operands 0
  let operand1 ← vec_get debug I.operands 1
  CPPAD_ASSERT_UNKNOWN debug (decide (get_type_id operand0 = TypeID.DoubleTyID))
  CPPAD_ASSERT_UNKNOWN debug (decide (get_type_id operand1 = TypeID.DoubleTyID))
  let result_node := s.result_node + 1
  let value2node := s.llvm_value2graph_node.insert (I.result k) result_node
  let g := binary_op_push I.opcode s.graph_obj
  let node := value2node.lookup operand0
  CPPAD_ASSERT_UNKNOWN debug (decide (node ≠ 0))
  let g := g.operator_arg_push_back node
  let node := value2node.lookup operand1
  CPPAD_ASSERT_UNKNOWN debug (decide (node ≠ 0))
  let g := g.operator_arg_push_back node
  pure { s with graph_obj := g, result_node := result_node, llvm_value2graph_node := value2node }

/-- Embeds the case `Load`. -/
def step_load (debug : Bool) (s : State) (k : Nat) (I : Instruction) : Except Stop State := do
  CPPAD_ASSERT_UNKNOWN debug (decide (I.operands.length = 1))
  let operand0 ← vec_get debug I.operands 0
  CPPAD_ASSERT_UNKNOWN debug (decide (get_type_id operand0 = TypeID.PointerTyID))
  let node := s.llvm_ptr2graph_node.lookup operand0
  CPPAD_ASSERT_UNKNOWN debug (decide (node ≠ 0))
  pure { s with llvm_value2graph_node := s.llvm_value2graph_node.insert (I.result k) node }

/-- Embeds the case `Br`, which only asserts the shape of the instruction. -/
def step_br (debug : Bool) (s : State) (I : Instruction) : Except Stop State := do
  CPPAD_ASSERT_UNKNOWN debug (decide (I.operands.length = 3))
  CPPAD_ASSERT_UNKNOWN debug
    (decide (I.operands[0]?.map get_type_id = some TypeID.IntegerTyID))
  CPPAD_ASSERT_UNKNOWN debug
    (decide (I.operands[1]?.map get_type_id = some TypeID.LabelTyID))
  CPPAD_ASSERT_UNKNOWN debug
    (decide (I.operands[2]?.map get_type_id = some TypeID.LabelTyID))
  pure s

/-- Embeds the body shared by the cases `FCmp` and `ICmp`, `ty` being the type that the
assertions require of the operands. -/
def step_cmp (debug : Bool) (ty : TypeID) (s : State) (k : Nat) (I : Instruction) :
    Except Stop State := do
  CPPAD_ASSERT_UNKNOWN debug (decide (I.operands.length = 2))
  let operand0 ← vec_get debug I.operands 0
  let operand1 ← vec_get debug I.operands 1
  CPPAD_ASSERT_UNKNOWN debug (decide (get_type_id operand0 = ty))
  CPPAD_ASSERT_UNKNOWN debug (decide (get_type_id operand1 = ty))
  let cmp_info : compare_info :=
    { pred := I.predicate, left := some operand0, right := some operand1 }
  pure { s with llvm_compare2info := s.llvm_compare2info.insert (I.result k) cmp_info }

/-- Embeds the case `FCmp`. -/
def step_fcmp (debug : Bool) (s : State) (k : Nat) (I : Instruction) : Except Stop State :=
  step_cmp debug TypeID.DoubleTyID s k I

/-- Embeds the case `ICmp`. -/
def step_icmp (debug : Bool) (s : State) (k : Nat) (I : Instruction) : Except Stop State := do
  CPPAD_ASSERT_UNKNOWN debug (decide (I.operands.length = 2))
  CPPAD_ASSERT_UNKNOWN debug (decide (I.type_id = TypeID.IntegerTyID))
  step_cmp debug TypeID.IntegerTyID s k I

/-- Embeds the case `GetElementPtr`. -/
def step_gep (debug : Bool) (s : State) (k : Nat) (I : Instruction) : Except Stop State := do
  CPPAD_ASSERT_UNKNOWN debug (decide (I.operands.length = 2))
  CPPAD_ASSERT_UNKNOWN debug (decide (I.type_id = TypeID.PointerTyID))
  let operand0 ← vec_get debug I.operands 0
  let operand1 ← vec_get debug I.operands 1
  CPPAD_ASSERT_UNKNOWN debug (decide (get_type_id operand0 = TypeID.PointerTyID))
  CPPAD_ASSERT_UNKNOWN debug (decide (get_type_id operand1 = TypeID.IntegerTyID))
  let index := s.llvm_base2index2node.lookup operand0
  if index ≠ 0 then do
    let index ← get_int_constant debug operand1
    let info : element_info := { base := some operand0, index := index }
    pure { s with llvm_element2info := s.llvm_element2info.insert (I.result k) info }
  else do
    let first_node := s.llvm_base2first_node.lookup operand0
    CPPAD_ASSERT_UNKNOWN debug (decide (first_node ≠ 0))
    let index ← get_int_constant debug operand1
    let node := first_node + index
    let length := s.llvm_base2length.lookup operand0
    CPPAD_ASSERT_UNKNOWN debug (decide (index < length))
    pure { s with llvm_ptr2graph_node := s.llvm_ptr2graph_node.insert (I.result k) node }

/-- Embeds the case `FNeg`. -/
def step_fneg (debug : Bool) (s : State) (k : Nat) (I : Instruction) : Except Stop State := do
  CPPAD_ASSERT_UNKNOWN debug (decide (I.operands.length = 1))
  CPPAD_ASSERT_UNKNOWN debug (decide (I.type_id = TypeID.DoubleTyID))
  let operand0 ← vec_get debug I.operands 0
  CPPAD_ASSERT_UNKNOWN debug (decide (get_type_id operand0 = TypeID.DoubleTyID))
  let result_node := s.result_node + 1
  let value2node := s.llvm_value2graph_node.insert (I.result k) result_node
  let g := s.graph_obj.operator_vec_push_back graph_op_enum.neg_graph_op
  let node := value2node.lookup operand0
  CPPAD_ASSERT_UNKNOWN debug (decide (node ≠ 0))
  let g := g.operator_arg_push_back node
  pure { s with graph_obj := g, result_node := result_node, llvm_value2graph_node := value2node }

/-- Embeds the switch on `cmp_info.pred` in the case `ZExt, Or`; the second component tells
that the default case was taken, where the source has `CPPAD_ASSERT_UNKNOWN(false)`. -/
def combine_op_enum : Predicate → graph_op_enum × Bool
  | Predicate.FCMP_ONE => (graph_op_enum.comp_eq_graph_op, false)
  | Predicate.FCMP_OLT => (graph_op_enum.comp_le_graph_op, false)
  | Predicate.FCMP_OLE => (graph_op_enum.comp_lt_graph_op, false)
  | Predicate.FCMP_OEQ => (graph_op_enum.comp_ne_graph_op, false)
  | _ => (graph_op_enum.n_graph_op, true)

/-- Embeds the body of the loop over the operands in the case `ZExt, Or`. -/
def combine_operand (debug : Bool) (s : State) (compare : Value) : Except Stop State := do
  let cmp_info := s.llvm_compare2info.lookup compare
  if cmp_info.left ≠ none then do
    let (op_enum, is_default) := combine_op_enum cmp_info.pred
    CPPAD_ASSERT_UNKNOWN debug (!is_default)
    let g := s.graph_obj.operator_vec_push_back op_enum
    let g := g.operator_arg_push_back (s.node cmp_info.right)
    let g := g.operator_arg_push_back (s.node cmp_info.left)
    pure { s with graph_obj := g }
  else pure s

/-- Embeds the loop over the operands in the case `ZExt, Or`. -/
def combine_loop (debug : Bool) : State → List Value → Except Stop State
  | s, [] => pure s
  | s, compare :: rest => do
    let s1 ← combine_operand debug s compare
    combine_loop debug s1 rest

/-- Embeds the case `Or`, into which the case `ZExt` falls through. -/
def step_or (debug : Bool) (s : State) (I : Instruction) : Except Stop State := do
  CPPAD_ASSERT_UNKNOWN debug (decide (I.operands.length ≤ 2))
  combine_loop debug s I.operands

/-- Embeds the case `ZExt`: the debug build counts the instruction and asserts that it is the
only one, then control falls through to the case `Or`. -/
def step_zext (debug : Bool) (s : State) (I : Instruction) : Except Stop State := do
  let s1 := if debug = true then { s with count_zext := s.count_zext + 1 } else s
  CPPAD_ASSERT_UNKNOWN debug (decide (s1.count_zext = 1))
  step_or debug s1 I

/-- Embeds the case `Ret`. -/
def step_ret (debug : Bool) (s : State) (I : Instruction) : Except Stop State := do
  CPPAD_ASSERT_UNKNOWN debug (decide (I.operands.length = 1))
  pure s

/-- Embeds the switch on `cmp_info.pred` in the case `Select`; the second component tells
that the default case was taken, where the source has `CPPAD_ASSERT_UNKNOWN(false)`. -/
def select_op_enum : Predicate → graph_op_enum × Bool
  | Predicate.FCMP_OEQ => (graph_op_enum.cexp_eq_graph_op, false)
  | Predicate.FCMP_OLE => (graph_op_enum.cexp_le_graph_op, false)
  | Predicate.FCMP_OLT => (graph_op_enum.cexp_lt_graph_op, false)
  | _ => (graph_op_enum.n_graph_op, true)

/-- Embeds the case `Select`. -/
def step_select (debug : Bool) (s : State) (k : Nat) (I : Instruction) : Except Stop State := do
  CPPAD_ASSERT_UNKNOWN debug (decide (I.operands.length = 3))
  let compare ← vec_get debug I.operands 0
  let cmp_info := s.llvm_compare2info.lookup compare
  CPPAD_ASSERT_UNKNOWN debug (decide (cmp_info.left ≠ none))
  CPPAD_ASSERT_UNKNOWN debug (decide (cmp_info.right ≠ none))
  let operand1 ← vec_get debug I.operands 1
  if get_type_id operand1 = TypeID.DoubleTyID then do
    let operand2 ← vec_get debug I.operands 2
    CPPAD_ASSERT_UNKNOWN debug (decide (get_type_id operand2 = TypeID.DoubleTyID))
    CPPAD_ASSERT_UNKNOWN debug
      (decide (cmp_info.left.map get_type_id = some TypeID.DoubleTyID ∧
        cmp_info.right.map get_type_id = some TypeID.DoubleTyID))
    let (op_enum, is_default) := select_op_enum cmp_info.pred
    CPPAD_ASSERT_UNKNOWN debug (!is_default)
    let g := s.graph_obj.operator_vec_push_back op_enum
    let g := g.operator_arg_push_back (s.node cmp_info.left)
    let g := g.operator_arg_push_back (s.node cmp_info.right)
    let g := g.operator_arg_push_back (s.llvm_value2graph_node.lookup operand1)
    let g := g.operator_arg_push_back (s.llvm_value2graph_node.lookup operand2)
    let result_node := s.result_node + 1
    pure { s with
      graph_obj := g
      result_node := result_node
      llvm_value2graph_node := s.llvm_value2graph_node.insert (I.result k) result_node }
  else pure s

/-- Embeds the case `Store`. -/
def step_store (debug : Bool) (s : State) (I : Instruction) : Except Stop State := do
  CPPAD_ASSERT_UNKNOWN debug (decide (I.operands.length = 2))
  let operand1 ← vec_get debug I.operands 1
  if operand1 ≠ msg_ptr then do
    let operand0 ← vec_get debug I.operands 0
    CPPAD_ASSERT_UNKNOWN debug (decide (get_type_id operand0 = TypeID.DoubleTyID))
    CPPAD_ASSERT_UNKNOWN debug (decide (get_type_id operand1 = TypeID.PointerTyID))
    let node := s.llvm_value2graph_node.lookup operand0
    let ele_info := s.llvm_element2info.lookup operand1
    CPPAD_ASSERT_UNKNOWN debug (decide (ele_info.base ≠ none))
    CPPAD_ASSERT_UNKNOWN debug (decide (node ≠ 0))
    let vec_index :=
      match ele_info.base with
      | none => 0
      | some base => s.llvm_base2index2node.lookup base
    CPPAD_ASSERT_UNKNOWN debug (decide (vec_index ≠ 0))
    let index2node ← vec_get debug s.vec_index2node vec_index
    let index2node ← vec_set debug index2node ele_info.index node
    let vec_index2node ← vec_set debug s.vec_index2node vec_index index2node
    pure { s with vec_index2node := vec_index2node }
  else pure s

/-- Embeds the body of the second pass for the instruction `I` at position `k`: the switch
on the operator code.  The default case returns the message
`Cannot handle the llvm instruction`. -/
def step (debug : Bool) (s : State) (k : Nat) (I : Instruction) : Except Stop State :=
  match I.opcode with
  | Opcode.Alloca => pure s
  | Opcode.Load => step_load debug s k I
  | Opcode.Br => step_br debug s I
  | Opcode.Call => step_call debug s k I
  | Opcode.FAdd => step_binary debug s k I
  | Opcode.FSub => step_binary debug s k I
  | Opcode.FMul => step_binary debug s k I
  | Opcode.FDiv => step_binary debug s k I
  | Opcode.FCmp => step_fcmp debug s k I
  | Opcode.GetElementPtr => step_gep debug s k I
  | Opcode.ICmp => step_icmp debug s k I
  | Opcode.FNeg => step_fneg debug s k I
  | Opcode.ZExt => step_zext debug s I
  | Opcode.Or => step_or debug s I
  | Opcode.Ret => step_ret debug s I
  | Opcode.Select => step_select debug s k I
  | Opcode.Store => step_store debug s I
  | Opcode.Other op_name =>
    throw (Stop.ret (msg_init ++ ("Cannot handle the llvm instruction " ++ op_name)) s.graph_obj)

/-- Embeds the loop of the second pass over the instructions from position `k` on. -/
def pass2 (debug : Bool) : State → Nat → List Instruction → Except Stop State
  | s, _, [] => pure s
  | s, k, I :: rest => do
    let s1 ← step debug s k I
    pass2 debug s1 (k + 1) rest

/-! ## The finalizer and `to_graph` -/

/-- Embeds the loop that sets `dependent_vec`: slot `i` of `index2node` is appended, and an
unset slot returns the message `No store instruction for dependent variable index`. -/
def dependent_loop (debug : Bool) (index2node : List Nat) :
    Nat → Nat → cpp_graph → Except Stop cpp_graph
  | 0, _, g => pure g
  | n + 1, i, g => do
    let node ← vec_get debug index2node i
    if node = 0 then
      throw (Stop.ret
        (msg_init ++ "No store instruction for dependent variable index " ++ to_string i) g)
    dependent_loop debug index2node n (i + 1) (g.dependent_vec_push_back node)

/-- Embeds the statements after the second pass. -/
def finalize (debug : Bool) (n_variable_dep : Nat) (s : State) : Except Stop cpp_graph := do
  let vec_index := s.llvm_base2index2node.lookup output_ptr
  CPPAD_ASSERT_UNKNOWN debug (decide (vec_index ≠ 0))
  let index2node ← vec_get debug s.vec_index2node vec_index
  CPPAD_ASSERT_UNKNOWN debug (decide (index2node.length = n_variable_dep))
  dependent_loop debug index2node n_variable_dep 0 s.graph_obj

/-- The `llvm_ir` object: the name of the function, the numbers of dynamic parameters,
independent variables and dependent variables, and the instructions of the function in
program order. -/
structure llvm_ir where
  function_name_ : String
  n_dynamic_ind_ : Nat
  n_variable_ind_ : Nat
  n_variable_dep_ : Nat
  function_ir : List Instruction
  deriving DecidableEq, Repr

/-- The state of the locals when the second pass starts. -/
def llvm_ir.before_pass2 (debug : Bool) (ir_obj : llvm_ir) (graph_obj : cpp_graph) :
    Except Stop State := do
  let s0 := init_state ir_obj.function_name_ ir_obj.n_dynamic_ind_ ir_obj.n_variable_ind_
    graph_obj
  let s1 ← pass1 debug ir_obj.n_dynamic_ind_ ir_obj.n_variable_ind_ s0 ir_obj.function_ir
  pure (between_passes debug ir_obj.n_dynamic_ind_ ir_obj.n_variable_ind_
    ir_obj.n_variable_dep_ s1)

/-- The run of `llvm_ir::to_graph` up to its last statement: both passes and the finalizer. -/
def llvm_ir.run (debug : Bool) (ir_obj : llvm_ir) (graph_obj : cpp_graph) :
    Except Stop cpp_graph := do
  let s1 ← llvm_ir.before_pass2 debug ir_obj graph_obj
  let s2 ← pass2 debug s1 0 ir_obj.function_ir
  finalize debug ir_obj.n_variable_dep_ s2

/-- Embeds `llvm_ir::to_graph`: the returned message and the graph object, or the way the
call stops without returning. -/
def llvm_ir.to_graph (debug : Bool) (ir_obj : llvm_ir) (graph_obj : cpp_graph) :
    Except Stop (String × cpp_graph) :=
  match llvm_ir.run debug ir_obj graph_obj with
  | Except.ok g => Except.ok ("", g)
  | Except.error (Stop.ret msg g) => Except.ok (msg, g)
  | Except.error e => Except.error e

/-- The state of the locals when the second pass reaches the instruction at position `k`. -/
def llvm_ir.state_at (debug : Bool) (ir_obj : llvm_ir) (graph_obj : cpp_graph) (k : Nat) :
    Except Stop State := do
  let s1 ← llvm_ir.before_pass2 debug ir_obj graph_obj
  pass2 debug s1 0 (ir_obj.function_ir.take k)

/-! ## Vocabulary of the specification -/

/-- The operator codes that the specification lists as supported. -/
def supported_opcodes : List Opcode :=
  [Opcode.Alloca, Opcode.Load, Opcode.Br, Opcode.Call, Opcode.FAdd, Opcode.FSub, Opcode.FMul,
   Opcode.FDiv, Opcode.FCmp, Opcode.GetElementPtr, Opcode.ICmp, Opcode.FNeg, Opcode.ZExt,
   Opcode.Or, Opcode.Ret, Opcode.Select, Opcode.Store]

/-- The message for an unsupported operator code named `op_name`. -/
def unsupported_msg (op_name : String) : String :=
  msg_init ++ ("Cannot handle the llvm instruction " ++ op_name)

/-- The message for a callee `name` that does not resolve. -/
def cannot_call_msg (name : String) : String :=
  msg_init ++ ("Cannot call the function " ++ name)

/-- The message for the dependent variable index `i` without a store. -/
def no_store_msg (i : Nat) : String :=
  msg_init ++ "No store instruction for dependent variable index " ++ to_string i

/-- The text `part` occurs in `msg`. -/
def contains_text (msg part : String) : Prop :=
  part.data <:+: msg.data

/-- The operand that names the callee of a call: the last operand of a call with two or with
three operands, and operand six otherwise. -/
def callee (I : Instruction) : Option Value :=
  if I.operands.length = 2 then I.operands[1]?
  else if I.operands.length = 3 then I.operands[2]?
  else I.operands[6]?

/-- The operand types that the debug build asserts for a call with two or three operands. -/
def call_types_ok (I : Instruction) : Prop :=
  (I.operands.length = 2 →
    I.operands[0]?.map get_type_id = some TypeID.DoubleTyID ∧
    I.operands[1]?.map get_type_id = some TypeID.PointerTyID) ∧
  (I.operands.length = 3 →
    I.operands[0]?.map get_type_id = some TypeID.DoubleTyID ∧
    I.operands[1]?.map get_type_id = some TypeID.DoubleTyID ∧
    I.operands[2]?.map get_type_id = some TypeID.PointerTyID)

/-- Condition (i): every instruction has a supported operator code. -/
def opcodes_supported (F : List Instruction) : Prop :=
  ∀ I ∈ F, I.opcode ∈ supported_opcodes

/-- Condition (ii): every call that is not an atomic call with seven operands and whose
callee name lacks the prefix `discrete_` names an entry of the operator name table. -/
def calls_resolve (F : List Instruction) : Prop :=
  ∀ I ∈ F, I.opcode = Opcode.Call → I.operands.length ≠ 7 →
    ∀ v, callee I = some v → starts_with v.getName "discrete_" = false →
      name2graph_op.lookup v.getName ≠ 0

/-- The node in slot `i` of the scattered table of the output vector. -/
def output_slot (s : State) (i : Nat) : Option Nat :=
  (s.vec_index2node[s.llvm_base2index2node.lookup output_ptr]?).bind (fun v => v[i]?)

/-- Condition (iii): the second pass runs to its end and afterwards each of the
`n_variable_dep_` output slots holds a non-zero node. -/
def outputs_stored (debug : Bool) (ir_obj : llvm_ir) (graph_obj : cpp_graph) : Prop :=
  ∃ s2, llvm_ir.state_at debug ir_obj graph_obj ir_obj.function_ir.length = Except.ok s2 ∧
    ∀ i, i < ir_obj.n_variable_dep_ → ∃ node, output_slot s2 i = some node ∧ node ≠ 0

/-- An instruction without predicate, as the programs below use it. -/
def instr (op_code : Opcode) (operands : List Value) (ty : TypeID) : Instruction :=
  { opcode := op_code, operands := operands, type_id := ty, predicate := Predicate.FCMP_FALSE }

/-- The program `load input[i]; load input[j]; r = op(input[i], input[j]); store r to
output[0]; ret`, each load going through an address computation on the input pointer. -/
def load_binary_store (op_code : Opcode) (i j : Nat) : List Instruction :=
  [ instr Opcode.GetElementPtr [input_ptr, Value.ConstantInt i] TypeID.PointerTyID,
    instr Opcode.Load [Value.Inst 0 TypeID.PointerTyID] TypeID.DoubleTyID,
    instr Opcode.GetElementPtr [input_ptr, Value.ConstantInt j] TypeID.PointerTyID,
    instr Opcode.Load [Value.Inst 2 TypeID.PointerTyID] TypeID.DoubleTyID,
    instr op_code [Value.Inst 1 TypeID.DoubleTyID, Value.Inst 3 TypeID.DoubleTyID]
      TypeID.DoubleTyID,
    instr Opcode.Store [Value.Inst 4 TypeID.DoubleTyID, output_ptr] TypeID.VoidTyID,
    instr Opcode.Ret [Value.ConstantInt 0] TypeID.VoidTyID ]

/-- The operator tag that the specification pairs with an arithmetic operator code. -/
def arith_tag : Opcode → graph_op_enum
  | Opcode.FAdd => graph_op_enum.add_graph_op
  | Opcode.FSub => graph_op_enum.sub_graph_op
  | Opcode.FMul => graph_op_enum.mul_graph_op
  | Opcode.FDiv => graph_op_enum.div_graph_op
  | _ => graph_op_enum.neg_graph_op

/-- The number of operands of an arithmetic instruction: one for `FNeg`, two otherwise. -/
def arith_arity : Opcode → Nat
  | Opcode.FNeg => 1
  | _ => 2

/-- The graph that `to_graph` starts from after `initialize` and the scalar setters. -/
def empty_graph (name : String) (D V : Nat) : cpp_graph :=
  { function_name := name, n_dynamic_ind := D, n_variable_ind := V, constant_vec := [],
    operator_vec := [], operator_arg := [], atomic_name_vec := [], discrete_name_vec := [],
    dependent_vec := [] }

/-- The number of nodes that an instruction allocates according to its shape: one for an
arithmetic instruction, a negation, a call by name and a select of float values, the result
count (operand two) for an atomic call with seven operands, and none otherwise. -/
def allocated (I : Instruction) : Nat :=
  match I.opcode with
  | Opcode.FAdd => 1
  | Opcode.FSub => 1
  | Opcode.FMul => 1
  | Opcode.FDiv => 1
  | Opcode.FNeg => 1
  | Opcode.Call =>
    if I.operands.length = 7 then
      match I.operands[2]? with
      | some (Value.ConstantInt n_result) => n_result
      | _ => 0
    else 1
  | Opcode.Select =>
    if I.operands[1]?.map get_type_id = some TypeID.DoubleTyID then 1 else 0
  | _ => 0

/-- The content of a graph that the second pass never writes: the scalars, the constants and
the dependent list of `g1` are those of `g`. -/
def graph_frame (g g1 : cpp_graph) : Prop :=
  g1.function_name = g.function_name ∧ g1.n_dynamic_ind = g.n_dynamic_ind ∧
  g1.n_variable_ind = g.n_variable_ind ∧ g1.constant_vec = g.constant_vec ∧
  g1.dependent_vec = g.dependent_vec

/-- What the first pass never writes: between `s` and `s1` only the constants of the graph,
the nodes of values, the element descriptors and the scattered tables may differ. -/
def pass1_frame (s s1 : State) : Prop :=
  s1.llvm_ptr2graph_node = s.llvm_ptr2graph_node ∧
  s1.llvm_base2first_node = s.llvm_base2first_node ∧
  s1.llvm_base2length = s.llvm_base2length ∧
  s1.llvm_compare2info = s.llvm_compare2info ∧
  s1.count_zext = s.count_zext ∧
  s1.result_node = s.result_node ∧
  s1.graph_obj = { s.graph_obj with constant_vec := s1.graph_obj.constant_vec }

/-- Every entry of `llvm_base2index2node` is a valid index of `vec_index2node` other than the
unused index zero. -/
def scattered_ok (s : State) : Prop :=
  ∀ base vec_index, DenseMap.find? s.llvm_base2index2node base = some vec_index →
    1 ≤ vec_index ∧ vec_index < s.vec_index2node.length

/-- The index in `vec_index2node` of the scattered table that a store through `dest` writes:
the table of the base recorded in the element descriptor of `dest`, and the unused index zero
when there is no descriptor. -/
def store_vec_index (s : State) (dest : Value) : Nat :=
  match (s.llvm_element2info.lookup dest).base with
  | none => 0
  | some base => s.llvm_base2index2node.lookup base

/-- The keys of `llvm_value2graph_node` when the second pass is at position `k`: float
constants and results of instructions before `k`. -/
def value_keys_before (s : State) (k : Nat) : Prop :=
  ∀ key node, DenseMap.find? s.llvm_value2graph_node key = some node →
    (∃ h dbl, key = Value.ConstantFP h dbl) ∨ ∃ j ty, j < k ∧ key = Value.Inst j ty

/-- The instructions that bind their own result to one new node: arithmetic, negation, a call
by name (math or discrete), and a select of float values. -/
def binds_result (I : Instruction) : Prop :=
  I.opcode ∈ [Opcode.FAdd, Opcode.FSub, Opcode.FMul, Opcode.FDiv, Opcode.FNeg] ∨
  (I.opcode = Opcode.Call ∧ I.operands.length ≠ 7) ∨
  (I.opcode = Opcode.Select ∧ I.operands[1]?.map get_type_id = some TypeID.DoubleTyID)

/-- The value handle is a floating-point literal constant. -/
def is_fp (v : Value) : Bool :=
  v.constantFP?.isSome

/-- The operands of a function that are float constants, instruction by instruction and
operand by operand, with repetitions. -/
def fp_operands (F : List Instruction) : List Value :=
  (F.flatMap (fun I => I.operands)).filter is_fp

/-- The distinct elements of a list in the order of their first occurrence. -/
def first_occurrences (l : List Value) : List Value :=
  l.reverse.dedup.reverse

/-- The distinct float-constant handles of a function in order of first occurrence. -/
def fp_handles (F : List Instruction) : List Value :=
  first_occurrences (fp_operands F)

/-- The map that binds the handles of a list to consecutive nodes starting at `n`. -/
def bind_from (n : Nat) : List Value → DenseMap Value Nat
  | [] => []
  | h :: t => (h, n) :: bind_from (n + 1) t

/-- The constants part of the state after the first pass has seen the operands `seen`. -/
def const_inv (D V : Nat) (s : State) (seen : List Value) : Prop :=
  s.llvm_value2graph_node = bind_from (1 + D + V) (first_occurrences (seen.filter is_fp)) ∧
  s.graph_obj.constant_vec =
    (first_occurrences (seen.filter is_fp)).filterMap Value.constantFP?

/-- No atomic call of the function names the input pointer as its argument base, so the
input vector is registered as contiguous only. -/
def input_contiguous (F : List Instruction) : Prop :=
  ∀ I ∈ F, I.opcode = Opcode.Call → I.operands.length = 7 → I.operands[1]? ≠ some input_ptr

/-- The keys of `llvm_ptr2graph_node` when the second pass is at position `k`: the input
pointer, results of instructions before `k`, and result bases (operand three) of
instructions before `k`. -/
def ptr_keys_before (F : List Instruction) (s : State) (k : Nat) : Prop :=
  ∀ key node, DenseMap.find? s.llvm_ptr2graph_node key = some node →
    key = input_ptr ∨ (∃ j ty, j < k ∧ key = Value.Inst j ty) ∨
    ∃ j I, j < k ∧ F[j]? = some I ∧ I.operands[3]? = some key

/-- Every atomic call of the function declares at least one result. -/
def atomic_results_nonempty (F : List Instruction) : Prop :=
  ∀ I ∈ F, I.opcode = Opcode.Call → I.operands.length = 7 →
    ∀ n_result, I.operands[2]? = some (Value.ConstantInt n_result) → 1 ≤ n_result

/-- Every node in the tables is at most the node counter: the nodes of values, the nodes of
pointers, the last node of every contiguous vector (whose length is registered and not
zero), and the nodes in the scattered tables. -/
def nodes_bounded (s : State) : Prop :=
  (∀ key node, DenseMap.find? s.llvm_value2graph_node key = some node →
    node ≤ s.result_node) ∧
  (∀ key node, DenseMap.find? s.llvm_ptr2graph_node key = some node →
    node ≤ s.result_node) ∧
  (∀ base first_node, DenseMap.find? s.llvm_base2first_node base = some first_node →
    ∃ length, DenseMap.find? s.llvm_base2length base = some length ∧ 1 ≤ length ∧
      first_node + length ≤ s.result_node + 1) ∧
  (∀ base length, DenseMap.find? s.llvm_base2length base = some length →
    ∃ first_node, DenseMap.find? s.llvm_base2first_node base = some first_node) ∧
  (∀ index2node ∈ s.vec_index2node, ∀ node ∈ index2node, node ≤ s.result_node)

/-- Table B of the specification: the conditional-expression operator that a select emits for
the predicate of its compare, when there is one. -/
def cexp_tag : Predicate → Option graph_op_enum
  | Predicate.FCMP_OEQ => some graph_op_enum.cexp_eq_graph_op
  | Predicate.FCMP_OLE => some graph_op_enum.cexp_le_graph_op
  | Predicate.FCMP_OLT => some graph_op_enum.cexp_lt_graph_op
  | _ => none

/-- Table A of the specification: the comparison operator that a boolean combine emits for
the predicate of a compare, when there is one; the names are inverted. -/
def comp_tag : Predicate → Option graph_op_enum
  | Predicate.FCMP_ONE => some graph_op_enum.comp_eq_graph_op
  | Predicate.FCMP_OLT => some graph_op_enum.comp_le_graph_op
  | Predicate.FCMP_OLE => some graph_op_enum.comp_lt_graph_op
  | Predicate.FCMP_OEQ => some graph_op_enum.comp_ne_graph_op
  | _ => none

/-- The descriptors of the operands of a boolean combine that are recorded compares (the left
operand of the descriptor is not null), in operand order. -/
def recorded_compares (s : State) (operands : List Value) : List compare_info :=
  (operands.map (fun compare => s.llvm_compare2info.lookup compare)).filter
    (fun cmp_info => decide (cmp_info.left ≠ none))

open graph_op_enum in
/-- The callee names that the specification lists as resolving, each with the operator tag
that is registered under it. -/
def math_names : List (String × graph_op_enum) :=
  [("acos", acos_graph_op), ("acosh", acosh_graph_op), ("asin", asin_graph_op),
   ("asinh", asinh_graph_op), ("atan", atan_graph_op), ("atanh", atanh_graph_op),
   ("cos", cos_graph_op), ("cosh", cosh_graph_op), ("erf", erf_graph_op),
   ("erfc", erfc_graph_op), ("exp", exp_graph_op), ("expm1", expm1_graph_op),
   ("log1p", log1p_graph_op), ("log", log_graph_op), ("pow", pow_graph_op),
   ("sin", sin_graph_op), ("sinh", sinh_graph_op), ("sqrt", sqrt_graph_op),
   ("tan", tan_graph_op), ("tanh", tanh_graph_op), ("cppad_link_azmul", azmul_graph_op),
   ("cppad_link_fabs", abs_graph_op), ("cppad_link_sign", sign_graph_op)]

/-- The operator codes that the documentation of `to_graph` lists under `Restrictions`. -/
def documented_opcodes : List Opcode :=
  [Opcode.FAdd, Opcode.FSub, Opcode.FMul, Opcode.FDiv, Opcode.Load, Opcode.GetElementPtr,
   Opcode.Store, Opcode.Ret]

/-- The destination `dest` of a store at position `j` denotes offset `i` of the vector with
base `base`: it is the base itself and `i` is zero, or it is the result of an address
computation `(base, i)` at an earlier position. -/
def resolves_to (F : List Instruction) (base : Value) (i j : Nat) (dest : Value) : Prop :=
  (dest = base ∧ i = 0) ∨
  ∃ p G, p < j ∧ F[p]? = some G ∧ G.opcode = Opcode.GetElementPtr ∧
    G.operands[0]? = some base ∧ G.operands[1]? = some (Value.ConstantInt i) ∧
    dest = G.result p

/-- The instruction at position `j` is a store, other than a store to the message vector,
whose destination denotes offset `i` of the vector with base `base`. -/
def store_event (F : List Instruction) (base : Value) (i j : Nat) : Prop :=
  ∃ J dest, F[j]? = some J ∧ J.opcode = Opcode.Store ∧ J.operands[1]? = some dest ∧
    dest ≠ msg_ptr ∧ resolves_to F base i j dest

/-- The node `node` is the node that the value operand has when the second pass reaches the
last store before position `k` to offset `i` of the vector with base `base`. -/
def last_store (debug : Bool) (ir_obj : llvm_ir) (graph_obj : cpp_graph) (base : Value)
    (i k node : Nat) : Prop :=
  ∃ j sj J v, j < k ∧ llvm_ir.state_at debug ir_obj graph_obj j = Except.ok sj ∧
    ir_obj.function_ir[j]? = some J ∧ J.operands[0]? = some v ∧
    store_event ir_obj.function_ir base i j ∧
    node = sj.llvm_value2graph_node.lookup v ∧
    ∀ j2, j < j2 → j2 < k → ¬ store_event ir_obj.function_ir base i j2

/-- No argument vector of an atomic call is the result of an address computation: an
argument base is a vector of its own. -/
def arg_bases_plain (F : List Instruction) : Prop :=
  ∀ C ∈ F, C.opcode = Opcode.Call → C.operands.length = 7 →
    ∀ (p : Nat) (G : Instruction), F[p]? = some G → G.opcode = Opcode.GetElementPtr →
      C.operands[1]? ≠ some (G.result p)

/-- The scattered tables as the first pass leaves them: `vec_index2node` has its unused
element zero, every registered base has an index of its own and the element descriptor
`(base, 0)`, there is no other element descriptor, and every slot of every table is zero. -/
def registered (s : State) : Prop :=
  1 ≤ s.vec_index2node.length ∧ scattered_ok s ∧
  (∀ b1 b2 vec_index, DenseMap.find? s.llvm_base2index2node b1 = some vec_index →
    DenseMap.find? s.llvm_base2index2node b2 = some vec_index → b1 = b2) ∧
  (∀ base vec_index, DenseMap.find? s.llvm_base2index2node base = some vec_index →
    DenseMap.find? s.llvm_element2info base = some { base := some base, index := 0 }) ∧
  (∀ key info, DenseMap.find? s.llvm_element2info key = some info →
    info = { base := some key, index := 0 } ∧
    ∃ vec_index, DenseMap.find? s.llvm_base2index2node key = some vec_index) ∧
  (∀ index2node ∈ s.vec_index2node, ∀ node ∈ index2node, node = 0)

/-- The table of every registered base has the length that an atomic call of `F` with this
argument base declares as its argument count, or else the base is the output pointer, no
atomic call of `F` has it as argument base and the length is `n_dep`. -/
def table_lengths (F : List Instruction) (n_dep : Option Nat) (s : State) : Prop :=
  ∀ base vec_index, DenseMap.find? s.llvm_base2index2node base = some vec_index →
    ∃ index2node, s.vec_index2node[vec_index]? = some index2node ∧
      ((∃ C ∈ F, C.opcode = Opcode.Call ∧ C.operands.length = 7 ∧
          C.operands[1]? = some base ∧
          C.operands[0]? = some (Value.ConstantInt index2node.length)) ∨
       (base = output_ptr ∧ n_dep = some index2node.length ∧
          ∀ C ∈ F, C.opcode = Opcode.Call → C.operands.length = 7 →
            C.operands[1]? ≠ some output_ptr))

/-- A compare instruction with predicate `pred` and the operands `a` and `b`. -/
def instr_cmp (op_code : Opcode) (pred : Predicate) (a b : Value) : Instruction :=
  { opcode := op_code, operands := [a, b], type_id := TypeID.IntegerTyID, predicate := pred }

/-- Scenario 4 of the specification: `a = input[0]; b = input[1]; c = (a < b);
r = select(c, a, b); output[0] = r`. -/
def select_program : List Instruction :=
  [ instr Opcode.Load [input_ptr] TypeID.DoubleTyID,
    instr Opcode.GetElementPtr [input_ptr, Value.ConstantInt 1] TypeID.PointerTyID,
    instr Opcode.Load [Value.Inst 1 TypeID.PointerTyID] TypeID.DoubleTyID,
    instr_cmp Opcode.FCmp Predicate.FCMP_OLT (Value.Inst 0 TypeID.DoubleTyID)
      (Value.Inst 2 TypeID.DoubleTyID),
    instr Opcode.Select
      [Value.Inst 3 TypeID.IntegerTyID, Value.Inst 0 TypeID.DoubleTyID,
       Value.Inst 2 TypeID.DoubleTyID] TypeID.DoubleTyID,
    instr Opcode.Store [Value.Inst 4 TypeID.DoubleTyID, output_ptr] TypeID.VoidTyID,
    instr Opcode.Ret [Value.ConstantInt 0] TypeID.VoidTyID ]

/-- The program `a = input[0]; b = input[1]; c = (a < b); e = zext c; output[0] = a`, in
which the compare feeds a boolean combine. -/
def combine_program : List Instruction :=
  [ instr Opcode.Load [input_ptr] TypeID.DoubleTyID,
    instr Opcode.GetElementPtr [input_ptr, Value.ConstantInt 1] TypeID.PointerTyID,
    instr Opcode.Load [Value.Inst 1 TypeID.PointerTyID] TypeID.DoubleTyID,
    instr_cmp Opcode.FCmp Predicate.FCMP_OLT (Value.Inst 0 TypeID.DoubleTyID)
      (Value.Inst 2 TypeID.DoubleTyID),
    instr Opcode.ZExt [Value.Inst 3 TypeID.IntegerTyID] TypeID.IntegerTyID,
    instr Opcode.Store [Value.Inst 0 TypeID.DoubleTyID, output_ptr] TypeID.VoidTyID,
    instr Opcode.Ret [Value.ConstantInt 0] TypeID.VoidTyID ]

/-- The `llvm_ir` object of a function with no dynamic parameter, `V` independent variables,
one dependent variable and the instructions `F`. -/
def ir_of (V : Nat) (F : List Instruction) : llvm_ir :=
  { function_name_ := "f", n_dynamic_ind_ := 0, n_variable_ind_ := V, n_variable_dep_ := 1,
    function_ir := F }

/-- The program `x = input[0]; y = discrete_heav(x); output[0] = y`. -/
def discrete_program : List Instruction :=
  [ instr Opcode.Load [input_ptr] TypeID.DoubleTyID,
    instr Opcode.Call [Value.Inst 0 TypeID.DoubleTyID, Value.Global "discrete_heav"]
      TypeID.DoubleTyID,
    instr Opcode.Store [Value.Inst 1 TypeID.DoubleTyID, output_ptr] TypeID.VoidTyID,
    instr Opcode.Ret [Value.ConstantInt 0] TypeID.VoidTyID ]

/-- An atomic call with seven operands: argument count `n_arg`, argument base `arg_base`,
result count `n_result`, result base `res_base`, the length of the message vector, the
message pointer and the callee `name`. -/
def instr_atomic (n_arg : Nat) (arg_base : Value) (n_result : Nat) (res_base : Value)
    (name : String) : Instruction :=
  instr Opcode.Call
    [Value.ConstantInt n_arg, arg_base, Value.ConstantInt n_result, res_base,
     Value.Argument 4, msg_ptr, Value.Global name] TypeID.IntegerTyID

/-- The program `y = foo(x); z = foo(y); output[0] = z` for the atomic function `foo` with one
argument and one result, where both calls use the same argument vector and the same result
vector: `x = input[0]; arg[0] = x; call foo(arg, res); y = res[0]; arg[0] = y;
call foo(arg, res); z = res[0]; output[0] = z`. -/
def atomic_twice : List Instruction :=
  [ instr Opcode.Load [input_ptr] TypeID.DoubleTyID,
    instr Opcode.Alloca [Value.ConstantInt 1] TypeID.PointerTyID,
    instr Opcode.Alloca [Value.ConstantInt 1] TypeID.PointerTyID,
    instr Opcode.Store [Value.Inst 0 TypeID.DoubleTyID, Value.Inst 1 TypeID.PointerTyID]
      TypeID.VoidTyID,
    instr_atomic 1 (Value.Inst 1 TypeID.PointerTyID) 1 (Value.Inst 2 TypeID.PointerTyID)
      "atomic_foo",
    instr Opcode.Load [Value.Inst 2 TypeID.PointerTyID] TypeID.DoubleTyID,
    instr Opcode.Store [Value.Inst 5 TypeID.DoubleTyID, Value.Inst 1 TypeID.PointerTyID]
      TypeID.VoidTyID,
    instr_atomic 1 (Value.Inst 1 TypeID.PointerTyID) 1 (Value.Inst 2 TypeID.PointerTyID)
      "atomic_foo",
    instr Opcode.Load [Value.Inst 2 TypeID.PointerTyID] TypeID.DoubleTyID,
    instr Opcode.Store [Value.Inst 8 TypeID.DoubleTyID, output_ptr] TypeID.VoidTyID,
    instr Opcode.Ret [Value.ConstantInt 0] TypeID.VoidTyID ]

/-- The `llvm_ir` object of the function `a = input[0]; b = input[1]; output[1] = a;
output[0] = a; output[0] = b` with two independent and two dependent variables, in which the
slots of the output vector are stored out of order and slot zero is stored twice. -/
def two_outputs : llvm_ir :=
  { function_name_ := "f", n_dynamic_ind_ := 0, n_variable_ind_ := 2, n_variable_dep_ := 2,
    function_ir :=
      [ instr Opcode.Load [input_ptr] TypeID.DoubleTyID,
        instr Opcode.GetElementPtr [input_ptr, Value.ConstantInt 1] TypeID.PointerTyID,
        instr Opcode.Load [Value.Inst 1 TypeID.PointerTyID] TypeID.DoubleTyID,
        instr Opcode.GetElementPtr [output_ptr, Value.ConstantInt 1] TypeID.PointerTyID,
        instr Opcode.Store [Value.Inst 0 TypeID.DoubleTyID, Value.Inst 3 TypeID.PointerTyID]
          TypeID.VoidTyID,
        instr Opcode.Store [Value.Inst 0 TypeID.DoubleTyID, output_ptr] TypeID.VoidTyID,
        instr Opcode.Store [Value.Inst 2 TypeID.DoubleTyID, output_ptr] TypeID.VoidTyID,
        instr Opcode.Ret [Value.ConstantInt 0] TypeID.VoidTyID ] }

/-- Scenario 5 of the specification: `x0 = input[0]; x1 = input[1]; arg[0] = x0;
arg[1] = x1; call foo(arg, res); y = res[0]; output[0] = y` for the atomic function `foo` with
two arguments and one result; the first argument is stored through the argument base itself
and the second one through an address computation. -/
def atomic_program : List Instruction :=
  [ instr Opcode.Load [input_ptr] TypeID.DoubleTyID,
    instr Opcode.GetElementPtr [input_ptr, Value.ConstantInt 1] TypeID.PointerTyID,
    instr Opcode.Load [Value.Inst 1 TypeID.PointerTyID] TypeID.DoubleTyID,
    instr Opcode.Alloca [Value.ConstantInt 2] TypeID.PointerTyID,
    instr Opcode.Alloca [Value.ConstantInt 1] TypeID.PointerTyID,
    instr Opcode.Store [Value.Inst 0 TypeID.DoubleTyID, Value.Inst 3 TypeID.PointerTyID]
      TypeID.VoidTyID,
    instr Opcode.GetElementPtr [Value.Inst 3 TypeID.PointerTyID, Value.ConstantInt 1]
      TypeID.PointerTyID,
    instr Opcode.Store [Value.Inst 2 TypeID.DoubleTyID, Value.Inst 6 TypeID.PointerTyID]
      TypeID.VoidTyID,
    instr_atomic 2 (Value.Inst 3 TypeID.PointerTyID) 1 (Value.Inst 4 TypeID.PointerTyID)
      "atomic_foo",
    instr Opcode.Load [Value.Inst 4 TypeID.PointerTyID] TypeID.DoubleTyID,
    instr Opcode.Store [Value.Inst 9 TypeID.DoubleTyID, output_ptr] TypeID.VoidTyID,
    instr Opcode.Ret [Value.ConstantInt 0] TypeID.VoidTyID ]

/-- Modelled from the spec: what an ordered compare predicate of the IR says about its
operands `x` (left) and `y` (right) in a linear order. -/
def pred_holds {α : Type} [LinearOrder α] : Predicate → α → α → Prop
  | Predicate.FCMP_OEQ, x, y => x = y
  | Predicate.FCMP_ONE, x, y => x ≠ y
  | Predicate.FCMP_OLT, x, y => x < y
  | Predicate.FCMP_OLE, x, y => x ≤ y
  | Predicate.FCMP_OGT, x, y => y < x
  | Predicate.FCMP_OGE, x, y => y ≤ x
  | _, _, _ => False

/-- Modelled from the spec: what a comparison operator of the graph says about its first
argument `a` and its second argument `b` in a linear order. -/
def comp_holds {α : Type} [LinearOrder α] : graph_op_enum → α → α → Prop
  | graph_op_enum.comp_eq_graph_op, a, b => a = b
  | graph_op_enum.comp_le_graph_op, a, b => a ≤ b
  | graph_op_enum.comp_lt_graph_op, a, b => a < b
  | graph_op_enum.comp_ne_graph_op, a, b => a ≠ b
  | _, _, _ => False

/-- The instructions that the specification calls graph-neutral: the operator codes `Alloca`,
`Br`, `Ret`, `Load`, `GetElementPtr`, `FCmp`, `ICmp` and `Store`, and a `Select` whose first
value operand (operand one, which the source tests) is not of float type. -/
def graph_neutral (I : Instruction) : Prop :=
  I.opcode ∈ [Opcode.Alloca, Opcode.Br, Opcode.Ret, Opcode.Load, Opcode.GetElementPtr,
    Opcode.FCmp, Opcode.ICmp, Opcode.Store] ∨
  (I.opcode = Opcode.Select ∧ I.operands[1]?.map get_type_id ≠ some TypeID.DoubleTyID)

/-- The name of the callee of a call, and the empty string when the operand is missing. -/
def callee_name (I : Instruction) : String :=
  match callee I with
  | some v => v.getName
  | none => ""

/-- The raw data of operand `i` when it is an integer constant, and zero otherwise. -/
def operand_constant (I : Instruction) (i : Nat) : Nat :=
  match I.operands[i]? with
  | some (Value.ConstantInt raw) => raw
  | _ => 0

/-- The node that the map `value2node` has for operand `i`, and zero when the operand is
missing. -/
def operand_node (value2node : DenseMap Value Nat) (I : Instruction) (i : Nat) : Nat :=
  match I.operands[i]? with
  | some v => value2node.lookup v
  | none => 0

/-- The scattered table of the argument base (operand one) of an atomic call. -/
def argument_table (s : State) (I : Instruction) : List Nat :=
  match I.operands[1]? with
  | some base => (s.vec_index2node[s.llvm_base2index2node.lookup base]?).getD []
  | none => []

/-- The descriptor that `llvm_compare2info` has for the condition (operand zero) of a
select. -/
def select_compare (s : State) (I : Instruction) : compare_info :=
  match I.operands[0]? with
  | some compare => s.llvm_compare2info.lookup compare
  | none => default

/-- The operators and the operator arguments that the step of the second pass for the
instruction `I` at position `k` appends to the graph in the state `s`, in the order of the
calls of `operator_vec_push_back` and of `operator_arg_push_back` in the source. -/
def emission (s : State) (k : Nat) (I : Instruction) : List graph_op_enum × List Nat :=
  let value2node := s.llvm_value2graph_node.insert (I.result k) (s.result_node + 1)
  match I.opcode with
  | Opcode.FAdd =>
    ([graph_op_enum.add_graph_op], [operand_node value2node I 0, operand_node value2node I 1])
  | Opcode.FSub =>
    ([graph_op_enum.sub_graph_op], [operand_node value2node I 0, operand_node value2node I 1])
  | Opcode.FMul =>
    ([graph_op_enum.mul_graph_op], [operand_node value2node I 0, operand_node value2node I 1])
  | Opcode.FDiv =>
    ([graph_op_enum.div_graph_op], [operand_node value2node I 0, operand_node value2node I 1])
  | Opcode.FNeg => ([graph_op_enum.neg_graph_op], [operand_node value2node I 0])
  | Opcode.Call =>
    if I.operands.length = 7 then
      ([graph_op_enum.atom_graph_op],
        [name_index s.graph_obj.atomic_name_vec (substr_from (callee_name I) 7),
          operand_constant I 2, operand_constant I 0] ++
        (argument_table s I).take (operand_constant I 0))
    else if starts_with (callee_name I) "discrete_" = true then
      ([graph_op_enum.discrete_graph_op],
        [name_index s.graph_obj.discrete_name_vec (substr_from (callee_name I) 9),
          operand_node value2node I 0])
    else if I.operands.length = 3 then
      ([graph_op_cast (name2graph_op.lookup (callee_name I) - 1)],
        [operand_node value2node I 0, operand_node value2node I 1])
    else
      ([graph_op_cast (name2graph_op.lookup (callee_name I) - 1)],
        [operand_node value2node I 0])
  | Opcode.ZExt =>
    ((recorded_compares s I.operands).map (fun c => (combine_op_enum c.pred).1),
      (recorded_compares s I.operands).flatMap (fun c => [s.node c.right, s.node c.left]))
  | Opcode.Or =>
    ((recorded_compares s I.operands).map (fun c => (combine_op_enum c.pred).1),
      (recorded_compares s I.operands).flatMap (fun c => [s.node c.right, s.node c.left]))
  | Opcode.Select =>
    if I.operands[1]?.map get_type_id = some TypeID.DoubleTyID then
      ([(select_op_enum (select_compare s I).pred).1],
        [s.node (select_compare s I).left, s.node (select_compare s I).right,
          operand_node s.llvm_value2graph_node I 1,
          operand_node s.llvm_value2graph_node I 2])
    else ([], [])
  | _ => ([], [])

/-- The graph `g1` extends the graph `g`: the constant pool, the operator list, the operator
arguments and the two name tables of `g` are prefixes of those of `g1`, and the scalars and
the dependent list are the same. -/
def graph_extends (g g1 : cpp_graph) : Prop :=
  g.constant_vec <+: g1.constant_vec ∧ g.operator_vec <+: g1.operator_vec ∧
  g.operator_arg <+: g1.operator_arg ∧ g.atomic_name_vec <+: g1.atomic_name_vec ∧
  g.discrete_name_vec <+: g1.discrete_name_vec ∧ g1.dependent_vec = g.dependent_vec ∧
  g1.function_name = g.function_name ∧ g1.n_dynamic_ind = g.n_dynamic_ind ∧
  g1.n_variable_ind = g.n_variable_ind

/-- The distinct strings of a list in the order of their first occurrence. -/
def first_seen (l : List String) : List String :=
  l.reverse.dedup.reverse

/-- The instruction is an atomic call: a call with seven operands. -/
def is_atomic_call (I : Instruction) : Bool :=
  decide (I.opcode = Opcode.Call ∧ I.operands.length = 7)

/-- The instruction is a discrete call: a call without seven operands whose callee name has
the prefix `discrete_`. -/
def is_discrete_call (I : Instruction) : Bool :=
  decide (I.opcode = Opcode.Call ∧ I.operands.length ≠ 7 ∧
    starts_with (callee_name I) "discrete_" = true)

/-- The callee names of the atomic calls of a function without the prefix `atomic_`, in
program order and with repetitions. -/
def atomic_call_names (F : List Instruction) : List String :=
  (F.filter is_atomic_call).map (fun I => substr_from (callee_name I) 7)

/-- The callee names of the discrete calls of a function without the prefix `discrete_`, in
program order and with repetitions. -/
def discrete_call_names (F : List Instruction) : List String :=
  (F.filter is_discrete_call).map (fun I => substr_from (callee_name I) 9)

/-- The program `x = input[0]; y = frem x, x; z = -x; output[0] = z`, whose second instruction
has an operator code that the translator does not handle. -/
def failing_program : List Instruction :=
  [ instr Opcode.Load [input_ptr] TypeID.DoubleTyID,
    instr (Opcode.Other "frem")
      [Value.Inst 0 TypeID.DoubleTyID, Value.Inst 0 TypeID.DoubleTyID] TypeID.DoubleTyID,
    instr Opcode.FNeg [Value.Inst 0 TypeID.DoubleTyID] TypeID.DoubleTyID,
    instr Opcode.Store [Value.Inst 2 TypeID.DoubleTyID, output_ptr] TypeID.VoidTyID,
    instr Opcode.Ret [Value.ConstantInt 0] TypeID.VoidTyID ]

/-- The program `select_program` with the compare `a > b` in place of `a < b`: the predicate
`FCMP_OGT` has no conditional-expression operator. -/
def select_ogt_program : List Instruction :=
  [ instr Opcode.Load [input_ptr] TypeID.DoubleTyID,
    instr Opcode.GetElementPtr [input_ptr, Value.ConstantInt 1] TypeID.PointerTyID,
    instr Opcode.Load [Value.Inst 1 TypeID.PointerTyID] TypeID.DoubleTyID,
    instr_cmp Opcode.FCmp Predicate.FCMP_OGT (Value.Inst 0 TypeID.DoubleTyID)
      (Value.Inst 2 TypeID.DoubleTyID),
    instr Opcode.Select
      [Value.Inst 3 TypeID.IntegerTyID, Value.Inst 0 TypeID.DoubleTyID,
       Value.Inst 2 TypeID.DoubleTyID] TypeID.DoubleTyID,
    instr Opcode.Store [Value.Inst 4 TypeID.DoubleTyID, output_ptr] TypeID.VoidTyID,
    instr Opcode.Ret [Value.ConstantInt 0] TypeID.VoidTyID ]

/-- The program `x = input[0]; y = pow(x); output[0] = y`, in which the call that names `pow`
has two operands: one value and the callee. -/
def pow_program : List Instruction :=
  [ instr Opcode.Load [input_ptr] TypeID.DoubleTyID,
    instr Opcode.Call [Value.Inst 0 TypeID.DoubleTyID, Value.Global "pow"] TypeID.DoubleTyID,
    instr Opcode.Store [Value.Inst 1 TypeID.DoubleTyID, output_ptr] TypeID.VoidTyID,
    instr Opcode.Ret [Value.ConstantInt 0] TypeID.VoidTyID ]

/-- The program `x = input[0]; y = sin(x, x); output[0] = y`, in which the call that names
`sin` has three operands: two values and the callee. -/
def sin_program : List Instruction :=
  [ instr Opcode.Load [input_ptr] TypeID.DoubleTyID,
    instr Opcode.Call
      [Value.Inst 0 TypeID.DoubleTyID, Value.Inst 0 TypeID.DoubleTyID, Value.Global "sin"]
      TypeID.DoubleTyID,
    instr Opcode.Store [Value.Inst 1 TypeID.DoubleTyID, output_ptr] TypeID.VoidTyID,
    instr Opcode.Ret [Value.ConstantInt 0] TypeID.VoidTyID ]

/-- The program `a = input[0]; b = input[1]; c = (a < b); r = select(c, a, b); e = zext c;
output[0] = r`, in which the compare `c` feeds a select and then a boolean combine. -/
def compare_twice : List Instruction :=
  [ instr Opcode.Load [input_ptr] TypeID.DoubleTyID,
    instr Opcode.GetElementPtr [input_ptr, Value.ConstantInt 1] TypeID.PointerTyID,
    instr Opcode.Load [Value.Inst 1 TypeID.PointerTyID] TypeID.DoubleTyID,
    instr_cmp Opcode.FCmp Predicate.FCMP_OLT (Value.Inst 0 TypeID.DoubleTyID)
      (Value.Inst 2 TypeID.DoubleTyID),
    instr Opcode.Select
      [Value.Inst 3 TypeID.IntegerTyID, Value.Inst 0 TypeID.DoubleTyID,
       Value.Inst 2 TypeID.DoubleTyID] TypeID.DoubleTyID,
    instr Opcode.ZExt [Value.Inst 3 TypeID.IntegerTyID] TypeID.IntegerTyID,
    instr Opcode.Store [Value.Inst 4 TypeID.DoubleTyID, output_ptr] TypeID.VoidTyID,
    instr Opcode.Ret [Value.ConstantInt 0] TypeID.VoidTyID ]

/-- The base is registered in both layouts: it is a key of the scattered map
`llvm_base2index2node` and a key of the contiguous map `llvm_base2first_node`. -/
def in_both_layouts (s : State) (base : Value) : Bool :=
  (DenseMap.find? s.llvm_base2index2node base).isSome &&
    (DenseMap.find? s.llvm_base2first_node base).isSome

/-- The vectors of the two layouts are kept apart by the function: no atomic call names the
input pointer or the result base of an atomic call as its argument base, and no atomic call
names the output pointer as its result base. -/
def bases_separate (F : List Instruction) : Prop :=
  ∀ C ∈ F, C.opcode = Opcode.Call → C.operands.length = 7 →
    C.operands[1]? ≠ some input_ptr ∧ C.operands[3]? ≠ some output_ptr ∧
    ∀ C2 ∈ F, C2.opcode = Opcode.Call → C2.operands.length = 7 →
      C.operands[1]? ≠ C2.operands[3]?

/-- The program `x = input[0]; input[0] = x; call foo(input, res); y = res[0];
output[0] = y`, in which the atomic call names the input pointer as its argument base. -/
def input_as_argument : List Instruction :=
  [ instr Opcode.Load [input_ptr] TypeID.DoubleTyID,
    instr Opcode.Alloca [Value.ConstantInt 1] TypeID.PointerTyID,
    instr Opcode.Store [Value.Inst 0 TypeID.DoubleTyID, input_ptr] TypeID.VoidTyID,
    instr_atomic 1 input_ptr 1 (Value.Inst 1 TypeID.PointerTyID) "atomic_foo",
    instr Opcode.Load [Value.Inst 1 TypeID.PointerTyID] TypeID.DoubleTyID,
    instr Opcode.Store [Value.Inst 4 TypeID.DoubleTyID, output_ptr] TypeID.VoidTyID,
    instr Opcode.Ret [Value.ConstantInt 0] TypeID.VoidTyID ]

/-- The program `x = input[0]; p[0] = x; call foo(p, p); y = p[0]; output[0] = y`, in which
the atomic call names one pointer as its argument base and as its result base. -/
def argument_as_result : List Instruction :=
  [ instr Opcode.Load [input_ptr] TypeID.DoubleTyID,
    instr Opcode.Alloca [Value.ConstantInt 1] TypeID.PointerTyID,
    instr Opcode.Store [Value.Inst 0 TypeID.DoubleTyID, Value.Inst 1 TypeID.PointerTyID]
      TypeID.VoidTyID,
    instr_atomic 1 (Value.Inst 1 TypeID.PointerTyID) 1 (Value.Inst 1 TypeID.PointerTyID)
      "atomic_foo",
    instr Opcode.Load [Value.Inst 1 TypeID.PointerTyID] TypeID.DoubleTyID,
    instr Opcode.Store [Value.Inst 4 TypeID.DoubleTyID, output_ptr] TypeID.VoidTyID,
    instr Opcode.Ret [Value.ConstantInt 0] TypeID.VoidTyID ]

/-- The number of result nodes of an operator with the arguments `args`: none for a
comparison operator, the result count (the second argument) for the operator `atom`, and one
for every other operator. -/
def result_count (tag : graph_op_enum) (args : List Nat) : Nat :=
  match tag with
  | graph_op_enum.comp_eq_graph_op => 0
  | graph_op_enum.comp_le_graph_op => 0
  | graph_op_enum.comp_lt_graph_op => 0
  | graph_op_enum.comp_ne_graph_op => 0
  | graph_op_enum.atom_graph_op => args.getD 1 0
  | _ => 1

/-- The operators that the step for the instruction `I` appends, each with its own
arguments: a boolean combine appends one comparison operator with two arguments for each
recorded compare among its operands, and any other instruction appends at most one operator,
which has all the arguments that the step appends. -/
def step_records (s : State) (k : Nat) (I : Instruction) : List (graph_op_enum × List Nat) :=
  if I.opcode = Opcode.ZExt ∨ I.opcode = Opcode.Or then
    (recorded_compares s I.operands).map
      (fun c => ((combine_op_enum c.pred).1, [s.node c.right, s.node c.left]))
  else (emission s k I).1.map (fun tag => (tag, (emission s k I).2))

/-- The operators that the second pass has emitted when it reaches position `k`, each with
its own arguments, in the order of emission. -/
def llvm_ir.records_before (debug : Bool) (ir_obj : llvm_ir) (graph_obj : cpp_graph) :
    Nat → List (graph_op_enum × List Nat)
  | 0 => []
  | k + 1 =>
    llvm_ir.records_before debug ir_obj graph_obj k ++
      match llvm_ir.state_at debug ir_obj graph_obj k, ir_obj.function_ir[k]? with
      | Except.ok s, some I => step_records s k I
      | _, _ => []

/-- The sum of the result counts of a list of operators. -/
def total_results (records : List (graph_op_enum × List Nat)) : Nat :=
  (records.map (fun r => result_count r.1 r.2)).sum

/-- The length that is registered for the contiguous vector with base `base` when the second
pass is at position `k`: `D + V` for the input pointer, and otherwise the result count of the
first atomic call before `k` that names `base` as its result base. -/
def llvm_ir.contiguous_length (ir_obj : llvm_ir) (base : Value) : Nat → Option Nat
  | 0 =>
    if base = input_ptr then some (ir_obj.n_dynamic_ind_ + ir_obj.n_variable_ind_) else none
  | k + 1 =>
    match llvm_ir.contiguous_length ir_obj base k with
    | some length => some length
    | none =>
      match ir_obj.function_ir[k]? with
      | some I =>
        if I.opcode = Opcode.Call ∧ I.operands.length = 7 ∧ I.operands[3]? = some base then
          match I.operands[2]? with
          | some (Value.ConstantInt n_result) => some n_result
          | _ => none
        else none
      | none => none

/-- Every operand that is the result of an instruction is the result of a strictly earlier
instruction; the other operands are constants, formal arguments, globals and labels. -/
def operands_earlier (F : List Instruction) : Prop :=
  ∀ k I, F[k]? = some I → ∀ v ∈ I.operands, ∀ j ty, v = Value.Inst j ty → j < k

/-- The base is registered as scattered: it is the output pointer or the argument base of an
atomic call of the function. -/
def scattered_base (F : List Instruction) (base : Value) : Prop :=
  base = output_ptr ∨
    ∃ C ∈ F, C.opcode = Opcode.Call ∧ C.operands.length = 7 ∧ C.operands[1]? = some base

/-- Every address computation on a base that is not scattered uses an offset smaller than the
length that is registered for the base at this position. -/
def offsets_in_range (ir_obj : llvm_ir) : Prop :=
  ∀ k G base index, ir_obj.function_ir[k]? = some G → G.opcode = Opcode.GetElementPtr →
    G.operands[0]? = some base → G.operands[1]? = some (Value.ConstantInt index) →
    ¬ scattered_base ir_obj.function_ir base →
    ∃ length, llvm_ir.contiguous_length ir_obj base k = some length ∧ index < length

/-- Every node in the tables is at most the node counter, in either build: the nodes of
values, the nodes of pointers, the last node of every contiguous vector, whose length is the
registered one and not zero, and the nodes in the scattered tables. -/
def nodes_below (ir_obj : llvm_ir) (k : Nat) (s : State) : Prop :=
  (∀ key node, DenseMap.find? s.llvm_value2graph_node key = some node →
    node ≤ s.result_node) ∧
  (∀ key node, DenseMap.find? s.llvm_ptr2graph_node key = some node →
    node ≤ s.result_node) ∧
  (∀ base first_node, DenseMap.find? s.llvm_base2first_node base = some first_node →
    ∃ length, llvm_ir.contiguous_length ir_obj base k = some length ∧
      first_node + length ≤ s.result_node + 1) ∧
  (∀ base length, llvm_ir.contiguous_length ir_obj base k = some length →
    1 ≤ length ∧ ∃ first_node, DenseMap.find? s.llvm_base2first_node base = some first_node) ∧
  (∀ index2node ∈ s.vec_index2node, ∀ node ∈ index2node, node ≤ s.result_node)

/-- The arguments that are nodes among the operator arguments that the step for `I` appends:
all but the name index and the two counts of an atomic call, all but the name index of a
discrete call, and all the arguments of every other operator. -/
def node_args (s : State) (k : Nat) (I : Instruction) : List Nat :=
  if I.opcode = Opcode.Call ∧ I.operands.length = 7 then (emission s k I).2.drop 3
  else if I.opcode = Opcode.Call ∧ starts_with (callee_name I) "discrete_" = true then
    (emission s k I).2.drop 1
  else (emission s k I).2

/-- The program `x = input[0]; y = -x; output[0] = y`, which loads through the input pointer
itself. -/
def neg_program : List Instruction :=
  [ instr Opcode.Load [input_ptr] TypeID.DoubleTyID,
    instr Opcode.FNeg [Value.Inst 0 TypeID.DoubleTyID] TypeID.DoubleTyID,
    instr Opcode.Store [Value.Inst 1 TypeID.DoubleTyID, output_ptr] TypeID.VoidTyID,
    instr Opcode.Ret [Value.ConstantInt 0] TypeID.VoidTyID ]

/-! ## Lemmas on maps -/

theorem DenseMap.find?_append {κ β : Type} [DecidableEq κ] (m m2 : DenseMap κ β) (k : κ) :
    DenseMap.find? (m ++ m2) k = (DenseMap.find? m k).orElse (fun _ => DenseMap.find? m2 k) := by
  induction m with
  | nil => simp [DenseMap.find?]
  | cons e m ih =>
    obtain ⟨k1, v1⟩ := e
    by_cases hk : k1 = k
    · simp [DenseMap.find?, hk]
    · simpa [DenseMap.find?, hk] using ih

theorem DenseMap.find?_insert_self {κ β : Type} [DecidableEq κ] (m : DenseMap κ β) (k : κ)
    (v : β) (h : DenseMap.find? m k = none) : DenseMap.find? (m.insert k v) k = some v := by
  unfold DenseMap.insert
  rw [h]
  simp [DenseMap.find?_append, h, DenseMap.find?]

theorem DenseMap.insert_of_some {κ β : Type} [DecidableEq κ] (m : DenseMap κ β) (k : κ)
    (v x : β) (h : DenseMap.find? m k = some x) : m.insert k v = m := by
  unfold DenseMap.insert
  rw [h]

theorem DenseMap.find?_insert_ne {κ β : Type} [DecidableEq κ] (m : DenseMap κ β) (k k2 : κ)
    (v : β) (h : k ≠ k2) : DenseMap.find? (m.insert k v) k2 = DenseMap.find? m k2 := by
  unfold DenseMap.insert
  cases hf : DenseMap.find? m k with
  | some x => rfl
  | none =>
    simp only [DenseMap.find?_append, DenseMap.find?, h, if_false]
    cases DenseMap.find? m k2 <;> rfl

theorem DenseMap.find?_insert_mono {κ β : Type} [DecidableEq κ] (m : DenseMap κ β) (k k2 : κ)
    (v x : β) (h : DenseMap.find? m k2 = some x) :
    DenseMap.find? (m.insert k v) k2 = some x := by
  by_cases hk : k = k2
  · subst hk
    rw [DenseMap.insert_of_some m k v x h, h]
  · rw [DenseMap.find?_insert_ne m k k2 v hk, h]

theorem DenseMap.find?_insert_cases {κ β : Type} [DecidableEq κ] (m : DenseMap κ β) (k k2 : κ)
    (v x : β) (h : DenseMap.find? (m.insert k v) k2 = some x) :
    DenseMap.find? m k2 = some x ∨ (DenseMap.find? m k = none ∧ k2 = k ∧ x = v) := by
  by_cases hk : k = k2
  · subst hk
    cases hf : DenseMap.find? m k with
    | some y =>
      rw [DenseMap.insert_of_some m k v y hf, hf] at h
      exact Or.inl h
    | none =>
      rw [DenseMap.find?_insert_self m k v hf] at h
      exact Or.inr ⟨rfl, rfl, (Option.some.inj h).symm⟩
  · rw [DenseMap.find?_insert_ne m k k2 v hk] at h
    exact Or.inl h

theorem DenseMap.lookup_insert_self {κ β : Type} [DecidableEq κ] [Inhabited β]
    (m : DenseMap κ β) (k : κ) (v : β) (h : DenseMap.find? m k = none) :
    (m.insert k v).lookup k = v := by
  simp [DenseMap.lookup, DenseMap.find?_insert_self m k v h]

theorem DenseMap.lookup_insert_ne {κ β : Type} [DecidableEq κ] [Inhabited β]
    (m : DenseMap κ β) (k k2 : κ) (v : β) (h : k ≠ k2) :
    (m.insert k v).lookup k2 = m.lookup k2 := by
  simp [DenseMap.lookup, DenseMap.find?_insert_ne m k k2 v h]

theorem DenseMap.lookup_of_find? {κ β : Type} [DecidableEq κ] [Inhabited β]
    (m : DenseMap κ β) (k : κ) (x : β) (h : DenseMap.find? m k = some x) : m.lookup k = x := by
  simp [DenseMap.lookup, h]

theorem DenseMap.lookup_of_none {κ β : Type} [DecidableEq κ] [Inhabited β]
    (m : DenseMap κ β) (k : κ) (h : DenseMap.find? m k = none) : m.lookup k = default := by
  simp [DenseMap.lookup, h]

/-! ## Lemmas on the assertions and vector accesses -/

theorem CPPAD_ASSERT_UNKNOWN_release (c : Bool) : CPPAD_ASSERT_UNKNOWN false c = Except.ok () := by
  simp [CPPAD_ASSERT_UNKNOWN]

theorem CPPAD_ASSERT_UNKNOWN_true (debug : Bool) : CPPAD_ASSERT_UNKNOWN debug true = Except.ok () := by
  simp [CPPAD_ASSERT_UNKNOWN]

theorem CPPAD_ASSERT_UNKNOWN_of (debug : Bool) (c : Bool) (h : debug = true → c = true) :
    CPPAD_ASSERT_UNKNOWN debug c = Except.ok () := by
  cases debug
  · exact CPPAD_ASSERT_UNKNOWN_release c
  · rw [h rfl]; exact CPPAD_ASSERT_UNKNOWN_true true

theorem CPPAD_ASSERT_UNKNOWN_error {debug : Bool} {c : Bool} {e : Stop}
    (h : CPPAD_ASSERT_UNKNOWN debug c = Except.error e) : e = Stop.assert_fail := by
  unfold CPPAD_ASSERT_UNKNOWN at h
  split at h
  · exact (Except.error.inj h).symm
  · cases h

theorem CPPAD_ASSERT_UNKNOWN_ok {debug : Bool} {c : Bool} {u : Unit}
    (h : CPPAD_ASSERT_UNKNOWN debug c = Except.ok u) : debug = true → c = true := by
  unfold CPPAD_ASSERT_UNKNOWN at h
  split at h
  · cases h
  · intro hd
    by_contra hc
    simp_all

/-! ## Lemmas on the second pass as a whole -/

theorem pass2_append (debug : Bool) (s : State) (k : Nat) (A B : List Instruction) :
    pass2 debug s k (A ++ B) =
      (pass2 debug s k A).bind (fun s1 => pass2 debug s1 (k + A.length) B) := by
  induction A generalizing s k with
  | nil => simp [pass2, Except.bind, pure, Except.pure]
  | cons I A ih =>
    simp only [List.cons_append, pass2, bind, List.length_cons]
    cases hstep : step debug s k I with
    | error e => simp [Except.bind]
    | ok s1 =>
      have h2 := ih s1 (k + 1)
      have h3 : k + 1 + A.length = k + (A.length + 1) := by omega
      rw [h3] at h2
      simpa [Except.bind] using h2

theorem llvm_ir.state_at_zero (debug : Bool) (ir_obj : llvm_ir) (graph_obj : cpp_graph) :
    llvm_ir.state_at debug ir_obj graph_obj 0 = llvm_ir.before_pass2 debug ir_obj graph_obj := by
  unfold llvm_ir.state_at
  cases llvm_ir.before_pass2 debug ir_obj graph_obj <;>
    simp [pass2, bind, Except.bind, pure, Except.pure]

theorem llvm_ir.state_at_succ (debug : Bool) (ir_obj : llvm_ir) (graph_obj : cpp_graph)
    (k : Nat) (I : Instruction) (hI : ir_obj.function_ir[k]? = some I) :
    llvm_ir.state_at debug ir_obj graph_obj (k + 1) =
      (llvm_ir.state_at debug ir_obj graph_obj k).bind (fun s => step debug s k I) := by
  unfold llvm_ir.state_at
  have hk : k < ir_obj.function_ir.length := by
    rcases List.getElem?_eq_some.1 hI with ⟨h, _⟩
    exact h
  have htake : ir_obj.function_ir.take (k + 1) = ir_obj.function_ir.take k ++ [I] := by
    rw [List.take_succ, hI]
    rfl
  rw [htake]
  cases hb : llvm_ir.before_pass2 debug ir_obj graph_obj with
  | error e => simp [bind, Except.bind]
  | ok s1 =>
    simp only [bind, Except.bind]
    rw [pass2_append]
    cases hp : pass2 debug s1 0 (List.take k ir_obj.function_ir) with
    | error e => simp [Except.bind]
    | ok s2 =>
      have hlen : (List.take k ir_obj.function_ir).length = k := by
        rw [List.length_take]; omega
      simp only [Except.bind, hlen, Nat.zero_add, pass2, bind, pure, Except.pure]
      cases step debug s2 k I <;> rfl

theorem llvm_ir.run_eq (debug : Bool) (ir_obj : llvm_ir) (graph_obj : cpp_graph) :
    llvm_ir.run debug ir_obj graph_obj =
      (llvm_ir.state_at debug ir_obj graph_obj ir_obj.function_ir.length).bind
        (fun s2 => finalize debug ir_obj.n_variable_dep_ s2) := by
  unfold llvm_ir.run llvm_ir.state_at
  rw [List.take_length]
  cases llvm_ir.before_pass2 debug ir_obj graph_obj with
  | error e => rfl
  | ok s1 =>
    simp only [bind, Except.bind]

/-! ## Which runs return a message -/

theorem CPPAD_ASSERT_UNKNOWN_ne_ret (debug : Bool) (c : Bool) (msg : String) (g : cpp_graph) :
    CPPAD_ASSERT_UNKNOWN debug c = Except.error (Stop.ret msg g) ↔ False := by
  unfold CPPAD_ASSERT_UNKNOWN
  split <;> simp

theorem vec_get_ne_ret {α : Type} (debug : Bool) (vec : List α) (i : Nat) (msg : String)
    (g : cpp_graph) : vec_get debug vec i = Except.error (Stop.ret msg g) ↔ False := by
  unfold vec_get invalid_access
  repeat' split
  all_goals simp

theorem vec_set_ne_ret {α : Type} (debug : Bool) (vec : List α) (i : Nat) (x : α)
    (msg : String) (g : cpp_graph) :
    vec_set debug vec i x = Except.error (Stop.ret msg g) ↔ False := by
  unfold vec_set invalid_access
  repeat' split
  all_goals simp

theorem get_int_constant_ne_ret (debug : Bool) (v : Value) (msg : String) (g : cpp_graph) :
    get_int_constant debug v = Except.error (Stop.ret msg g) ↔ False := by
  unfold get_int_constant invalid_access
  repeat' split
  all_goals simp

theorem step_load_no_ret {debug : Bool} {s : State} {k : Nat} {I : Instruction} {msg : String}
    {g : cpp_graph} (h : step_load debug s k I = Except.error (Stop.ret msg g)) : False := by
  unfold step_load at h
  simp only [bind, Except.bind, pure, Except.pure, throw, throwThe, MonadExceptOf.throw] at h
  repeat' split at h
  all_goals first
    | (cases h; done)
    | (cases h
       simp_all [CPPAD_ASSERT_UNKNOWN_ne_ret, vec_get_ne_ret, vec_set_ne_ret,
         get_int_constant_ne_ret])

theorem step_br_no_ret {debug : Bool} {s : State} {I : Instruction} {msg : String}
    {g : cpp_graph} (h : step_br debug s I = Except.error (Stop.ret msg g)) : False := by
  unfold step_br at h
  simp only [bind, Except.bind, pure, Except.pure, throw, throwThe, MonadExceptOf.throw] at h
  repeat' split at h
  all_goals first
    | (cases h; done)
    | (cases h
       simp_all [CPPAD_ASSERT_UNKNOWN_ne_ret, vec_get_ne_ret, vec_set_ne_ret,
         get_int_constant_ne_ret])

theorem step_binary_no_ret {debug : Bool} {s : State} {k : Nat} {I : Instruction}
    {msg : String} {g : cpp_graph}
    (h : step_binary debug s k I = Except.error (Stop.ret msg g)) : False := by
  unfold step_binary at h
  simp only [bind, Except.bind, pure, Except.pure, throw, throwThe, MonadExceptOf.throw] at h
  repeat' split at h
  all_goals first
    | (cases h; done)
    | (cases h
       simp_all [CPPAD_ASSERT_UNKNOWN_ne_ret, vec_get_ne_ret, vec_set_ne_ret,
         get_int_constant_ne_ret])

theorem step_cmp_no_ret {debug : Bool} {ty : TypeID} {s : State} {k : Nat} {I : Instruction}
    {msg : String} {g : cpp_graph}
    (h : step_cmp debug ty s k I = Except.error (Stop.ret msg g)) : False := by
  unfold step_cmp at h
  simp only [bind, Except.bind, pure, Except.pure, throw, throwThe, MonadExceptOf.throw] at h
  repeat' split at h
  all_goals first
    | (cases h; done)
    | (cases h
       simp_all [CPPAD_ASSERT_UNKNOWN_ne_ret, vec_get_ne_ret, vec_set_ne_ret,
         get_int_constant_ne_ret])

theorem step_icmp_no_ret {debug : Bool} {s : State} {k : Nat} {I : Instruction}
    {msg : String} {g : cpp_graph}
    (h : step_icmp debug s k I = Except.error (Stop.ret msg g)) : False := by
  unfold step_icmp at h
  simp only [bind, Except.bind, pure, Except.pure, throw, throwThe, MonadExceptOf.throw] at h
  repeat' split at h
  all_goals first
    | (cases h; done)
    | exact step_cmp_no_ret h
    | (cases h
       simp_all [CPPAD_ASSERT_UNKNOWN_ne_ret, vec_get_ne_ret, vec_set_ne_ret,
         get_int_constant_ne_ret])

theorem step_gep_no_ret {debug : Bool} {s : State} {k : Nat} {I : Instruction}
    {msg : String} {g : cpp_graph}
    (h : step_gep debug s k I = Except.error (Stop.ret msg g)) : False := by
  unfold step_gep at h
  simp only [bind, Except.bind, pure, Except.pure, throw, throwThe, MonadExceptOf.throw] at h
  repeat' split at h
  all_goals first
    | (cases h; done)
    | (cases h
       simp_all [CPPAD_ASSERT_UNKNOWN_ne_ret, vec_get_ne_ret, vec_set_ne_ret,
         get_int_constant_ne_ret])

theorem step_fneg_no_ret {debug : Bool} {s : State} {k : Nat} {I : Instruction}
    {msg : String} {g : cpp_graph}
    (h : step_fneg debug s k I = Except.error (Stop.ret msg g)) : False := by
  unfold step_fneg at h
  simp only [bind, Except.bind, pure, Except.pure, throw, throwThe, MonadExceptOf.throw] at h
  repeat' split at h
  all_goals first
    | (cases h; done)
    | (cases h
       simp_all [CPPAD_ASSERT_UNKNOWN_ne_ret, vec_get_ne_ret, vec_set_ne_ret,
         get_int_constant_ne_ret])

theorem combine_operand_no_ret {debug : Bool} {s : State} {compare : Value} {msg : String}
    {g : cpp_graph}
    (h : combine_operand debug s compare = Except.error (Stop.ret msg g)) : False := by
  unfold combine_operand at h
  simp only [bind, Except.bind, pure, Except.pure, throw, throwThe, MonadExceptOf.throw] at h
  repeat' split at h
  all_goals first
    | (cases h; done)
    | (cases h
       simp_all [CPPAD_ASSERT_UNKNOWN_ne_ret, vec_get_ne_ret, vec_set_ne_ret,
         get_int_constant_ne_ret])

theorem combine_loop_no_ret {debug : Bool} {s : State} {operands : List Value} {msg : String}
    {g : cpp_graph}
    (h : combine_loop debug s operands = Except.error (Stop.ret msg g)) : False := by
  induction operands generalizing s with
  | nil => simp [combine_loop, pure, Except.pure] at h
  | cons compare rest ih =>
    simp only [combine_loop, bind, Except.bind] at h
    split at h
    · rename_i e he
      cases h
      exact combine_operand_no_ret he
    · exact ih h

theorem step_or_no_ret {debug : Bool} {s : State} {I : Instruction} {msg : String}
    {g : cpp_graph} (h : step_or debug s I = Except.error (Stop.ret msg g)) : False := by
  unfold step_or at h
  simp only [bind, Except.bind, pure, Except.pure, throw, throwThe, MonadExceptOf.throw] at h
  repeat' split at h
  all_goals first
    | (cases h; done)
    | exact combine_loop_no_ret h
    | (cases h
       simp_all [CPPAD_ASSERT_UNKNOWN_ne_ret, vec_get_ne_ret, vec_set_ne_ret,
         get_int_constant_ne_ret])

theorem step_zext_no_ret {debug : Bool} {s : State} {I : Instruction} {msg : String}
    {g : cpp_graph} (h : step_zext debug s I = Except.error (Stop.ret msg g)) : False := by
  unfold step_zext at h
  simp only [bind, Except.bind, pure, Except.pure, throw, throwThe, MonadExceptOf.throw] at h
  repeat' split at h
  all_goals first
    | (cases h; done)
    | exact step_or_no_ret h
    | (cases h
       simp_all [CPPAD_ASSERT_UNKNOWN_ne_ret, vec_get_ne_ret, vec_set_ne_ret,
         get_int_constant_ne_ret])

theorem step_ret_no_ret {debug : Bool} {s : State} {I : Instruction} {msg : String}
    {g : cpp_graph} (h : step_ret debug s I = Except.error (Stop.ret msg g)) : False := by
  unfold step_ret at h
  simp only [bind, Except.bind, pure, Except.pure, throw, throwThe, MonadExceptOf.throw] at h
  repeat' split at h
  all_goals first
    | (cases h; done)
    | (cases h
       simp_all [CPPAD_ASSERT_UNKNOWN_ne_ret, vec_get_ne_ret, vec_set_ne_ret,
         get_int_constant_ne_ret])

theorem step_select_no_ret {debug : Bool} {s : State} {k : Nat} {I : Instruction}
    {msg : String} {g : cpp_graph}
    (h : step_select debug s k I = Except.error (Stop.ret msg g)) : False := by
  unfold step_select at h
  simp only [bind, Except.bind, pure, Except.pure, throw, throwThe, MonadExceptOf.throw] at h
  repeat' split at h
  all_goals first
    | (cases h; done)
    | (cases h
       simp_all [CPPAD_ASSERT_UNKNOWN_ne_ret, vec_get_ne_ret, vec_set_ne_ret,
         get_int_constant_ne_ret])

theorem step_store_no_ret {debug : Bool} {s : State} {I : Instruction} {msg : String}
    {g : cpp_graph} (h : step_store debug s I = Except.error (Stop.ret msg g)) : False := by
  unfold step_store at h
  simp only [bind, Except.bind, pure, Except.pure, throw, throwThe, MonadExceptOf.throw] at h
  repeat' split at h
  all_goals first
    | (cases h; done)
    | (cases h
       simp_all [CPPAD_ASSERT_UNKNOWN_ne_ret, vec_get_ne_ret, vec_set_ne_ret,
         get_int_constant_ne_ret])

theorem atomic_arg_loop_no_ret {debug : Bool} {index2node : List Nat} {n i : Nat}
    {g0 g : cpp_graph} {msg : String}
    (h : atomic_arg_loop debug index2node n i g0 = Except.error (Stop.ret msg g)) : False := by
  induction n generalizing i g0 with
  | zero => simp [atomic_arg_loop, pure, Except.pure] at h
  | succ n ih =>
    simp only [atomic_arg_loop, bind, Except.bind] at h
    repeat' split at h
    all_goals first
      | (cases h; done)
      | exact ih h
      | (cases h
         simp_all [CPPAD_ASSERT_UNKNOWN_ne_ret, vec_get_ne_ret, vec_set_ne_ret,
           get_int_constant_ne_ret])

theorem call_name_no_ret {debug : Bool} {I : Instruction} {msg : String} {g : cpp_graph}
    (h : call_name debug I = Except.error (Stop.ret msg g)) : False := by
  unfold call_name at h
  simp only [bind, Except.bind, pure, Except.pure, throw, throwThe, MonadExceptOf.throw] at h
  repeat' split at h
  all_goals first
    | (cases h; done)
    | (cases h
       simp_all [CPPAD_ASSERT_UNKNOWN_ne_ret, vec_get_ne_ret, vec_set_ne_ret,
         get_int_constant_ne_ret])

theorem call_atomic_no_ret {debug : Bool} {s : State} {I : Instruction} {str msg : String}
    {g : cpp_graph} (h : call_atomic debug s I str = Except.error (Stop.ret msg g)) : False := by
  unfold call_atomic at h
  simp only [bind, Except.bind, pure, Except.pure, throw, throwThe, MonadExceptOf.throw] at h
  repeat' split at h
  all_goals first
    | (cases h; done)
    | (cases h
       simp_all [CPPAD_ASSERT_UNKNOWN_ne_ret, vec_get_ne_ret, vec_set_ne_ret,
         get_int_constant_ne_ret]
       done)
    | (cases h
       rename_i hloop
       exact atomic_arg_loop_no_ret hloop)

theorem call_discrete_no_ret {debug : Bool} {s : State} {k : Nat} {I : Instruction}
    {str msg : String} {g : cpp_graph}
    (h : call_discrete debug s k I str = Except.error (Stop.ret msg g)) : False := by
  unfold call_discrete at h
  simp only [bind, Except.bind, pure, Except.pure, throw, throwThe, MonadExceptOf.throw] at h
  repeat' split at h
  all_goals first
    | (cases h; done)
    | (cases h
       simp_all [CPPAD_ASSERT_UNKNOWN_ne_ret, vec_get_ne_ret, vec_set_ne_ret,
         get_int_constant_ne_ret])

theorem call_math_ret {debug : Bool} {s : State} {k : Nat} {I : Instruction} {str msg : String}
    {g : cpp_graph} (h : call_math debug s k I str = Except.error (Stop.ret msg g)) :
    name2graph_op.lookup str = 0 ∧ msg = cannot_call_msg str ∧ g = s.graph_obj := by
  unfold call_math at h
  simp only [bind, Except.bind, pure, Except.pure, throw, throwThe, MonadExceptOf.throw] at h
  split at h
  · rename_i hz
    cases h
    exact ⟨hz, rfl, rfl⟩
  · exfalso
    repeat' split at h
    all_goals first
      | (cases h; done)
      | (cases h
         simp_all [CPPAD_ASSERT_UNKNOWN_ne_ret, vec_get_ne_ret, vec_set_ne_ret,
           get_int_constant_ne_ret])

theorem call_math_ok {debug : Bool} {s s1 : State} {k : Nat} {I : Instruction} {str : String}
    (h : call_math debug s k I str = Except.ok s1) : name2graph_op.lookup str ≠ 0 := by
  unfold call_math at h
  simp only [bind, Except.bind, pure, Except.pure, throw, throwThe, MonadExceptOf.throw] at h
  split at h
  · cases h
  · assumption

theorem vec_get_ok_iff {α : Type} (debug : Bool) (vec : List α) (i : Nat) (x : α) :
    vec_get debug vec i = Except.ok x ↔ vec[i]? = some x := by
  unfold vec_get
  cases h : vec[i]? <;> simp

theorem vec_set_ok_iff {α : Type} (debug : Bool) (vec : List α) (i : Nat) (x : α)
    (vec1 : List α) :
    vec_set debug vec i x = Except.ok vec1 ↔ i < vec.length ∧ vec1 = vec.set i x := by
  unfold vec_set
  split
  · simp_all [eq_comm]
  · simp_all

theorem get_int_constant_ok_iff (debug : Bool) (v : Value) (n : Nat) :
    get_int_constant debug v = Except.ok n ↔ v = Value.ConstantInt n := by
  unfold get_int_constant
  split <;> simp_all

theorem call_name_ok {debug : Bool} {I : Instruction} {str : String}
    (h : call_name debug I = Except.ok str) : ∃ v, callee I = some v ∧ str = v.getName := by
  unfold call_name at h
  unfold callee
  simp only [bind, Except.bind, pure, Except.pure] at h
  repeat' split at h
  all_goals first
    | (cases h
       simp_all [vec_get_ok_iff])
    | cases h

theorem step_call_ret {debug : Bool} {s : State} {k : Nat} {I : Instruction} {msg : String}
    {g : cpp_graph} (h : step_call debug s k I = Except.error (Stop.ret msg g)) :
    I.operands.length ≠ 7 ∧ ∃ v, callee I = some v ∧
      starts_with v.getName "discrete_" = false ∧ name2graph_op.lookup v.getName = 0 ∧
      msg = cannot_call_msg v.getName ∧ g = s.graph_obj := by
  unfold step_call at h
  simp only [bind, Except.bind] at h
  split at h
  · rename_i e he
    cases h
    exact (call_name_no_ret he).elim
  · rename_i str hstr
    obtain ⟨v, hv, rfl⟩ := call_name_ok hstr
    split at h
    · exact (call_atomic_no_ret h).elim
    · rename_i h7
      split at h
      · exact (call_discrete_no_ret h).elim
      · rename_i hd
        obtain ⟨h1, h2, h3⟩ := call_math_ret h
        refine ⟨h7, v, hv, ?_, h1, h2, h3⟩
        simpa using hd

theorem step_call_ok {debug : Bool} {s s1 : State} {k : Nat} {I : Instruction}
    (h : step_call debug s k I = Except.ok s1) (h7 : I.operands.length ≠ 7) (v : Value)
    (hv : callee I = some v) (hd : starts_with v.getName "discrete_" = false) :
    name2graph_op.lookup v.getName ≠ 0 := by
  unfold step_call at h
  simp only [bind, Except.bind] at h
  split at h
  · cases h
  · rename_i str hstr
    obtain ⟨v2, hv2, rfl⟩ := call_name_ok hstr
    rw [hv] at hv2
    cases hv2
    rw [if_neg h7] at h
    simp only [hd] at h
    exact call_math_ok h

/-- A `return msg;` of the second pass comes from the default case of the switch or from a
callee name that does not resolve, and the graph is the one before the instruction. -/
theorem step_ret_cases {debug : Bool} {s : State} {k : Nat} {I : Instruction} {msg : String}
    {g : cpp_graph} (h : step debug s k I = Except.error (Stop.ret msg g)) :
    g = s.graph_obj ∧
    ((∃ op_name, I.opcode = Opcode.Other op_name ∧ msg = unsupported_msg op_name) ∨
     (I.opcode = Opcode.Call ∧ I.operands.length ≠ 7 ∧ ∃ v, callee I = some v ∧
        starts_with v.getName "discrete_" = false ∧ name2graph_op.lookup v.getName = 0 ∧
        msg = cannot_call_msg v.getName)) := by
  unfold step at h
  split at h
  case h_18 op_name hop =>
    simp only [throw, throwThe, MonadExceptOf.throw] at h
    cases h
    exact ⟨rfl, Or.inl ⟨op_name, hop, rfl⟩⟩
  case h_4 hop =>
    obtain ⟨h7, v, hv, hd, hz, hm, hg⟩ := step_call_ret h
    exact ⟨hg, Or.inr ⟨hop, h7, v, hv, hd, hz, hm⟩⟩
  all_goals first
    | exact (step_load_no_ret h).elim
    | exact (step_br_no_ret h).elim
    | exact (step_binary_no_ret h).elim
    | exact (step_cmp_no_ret h).elim
    | exact (step_gep_no_ret h).elim
    | exact (step_icmp_no_ret h).elim
    | exact (step_fneg_no_ret h).elim
    | exact (step_zext_no_ret h).elim
    | exact (step_or_no_ret h).elim
    | exact (step_ret_no_ret h).elim
    | exact (step_select_no_ret h).elim
    | exact (step_store_no_ret h).elim
    | cases h

/-- An instruction that the second pass gets past has a supported operator code, and if it is
a call of a callee by name, the name resolves. -/
theorem step_ok_cases {debug : Bool} {s s1 : State} {k : Nat} {I : Instruction}
    (h : step debug s k I = Except.ok s1) :
    I.opcode ∈ supported_opcodes ∧
    (I.opcode = Opcode.Call → I.operands.length ≠ 7 → ∀ v, callee I = some v →
      starts_with v.getName "discrete_" = false → name2graph_op.lookup v.getName ≠ 0) := by
  unfold step at h
  split at h
  case h_18 op_name hop =>
    simp only [throw, throwThe, MonadExceptOf.throw] at h
    cases h
  case h_4 hop =>
    refine ⟨by rw [hop]; decide, fun _ h7 v hv hd => step_call_ok h h7 v hv hd⟩
  all_goals
    rename_i hop
    refine ⟨by rw [hop]; decide, fun hc => ?_⟩
    rw [hop] at hc
    cases hc

theorem pass1_atomic_no_ret {debug : Bool} {s : State} {I : Instruction} {msg : String}
    {g : cpp_graph} (h : pass1_atomic debug s I = Except.error (Stop.ret msg g)) : False := by
  unfold pass1_atomic at h
  simp only [bind, Except.bind, pure, Except.pure] at h
  repeat' split at h
  all_goals first
    | (cases h
       simp_all [CPPAD_ASSERT_UNKNOWN_ne_ret, vec_get_ne_ret, vec_set_ne_ret,
         get_int_constant_ne_ret])
    | cases h

theorem pass1_no_ret {debug : Bool} {D V : Nat} {s : State} {F : List Instruction}
    {msg : String} {g : cpp_graph}
    (h : pass1 debug D V s F = Except.error (Stop.ret msg g)) : False := by
  induction F generalizing s with
  | nil => simp [pass1, pure, Except.pure] at h
  | cons I rest ih =>
    simp only [pass1, bind, Except.bind] at h
    split at h
    · rename_i e he
      cases h
      exact pass1_atomic_no_ret he
    · exact ih h

theorem llvm_ir.before_pass2_no_ret {debug : Bool} {ir_obj : llvm_ir} {graph_obj : cpp_graph}
    {msg : String} {g : cpp_graph}
    (h : llvm_ir.before_pass2 debug ir_obj graph_obj = Except.error (Stop.ret msg g)) :
    False := by
  unfold llvm_ir.before_pass2 at h
  simp only [bind, Except.bind, pure, Except.pure] at h
  split at h
  · rename_i e he
    cases h
    exact pass1_no_ret he
  · cases h

theorem msg_init_append_ne_empty (tail : String) : msg_init ++ tail ≠ "" := by
  intro h
  have h2 := congrArg String.length h
  rw [String.length_append] at h2
  have h3 : msg_init.length = 19 := by decide
  have h4 : "".length = 0 := by decide
  omega

theorem unsupported_msg_ne_empty (op_name : String) : unsupported_msg op_name ≠ "" :=
  msg_init_append_ne_empty _

theorem cannot_call_msg_ne_empty (name : String) : cannot_call_msg name ≠ "" :=
  msg_init_append_ne_empty _

theorem no_store_msg_ne_empty (i : Nat) : no_store_msg i ≠ "" := by
  unfold no_store_msg
  rw [String.append_assoc]
  exact msg_init_append_ne_empty _

theorem pass2_ok_conds {debug : Bool} {s s1 : State} {k : Nat} {F : List Instruction}
    (h : pass2 debug s k F = Except.ok s1) : opcodes_supported F ∧ calls_resolve F := by
  induction F generalizing s k with
  | nil =>
    exact ⟨fun I hI => (by cases hI), fun I hI => (by cases hI)⟩
  | cons I rest ih =>
    simp only [pass2, bind, Except.bind] at h
    split at h
    · cases h
    · rename_i s2 hs2
      obtain ⟨h1, h2⟩ := ih h
      obtain ⟨h3, h4⟩ := step_ok_cases hs2
      constructor
      · intro J hJ
        rcases List.mem_cons.1 hJ with rfl | hJ
        · exact h3
        · exact h1 J hJ
      · intro J hJ
        rcases List.mem_cons.1 hJ with rfl | hJ
        · exact h4
        · exact h2 J hJ

theorem pass2_ret_ne_empty {debug : Bool} {s : State} {k : Nat} {F : List Instruction}
    {msg : String} {g : cpp_graph}
    (h : pass2 debug s k F = Except.error (Stop.ret msg g)) : msg ≠ "" := by
  induction F generalizing s k with
  | nil => simp [pass2, pure, Except.pure] at h
  | cons I rest ih =>
    simp only [pass2, bind, Except.bind] at h
    split at h
    · rename_i e he
      cases h
      obtain ⟨_, h1 | h1⟩ := step_ret_cases he
      · obtain ⟨op_name, _, rfl⟩ := h1
        exact unsupported_msg_ne_empty op_name
      · obtain ⟨_, _, v, _, _, _, rfl⟩ := h1
        exact cannot_call_msg_ne_empty _
    · exact ih h

theorem llvm_ir.state_at_ret_ne_empty {debug : Bool} {ir_obj : llvm_ir} {graph_obj : cpp_graph}
    {k : Nat} {msg : String} {g : cpp_graph}
    (h : llvm_ir.state_at debug ir_obj graph_obj k = Except.error (Stop.ret msg g)) :
    msg ≠ "" := by
  unfold llvm_ir.state_at at h
  simp only [bind, Except.bind] at h
  split at h
  · rename_i e he
    cases h
    exact (llvm_ir.before_pass2_no_ret he).elim
  · exact pass2_ret_ne_empty h

/-! ## The finalizer -/

/-- The loop over the dependent slots succeeds exactly when every slot `i, ..., i + n - 1`
exists and is not zero, and then appends these slots. -/
theorem dependent_loop_ok_iff (debug : Bool) (index2node : List Nat) (n i : Nat)
    (g g1 : cpp_graph) :
    dependent_loop debug index2node n i g = Except.ok g1 ↔
      (∀ j, j < n → ∃ node, index2node[i + j]? = some node ∧ node ≠ 0) ∧
      g1 = { g with dependent_vec := g.dependent_vec ++ (index2node.drop i).take n } := by
  induction n generalizing i g with
  | zero => simp [dependent_loop, pure, Except.pure, eq_comm]
  | succ n ih =>
    simp only [dependent_loop, bind, Except.bind, vec_get]
    cases hv : index2node[i]? with
    | none =>
      simp only [reduceCtorEq, false_iff, not_and]
      intro hall
      obtain ⟨node, hn, _⟩ := hall 0 (by omega)
      simp [hv] at hn
    | some node =>
      by_cases hz : node = 0
      · subst hz
        simp only [if_true, throw, throwThe, MonadExceptOf.throw, reduceCtorEq, false_iff, not_and]
        intro hall
        obtain ⟨node, hn, hne⟩ := hall 0 (by omega)
        simp [hv] at hn
        exact absurd hn.symm hne
      · simp only [hz, if_false, pure, Except.pure]
        rw [ih (i + 1)]
        have hi : i < index2node.length := by
          rcases List.getElem?_eq_some.1 hv with ⟨h, _⟩
          exact h
        have hdrop : (index2node.drop i).take (n + 1) =
            node :: (index2node.drop (i + 1)).take n := by
          rw [List.drop_eq_getElem_cons hi, List.take_succ_cons]
          rcases List.getElem?_eq_some.1 hv with ⟨_, h⟩
          rw [h]
        constructor
        · rintro ⟨hall, rfl⟩
          constructor
          · intro j hj
            cases j with
            | zero => exact ⟨node, by simpa using hv, hz⟩
            | succ j =>
              have := hall j (by omega)
              have he : i + (j + 1) = i + 1 + j := by omega
              rw [he]
              exact this
          · simp [cpp_graph.dependent_vec_push_back, hdrop]
        · rintro ⟨hall, rfl⟩
          constructor
          · intro j hj
            have := hall (j + 1) (by omega)
            have he : i + (j + 1) = i + 1 + j := by omega
            rw [he] at this
            exact this
          · simp [cpp_graph.dependent_vec_push_back, hdrop]

/-- The loop over the dependent slots returns a message exactly at the first slot that is
zero, and the message names that slot. -/
theorem dependent_loop_ret_iff (debug : Bool) (index2node : List Nat) (n i : Nat)
    (g g1 : cpp_graph) (msg : String) :
    dependent_loop debug index2node n i g = Except.error (Stop.ret msg g1) ↔
      ∃ j, j < n ∧ index2node[i + j]? = some 0 ∧
        (∀ j2, j2 < j → ∃ node, index2node[i + j2]? = some node ∧ node ≠ 0) ∧
        msg = no_store_msg (i + j) ∧
        g1 = { g with dependent_vec := g.dependent_vec ++ (index2node.drop i).take j } := by
  induction n generalizing i g with
  | zero => simp [dependent_loop, pure, Except.pure]
  | succ n ih =>
    simp only [dependent_loop, bind, Except.bind, vec_get]
    cases hv : index2node[i]? with
    | none =>
      simp only [invalid_access]
      constructor
      · intro h
        split at h <;> cases h
      · rintro ⟨j, hj, hz, hmin, _⟩
        exfalso
        cases j with
        | zero => simp [hv] at hz
        | succ j =>
          obtain ⟨node, hn, _⟩ := hmin 0 (by omega)
          simp [hv] at hn
    | some node =>
      have hi : i < index2node.length := by
        rcases List.getElem?_eq_some.1 hv with ⟨h, _⟩
        exact h
      by_cases hz : node = 0
      · subst hz
        simp only [if_true, throw, throwThe, MonadExceptOf.throw]
        constructor
        · intro h
          cases h
          exact ⟨0, by omega, by simpa using hv, fun j2 hj2 => by omega, rfl, by simp⟩
        · rintro ⟨j, hj, hz, hmin, rfl, rfl⟩
          cases j with
          | zero => simp [no_store_msg]
          | succ j =>
            obtain ⟨node, hn, hne⟩ := hmin 0 (by omega)
            simp [hv] at hn
            exact absurd hn.symm hne
      · simp only [hz, if_false, pure, Except.pure]
        rw [ih (i + 1)]
        constructor
        · rintro ⟨j, hj, hzero, hmin, rfl, rfl⟩
          refine ⟨j + 1, by omega, ?_, ?_, ?_, ?_⟩
          · have he : i + (j + 1) = i + 1 + j := by omega
            rw [he]; exact hzero
          · intro j2 hj2
            cases j2 with
            | zero => exact ⟨node, by simpa using hv, hz⟩
            | succ j2 =>
              have he : i + (j2 + 1) = i + 1 + j2 := by omega
              rw [he]; exact hmin j2 (by omega)
          · have he : i + (j + 1) = i + 1 + j := by omega
            rw [he]
          · rw [List.drop_eq_getElem_cons hi, List.take_succ_cons]
            rcases List.getElem?_eq_some.1 hv with ⟨_, h⟩
            simp [cpp_graph.dependent_vec_push_back, h]
        · rintro ⟨j, hj, hzero, hmin, rfl, rfl⟩
          cases j with
          | zero =>
            exfalso
            simp [hv] at hzero
            exact hz hzero
          | succ j =>
            refine ⟨j, by omega, ?_, ?_, ?_, ?_⟩
            · have he : i + (j + 1) = i + 1 + j := by omega
              rw [← he]; exact hzero
            · intro j2 hj2
              have := hmin (j2 + 1) (by omega)
              have he : i + (j2 + 1) = i + 1 + j2 := by omega
              rw [← he]; exact this
            · have he : i + (j + 1) = i + 1 + j := by omega
              rw [he]
            · rw [List.drop_eq_getElem_cons hi, List.take_succ_cons]
              rcases List.getElem?_eq_some.1 hv with ⟨_, h⟩
              simp [cpp_graph.dependent_vec_push_back, h]

/-! ## What a step of the second pass leaves unchanged -/

theorem graph_frame_refl (g : cpp_graph) : graph_frame g g :=
  ⟨rfl, rfl, rfl, rfl, rfl⟩

theorem graph_frame_trans {g g1 g2 : cpp_graph} (h1 : graph_frame g g1)
    (h2 : graph_frame g1 g2) : graph_frame g g2 := by
  obtain ⟨a1, a2, a3, a4, a5⟩ := h1
  obtain ⟨b1, b2, b3, b4, b5⟩ := h2
  exact ⟨b1.trans a1, b2.trans a2, b3.trans a3, b4.trans a4, b5.trans a5⟩

theorem atomic_arg_loop_frame {debug : Bool} {index2node : List Nat} {n i : Nat}
    {g g1 : cpp_graph} (h : atomic_arg_loop debug index2node n i g = Except.ok g1) :
    graph_frame g g1 ∧ g1.operator_vec = g.operator_vec ∧
      g1.atomic_name_vec = g.atomic_name_vec ∧ g1.discrete_name_vec = g.discrete_name_vec := by
  induction n generalizing i g with
  | zero =>
    simp only [atomic_arg_loop, pure, Except.pure] at h
    cases h
    exact ⟨graph_frame_refl _, rfl, rfl, rfl⟩
  | succ n ih =>
    simp only [atomic_arg_loop, bind, Except.bind] at h
    split at h
    · cases h
    · split at h
      · cases h
      · obtain ⟨h1, h2, h3, h4⟩ := ih h
        refine ⟨graph_frame_trans ?_ h1, ?_, ?_, ?_⟩
        · simp [graph_frame, cpp_graph.operator_arg_push_back]
        · simpa [cpp_graph.operator_arg_push_back] using h2
        · simpa [cpp_graph.operator_arg_push_back] using h3
        · simpa [cpp_graph.operator_arg_push_back] using h4

/-- The state after the combine loop differs from the state before only in the operators of
the graph. -/
theorem combine_loop_frame {debug : Bool} {s s1 : State} {operands : List Value}
    (h : combine_loop debug s operands = Except.ok s1) :
    s1 = { s with graph_obj := s1.graph_obj } ∧ graph_frame s.graph_obj s1.graph_obj ∧
      s1.graph_obj.atomic_name_vec = s.graph_obj.atomic_name_vec ∧
      s1.graph_obj.discrete_name_vec = s.graph_obj.discrete_name_vec := by
  induction operands generalizing s with
  | nil =>
    simp only [combine_loop, pure, Except.pure] at h
    cases h
    exact ⟨rfl, graph_frame_refl _, rfl, rfl⟩
  | cons compare rest ih =>
    simp only [combine_loop, bind, Except.bind] at h
    split at h
    · cases h
    · rename_i s2 hs2
      obtain ⟨h1, h2, h3, h4⟩ := ih h
      have key : s2 = { s with graph_obj := s2.graph_obj } ∧
          graph_frame s.graph_obj s2.graph_obj ∧
          s2.graph_obj.atomic_name_vec = s.graph_obj.atomic_name_vec ∧
          s2.graph_obj.discrete_name_vec = s.graph_obj.discrete_name_vec := by
        unfold combine_operand at hs2
        simp only [bind, Except.bind, pure, Except.pure] at hs2
        repeat' split at hs2
        all_goals first
          | (cases hs2
             exact ⟨rfl, by simp [graph_frame, cpp_graph.operator_arg_push_back,
               cpp_graph.operator_vec_push_back], rfl, rfl⟩)
          | cases hs2
      obtain ⟨k1, k2, k3, k4⟩ := key
      refine ⟨?_, graph_frame_trans k2 h2, h3.trans k3, h4.trans k4⟩
      rw [h1]
      rw [k1]

theorem step_or_frame {debug : Bool} {s s1 : State} {I : Instruction}
    (h : step_or debug s I = Except.ok s1) :
    s1 = { s with graph_obj := s1.graph_obj } ∧ graph_frame s.graph_obj s1.graph_obj ∧
      s1.graph_obj.atomic_name_vec = s.graph_obj.atomic_name_vec ∧
      s1.graph_obj.discrete_name_vec = s.graph_obj.discrete_name_vec := by
  unfold step_or at h
  simp only [bind, Except.bind] at h
  split at h
  · cases h
  · exact combine_loop_frame h

theorem step_zext_frame {debug : Bool} {s s1 : State} {I : Instruction}
    (h : step_zext debug s I = Except.ok s1) :
    s1 = { s with graph_obj := s1.graph_obj, count_zext := s1.count_zext } ∧
      graph_frame s.graph_obj s1.graph_obj ∧
      s1.graph_obj.atomic_name_vec = s.graph_obj.atomic_name_vec ∧
      s1.graph_obj.discrete_name_vec = s.graph_obj.discrete_name_vec := by
  unfold step_zext at h
  simp only [bind, Except.bind] at h
  split at h
  · cases h
  · obtain ⟨h1, h2, h3, h4⟩ := step_or_frame h
    refine ⟨?_, ?_, ?_, ?_⟩
    · rw [h1]
      split <;> rfl
    · split at h2 <;> exact h2
    · split at h3 <;> exact h3
    · split at h4 <;> exact h4

/-- A step of the second pass leaves the scalars, the constants and the dependent list of the
graph and the map `llvm_base2index2node` unchanged. -/
theorem step_frame {debug : Bool} {s s1 : State} {k : Nat} {I : Instruction}
    (h : step debug s k I = Except.ok s1) :
    graph_frame s.graph_obj s1.graph_obj ∧
      s1.llvm_base2index2node = s.llvm_base2index2node := by
  unfold step at h
  split at h
  case h_13 =>
    obtain ⟨h1, h2, _, _⟩ := step_zext_frame h
    exact ⟨h2, by rw [h1]⟩
  case h_14 =>
    obtain ⟨h1, h2, _, _⟩ := step_or_frame h
    exact ⟨h2, by rw [h1]⟩
  all_goals
    simp only [step_load, step_br, step_call, step_binary, step_fcmp, step_cmp, step_gep,
      step_icmp, step_fneg, step_ret, step_select, step_store, call_atomic, call_discrete,
      call_math, bind, Except.bind, pure, Except.pure, throw, throwThe,
      MonadExceptOf.throw] at h
    repeat' split at h
    all_goals first
      | (cases h
         have hloop := ‹atomic_arg_loop _ _ _ _ _ = Except.ok _›
         obtain ⟨h1, h2, h3, h4⟩ := atomic_arg_loop_frame hloop
         refine ⟨graph_frame_trans ?_ h1, rfl⟩
         simp [graph_frame, cpp_graph.operator_arg_push_back,
           cpp_graph.operator_vec_push_back])
      | (cases h
         refine ⟨?_, rfl⟩
         simp [graph_frame, cpp_graph.operator_arg_push_back,
           cpp_graph.operator_vec_push_back, binary_op_push]
         try (split <;> simp [cpp_graph.operator_vec_push_back]))
      | cases h

/-! ## The first pass -/

theorem pass1_frame_refl (s : State) : pass1_frame s s :=
  ⟨rfl, rfl, rfl, rfl, rfl, rfl, rfl⟩

theorem pass1_frame_trans {s s1 s2 : State} (h1 : pass1_frame s s1) (h2 : pass1_frame s1 s2) :
    pass1_frame s s2 := by
  obtain ⟨a1, a2, a3, a4, a5, a6, a7⟩ := h1
  obtain ⟨b1, b2, b3, b4, b5, b6, b7⟩ := h2
  refine ⟨b1.trans a1, b2.trans a2, b3.trans a3, b4.trans a4, b5.trans a5, b6.trans a6, ?_⟩
  rw [b7, a7]

theorem pass1_operand_frame (D V : Nat) (s : State) (operand : Value) :
    pass1_frame s (pass1_operand D V s operand) ∧
      (pass1_operand D V s operand).llvm_base2index2node = s.llvm_base2index2node ∧
      (pass1_operand D V s operand).vec_index2node = s.vec_index2node := by
  unfold pass1_operand
  cases operand.constantFP? with
  | none => exact ⟨pass1_frame_refl s, rfl, rfl⟩
  | some dbl =>
    dsimp only
    split
    · refine ⟨?_, rfl, rfl⟩
      simp [pass1_frame, cpp_graph.constant_vec_push_back]
    · exact ⟨pass1_frame_refl s, rfl, rfl⟩

theorem pass1_operands_frame (D V : Nat) (s : State) (operands : List Value) :
    pass1_frame s (operands.foldl (pass1_operand D V) s) ∧
      (operands.foldl (pass1_operand D V) s).llvm_base2index2node = s.llvm_base2index2node ∧
      (operands.foldl (pass1_operand D V) s).vec_index2node = s.vec_index2node := by
  induction operands generalizing s with
  | nil => exact ⟨pass1_frame_refl s, rfl, rfl⟩
  | cons operand rest ih =>
    obtain ⟨h1, h2, h3⟩ := pass1_operand_frame D V s operand
    obtain ⟨k1, k2, k3⟩ := ih (pass1_operand D V s operand)
    exact ⟨pass1_frame_trans h1 k1, k2.trans h2, k3.trans h3⟩

theorem DenseMap.insert_bound {κ : Type} [DecidableEq κ] (m : DenseMap κ Nat) (k : κ) (v : Nat)
    (P : Nat → Prop) (hm : ∀ k2 x, DenseMap.find? m k2 = some x → P x) (hv : P v) :
    ∀ k2 x, DenseMap.find? (m.insert k v) k2 = some x → P x := by
  intro k2 x hx
  rcases DenseMap.find?_insert_cases m k k2 v x hx with h | ⟨_, _, rfl⟩
  · exact hm k2 x h
  · exact hv

theorem pass1_atomic_effect {debug : Bool} {s s1 : State} {I : Instruction}
    (h : pass1_atomic debug s I = Except.ok s1) :
    pass1_frame s s1 ∧ s1.llvm_value2graph_node = s.llvm_value2graph_node ∧
      s1.graph_obj = s.graph_obj ∧
      (1 ≤ s.vec_index2node.length → scattered_ok s →
        1 ≤ s1.vec_index2node.length ∧ scattered_ok s1) := by
  unfold pass1_atomic at h
  simp only [bind, Except.bind, pure, Except.pure] at h
  repeat' split at h
  all_goals first
    | (cases h
       refine ⟨?_, rfl, rfl, ?_⟩
       · simp [pass1_frame]
       · intro hlen hok
         refine ⟨by simp, ?_⟩
         intro base vec_index hfind
         simp only [List.length_append, List.length_singleton]
         have := DenseMap.insert_bound s.llvm_base2index2node _ s.vec_index2node.length
           (fun x => 1 ≤ x ∧ x < s.vec_index2node.length + 1)
           (fun k2 x hx => ⟨(hok k2 x hx).1, Nat.lt_succ_of_lt (hok k2 x hx).2⟩)
           ⟨hlen, Nat.lt_succ_self _⟩ base vec_index hfind
         exact this)
    | (cases h
       exact ⟨pass1_frame_refl _, rfl, rfl, fun hlen hok => ⟨hlen, hok⟩⟩)
    | cases h

theorem pass1_step_effect {debug : Bool} {D V : Nat} {s s1 : State} {I : Instruction}
    (h : pass1_step debug D V s I = Except.ok s1) :
    pass1_frame s s1 ∧
      (1 ≤ s.vec_index2node.length → scattered_ok s →
        1 ≤ s1.vec_index2node.length ∧ scattered_ok s1) := by
  unfold pass1_step at h
  obtain ⟨h1, h2, h3⟩ := pass1_operands_frame D V s I.operands
  obtain ⟨k1, _, _, k4⟩ := pass1_atomic_effect h
  refine ⟨pass1_frame_trans h1 k1, fun hlen hok => k4 (by rw [h3]; exact hlen) ?_⟩
  intro base vec_index hfind
  rw [h2] at hfind
  rw [h3]
  exact hok base vec_index hfind

theorem pass1_effect {debug : Bool} {D V : Nat} {s s1 : State} {F : List Instruction}
    (h : pass1 debug D V s F = Except.ok s1) :
    pass1_frame s s1 ∧
      (1 ≤ s.vec_index2node.length → scattered_ok s →
        1 ≤ s1.vec_index2node.length ∧ scattered_ok s1) := by
  induction F generalizing s with
  | nil =>
    simp only [pass1, pure, Except.pure] at h
    cases h
    exact ⟨pass1_frame_refl _, fun hlen hok => ⟨hlen, hok⟩⟩
  | cons I rest ih =>
    simp only [pass1, bind, Except.bind] at h
    split at h
    · cases h
    · rename_i s2 hs2
      obtain ⟨h1, h2⟩ := pass1_step_effect hs2
      obtain ⟨k1, k2⟩ := ih h
      exact ⟨pass1_frame_trans h1 k1, fun hlen hok => k2 (h2 hlen hok).1 (h2 hlen hok).2⟩

/-- When the second pass starts, the graph holds only the scalars and the constants, the node
counter is `D + V` plus the number of constants, the input pointer is bound to node 1, and
the output pointer has a scattered table. -/
theorem llvm_ir.before_pass2_effect {debug : Bool} {ir_obj : llvm_ir} {graph_obj : cpp_graph}
    {s : State} (h : llvm_ir.before_pass2 debug ir_obj graph_obj = Except.ok s) :
    s.graph_obj = { empty_graph ir_obj.function_name_ ir_obj.n_dynamic_ind_
        ir_obj.n_variable_ind_ with constant_vec := s.graph_obj.constant_vec } ∧
      s.result_node = ir_obj.n_dynamic_ind_ + ir_obj.n_variable_ind_ +
        s.graph_obj.constant_vec.length ∧
      s.llvm_ptr2graph_node = [(input_ptr, 1)] ∧
      s.llvm_base2first_node = [(input_ptr, 1)] ∧
      s.llvm_compare2info = [] ∧
      s.llvm_base2index2node.lookup output_ptr ≠ 0 ∧
      scattered_ok s := by
  unfold llvm_ir.before_pass2 at h
  simp only [bind, Except.bind, pure, Except.pure] at h
  split at h
  · cases h
  · rename_i s1 hs1
    cases h
    obtain ⟨⟨a1, a2, a3, a4, a5, a6, a7⟩, hsc⟩ := pass1_effect hs1
    obtain ⟨hlen, hok⟩ := hsc (by simp [init_state]) (by
      intro base vec_index hfind
      simp [init_state, DenseMap.find?] at hfind)
    have hok2 : scattered_ok (between_passes debug ir_obj.n_dynamic_ind_
        ir_obj.n_variable_ind_ ir_obj.n_variable_dep_ s1) := by
      intro base vec_index hfind
      simp only [between_passes, List.length_append, List.length_singleton] at hfind ⊢
      exact DenseMap.insert_bound s1.llvm_base2index2node _ s1.vec_index2node.length
        (fun x => 1 ≤ x ∧ x < s1.vec_index2node.length + 1)
        (fun k2 x hx => ⟨(hok k2 x hx).1, Nat.lt_succ_of_lt (hok k2 x hx).2⟩)
        ⟨hlen, Nat.lt_succ_self _⟩ base vec_index hfind
    refine ⟨?_, ?_, ?_, ?_, ?_, ?_, hok2⟩
    · simp only [between_passes]
      rw [a7]
      simp [init_state, empty_graph, cpp_graph.initialize]
    · simp [between_passes]
    · simp only [between_passes]
      rw [a1]
      simp [init_state, DenseMap.insert, DenseMap.find?]
    · simp only [between_passes]
      rw [a2]
      simp [init_state, DenseMap.insert, DenseMap.find?]
    · simp only [between_passes]
      rw [a4]
      simp [init_state]
    · simp only [between_passes]
      cases hf : DenseMap.find? s1.llvm_base2index2node output_ptr with
      | some x =>
        rw [DenseMap.insert_of_some _ _ _ x hf, DenseMap.lookup_of_find? _ _ x hf]
        have := (hok output_ptr x hf).1
        omega
      | none =>
        rw [DenseMap.lookup_insert_self _ _ _ hf]
        omega

/-- A store that succeeds either goes to the message buffer and changes nothing, or writes
the node of the stored value into the slot that the element descriptor of the destination
names. -/
theorem step_store_effect {debug : Bool} {s s1 : State} {I : Instruction}
    (h : step_store debug s I = Except.ok s1) :
    (s1 = s ∧ I.operands[1]? = some msg_ptr) ∨
    ∃ operand0 operand1 vec, I.operands[0]? = some operand0 ∧ I.operands[1]? = some operand1 ∧
      operand1 ≠ msg_ptr ∧ s.vec_index2node[store_vec_index s operand1]? = some vec ∧
      (s.llvm_element2info.lookup operand1).index < vec.length ∧
      s1 = { s with
        vec_index2node := s.vec_index2node.set (store_vec_index s operand1)
          (vec.set (s.llvm_element2info.lookup operand1).index
            (s.llvm_value2graph_node.lookup operand0)) } := by
  unfold step_store at h
  simp only [bind, Except.bind, pure, Except.pure] at h
  split at h
  · cases h
  · split at h
    · cases h
    · rename_i operand1 hop1
      rw [vec_get_ok_iff] at hop1
      split at h
      · rename_i hne
        right
        repeat' split at h
        all_goals first
          | (cases h
             have h0 := ‹vec_get debug I.operands 0 = Except.ok _›
             have hv := ‹vec_get debug s.vec_index2node _ = Except.ok _›
             have hs1 := ‹vec_set debug _ (s.llvm_element2info.lookup operand1).index _ =
               Except.ok _›
             have hs2 := ‹vec_set debug s.vec_index2node _ _ = Except.ok _›
             rw [vec_get_ok_iff] at h0 hv
             rw [vec_set_ok_iff] at hs1 hs2
             obtain ⟨hlt, rfl⟩ := hs1
             obtain ⟨_, rfl⟩ := hs2
             exact ⟨_, operand1, _, h0, hop1, hne, hv, hlt, rfl⟩)
          | cases h
      · rename_i heq
        left
        cases h
        refine ⟨rfl, ?_⟩
        rw [hop1]
        simpa using heq

theorem map_length_set_set (l : List (List Nat)) (vi idx node : Nat) (vec : List Nat)
    (hvec : l[vi]? = some vec) :
    (l.set vi (vec.set idx node)).map List.length = l.map List.length := by
  apply List.ext_getElem?
  intro j
  simp only [List.getElem?_map, List.getElem?_set]
  by_cases hj : vi = j
  · subst hj
    simp only [if_true]
    split
    · simp [hvec]
    · rename_i hlt
      have : l[vi]? = none := by
        apply List.getElem?_eq_none
        omega
      rw [this] at hvec
      cases hvec
  · simp [hj]

/-- A step of the second pass keeps the number of scattered tables and the length of each of
them. -/
theorem step_vec_lengths {debug : Bool} {s s1 : State} {k : Nat} {I : Instruction}
    (h : step debug s k I = Except.ok s1) :
    s1.vec_index2node.map List.length = s.vec_index2node.map List.length := by
  unfold step at h
  split at h
  case h_13 =>
    obtain ⟨h1, _, _, _⟩ := step_zext_frame h
    rw [h1]
  case h_14 =>
    obtain ⟨h1, _, _, _⟩ := step_or_frame h
    rw [h1]
  case h_17 =>
    rcases step_store_effect h with ⟨rfl, _⟩ | ⟨op0, op1, vec, _, _, _, hvec, _, rfl⟩
    · rfl
    · exact map_length_set_set _ _ _ _ _ hvec
  all_goals
    simp only [step_load, step_br, step_call, step_binary, step_fcmp, step_cmp, step_gep,
      step_icmp, step_fneg, step_ret, step_select, call_atomic, call_discrete,
      call_math, bind, Except.bind, pure, Except.pure, throw, throwThe,
      MonadExceptOf.throw] at h
    repeat' split at h
    all_goals first
      | (cases h
         rfl)
      | cases h

theorem pass2_frame {debug : Bool} {s s1 : State} {k : Nat} {F : List Instruction}
    (h : pass2 debug s k F = Except.ok s1) :
    graph_frame s.graph_obj s1.graph_obj ∧
      s1.llvm_base2index2node = s.llvm_base2index2node ∧
      s1.vec_index2node.map List.length = s.vec_index2node.map List.length := by
  induction F generalizing s k with
  | nil =>
    simp only [pass2, pure, Except.pure] at h
    cases h
    exact ⟨graph_frame_refl _, rfl, rfl⟩
  | cons I rest ih =>
    simp only [pass2, bind, Except.bind] at h
    split at h
    · cases h
    · rename_i s2 hs2
      obtain ⟨h1, h2⟩ := step_frame hs2
      have h3 := step_vec_lengths hs2
      obtain ⟨k1, k2, k3⟩ := ih h
      exact ⟨graph_frame_trans h1 k1, k2.trans h2, k3.trans h3⟩

/-- In every state that the second pass reaches, the graph has the scalars of the `llvm_ir`
object and an empty dependent list, and the output pointer has a scattered table. -/
theorem llvm_ir.state_at_effect {debug : Bool} {ir_obj : llvm_ir} {graph_obj : cpp_graph}
    {k : Nat} {s : State} (h : llvm_ir.state_at debug ir_obj graph_obj k = Except.ok s) :
    s.graph_obj.function_name = ir_obj.function_name_ ∧
      s.graph_obj.n_dynamic_ind = ir_obj.n_dynamic_ind_ ∧
      s.graph_obj.n_variable_ind = ir_obj.n_variable_ind_ ∧
      s.graph_obj.dependent_vec = [] ∧
      s.llvm_base2index2node.lookup output_ptr ≠ 0 ∧
      s.llvm_base2index2node.lookup output_ptr < s.vec_index2node.length := by
  unfold llvm_ir.state_at at h
  simp only [bind, Except.bind] at h
  split at h
  · cases h
  · rename_i s1 hs1
    obtain ⟨a1, _, _, _, _, a6, a7⟩ := llvm_ir.before_pass2_effect hs1
    obtain ⟨⟨b1, b2, b3, _, b5⟩, b6, b7⟩ := pass2_frame h
    rw [b1, b2, b3, b5, b6, a1]
    refine ⟨rfl, rfl, rfl, rfl, a6, ?_⟩
    have hlen : s.vec_index2node.length = s1.vec_index2node.length := by
      have := congrArg List.length b7
      simpa using this
    rw [hlen]
    cases hf : DenseMap.find? s1.llvm_base2index2node output_ptr with
    | some x =>
      rw [DenseMap.lookup_of_find? _ _ x hf]
      exact (a7 output_ptr x hf).2
    | none =>
      exfalso
      apply a6
      rw [DenseMap.lookup_of_none _ _ hf]
      rfl

/-- The finalizer goes through the scattered table of the output pointer, when the assertions
of the debug build hold. -/
theorem finalize_eq (debug : Bool) (n : Nat) (s : State) (index2node : List Nat)
    (hvec : s.vec_index2node[s.llvm_base2index2node.lookup output_ptr]? = some index2node)
    (hne : s.llvm_base2index2node.lookup output_ptr ≠ 0)
    (hlen : debug = true → index2node.length = n) :
    finalize debug n s = dependent_loop debug index2node n 0 s.graph_obj := by
  unfold finalize
  have h1 : CPPAD_ASSERT_UNKNOWN debug
      (decide (s.llvm_base2index2node.lookup output_ptr ≠ 0)) = Except.ok () :=
    CPPAD_ASSERT_UNKNOWN_of _ _ (fun _ => by simpa using hne)
  have h2 : vec_get debug s.vec_index2node (s.llvm_base2index2node.lookup output_ptr) =
      Except.ok index2node := (vec_get_ok_iff _ _ _ _).2 hvec
  have h3 : CPPAD_ASSERT_UNKNOWN debug (decide (index2node.length = n)) = Except.ok () :=
    CPPAD_ASSERT_UNKNOWN_of _ _ (fun hd => by simpa using hlen hd)
  simp only [bind, Except.bind, h1, h2, h3]

theorem finalize_table {debug : Bool} {n : Nat} {s : State} {r : Except Stop cpp_graph}
    (h : finalize debug n s = r) (hr : (∃ g, r = Except.ok g) ∨ ∃ msg g, r = Except.error (Stop.ret msg g)) :
    ∃ index2node,
      s.vec_index2node[s.llvm_base2index2node.lookup output_ptr]? = some index2node ∧
      (debug = true → index2node.length = n) ∧
      r = dependent_loop debug index2node n 0 s.graph_obj := by
  unfold finalize at h
  simp only [bind, Except.bind] at h
  split at h
  · rename_i e he
    subst h
    rcases hr with ⟨g, hg⟩ | ⟨msg, g, hg⟩
    · cases hg
    · cases hg
      exact ((CPPAD_ASSERT_UNKNOWN_ne_ret _ _ _ _).1 he).elim
  · split at h
    · rename_i e he
      subst h
      rcases hr with ⟨g, hg⟩ | ⟨msg, g, hg⟩
      · cases hg
      · cases hg
        exact ((vec_get_ne_ret _ _ _ _ _).1 he).elim
    · rename_i index2node hvec
      rw [vec_get_ok_iff] at hvec
      split at h
      · rename_i e he
        subst h
        rcases hr with ⟨g, hg⟩ | ⟨msg, g, hg⟩
        · cases hg
        · cases hg
          exact ((CPPAD_ASSERT_UNKNOWN_ne_ret _ _ _ _).1 he).elim
      · rename_i u hu
        refine ⟨index2node, hvec, ?_, h.symm⟩
        intro hd
        simpa using CPPAD_ASSERT_UNKNOWN_ok hu hd

/-- A finalizer that succeeds found every output slot set, and appended the slots in order. -/
theorem finalize_ok {debug : Bool} {n : Nat} {s : State} {g : cpp_graph}
    (h : finalize debug n s = Except.ok g) :
    (∀ i, i < n → ∃ node, output_slot s i = some node ∧ node ≠ 0) ∧
      ∃ index2node,
        s.vec_index2node[s.llvm_base2index2node.lookup output_ptr]? = some index2node ∧
        g = { s.graph_obj with
          dependent_vec := s.graph_obj.dependent_vec ++ index2node.take n } := by
  obtain ⟨index2node, hvec, _, hloop⟩ := finalize_table h (Or.inl ⟨g, rfl⟩)
  obtain ⟨hall, hg⟩ := (dependent_loop_ok_iff _ _ _ _ _ _).1 hloop.symm
  refine ⟨?_, index2node, hvec, by simpa using hg⟩
  intro i hi
  obtain ⟨node, hn, hne⟩ := hall i hi
  refine ⟨node, ?_, hne⟩
  unfold output_slot
  rw [hvec]
  simpa using hn

/-- A finalizer that returns a message found a zero in the first output slot that it names,
and all the slots before it set. -/
theorem finalize_ret {debug : Bool} {n : Nat} {s : State} {msg : String} {g : cpp_graph}
    (h : finalize debug n s = Except.error (Stop.ret msg g)) :
    ∃ i, i < n ∧ output_slot s i = some 0 ∧
      (∀ j, j < i → ∃ node, output_slot s j = some node ∧ node ≠ 0) ∧
      msg = no_store_msg i := by
  obtain ⟨index2node, hvec, _, hloop⟩ := finalize_table h (Or.inr ⟨msg, g, rfl⟩)
  obtain ⟨i, hi, hz, hmin, hmsg, _⟩ := (dependent_loop_ret_iff _ _ _ _ _ _ _).1 hloop.symm
  refine ⟨i, hi, ?_, ?_, by simpa using hmsg⟩
  · unfold output_slot
    rw [hvec]
    simpa using hz
  · intro j hj
    obtain ⟨node, hn, hne⟩ := hmin j hj
    refine ⟨node, ?_, hne⟩
    unfold output_slot
    rw [hvec]
    simpa using hn

theorem llvm_ir.run_ret_ne_empty {debug : Bool} {ir_obj : llvm_ir} {graph_obj : cpp_graph}
    {msg : String} {g : cpp_graph}
    (h : llvm_ir.run debug ir_obj graph_obj = Except.error (Stop.ret msg g)) : msg ≠ "" := by
  rw [llvm_ir.run_eq] at h
  cases hs : llvm_ir.state_at debug ir_obj graph_obj ir_obj.function_ir.length with
  | error e =>
    rw [hs] at h
    simp only [Except.bind] at h
    cases h
    exact llvm_ir.state_at_ret_ne_empty hs
  | ok s2 =>
    rw [hs] at h
    simp only [Except.bind] at h
    obtain ⟨i, _, _, _, rfl⟩ := finalize_ret h
    exact no_store_msg_ne_empty i

theorem llvm_ir.state_at_length_conds {debug : Bool} {ir_obj : llvm_ir}
    {graph_obj : cpp_graph} {s2 : State}
    (h : llvm_ir.state_at debug ir_obj graph_obj ir_obj.function_ir.length = Except.ok s2) :
    opcodes_supported ir_obj.function_ir ∧ calls_resolve ir_obj.function_ir := by
  unfold llvm_ir.state_at at h
  rw [List.take_length] at h
  simp only [bind, Except.bind] at h
  split at h
  · cases h
  · exact pass2_ok_conds h

/-- A step that stops at position `k` stops the whole run in the same way. -/
theorem llvm_ir.run_of_step_error {debug : Bool} {ir_obj : llvm_ir} {graph_obj : cpp_graph}
    {k : Nat} {I : Instruction} {s : State} {e : Stop}
    (hI : ir_obj.function_ir[k]? = some I)
    (hs : llvm_ir.state_at debug ir_obj graph_obj k = Except.ok s)
    (hstep : step debug s k I = Except.error e) :
    llvm_ir.run debug ir_obj graph_obj = Except.error e := by
  have hk : k < ir_obj.function_ir.length := by
    rcases List.getElem?_eq_some.1 hI with ⟨h, _⟩
    exact h
  have hsplit : ir_obj.function_ir =
      ir_obj.function_ir.take k ++ I :: ir_obj.function_ir.drop (k + 1) := by
    have hIk : ir_obj.function_ir[k] = I := by
      rcases List.getElem?_eq_some.1 hI with ⟨_, h⟩
      exact h
    rw [← hIk, ← List.drop_eq_getElem_cons hk, List.take_append_drop]
  unfold llvm_ir.state_at at hs
  unfold llvm_ir.run
  simp only [bind, Except.bind] at hs ⊢
  split at hs
  · cases hs
  · rename_i s1 hs1
    have hlen : (List.take k ir_obj.function_ir).length = k := by
      rw [List.length_take]; omega
    have hp : pass2 debug s1 0 ir_obj.function_ir = Except.error e := by
      rw [hsplit, pass2_append, hs]
      simp only [Except.bind, hlen, Nat.zero_add, pass2, bind, hstep]
    rw [hp]

theorem cannot_call_ne_unsupported (name op_name : String) :
    cannot_call_msg name ≠ unsupported_msg op_name := by
  intro h
  have h2 := congrArg String.data h
  simp [cannot_call_msg, unsupported_msg, msg_init, String.data_append] at h2

theorem contains_text_msg_init (part : String) : contains_text (msg_init ++ part) part := by
  unfold contains_text
  refine ⟨msg_init.data, [], ?_⟩
  simp [String.data_append]

theorem opcode_not_supported_iff (op_code : Opcode) :
    op_code ∉ supported_opcodes ↔ ∃ op_name, op_code = Opcode.Other op_name := by
  cases op_code <;> simp [supported_opcodes]

/-! ## Induction over the states that the second pass reaches -/

theorem llvm_ir.state_at_succ_ok {debug : Bool} {ir_obj : llvm_ir} {graph_obj : cpp_graph}
    {k : Nat} {I : Instruction} {s1 : State} (hI : ir_obj.function_ir[k]? = some I)
    (h : llvm_ir.state_at debug ir_obj graph_obj (k + 1) = Except.ok s1) :
    ∃ s, llvm_ir.state_at debug ir_obj graph_obj k = Except.ok s ∧
      step debug s k I = Except.ok s1 := by
  rw [llvm_ir.state_at_succ debug ir_obj graph_obj k I hI] at h
  cases hs : llvm_ir.state_at debug ir_obj graph_obj k with
  | error e =>
    rw [hs] at h
    cases h
  | ok s =>
    rw [hs] at h
    exact ⟨s, rfl, h⟩

/-- A property that holds when the second pass starts and that every successful step
preserves holds in every state that the second pass reaches. -/
theorem llvm_ir.state_at_induction {debug : Bool} {ir_obj : llvm_ir} {graph_obj : cpp_graph}
    (P : Nat → State → Prop)
    (h0 : ∀ s, llvm_ir.before_pass2 debug ir_obj graph_obj = Except.ok s → P 0 s)
    (hstep : ∀ k I s s1, ir_obj.function_ir[k]? = some I →
      llvm_ir.state_at debug ir_obj graph_obj k = Except.ok s → P k s →
      step debug s k I = Except.ok s1 → P (k + 1) s1) :
    ∀ k, k ≤ ir_obj.function_ir.length → ∀ s,
      llvm_ir.state_at debug ir_obj graph_obj k = Except.ok s → P k s := by
  intro k
  induction k with
  | zero =>
    intro _ s hs
    rw [llvm_ir.state_at_zero] at hs
    exact h0 s hs
  | succ k ih =>
    intro hk s1 hs1
    have hI : ir_obj.function_ir[k]? = some ir_obj.function_ir[k] :=
      List.getElem?_eq_getElem (by omega)
    obtain ⟨s, hs, hst⟩ := llvm_ir.state_at_succ_ok hI hs1
    exact hstep k _ s s1 hI hs (ih (by omega) s hs) hst

theorem llvm_ir.state_at_index_le {ir_obj : llvm_ir} {k : Nat} {I : Instruction}
    (hI : ir_obj.function_ir[k]? = some I) : k ≤ ir_obj.function_ir.length := by
  rcases List.getElem?_eq_some.1 hI with ⟨h, _⟩
  omega

/-! ## How a step changes the node tables and the node counter -/

/-- A step of the second pass changes `llvm_value2graph_node` at most by an insertion for the
result of the instruction. -/
theorem step_value2node {debug : Bool} {s s1 : State} {k : Nat} {I : Instruction}
    (h : step debug s k I = Except.ok s1) :
    s1.llvm_value2graph_node = s.llvm_value2graph_node ∨
      ∃ node, s1.llvm_value2graph_node = s.llvm_value2graph_node.insert (I.result k) node := by
  unfold step at h
  split at h
  case h_13 =>
    obtain ⟨h1, _, _, _⟩ := step_zext_frame h
    left
    rw [h1]
  case h_14 =>
    obtain ⟨h1, _, _, _⟩ := step_or_frame h
    left
    rw [h1]
  case h_17 =>
    rcases step_store_effect h with ⟨rfl, _⟩ | ⟨op0, op1, vec, _, _, _, hvec, _, rfl⟩
    · exact Or.inl rfl
    · exact Or.inl rfl
  all_goals
    simp only [step_load, step_br, step_call, step_binary, step_fcmp, step_cmp, step_gep,
      step_icmp, step_fneg, step_ret, step_select, call_atomic, call_discrete,
      call_math, bind, Except.bind, pure, Except.pure, throw, throwThe,
      MonadExceptOf.throw] at h
    repeat' split at h
    all_goals first
      | (cases h
         exact Or.inl rfl)
      | (cases h
         exact Or.inr ⟨_, rfl⟩)
      | cases h

/-- A step of the second pass changes `llvm_ptr2graph_node` at most by one insertion. -/
theorem step_ptr2node {debug : Bool} {s s1 : State} {k : Nat} {I : Instruction}
    (h : step debug s k I = Except.ok s1) :
    s1.llvm_ptr2graph_node = s.llvm_ptr2graph_node ∨
      ∃ key node, s1.llvm_ptr2graph_node = s.llvm_ptr2graph_node.insert key node := by
  unfold step at h
  split at h
  case h_13 =>
    obtain ⟨h1, _, _, _⟩ := step_zext_frame h
    left
    rw [h1]
  case h_14 =>
    obtain ⟨h1, _, _, _⟩ := step_or_frame h
    left
    rw [h1]
  case h_17 =>
    rcases step_store_effect h with ⟨rfl, _⟩ | ⟨op0, op1, vec, _, _, _, hvec, _, rfl⟩
    · exact Or.inl rfl
    · exact Or.inl rfl
  all_goals
    simp only [step_load, step_br, step_call, step_binary, step_fcmp, step_cmp, step_gep,
      step_icmp, step_fneg, step_ret, step_select, call_atomic, call_discrete,
      call_math, bind, Except.bind, pure, Except.pure, throw, throwThe,
      MonadExceptOf.throw] at h
    repeat' split at h
    all_goals first
      | (cases h
         exact Or.inl rfl)
      | (cases h
         exact Or.inr ⟨_, _, rfl⟩)
      | cases h

theorem call_atomic_result_node {debug : Bool} {s s1 : State} {I : Instruction} {str : String}
    (h : call_atomic debug s I str = Except.ok s1) :
    ∃ n_result, I.operands[2]? = some (Value.ConstantInt n_result) ∧
      s1.result_node = s.result_node + n_result := by
  unfold call_atomic at h
  simp only [bind, Except.bind, pure, Except.pure, throw, throwThe,
    MonadExceptOf.throw] at h
  repeat' split at h
  all_goals first
    | (cases h
       have h2 := ‹vec_get debug I.operands 2 = Except.ok _›
       have hc := ‹get_int_constant debug _ = Except.ok _›
       rw [vec_get_ok_iff] at h2
       have hc2 := ‹get_int_constant debug _ = Except.ok _›
       simp only [get_int_constant_ok_iff] at *
       subst_vars
       exact ⟨_, by assumption, rfl⟩)
    | cases h

theorem pass1_operand_keys (D V : Nat) (s : State) (operand : Value) (key : Value)
    (node : Nat)
    (h : DenseMap.find? (pass1_operand D V s operand).llvm_value2graph_node key = some node) :
    DenseMap.find? s.llvm_value2graph_node key = some node ∨
      ∃ h dbl, key = Value.ConstantFP h dbl := by
  unfold pass1_operand at h
  cases hc : operand.constantFP? with
  | none =>
    rw [hc] at h
    exact Or.inl h
  | some dbl =>
    rw [hc] at h
    dsimp only at h
    split at h
    · rcases DenseMap.find?_insert_cases _ _ _ _ _ h with h1 | ⟨_, h2, _⟩
      · exact Or.inl h1
      · right
        subst h2
        cases key <;> simp [Value.constantFP?] at hc
        exact ⟨_, _, rfl⟩
    · exact Or.inl h

theorem pass1_operands_keys (D V : Nat) (s : State) (operands : List Value) (key : Value)
    (node : Nat)
    (h : DenseMap.find? (operands.foldl (pass1_operand D V) s).llvm_value2graph_node key =
      some node) :
    DenseMap.find? s.llvm_value2graph_node key = some node ∨
      ∃ h dbl, key = Value.ConstantFP h dbl := by
  induction operands generalizing s with
  | nil => exact Or.inl h
  | cons operand rest ih =>
    rcases ih (pass1_operand D V s operand) h with h1 | h1
    · exact pass1_operand_keys D V s operand key node h1
    · exact Or.inr h1

theorem pass1_keys {debug : Bool} {D V : Nat} {s s1 : State} {F : List Instruction}
    (h : pass1 debug D V s F = Except.ok s1) (key : Value) (node : Nat)
    (hf : DenseMap.find? s1.llvm_value2graph_node key = some node) :
    DenseMap.find? s.llvm_value2graph_node key = some node ∨
      ∃ h dbl, key = Value.ConstantFP h dbl := by
  induction F generalizing s with
  | nil =>
    simp only [pass1, pure, Except.pure] at h
    cases h
    exact Or.inl hf
  | cons I rest ih =>
    simp only [pass1, bind, Except.bind] at h
    split at h
    · cases h
    · rename_i s2 hs2
      rcases ih h with h1 | h1
      · unfold pass1_step at hs2
        obtain ⟨_, hv, _, _⟩ := pass1_atomic_effect hs2
        rw [hv] at h1
        exact pass1_operands_keys D V s I.operands key node h1
      · exact Or.inr h1

/-- When the second pass is at position `k`, only float constants and the results of
instructions before `k` have a node. -/
theorem llvm_ir.state_at_value_keys {debug : Bool} {ir_obj : llvm_ir} {graph_obj : cpp_graph}
    {k : Nat} {s : State} (hk : k ≤ ir_obj.function_ir.length)
    (hs : llvm_ir.state_at debug ir_obj graph_obj k = Except.ok s) : value_keys_before s k := by
  refine llvm_ir.state_at_induction (fun k s => value_keys_before s k) ?_ ?_ k hk s hs
  · intro s0 h0 key node hf
    unfold llvm_ir.before_pass2 at h0
    simp only [bind, Except.bind, pure, Except.pure] at h0
    split at h0
    · cases h0
    · rename_i s1 hs1
      cases h0
      simp only [between_passes] at hf
      rcases pass1_keys hs1 key node hf with h1 | h1
      · simp [init_state, DenseMap.find?] at h1
      · exact Or.inl h1
  · intro k I s s1 _ _ hP hstep key node hf
    rcases step_value2node hstep with h1 | ⟨n, h1⟩
    · rw [h1] at hf
      rcases hP key node hf with h2 | ⟨j, ty, hj, h2⟩
      · exact Or.inl h2
      · exact Or.inr ⟨j, ty, by omega, h2⟩
    · rw [h1] at hf
      rcases DenseMap.find?_insert_cases _ _ _ _ _ hf with h2 | ⟨_, h2, _⟩
      · rcases hP key node h2 with h3 | ⟨j, ty, hj, h3⟩
        · exact Or.inl h3
        · exact Or.inr ⟨j, ty, by omega, h3⟩
      · exact Or.inr ⟨k, I.type_id, by omega, h2⟩

/-- When the second pass reaches the instruction at position `k`, its result has no node
yet. -/
theorem llvm_ir.state_at_fresh {debug : Bool} {ir_obj : llvm_ir} {graph_obj : cpp_graph}
    {k : Nat} {I : Instruction} {s : State} (hI : ir_obj.function_ir[k]? = some I)
    (hs : llvm_ir.state_at debug ir_obj graph_obj k = Except.ok s) :
    DenseMap.find? s.llvm_value2graph_node (I.result k) = none := by
  have hkeys := llvm_ir.state_at_value_keys (llvm_ir.state_at_index_le hI) hs
  cases hf : DenseMap.find? s.llvm_value2graph_node (I.result k) with
  | none => rfl
  | some node =>
    exfalso
    rcases hkeys _ _ hf with ⟨h, dbl, h1⟩ | ⟨j, ty, hj, h1⟩
    · simp [Instruction.result] at h1
    · simp only [Instruction.result, Value.Inst.injEq] at h1
      omega

/-- A step of the second pass advances the node counter by the number of nodes that the
instruction allocates. -/
theorem step_result_node {debug : Bool} {s s1 : State} {k : Nat} {I : Instruction}
    (h : step debug s k I = Except.ok s1) :
    s1.result_node = s.result_node + allocated I := by
  unfold step at h
  split at h
  case h_13 hop =>
    obtain ⟨h1, _, _, _⟩ := step_zext_frame h
    rw [h1]
    simp [allocated, hop]
  case h_14 hop =>
    obtain ⟨h1, _, _, _⟩ := step_or_frame h
    rw [h1]
    simp [allocated, hop]
  case h_17 hop =>
    rcases step_store_effect h with ⟨rfl, _⟩ | ⟨op0, op1, vec, _, _, _, hvec, _, rfl⟩
    · simp [allocated, hop]
    · simp [allocated, hop]
  case h_4 hop =>
    unfold step_call at h
    simp only [bind, Except.bind] at h
    split at h
    · cases h
    · split at h
      · rename_i h7
        obtain ⟨n_result, h2, hr⟩ := call_atomic_result_node h
        rw [hr]
        simp [allocated, hop, h7, h2]
      · rename_i h7
        have h1 : allocated I = 1 := by simp [allocated, hop, h7]
        rw [h1]
        split at h
        · simp only [call_discrete, bind, Except.bind, pure, Except.pure] at h
          repeat' split at h
          all_goals first
            | (cases h
               rfl)
            | cases h
        · simp only [call_math, bind, Except.bind, pure, Except.pure, throw, throwThe,
            MonadExceptOf.throw] at h
          repeat' split at h
          all_goals first
            | (cases h
               rfl)
            | cases h
  case h_16 hop =>
    simp only [step_select, bind, Except.bind, pure, Except.pure] at h
    repeat' split at h
    all_goals first
      | (cases h
         have h1 := ‹vec_get debug I.operands 1 = Except.ok _›
         rw [vec_get_ok_iff] at h1
         simp_all [allocated])
      | cases h
  all_goals
    rename_i hop
    simp only [step_load, step_br, step_binary, step_fcmp, step_cmp, step_gep,
      step_icmp, step_fneg, step_ret, bind, Except.bind, pure, Except.pure, throw, throwThe,
      MonadExceptOf.throw] at h
    repeat' split at h
    all_goals first
      | (cases h
         simp [allocated, hop])
      | cases h

/-! ## Arithmetic instructions -/

theorem step_binary_ok (debug : Bool) (s : State) (k : Nat) (I : Instruction) (a b : Value)
    (hops : I.operands = [a, b])
    (hd : debug = true → I.type_id = TypeID.DoubleTyID ∧
      get_type_id a = TypeID.DoubleTyID ∧ get_type_id b = TypeID.DoubleTyID ∧
      (s.llvm_value2graph_node.insert (I.result k) (s.result_node + 1)).lookup a ≠ 0 ∧
      (s.llvm_value2graph_node.insert (I.result k) (s.result_node + 1)).lookup b ≠ 0) :
    step_binary debug s k I = Except.ok
      { s with
        graph_obj := ((binary_op_push I.opcode s.graph_obj).operator_arg_push_back
          ((s.llvm_value2graph_node.insert (I.result k) (s.result_node + 1)).lookup a)
          ).operator_arg_push_back
          ((s.llvm_value2graph_node.insert (I.result k) (s.result_node + 1)).lookup b)
        result_node := s.result_node + 1
        llvm_value2graph_node :=
          s.llvm_value2graph_node.insert (I.result k) (s.result_node + 1) } := by
  cases debug
  · simp [step_binary, hops, bind, Except.bind, pure, Except.pure, vec_get,
      CPPAD_ASSERT_UNKNOWN]
  · obtain ⟨h1, h2, h3, h4, h5⟩ := hd rfl
    simp [step_binary, hops, bind, Except.bind, pure, Except.pure, vec_get,
      CPPAD_ASSERT_UNKNOWN, h1, h2, h3, h4, h5]

theorem step_fneg_ok (debug : Bool) (s : State) (k : Nat) (I : Instruction) (a : Value)
    (hops : I.operands = [a])
    (hd : debug = true → I.type_id = TypeID.DoubleTyID ∧
      get_type_id a = TypeID.DoubleTyID ∧
      (s.llvm_value2graph_node.insert (I.result k) (s.result_node + 1)).lookup a ≠ 0) :
    step_fneg debug s k I = Except.ok
      { s with
        graph_obj := (s.graph_obj.operator_vec_push_back
          graph_op_enum.neg_graph_op).operator_arg_push_back
          ((s.llvm_value2graph_node.insert (I.result k) (s.result_node + 1)).lookup a)
        result_node := s.result_node + 1
        llvm_value2graph_node :=
          s.llvm_value2graph_node.insert (I.result k) (s.result_node + 1) } := by
  cases debug
  · simp [step_fneg, hops, bind, Except.bind, pure, Except.pure, vec_get,
      CPPAD_ASSERT_UNKNOWN]
  · obtain ⟨h1, h2, h3⟩ := hd rfl
    simp [step_fneg, hops, bind, Except.bind, pure, Except.pure, vec_get,
      CPPAD_ASSERT_UNKNOWN, h1, h2, h3]

theorem DenseMap.lookup_insert_of_ne_zero (m : DenseMap Value Nat) (key operand : Value)
    (node : Nat) (hfresh : DenseMap.find? m key = none) (h : m.lookup operand ≠ 0) :
    (m.insert key node).lookup operand = m.lookup operand ∧ operand ≠ key := by
  have hne : operand ≠ key := by
    intro he
    subst he
    apply h
    rw [DenseMap.lookup_of_none m operand hfresh]
    rfl
  exact ⟨DenseMap.lookup_insert_ne m key operand node (Ne.symm hne), hne⟩

/-- An instruction that binds its own result binds it to the node after the node counter. -/
theorem step_binds_result {debug : Bool} {s s1 : State} {k : Nat} {I : Instruction}
    (h : step debug s k I = Except.ok s1) (hb : binds_result I) :
    allocated I = 1 ∧
      s1.llvm_value2graph_node =
        s.llvm_value2graph_node.insert (I.result k) (s.result_node + 1) := by
  unfold step at h
  split at h
  case h_4 hop =>
    have h7 : I.operands.length ≠ 7 := by
      simpa [binds_result, hop] using hb
    refine ⟨by simp [allocated, hop, h7], ?_⟩
    simp only [step_call, bind, Except.bind, if_neg h7] at h
    split at h
    · cases h
    · split at h
      · simp only [call_discrete, bind, Except.bind, pure, Except.pure] at h
        repeat' split at h
        all_goals first
          | (cases h
             rfl)
          | cases h
      · simp only [call_math, bind, Except.bind, pure, Except.pure, throw, throwThe,
          MonadExceptOf.throw] at h
        repeat' split at h
        all_goals first
          | (cases h
             rfl)
          | cases h
  case h_16 hop =>
    have hty : I.operands[1]?.map get_type_id = some TypeID.DoubleTyID := by
      simpa [binds_result, hop] using hb
    refine ⟨by simp [allocated, hop, hty], ?_⟩
    simp only [step_select, bind, Except.bind, pure, Except.pure] at h
    repeat' split at h
    all_goals first
      | (cases h
         have h1 := ‹vec_get debug I.operands 1 = Except.ok _›
         rw [vec_get_ok_iff] at h1
         simp_all)
      | (cases h
         rfl)
      | cases h
  case h_5 hop =>
    refine ⟨by simp [allocated, hop], ?_⟩
    simp only [step_binary, bind, Except.bind, pure, Except.pure] at h
    repeat' split at h
    all_goals first
      | (cases h
         rfl)
      | cases h
  case h_6 hop =>
    refine ⟨by simp [allocated, hop], ?_⟩
    simp only [step_binary, bind, Except.bind, pure, Except.pure] at h
    repeat' split at h
    all_goals first
      | (cases h
         rfl)
      | cases h
  case h_7 hop =>
    refine ⟨by simp [allocated, hop], ?_⟩
    simp only [step_binary, bind, Except.bind, pure, Except.pure] at h
    repeat' split at h
    all_goals first
      | (cases h
         rfl)
      | cases h
  case h_8 hop =>
    refine ⟨by simp [allocated, hop], ?_⟩
    simp only [step_binary, bind, Except.bind, pure, Except.pure] at h
    repeat' split at h
    all_goals first
      | (cases h
         rfl)
      | cases h
  case h_12 hop =>
    refine ⟨by simp [allocated, hop], ?_⟩
    simp only [step_fneg, bind, Except.bind, pure, Except.pure] at h
    repeat' split at h
    all_goals first
      | (cases h
         rfl)
      | cases h
  all_goals
    rename_i hop
    simp [binds_result, hop] at hb

/-- The node counter never decreases along the second pass. -/
theorem llvm_ir.state_at_result_node_mono {debug : Bool} {ir_obj : llvm_ir}
    {graph_obj : cpp_graph} {j k : Nat} {sj sk : State} (hjk : j ≤ k)
    (hk : k ≤ ir_obj.function_ir.length)
    (hj : llvm_ir.state_at debug ir_obj graph_obj j = Except.ok sj)
    (hsk : llvm_ir.state_at debug ir_obj graph_obj k = Except.ok sk) :
    sj.result_node ≤ sk.result_node := by
  induction k generalizing sk with
  | zero =>
    have : j = 0 := by omega
    subst this
    rw [hj] at hsk
    cases hsk
    exact Nat.le_refl _
  | succ k ih =>
    by_cases hjeq : j = k + 1
    · subst hjeq
      rw [hj] at hsk
      cases hsk
      exact Nat.le_refl _
    · have hI : ir_obj.function_ir[k]? = some ir_obj.function_ir[k] :=
        List.getElem?_eq_getElem (by omega)
      obtain ⟨s, hs, hst⟩ := llvm_ir.state_at_succ_ok hI hsk
      have h1 := ih (by omega) (by omega) hs
      have h2 := step_result_node hst
      omega

/-! ## The constants of the first pass -/

theorem mem_first_occurrences (l : List Value) (x : Value) :
    x ∈ first_occurrences l ↔ x ∈ l := by
  simp [first_occurrences]

theorem nodup_first_occurrences (l : List Value) : (first_occurrences l).Nodup := by
  unfold first_occurrences
  exact List.nodup_reverse.2 (List.nodup_dedup _)

theorem first_occurrences_snoc (l : List Value) (x : Value) :
    first_occurrences (l ++ [x]) =
      if x ∈ l then first_occurrences l else first_occurrences l ++ [x] := by
  unfold first_occurrences
  rw [List.reverse_append, List.reverse_singleton, List.singleton_append]
  split
  · rename_i h
    rw [List.dedup_cons_of_mem (List.mem_reverse.2 h)]
  · rename_i h
    rw [List.dedup_cons_of_not_mem (fun hm => h (List.mem_reverse.1 hm))]
    simp

theorem first_occurrences_prefix (l l2 : List Value) :
    first_occurrences l <+: first_occurrences (l ++ l2) := by
  induction l2 using List.reverseRecOn with
  | nil => simp
  | append_singleton l2 x ih =>
    rw [← List.append_assoc, first_occurrences_snoc]
    split
    · exact ih
    · exact ih.trans (List.prefix_append _ _)

theorem bind_from_append (n : Nat) (A B : List Value) :
    bind_from n (A ++ B) = bind_from n A ++ bind_from (n + A.length) B := by
  induction A generalizing n with
  | nil => simp [bind_from]
  | cons a A ih =>
    have h2 := ih (n + 1)
    have h3 : n + 1 + A.length = n + (A.length + 1) := by omega
    rw [h3] at h2
    show (a, n) :: bind_from (n + 1) (A ++ B) = _
    rw [h2]
    rfl

theorem find?_bind_from_not_mem (n : Nat) (H : List Value) (h : Value) (hn : h ∉ H) :
    DenseMap.find? (bind_from n H) h = none := by
  induction H generalizing n with
  | nil => rfl
  | cons a H ih =>
    simp only [List.mem_cons, not_or] at hn
    simp only [bind_from, DenseMap.find?]
    rw [if_neg (Ne.symm hn.1)]
    exact ih (n + 1) hn.2

theorem find?_bind_from (n : Nat) (H : List Value) (hnd : H.Nodup) (j : Nat) (h : Value)
    (hj : H[j]? = some h) : DenseMap.find? (bind_from n H) h = some (n + j) := by
  induction H generalizing n j with
  | nil => simp at hj
  | cons a H ih =>
    simp only [bind_from, DenseMap.find?]
    cases j with
    | zero =>
      simp only [List.getElem?_cons_zero, Option.some.injEq] at hj
      rw [if_pos hj]
      rfl
    | succ j =>
      simp only [List.getElem?_cons_succ] at hj
      have hmem : h ∈ H := List.getElem?_mem hj
      have hne : a ≠ h := by
        intro he
        subst he
        exact (List.nodup_cons.1 hnd).1 hmem
      rw [if_neg hne, ih (n + 1) (List.nodup_cons.1 hnd).2 j hj]
      congr 1
      omega

theorem filterMap_constantFP_length (H : List Value) (hfp : ∀ h ∈ H, is_fp h = true) :
    (H.filterMap Value.constantFP?).length = H.length := by
  induction H with
  | nil => rfl
  | cons a H ih =>
    have ha := hfp a (List.mem_cons_self _ _)
    unfold is_fp at ha
    obtain ⟨dbl, hd⟩ := Option.isSome_iff_exists.1 ha
    rw [List.filterMap_cons_some hd, List.length_cons, List.length_cons,
      ih (fun h hh => hfp h (List.mem_cons_of_mem _ hh))]

theorem const_inv_operand (D V : Nat) (s : State) (seen : List Value) (x : Value)
    (h : const_inv D V s seen) : const_inv D V (pass1_operand D V s x) (seen ++ [x]) := by
  obtain ⟨h1, h2⟩ := h
  unfold pass1_operand
  cases hc : x.constantFP? with
  | none =>
    have hx : is_fp x = false := by simp [is_fp, hc]
    have hf : (seen ++ [x]).filter is_fp = seen.filter is_fp := by
      simp [List.filter_append, hx]
    exact ⟨by rw [hf]; exact h1, by rw [hf]; exact h2⟩
  | some dbl =>
    have hx : is_fp x = true := by simp [is_fp, hc]
    have hf : (seen ++ [x]).filter is_fp = seen.filter is_fp ++ [x] := by
      simp [List.filter_append, hx]
    dsimp only
    by_cases hmem : x ∈ seen.filter is_fp
    · have hH : first_occurrences ((seen ++ [x]).filter is_fp) =
          first_occurrences (seen.filter is_fp) := by
        rw [hf, first_occurrences_snoc, if_pos hmem]
      obtain ⟨j, hj⟩ : ∃ j, (first_occurrences (seen.filter is_fp))[j]? = some x :=
        List.getElem?_of_mem ((mem_first_occurrences _ _).2 hmem)
      have hfind := find?_bind_from (1 + D + V) _ (nodup_first_occurrences _) j x hj
      have hl : s.llvm_value2graph_node.lookup x ≠ 0 := by
        rw [DenseMap.lookup_of_find? _ _ _ (by rw [h1]; exact hfind)]
        omega
      rw [if_neg hl]
      exact ⟨by rw [hH]; exact h1, by rw [hH]; exact h2⟩
    · have hH : first_occurrences ((seen ++ [x]).filter is_fp) =
          first_occurrences (seen.filter is_fp) ++ [x] := by
        rw [hf, first_occurrences_snoc, if_neg hmem]
      have hnone : DenseMap.find? s.llvm_value2graph_node x = none := by
        rw [h1]
        exact find?_bind_from_not_mem _ _ _
          (fun hm => hmem ((mem_first_occurrences _ _).1 hm))
      have hl : s.llvm_value2graph_node.lookup x = 0 := DenseMap.lookup_of_none _ _ hnone
      rw [if_pos hl]
      have hlen : s.graph_obj.constant_vec.length =
          (first_occurrences (seen.filter is_fp)).length := by
        rw [h2]
        apply filterMap_constantFP_length
        intro h hh
        have := (mem_first_occurrences _ _).1 hh
        exact (List.mem_filter.1 this).2
      constructor
      · show s.llvm_value2graph_node.insert x _ = _
        unfold DenseMap.insert
        rw [hnone, hH, bind_from_append, h1, hlen]
        rfl
      · show (s.graph_obj.constant_vec_push_back dbl).constant_vec = _
        rw [hH, List.filterMap_append, ← h2]
        simp [cpp_graph.constant_vec_push_back, hc]

theorem const_inv_operands (D V : Nat) (s : State) (seen operands : List Value)
    (h : const_inv D V s seen) :
    const_inv D V (operands.foldl (pass1_operand D V) s) (seen ++ operands) := by
  induction operands generalizing s seen with
  | nil => simpa using h
  | cons x rest ih =>
    have := ih (pass1_operand D V s x) (seen ++ [x]) (const_inv_operand D V s seen x h)
    simpa using this

theorem const_inv_pass1 {debug : Bool} {D V : Nat} {s s1 : State} {F : List Instruction}
    (seen : List Value) (h : const_inv D V s seen)
    (hp : pass1 debug D V s F = Except.ok s1) :
    const_inv D V s1 (seen ++ F.flatMap (fun I => I.operands)) := by
  induction F generalizing s seen with
  | nil =>
    simp only [pass1, pure, Except.pure] at hp
    cases hp
    simpa using h
  | cons I rest ih =>
    simp only [pass1, bind, Except.bind] at hp
    split at hp
    · cases hp
    · rename_i s2 hs2
      unfold pass1_step at hs2
      obtain ⟨_, hv, hg, _⟩ := pass1_atomic_effect hs2
      have h2 : const_inv D V s2 (seen ++ I.operands) := by
        have := const_inv_operands D V s seen I.operands h
        exact ⟨by rw [hv]; exact this.1, by rw [hg]; exact this.2⟩
      have := ih (seen ++ I.operands) h2 hp
      simpa [List.flatMap_cons, List.append_assoc] using this

theorem pass2_value_mono {debug : Bool} {s s1 : State} {k : Nat} {F : List Instruction}
    (h : pass2 debug s k F = Except.ok s1) (key : Value) (node : Nat)
    (hf : DenseMap.find? s.llvm_value2graph_node key = some node) :
    DenseMap.find? s1.llvm_value2graph_node key = some node := by
  induction F generalizing s k with
  | nil =>
    simp only [pass2, pure, Except.pure] at h
    cases h
    exact hf
  | cons I rest ih =>
    simp only [pass2, bind, Except.bind] at h
    split at h
    · cases h
    · rename_i s2 hs2
      apply ih h
      rcases step_value2node hs2 with h1 | ⟨n, h1⟩
      · rw [h1]; exact hf
      · rw [h1]; exact DenseMap.find?_insert_mono _ _ _ _ _ hf

/-! ## Pointers with contiguous nodes -/

/-- A step of the second pass changes `llvm_ptr2graph_node` at most by an insertion for the
result of the instruction or for the result base (operand three) of the instruction. -/
theorem step_ptr2node_keys {debug : Bool} {s s1 : State} {k : Nat} {I : Instruction}
    (h : step debug s k I = Except.ok s1) :
    s1.llvm_ptr2graph_node = s.llvm_ptr2graph_node ∨
      (∃ node, s1.llvm_ptr2graph_node = s.llvm_ptr2graph_node.insert (I.result k) node) ∨
      ∃ base node, I.operands[3]? = some base ∧
        s1.llvm_ptr2graph_node = s.llvm_ptr2graph_node.insert base node := by
  unfold step at h
  split at h
  case h_13 =>
    obtain ⟨h1, _, _, _⟩ := step_zext_frame h
    left
    rw [h1]
  case h_14 =>
    obtain ⟨h1, _, _, _⟩ := step_or_frame h
    left
    rw [h1]
  case h_17 =>
    rcases step_store_effect h with ⟨rfl, _⟩ | ⟨op0, op1, vec, _, _, _, hvec, _, rfl⟩
    · exact Or.inl rfl
    · exact Or.inl rfl
  all_goals
    simp only [step_load, step_br, step_call, step_binary, step_fcmp, step_cmp, step_gep,
      step_icmp, step_fneg, step_ret, step_select, call_atomic, call_discrete,
      call_math, bind, Except.bind, pure, Except.pure, throw, throwThe,
      MonadExceptOf.throw] at h
    repeat' split at h
    all_goals first
      | (cases h
         exact Or.inl rfl)
      | (cases h
         exact Or.inr (Or.inl ⟨_, rfl⟩))
      | (cases h
         have h3 := ‹vec_get debug I.operands 3 = Except.ok _›
         rw [vec_get_ok_iff] at h3
         exact Or.inr (Or.inr ⟨_, _, h3, rfl⟩))
      | cases h

/-- A step of the second pass changes `llvm_base2first_node` at most by one insertion. -/
theorem step_base2first_node {debug : Bool} {s s1 : State} {k : Nat} {I : Instruction}
    (h : step debug s k I = Except.ok s1) :
    s1.llvm_base2first_node = s.llvm_base2first_node ∨
      ∃ key node, s1.llvm_base2first_node = s.llvm_base2first_node.insert key node := by
  unfold step at h
  split at h
  case h_13 =>
    obtain ⟨h1, _, _, _⟩ := step_zext_frame h
    left
    rw [h1]
  case h_14 =>
    obtain ⟨h1, _, _, _⟩ := step_or_frame h
    left
    rw [h1]
  case h_17 =>
    rcases step_store_effect h with ⟨rfl, _⟩ | ⟨op0, op1, vec, _, _, _, hvec, _, rfl⟩
    · exact Or.inl rfl
    · exact Or.inl rfl
  all_goals
    simp only [step_load, step_br, step_call, step_binary, step_fcmp, step_cmp, step_gep,
      step_icmp, step_fneg, step_ret, step_select, call_atomic, call_discrete,
      call_math, bind, Except.bind, pure, Except.pure, throw, throwThe,
      MonadExceptOf.throw] at h
    repeat' split at h
    all_goals first
      | (cases h
         exact Or.inl rfl)
      | (cases h
         exact Or.inr ⟨_, _, rfl⟩)
      | cases h

theorem llvm_ir.state_at_prefix_ok {debug : Bool} {ir_obj : llvm_ir} {graph_obj : cpp_graph}
    {j k : Nat} {sk : State} (hjk : j ≤ k) (hk : k ≤ ir_obj.function_ir.length)
    (hsk : llvm_ir.state_at debug ir_obj graph_obj k = Except.ok sk) :
    ∃ sj, llvm_ir.state_at debug ir_obj graph_obj j = Except.ok sj := by
  induction k generalizing sk with
  | zero =>
    have : j = 0 := by omega
    subst this
    exact ⟨sk, hsk⟩
  | succ k ih =>
    by_cases hjeq : j = k + 1
    · subst hjeq
      exact ⟨sk, hsk⟩
    · have hI : ir_obj.function_ir[k]? = some ir_obj.function_ir[k] :=
        List.getElem?_eq_getElem (by omega)
      obtain ⟨s, hs, _⟩ := llvm_ir.state_at_succ_ok hI hsk
      exact ih (by omega) (by omega) hs

/-- Along the second pass an entry of `llvm_value2graph_node`, `llvm_ptr2graph_node` or
`llvm_base2first_node` keeps its value. -/
theorem llvm_ir.state_at_mono {debug : Bool} {ir_obj : llvm_ir} {graph_obj : cpp_graph}
    {j k : Nat} {sj sk : State} (hjk : j ≤ k) (hk : k ≤ ir_obj.function_ir.length)
    (hj : llvm_ir.state_at debug ir_obj graph_obj j = Except.ok sj)
    (hsk : llvm_ir.state_at debug ir_obj graph_obj k = Except.ok sk) (key : Value)
    (node : Nat) :
    (DenseMap.find? sj.llvm_value2graph_node key = some node →
      DenseMap.find? sk.llvm_value2graph_node key = some node) ∧
    (DenseMap.find? sj.llvm_ptr2graph_node key = some node →
      DenseMap.find? sk.llvm_ptr2graph_node key = some node) ∧
    (DenseMap.find? sj.llvm_base2first_node key = some node →
      DenseMap.find? sk.llvm_base2first_node key = some node) := by
  induction k generalizing sk with
  | zero =>
    have : j = 0 := by omega
    subst this
    rw [hj] at hsk
    cases hsk
    exact ⟨id, id, id⟩
  | succ k ih =>
    by_cases hjeq : j = k + 1
    · subst hjeq
      rw [hj] at hsk
      cases hsk
      exact ⟨id, id, id⟩
    · have hI : ir_obj.function_ir[k]? = some ir_obj.function_ir[k] :=
        List.getElem?_eq_getElem (by omega)
      obtain ⟨s, hs, hst⟩ := llvm_ir.state_at_succ_ok hI hsk
      obtain ⟨h1, h2, h3⟩ := ih (by omega) (by omega) hs
      refine ⟨fun hf => ?_, fun hf => ?_, fun hf => ?_⟩
      · rcases step_value2node hst with e | ⟨n, e⟩
        · rw [e]; exact h1 hf
        · rw [e]; exact DenseMap.find?_insert_mono _ _ _ _ _ (h1 hf)
      · rcases step_ptr2node hst with e | ⟨key2, n, e⟩
        · rw [e]; exact h2 hf
        · rw [e]; exact DenseMap.find?_insert_mono _ _ _ _ _ (h2 hf)
      · rcases step_base2first_node hst with e | ⟨key2, n, e⟩
        · rw [e]; exact h3 hf
        · rw [e]; exact DenseMap.find?_insert_mono _ _ _ _ _ (h3 hf)

/-- When the second pass is at position `k`, the keys of `llvm_ptr2graph_node` are the input
pointer, results of earlier instructions and result bases of earlier instructions. -/
theorem llvm_ir.state_at_ptr_keys {debug : Bool} {ir_obj : llvm_ir} {graph_obj : cpp_graph}
    {k : Nat} {s : State} (hk : k ≤ ir_obj.function_ir.length)
    (hs : llvm_ir.state_at debug ir_obj graph_obj k = Except.ok s) :
    ptr_keys_before ir_obj.function_ir s k := by
  refine llvm_ir.state_at_induction (fun k s => ptr_keys_before ir_obj.function_ir s k)
    ?_ ?_ k hk s hs
  · intro s0 h0 key node hf
    rw [(llvm_ir.before_pass2_effect h0).2.2.1] at hf
    simp only [DenseMap.find?] at hf
    split at hf
    · rename_i he
      exact Or.inl he.symm
    · cases hf
  · intro k I s s1 hI _ hP hstep key node hf
    have hlift : DenseMap.find? s.llvm_ptr2graph_node key = some node →
        key = input_ptr ∨ (∃ j ty, j < k + 1 ∧ key = Value.Inst j ty) ∨
        ∃ j J, j < k + 1 ∧ ir_obj.function_ir[j]? = some J ∧ J.operands[3]? = some key := by
      intro h2
      rcases hP key node h2 with h3 | ⟨j, ty, hj, h3⟩ | ⟨j, J, hj, h3, h4⟩
      · exact Or.inl h3
      · exact Or.inr (Or.inl ⟨j, ty, by omega, h3⟩)
      · exact Or.inr (Or.inr ⟨j, J, by omega, h3, h4⟩)
    rcases step_ptr2node_keys hstep with h1 | ⟨n, h1⟩ | ⟨base, n, hb, h1⟩
    · rw [h1] at hf
      exact hlift hf
    · rw [h1] at hf
      rcases DenseMap.find?_insert_cases _ _ _ _ _ hf with h2 | ⟨_, h2, _⟩
      · exact hlift h2
      · exact Or.inr (Or.inl ⟨k, I.type_id, by omega, h2⟩)
    · rw [h1] at hf
      rcases DenseMap.find?_insert_cases _ _ _ _ _ hf with h2 | ⟨_, h2, _⟩
      · exact hlift h2
      · subst h2
        exact Or.inr (Or.inr ⟨k, I, by omega, hI, hb⟩)

theorem pass1_atomic_scattered_keys {debug : Bool} {s s1 : State} {I : Instruction}
    (h : pass1_atomic debug s I = Except.ok s1) (key : Value) (v : Nat)
    (hf : DenseMap.find? s1.llvm_base2index2node key = some v) :
    DenseMap.find? s.llvm_base2index2node key = some v ∨
      (I.opcode = Opcode.Call ∧ I.operands.length = 7 ∧ I.operands[1]? = some key) := by
  unfold pass1_atomic at h
  simp only [bind, Except.bind, pure, Except.pure] at h
  split at h
  · rename_i hc
    repeat' split at h
    all_goals first
      | (cases h
         have h1 := ‹vec_get debug I.operands 1 = Except.ok _›
         rw [vec_get_ok_iff] at h1
         rcases DenseMap.find?_insert_cases _ _ _ _ _ hf with h2 | ⟨_, h2, _⟩
         · exact Or.inl h2
         · subst h2
           exact Or.inr ⟨hc.2, hc.1, h1⟩)
      | cases h
  · cases h
    exact Or.inl hf

theorem pass1_scattered_keys {debug : Bool} {D V : Nat} {s s1 : State} {F : List Instruction}
    (h : pass1 debug D V s F = Except.ok s1) (key : Value) (v : Nat)
    (hf : DenseMap.find? s1.llvm_base2index2node key = some v) :
    DenseMap.find? s.llvm_base2index2node key = some v ∨
      ∃ I ∈ F, I.opcode = Opcode.Call ∧ I.operands.length = 7 ∧
        I.operands[1]? = some key := by
  induction F generalizing s with
  | nil =>
    simp only [pass1, pure, Except.pure] at h
    cases h
    exact Or.inl hf
  | cons I rest ih =>
    simp only [pass1, bind, Except.bind] at h
    split at h
    · cases h
    · rename_i s2 hs2
      rcases ih h with h1 | ⟨J, hJ, h1⟩
      · unfold pass1_step at hs2
        rcases pass1_atomic_scattered_keys hs2 key v h1 with h2 | h2
        · rw [(pass1_operands_frame D V s I.operands).2.1] at h2
          exact Or.inl h2
        · exact Or.inr ⟨I, List.mem_cons_self _ _, h2⟩
      · exact Or.inr ⟨J, List.mem_cons_of_mem _ hJ, h1⟩

/-- When no atomic call names the input pointer as its argument base, the input pointer has
no scattered table at any point of the second pass; it is bound to node 1 and registered as
contiguous from node 1. -/
theorem llvm_ir.state_at_input {debug : Bool} {ir_obj : llvm_ir} {graph_obj : cpp_graph}
    {k : Nat} {s : State} (hk : k ≤ ir_obj.function_ir.length)
    (hs : llvm_ir.state_at debug ir_obj graph_obj k = Except.ok s) :
    (input_contiguous ir_obj.function_ir → s.llvm_base2index2node.lookup input_ptr = 0) ∧
      DenseMap.find? s.llvm_ptr2graph_node input_ptr = some 1 ∧
      DenseMap.find? s.llvm_base2first_node input_ptr = some 1 := by
  obtain ⟨s0, hs0⟩ := llvm_ir.state_at_prefix_ok (Nat.zero_le k) hk hs
  obtain ⟨_, m2, m3⟩ := llvm_ir.state_at_mono (Nat.zero_le k) hk hs0 hs input_ptr 1
  have hb := hs0
  rw [llvm_ir.state_at_zero] at hb
  obtain ⟨_, _, e3, e4, _, _, _⟩ := llvm_ir.before_pass2_effect hb
  refine ⟨?_, m2 (by rw [e3]; simp [DenseMap.find?]), m3 (by rw [e4]; simp [DenseMap.find?])⟩
  intro hin
  have hframe : s.llvm_base2index2node = s0.llvm_base2index2node := by
    unfold llvm_ir.state_at at hs
    simp only [bind, Except.bind] at hs
    rw [hb] at hs
    exact (pass2_frame hs).2.1
  rw [hframe]
  cases hf : DenseMap.find? s0.llvm_base2index2node input_ptr with
  | none => exact DenseMap.lookup_of_none _ _ hf
  | some v =>
    exfalso
    unfold llvm_ir.before_pass2 at hb
    simp only [bind, Except.bind, pure, Except.pure] at hb
    split at hb
    · cases hb
    · rename_i s1 hs1
      cases hb
      simp only [between_passes] at hf
      rcases DenseMap.find?_insert_cases _ _ _ _ _ hf with h2 | ⟨_, h2, _⟩
      · rcases pass1_scattered_keys hs1 input_ptr v h2 with h3 | ⟨I, hI, h4, h5, h6⟩
        · simp [init_state, DenseMap.find?] at h3
        · exact hin I hI h4 h5 h6
      · simp [input_ptr, output_ptr] at h2

theorem step_gep_contiguous {debug : Bool} {s s1 : State} {p : Nat} {G : Instruction}
    {base : Value} {off : Nat} (hops : G.operands = [base, Value.ConstantInt off])
    (hsc : s.llvm_base2index2node.lookup base = 0)
    (h : step_gep debug s p G = Except.ok s1) :
    s1 = { s with
      llvm_ptr2graph_node :=
        s.llvm_ptr2graph_node.insert (G.result p) (s.llvm_base2first_node.lookup base + off) } ∧
      (debug = true → G.type_id = TypeID.PointerTyID) := by
  unfold step_gep at h
  simp only [bind, Except.bind, pure, Except.pure, hops, vec_get, List.getElem?_cons_zero,
    List.getElem?_cons_succ, get_int_constant, hsc, ne_eq, not_true_eq_false, if_false] at h
  repeat' split at h
  all_goals first
    | (cases h
       refine ⟨rfl, fun hd => ?_⟩
       have ha := ‹CPPAD_ASSERT_UNKNOWN debug (decide (G.type_id = TypeID.PointerTyID)) =
         Except.ok _›
       simpa using CPPAD_ASSERT_UNKNOWN_ok ha hd)
    | cases h

theorem step_load_ok (debug : Bool) (s : State) (q : Nat) (L : Instruction) (ptr : Value)
    (hops : L.operands = [ptr])
    (hd : debug = true → get_type_id ptr = TypeID.PointerTyID ∧
      s.llvm_ptr2graph_node.lookup ptr ≠ 0) :
    step_load debug s q L = Except.ok
      { s with
        llvm_value2graph_node :=
          s.llvm_value2graph_node.insert (L.result q) (s.llvm_ptr2graph_node.lookup ptr) } := by
  cases debug
  · simp [step_load, hops, bind, Except.bind, pure, Except.pure, vec_get,
      CPPAD_ASSERT_UNKNOWN]
  · obtain ⟨h1, h2⟩ := hd rfl
    simp [step_load, hops, bind, Except.bind, pure, Except.pure, vec_get,
      CPPAD_ASSERT_UNKNOWN, h1, h2]

/-- An address computation and a load leave the graph and the node counter unchanged. -/
theorem step_gep_load_frame {debug : Bool} {s s1 : State} {k : Nat} {I : Instruction}
    (hop : I.opcode = Opcode.GetElementPtr ∨ I.opcode = Opcode.Load)
    (h : step debug s k I = Except.ok s1) :
    s1.graph_obj = s.graph_obj ∧ s1.result_node = s.result_node := by
  unfold step at h
  rcases hop with hop | hop
  all_goals
    rw [hop] at h
    simp only [step_load, step_gep, bind, Except.bind, pure, Except.pure] at h
    repeat' split at h
    all_goals first
      | (cases h
         exact ⟨rfl, rfl⟩)
      | cases h

/-! ## Nodes are bounded by the node counter (debug build) -/

/-- The node that a step binds to the result of its instruction is the node after the old
counter, which is the new counter, or the node of a pointer. -/
theorem step_value2node_node {debug : Bool} {s s1 : State} {k : Nat} {I : Instruction}
    (h : step debug s k I = Except.ok s1) :
    s1.llvm_value2graph_node = s.llvm_value2graph_node ∨
      ∃ node, s1.llvm_value2graph_node = s.llvm_value2graph_node.insert (I.result k) node ∧
        ((node = s.result_node + 1 ∧ s1.result_node = s.result_node + 1) ∨
          ∃ ptr, node = s.llvm_ptr2graph_node.lookup ptr) := by
  unfold step at h
  split at h
  case h_13 =>
    obtain ⟨h1, _, _, _⟩ := step_zext_frame h
    left
    rw [h1]
  case h_14 =>
    obtain ⟨h1, _, _, _⟩ := step_or_frame h
    left
    rw [h1]
  case h_17 =>
    rcases step_store_effect h with ⟨rfl, _⟩ | ⟨op0, op1, vec, _, _, _, hvec, _, rfl⟩
    · exact Or.inl rfl
    · exact Or.inl rfl
  all_goals
    simp only [step_load, step_br, step_call, step_binary, step_fcmp, step_cmp, step_gep,
      step_icmp, step_fneg, step_ret, step_select, call_atomic, call_discrete,
      call_math, bind, Except.bind, pure, Except.pure, throw, throwThe,
      MonadExceptOf.throw] at h
    repeat' split at h
    all_goals first
      | (cases h
         exact Or.inl rfl)
      | (cases h
         exact Or.inr ⟨_, rfl, Or.inl ⟨rfl, rfl⟩⟩)
      | (cases h
         exact Or.inr ⟨_, rfl, Or.inr ⟨_, rfl⟩⟩)
      | cases h

/-- A step changes the scattered tables only by a store of the node of a value. -/
theorem step_vec_index2node {debug : Bool} {s s1 : State} {k : Nat} {I : Instruction}
    (h : step debug s k I = Except.ok s1) :
    s1.vec_index2node = s.vec_index2node ∨
      ∃ vec_index index2node index operand0,
        s.vec_index2node[vec_index]? = some index2node ∧
        s1.vec_index2node = s.vec_index2node.set vec_index
          (index2node.set index (s.llvm_value2graph_node.lookup operand0)) := by
  unfold step at h
  split at h
  case h_13 =>
    obtain ⟨h1, _, _, _⟩ := step_zext_frame h
    left
    rw [h1]
  case h_14 =>
    obtain ⟨h1, _, _, _⟩ := step_or_frame h
    left
    rw [h1]
  case h_17 =>
    rcases step_store_effect h with ⟨rfl, _⟩ | ⟨op0, op1, vec, _, _, _, hvec, _, rfl⟩
    · exact Or.inl rfl
    · exact Or.inr ⟨_, vec, _, op0, hvec, rfl⟩
  all_goals
    simp only [step_load, step_br, step_call, step_binary, step_fcmp, step_cmp, step_gep,
      step_icmp, step_fneg, step_ret, step_select, call_atomic, call_discrete,
      call_math, bind, Except.bind, pure, Except.pure, throw, throwThe,
      MonadExceptOf.throw] at h
    repeat' split at h
    all_goals first
      | (cases h
         exact Or.inl rfl)
      | cases h

theorem step_gep_debug {s s1 : State} {k : Nat} {I : Instruction}
    (h : step_gep true s k I = Except.ok s1) :
    (s1.llvm_ptr2graph_node = s.llvm_ptr2graph_node ∨
      ∃ base index, s1.llvm_ptr2graph_node =
          s.llvm_ptr2graph_node.insert (I.result k)
            (s.llvm_base2first_node.lookup base + index) ∧
        s.llvm_base2first_node.lookup base ≠ 0 ∧
        index < s.llvm_base2length.lookup base) ∧
      s1.llvm_base2first_node = s.llvm_base2first_node ∧
      s1.llvm_base2length = s.llvm_base2length := by
  unfold step_gep at h
  simp only [bind, Except.bind, pure, Except.pure] at h
  repeat' split at h
  all_goals first
    | (cases h
       exact ⟨Or.inl rfl, rfl, rfl⟩)
    | (cases h
       refine ⟨Or.inr ⟨_, _, rfl, ?_, ?_⟩, rfl, rfl⟩
       · have ha := ‹CPPAD_ASSERT_UNKNOWN true (decide (s.llvm_base2first_node.lookup _ ≠ 0)) =
           Except.ok _›
         simpa using CPPAD_ASSERT_UNKNOWN_ok ha rfl
       · have ha := ‹CPPAD_ASSERT_UNKNOWN true (decide (_ < s.llvm_base2length.lookup _)) =
           Except.ok _›
         simpa using CPPAD_ASSERT_UNKNOWN_ok ha rfl)
    | cases h

theorem call_atomic_debug {s s1 : State} {I : Instruction} {str : String}
    (h : call_atomic true s I str = Except.ok s1) :
    ∃ base n_result, I.operands[2]? = some (Value.ConstantInt n_result) ∧
      s1.llvm_ptr2graph_node = s.llvm_ptr2graph_node.insert base (s.result_node + 1) ∧
      s1.llvm_base2first_node = s.llvm_base2first_node.insert base (s.result_node + 1) ∧
      s1.llvm_base2length = s.llvm_base2length.insert base n_result ∧
      s1.result_node = s.result_node + n_result := by
  unfold call_atomic at h
  simp only [bind, Except.bind, pure, Except.pure, throw, throwThe,
    MonadExceptOf.throw, if_true] at h
  repeat' split at h
  all_goals first
    | (cases h
       have h2 := ‹vec_get true I.operands 2 = Except.ok _›
       rw [vec_get_ok_iff] at h2
       simp only [get_int_constant_ok_iff] at *
       subst_vars
       exact ⟨_, _, by assumption, rfl, rfl, rfl, rfl⟩)
    | cases h

/-- In the debug build a step changes the pointer nodes and the registered contiguous
vectors in one of three ways: not at all, by an address computation inside a registered
vector, or by an atomic call that registers its result vector after the node counter. -/
theorem step_debug_tables {s s1 : State} {k : Nat} {I : Instruction}
    (h : step true s k I = Except.ok s1) :
    (s1.llvm_ptr2graph_node = s.llvm_ptr2graph_node ∧
      s1.llvm_base2first_node = s.llvm_base2first_node ∧
      s1.llvm_base2length = s.llvm_base2length) ∨
    ((∃ base index, s1.llvm_ptr2graph_node =
          s.llvm_ptr2graph_node.insert (I.result k)
            (s.llvm_base2first_node.lookup base + index) ∧
        s.llvm_base2first_node.lookup base ≠ 0 ∧
        index < s.llvm_base2length.lookup base) ∧
      s1.llvm_base2first_node = s.llvm_base2first_node ∧
      s1.llvm_base2length = s.llvm_base2length) ∨
    (I.opcode = Opcode.Call ∧ I.operands.length = 7 ∧
      ∃ base n_result, I.operands[2]? = some (Value.ConstantInt n_result) ∧
        s1.llvm_ptr2graph_node = s.llvm_ptr2graph_node.insert base (s.result_node + 1) ∧
        s1.llvm_base2first_node = s.llvm_base2first_node.insert base (s.result_node + 1) ∧
        s1.llvm_base2length = s.llvm_base2length.insert base n_result ∧
        s1.result_node = s.result_node + n_result) := by
  unfold step at h
  split at h
  case h_13 =>
    obtain ⟨h1, _, _, _⟩ := step_zext_frame h
    left
    rw [h1]
    exact ⟨rfl, rfl, rfl⟩
  case h_14 =>
    obtain ⟨h1, _, _, _⟩ := step_or_frame h
    left
    rw [h1]
    exact ⟨rfl, rfl, rfl⟩
  case h_17 =>
    rcases step_store_effect h with ⟨rfl, _⟩ | ⟨op0, op1, vec, _, _, _, hvec, _, rfl⟩
    · exact Or.inl ⟨rfl, rfl, rfl⟩
    · exact Or.inl ⟨rfl, rfl, rfl⟩
  case h_10 =>
    obtain ⟨h1 | h1, h2, h3⟩ := step_gep_debug h
    · exact Or.inl ⟨h1, h2, h3⟩
    · exact Or.inr (Or.inl ⟨h1, h2, h3⟩)
  case h_4 hop =>
    unfold step_call at h
    simp only [bind, Except.bind] at h
    split at h
    · cases h
    · split at h
      · rename_i h7
        exact Or.inr (Or.inr ⟨hop, h7, call_atomic_debug h⟩)
      · left
        simp only [call_discrete, call_math, bind, Except.bind, pure, Except.pure, throw,
          throwThe, MonadExceptOf.throw] at h
        repeat' split at h
        all_goals first
          | (cases h
             exact ⟨rfl, rfl, rfl⟩)
          | cases h
  all_goals
    left
    simp only [step_load, step_br, step_binary, step_fcmp, step_cmp,
      step_icmp, step_fneg, step_ret, step_select, bind, Except.bind, pure, Except.pure,
      throw, throwThe, MonadExceptOf.throw] at h
    repeat' split at h
    all_goals first
      | (cases h
         exact ⟨rfl, rfl, rfl⟩)
      | cases h

theorem mem_set_cases {α : Type} (l : List α) (i : Nat) (x y : α) (h : y ∈ l.set i x) :
    y ∈ l ∨ y = x := by
  rcases List.mem_or_eq_of_mem_set h with h1 | h1
  · exact Or.inl h1
  · exact Or.inr h1

/-- In the debug build a step keeps every node in the tables at most the node counter, when
the instruction, if it is an atomic call, declares at least one result. -/
theorem step_nodes_bounded {s s1 : State} {k : Nat} {I : Instruction}
    (h : step true s k I = Except.ok s1)
    (hres : I.opcode = Opcode.Call → I.operands.length = 7 →
      ∀ n_result, I.operands[2]? = some (Value.ConstantInt n_result) → 1 ≤ n_result)
    (hP : nodes_bounded s) : nodes_bounded s1 := by
  obtain ⟨p1, p2, p3, p4, p5⟩ := hP
  have hr : s.result_node ≤ s1.result_node := by
    rw [step_result_node h]
    omega
  have hlook : ∀ ptr, s.llvm_ptr2graph_node.lookup ptr ≤ s.result_node := by
    intro ptr
    cases hf : DenseMap.find? s.llvm_ptr2graph_node ptr with
    | none =>
      rw [DenseMap.lookup_of_none _ _ hf]
      exact Nat.zero_le _
    | some node =>
      rw [DenseMap.lookup_of_find? _ _ _ hf]
      exact p2 ptr node hf
  have hlookv : ∀ v, s.llvm_value2graph_node.lookup v ≤ s.result_node := by
    intro v
    cases hf : DenseMap.find? s.llvm_value2graph_node v with
    | none =>
      rw [DenseMap.lookup_of_none _ _ hf]
      exact Nat.zero_le _
    | some node =>
      rw [DenseMap.lookup_of_find? _ _ _ hf]
      exact p1 v node hf
  have q1 : ∀ key node, DenseMap.find? s1.llvm_value2graph_node key = some node →
      node ≤ s1.result_node := by
    intro key node hf
    rcases step_value2node_node h with e | ⟨n, e, hn⟩
    · rw [e] at hf
      exact le_trans (p1 key node hf) hr
    · rw [e] at hf
      rcases DenseMap.find?_insert_cases _ _ _ _ _ hf with h2 | ⟨_, _, h2⟩
      · exact le_trans (p1 key node h2) hr
      · subst h2
        rcases hn with ⟨hn1, hn2⟩ | ⟨ptr, hn1⟩
        · omega
        · rw [hn1]
          exact le_trans (hlook ptr) hr
  have q5 : ∀ index2node ∈ s1.vec_index2node, ∀ node ∈ index2node,
      node ≤ s1.result_node := by
    intro index2node hmem node hnode
    rcases step_vec_index2node h with e | ⟨vi, vec, idx, op0, hvec, e⟩
    · rw [e] at hmem
      exact le_trans (p5 index2node hmem node hnode) hr
    · rw [e] at hmem
      rcases mem_set_cases _ _ _ _ hmem with h2 | h2
      · exact le_trans (p5 index2node h2 node hnode) hr
      · subst h2
        rcases mem_set_cases _ _ _ _ hnode with h3 | h3
        · exact le_trans (p5 vec (List.getElem?_mem hvec) node h3) hr
        · rw [h3]
          exact le_trans (hlookv op0) hr
  rcases step_debug_tables h with ⟨e1, e2, e3⟩ | ⟨⟨base, index, e1, hb, hi⟩, e2, e3⟩ |
    ⟨hop, h7, base, n_result, h2, e1, e2, e3, e4⟩
  · refine ⟨q1, ?_, ?_, ?_, q5⟩
    · intro key node hf
      rw [e1] at hf
      exact le_trans (p2 key node hf) hr
    · intro b f hf
      rw [e2] at hf
      obtain ⟨len, h3, h4, h5⟩ := p3 b f hf
      exact ⟨len, by rw [e3]; exact h3, h4, by omega⟩
    · intro b len hf
      rw [e3] at hf
      rw [e2]
      exact p4 b len hf
  · refine ⟨q1, ?_, ?_, ?_, q5⟩
    · intro key node hf
      rw [e1] at hf
      rcases DenseMap.find?_insert_cases _ _ _ _ _ hf with h2 | ⟨_, _, h2⟩
      · exact le_trans (p2 key node h2) hr
      · subst h2
        cases hf1 : DenseMap.find? s.llvm_base2first_node base with
        | none =>
          exfalso
          apply hb
          rw [DenseMap.lookup_of_none _ _ hf1]
          rfl
        | some f =>
          obtain ⟨len, h3, h4, h5⟩ := p3 base f hf1
          rw [DenseMap.lookup_of_find? _ _ _ hf1]
          rw [DenseMap.lookup_of_find? _ _ _ h3] at hi
          omega
    · intro b f hf
      rw [e2] at hf
      obtain ⟨len, h3, h4, h5⟩ := p3 b f hf
      exact ⟨len, by rw [e3]; exact h3, h4, by omega⟩
    · intro b len hf
      rw [e3] at hf
      rw [e2]
      exact p4 b len hf
  · have hn := hres hop h7 n_result h2
    refine ⟨q1, ?_, ?_, ?_, q5⟩
    · intro key node hf
      rw [e1] at hf
      rcases DenseMap.find?_insert_cases _ _ _ _ _ hf with h3 | ⟨_, _, h3⟩
      · exact le_trans (p2 key node h3) hr
      · omega
    · intro b f hf
      rw [e2] at hf
      rw [e3]
      rcases DenseMap.find?_insert_cases _ _ _ _ _ hf with h3 | ⟨hnone, hb, hf2⟩
      · obtain ⟨len, h4, h5, h6⟩ := p3 b f h3
        exact ⟨len, DenseMap.find?_insert_mono _ _ _ _ _ h4, h5, by omega⟩
      · subst hb
        have hnone2 : DenseMap.find? s.llvm_base2length b = none := by
          cases hl : DenseMap.find? s.llvm_base2length b with
          | none => rfl
          | some len =>
            obtain ⟨f2, hf3⟩ := p4 b len hl
            rw [hnone] at hf3
            cases hf3
        exact ⟨n_result, DenseMap.find?_insert_self _ _ _ hnone2, hn, by omega⟩
    · intro b len hf
      rw [e3] at hf
      rw [e2]
      rcases DenseMap.find?_insert_cases _ _ _ _ _ hf with h3 | ⟨_, hb, _⟩
      · obtain ⟨f, h4⟩ := p4 b len h3
        exact ⟨f, DenseMap.find?_insert_mono _ _ _ _ _ h4⟩
      · subst hb
        cases hf1 : DenseMap.find? s.llvm_base2first_node b with
        | some f => exact ⟨f, DenseMap.find?_insert_mono _ _ _ _ _ hf1⟩
        | none => exact ⟨_, DenseMap.find?_insert_self _ _ _ hf1⟩

theorem find?_bind_from_bound (n : Nat) (H : List Value) (key : Value) (node : Nat)
    (h : DenseMap.find? (bind_from n H) key = some node) : node < n + H.length := by
  induction H generalizing n with
  | nil => simp [bind_from, DenseMap.find?] at h
  | cons a H ih =>
    simp only [bind_from, DenseMap.find?] at h
    split at h
    · cases h
      simp
    · have := ih (n + 1) h
      simp only [List.length_cons]
      omega

/-- In the debug build, with at least one input and at least one result for every atomic
call, every node in the tables is at most the node counter in every state that the second
pass reaches. -/
theorem llvm_ir.state_at_nodes_bounded {ir_obj : llvm_ir} {graph_obj : cpp_graph}
    {k : Nat} {s : State} (hk : k ≤ ir_obj.function_ir.length)
    (hDV : 1 ≤ ir_obj.n_dynamic_ind_ + ir_obj.n_variable_ind_)
    (hres : atomic_results_nonempty ir_obj.function_ir)
    (hs : llvm_ir.state_at true ir_obj graph_obj k = Except.ok s) : nodes_bounded s := by
  refine llvm_ir.state_at_induction (fun _ s => nodes_bounded s) ?_ ?_ k hk s hs
  · intro s0 h0
    obtain ⟨_, e2, e3, e4, _, _, _⟩ := llvm_ir.before_pass2_effect h0
    unfold llvm_ir.before_pass2 at h0
    simp only [bind, Except.bind, pure, Except.pure] at h0
    split at h0
    · cases h0
    · rename_i s1 hs1
      cases h0
      have hinit : const_inv ir_obj.n_dynamic_ind_ ir_obj.n_variable_ind_
          (init_state ir_obj.function_name_ ir_obj.n_dynamic_ind_ ir_obj.n_variable_ind_
            graph_obj) [] := by
        constructor <;> simp [init_state, first_occurrences, bind_from, cpp_graph.initialize]
      obtain ⟨c1, c2⟩ := const_inv_pass1 [] hinit hs1
      obtain ⟨⟨_, _, a3, _, _, _, _⟩, hsc⟩ := pass1_effect hs1
      have hlen : s1.graph_obj.constant_vec.length =
          (first_occurrences (([] ++ ir_obj.function_ir.flatMap
            (fun I => I.operands)).filter is_fp)).length := by
        rw [c2]
        apply filterMap_constantFP_length
        intro h hh
        have := (mem_first_occurrences _ _).1 hh
        exact (List.mem_filter.1 this).2
      have hvecs : ∀ index2node ∈ s1.vec_index2node, ∀ node ∈ index2node, node = 0 := by
        have hgen : ∀ (F : List Instruction) (t t1 : State),
            pass1 true ir_obj.n_dynamic_ind_ ir_obj.n_variable_ind_ t F = Except.ok t1 →
            (∀ index2node ∈ t.vec_index2node, ∀ node ∈ index2node, node = 0) →
            ∀ index2node ∈ t1.vec_index2node, ∀ node ∈ index2node, node = 0 := by
          intro F
          induction F with
          | nil =>
            intro t t1 ht hz
            simp only [pass1, pure, Except.pure] at ht
            cases ht
            exact hz
          | cons I rest ih =>
            intro t t1 ht hz
            simp only [pass1, bind, Except.bind] at ht
            split at ht
            · cases ht
            · rename_i t2 ht2
              apply ih t2 t1 ht
              unfold pass1_step pass1_atomic at ht2
              simp only [bind, Except.bind, pure, Except.pure] at ht2
              have hfold := (pass1_operands_frame ir_obj.n_dynamic_ind_
                ir_obj.n_variable_ind_ t I.operands).2.2
              repeat' split at ht2
              all_goals first
                | (cases ht2
                   intro index2node hmem node hnode
                   simp only [List.mem_append, List.mem_singleton] at hmem
                   rcases hmem with hm | hm
                   · rw [hfold] at hm
                     exact hz index2node hm node hnode
                   · subst hm
                     exact List.eq_of_mem_replicate hnode)
                | (cases ht2
                   rw [hfold]
                   exact hz)
                | cases ht2
        apply hgen _ _ _ hs1
        intro index2node hmem node hnode
        simp only [init_state, List.mem_singleton] at hmem
        subst hmem
        cases hnode
      refine ⟨?_, ?_, ?_, ?_, ?_⟩
      · intro key node hf
        simp only [between_passes] at hf ⊢
        rw [c1] at hf
        have := find?_bind_from_bound _ _ _ _ hf
        omega
      · intro key node hf
        rw [e3] at hf
        simp only [DenseMap.find?] at hf
        split at hf
        · cases hf
          simp only [between_passes]
          omega
        · cases hf
      · intro base f hf
        rw [e4] at hf
        simp only [DenseMap.find?] at hf
        split at hf
        · rename_i hb
          cases hf
          subst hb
          refine ⟨ir_obj.n_dynamic_ind_ + ir_obj.n_variable_ind_, ?_, hDV, ?_⟩
          · simp only [between_passes, if_true]
            rw [a3]
            simp [init_state, DenseMap.insert, DenseMap.find?]
          · simp only [between_passes]
            omega
        · cases hf
      · intro base len hf
        rw [e4]
        simp only [between_passes, if_true] at hf
        rw [a3] at hf
        simp only [init_state, DenseMap.insert, DenseMap.find?] at hf
        split at hf
        · rename_i hb
          exact ⟨1, by simp [DenseMap.find?, hb]⟩
        · cases hf
      · intro index2node hmem node hnode
        simp only [between_passes, List.mem_append, List.mem_singleton] at hmem
        rcases hmem with hm | hm
        · rw [hvecs index2node hm node hnode]
          exact Nat.zero_le _
        · subst hm
          rw [List.eq_of_mem_replicate hnode]
          exact Nat.zero_le _
  · intro k I s s1 hI _ hP hstep
    exact step_nodes_bounded hstep
      (fun hop h7 n hn => hres I (List.getElem?_mem hI) hop h7 n hn) hP

/-! ## The operator name table, evaluated -/

open graph_op_enum in
theorem name2graph_op_eq :
    name2graph_op =
      [("cppad_link_fabs", 1), ("acos", 2), ("acosh", 3), ("asin", 5), ("asinh", 6),
       ("atan", 7), ("atanh", 8), ("cppad_link_azmul", 10), ("cos", 18), ("cosh", 19),
       ("erf", 22), ("erfc", 23), ("exp", 24), ("expm1", 25), ("log1p", 26), ("log", 27),
       ("pow", 30), ("cppad_link_sign", 32), ("sin", 33), ("sinh", 34), ("sqrt", 35),
       ("tan", 38), ("tanh", 39)] := by
  decide

theorem DenseMap.find?_eq_some_of_mem {κ β : Type} [DecidableEq κ] (m : DenseMap κ β)
    (hnd : (m.map Prod.fst).Nodup) (k : κ) (v : β) (h : (k, v) ∈ m) :
    DenseMap.find? m k = some v := by
  induction m with
  | nil => cases h
  | cons p m ih =>
    obtain ⟨k1, v1⟩ := p
    simp only [List.map_cons, List.nodup_cons, List.mem_map, Prod.exists, exists_and_right,
      exists_eq_right, not_exists] at hnd
    simp only [List.mem_cons, Prod.mk.injEq] at h
    unfold DenseMap.find?
    rcases h with ⟨rfl, rfl⟩ | h
    · simp
    · have hne : k1 ≠ k := by
        intro he
        subst he
        exact hnd.1 v h
      simp only [hne, if_false]
      exact ih hnd.2 h

theorem DenseMap.mem_of_find? {κ β : Type} [DecidableEq κ] (m : DenseMap κ β) (k : κ) (v : β)
    (h : DenseMap.find? m k = some v) : (k, v) ∈ m := by
  induction m with
  | nil => cases h
  | cons p m ih =>
    obtain ⟨k1, v1⟩ := p
    unfold DenseMap.find? at h
    split at h
    · rename_i he
      cases h
      subst he
      exact List.mem_cons_self _ _
    · exact List.mem_cons_of_mem _ (ih h)

theorem DenseMap.find?_eq_none_of_not_mem {κ β : Type} [DecidableEq κ] (m : DenseMap κ β)
    (k : κ) (h : k ∉ m.map Prod.fst) : DenseMap.find? m k = none := by
  cases hf : DenseMap.find? m k with
  | none => rfl
  | some v =>
    exact absurd (List.mem_map.mpr ⟨(k, v), DenseMap.mem_of_find? m k v hf, rfl⟩) h

/-- Every entry of the operator name table holds the value of the tag that `math_names` pairs
with the name, plus one; and the names of the table are the names of `math_names`. -/
theorem name2graph_op_find? (str : String) :
    (∀ tag, (str, tag) ∈ math_names →
      ∃ i_op, DenseMap.find? name2graph_op str = some (i_op + 1) ∧ graph_op_cast i_op = tag) ∧
    (str ∉ math_names.map Prod.fst → DenseMap.find? name2graph_op str = none) := by
  constructor
  · intro tag h
    have hnd : (name2graph_op.map Prod.fst).Nodup := by
      rw [name2graph_op_eq]
      decide
    have key : ∀ p ∈ math_names, ∃ q ∈ name2graph_op, q.1 = p.1 ∧ q.2 ≠ 0 ∧
        graph_op_cast (q.2 - 1) = p.2 := by
      rw [name2graph_op_eq]
      decide
    obtain ⟨⟨name, v⟩, h1, h2, h3, h4⟩ := key (str, tag) h
    simp only at h2 h3 h4
    subst h2
    refine ⟨v - 1, ?_, h4⟩
    rw [DenseMap.find?_eq_some_of_mem _ hnd _ _ h1]
    congr 1
    omega
  · intro h
    apply DenseMap.find?_eq_none_of_not_mem
    have hsub : ∀ name ∈ name2graph_op.map Prod.fst, name ∈ math_names.map Prod.fst := by
      rw [name2graph_op_eq]
      decide
    intro hm
    exact h (hsub str hm)

/-! ## Calls by name -/

/-- The name of the callee of a call with two or three operands, once the operand types that
the debug build asserts hold. -/
theorem call_name_of_types {debug : Bool} {I : Instruction} {v : Value}
    (hn : I.operands.length = 2 ∨ I.operands.length = 3)
    (hv : callee I = some v)
    (hty : debug = true → call_types_ok I) :
    call_name debug I = Except.ok v.getName := by
  unfold call_name
  unfold callee at hv
  rcases hn with h2 | h3
  · rw [if_pos h2] at hv ⊢
    obtain ⟨operand0, h0⟩ : ∃ operand0, I.operands[0]? = some operand0 :=
      ⟨_, List.getElem?_eq_getElem (by omega)⟩
    have t0 : debug = true → get_type_id operand0 = TypeID.DoubleTyID := by
      intro hdb
      have := ((hty hdb).1 h2).1
      simpa [h0] using this
    have t1 : debug = true → get_type_id v = TypeID.PointerTyID := by
      intro hdb
      have := ((hty hdb).1 h2).2
      simpa [hv] using this
    simp only [bind, Except.bind, pure, Except.pure, (vec_get_ok_iff debug _ _ _).2 h0,
      (vec_get_ok_iff debug _ _ _).2 hv,
      CPPAD_ASSERT_UNKNOWN_of debug _ (fun hdb => decide_eq_true (t0 hdb)),
      CPPAD_ASSERT_UNKNOWN_of debug _ (fun hdb => decide_eq_true (t1 hdb))]
  · have h2 : ¬ I.operands.length = 2 := by omega
    rw [if_neg h2, if_pos h3] at hv
    rw [if_neg h2, if_pos h3]
    obtain ⟨operand0, h0⟩ : ∃ operand0, I.operands[0]? = some operand0 :=
      ⟨_, List.getElem?_eq_getElem (by omega)⟩
    obtain ⟨operand1, h1⟩ : ∃ operand1, I.operands[1]? = some operand1 :=
      ⟨_, List.getElem?_eq_getElem (by omega)⟩
    have t0 : debug = true → get_type_id operand0 = TypeID.DoubleTyID := by
      intro hdb
      have := ((hty hdb).2 h3).1
      simpa [h0] using this
    have t1 : debug = true → get_type_id operand1 = TypeID.DoubleTyID := by
      intro hdb
      have := ((hty hdb).2 h3).2.1
      simpa [h1] using this
    have t2 : debug = true → get_type_id v = TypeID.PointerTyID := by
      intro hdb
      have := ((hty hdb).2 h3).2.2
      simpa [hv] using this
    simp only [bind, Except.bind, pure, Except.pure, (vec_get_ok_iff debug _ _ _).2 h0,
      (vec_get_ok_iff debug _ _ _).2 h1, (vec_get_ok_iff debug _ _ _).2 hv,
      CPPAD_ASSERT_UNKNOWN_of debug _ (fun hdb => decide_eq_true (t0 hdb)),
      CPPAD_ASSERT_UNKNOWN_of debug _ (fun hdb => decide_eq_true (t1 hdb)),
      CPPAD_ASSERT_UNKNOWN_of debug _ (fun hdb => decide_eq_true (t2 hdb))]

/-- A call that is processed without failure was dispatched on the name of its callee. -/
theorem step_call_dispatch {debug : Bool} {s s1 : State} {k : Nat} {I : Instruction}
    (h : step_call debug s k I = Except.ok s1) :
    ∃ v, callee I = some v ∧ call_name debug I = Except.ok v.getName ∧
      step_call debug s k I =
        if I.operands.length = 7 then call_atomic debug s I v.getName
        else if starts_with v.getName "discrete_" = true then
          call_discrete debug s k I v.getName
        else call_math debug s k I v.getName := by
  cases hname : call_name debug I with
  | error e =>
    unfold step_call at h
    simp only [bind, Except.bind, hname] at h
    cases h
  | ok str =>
    obtain ⟨v, hv, hstr⟩ := call_name_ok hname
    subst hstr
    refine ⟨v, hv, rfl, ?_⟩
    unfold step_call
    simp only [bind, Except.bind, hname]

/-- What a call of a math function that is processed without failure does. -/
theorem call_math_effect {debug : Bool} {s s1 : State} {k : Nat} {I : Instruction}
    {str : String} (h : call_math debug s k I str = Except.ok s1) :
    s1.graph_obj.operator_vec =
        s.graph_obj.operator_vec ++ [graph_op_cast (name2graph_op.lookup str - 1)] ∧
      s1.result_node = s.result_node + 1 ∧
      s1.llvm_value2graph_node =
        s.llvm_value2graph_node.insert (I.result k) (s.result_node + 1) := by
  unfold call_math at h
  simp only [bind, Except.bind, pure, Except.pure, throw, throwThe, MonadExceptOf.throw] at h
  repeat' split at h
  all_goals first
    | (cases h
       exact ⟨rfl, rfl, rfl⟩)
    | cases h

/-- A call of a math function whose name is in the table is processed without failure once
the nodes of its float operands are not zero, which the debug build asserts. -/
theorem call_math_total (debug : Bool) (s : State) (k : Nat) (I : Instruction) (str : String)
    (hn : I.operands.length = 2 ∨ I.operands.length = 3)
    (hhit : name2graph_op.lookup str ≠ 0)
    (hnodes : debug = true → ∀ i x, i + 1 < I.operands.length → I.operands[i]? = some x →
      (s.llvm_value2graph_node.insert (I.result k) (s.result_node + 1)).lookup x ≠ 0) :
    ∃ s1, call_math debug s k I str = Except.ok s1 := by
  obtain ⟨operand0, h0⟩ : ∃ operand0, I.operands[0]? = some operand0 :=
    ⟨_, List.getElem?_eq_getElem (by omega)⟩
  obtain ⟨operand1, h1⟩ : ∃ operand1, I.operands[1]? = some operand1 :=
    ⟨_, List.getElem?_eq_getElem (by omega)⟩
  have a0 := CPPAD_ASSERT_UNKNOWN_of debug
    (decide ((s.llvm_value2graph_node.insert (I.result k) (s.result_node + 1)).lookup
      operand0 ≠ 0))
    (fun hdb => decide_eq_true (hnodes hdb 0 operand0 (by omega) h0))
  unfold call_math
  simp only [bind, Except.bind, pure, Except.pure, throw, throwThe, MonadExceptOf.throw,
    if_neg hhit, (vec_get_ok_iff debug _ _ _).2 h0, (vec_get_ok_iff debug _ _ _).2 h1, a0]
  by_cases h3 : I.operands.length = 3
  · have a1 := CPPAD_ASSERT_UNKNOWN_of debug
      (decide ((s.llvm_value2graph_node.insert (I.result k) (s.result_node + 1)).lookup
        operand1 ≠ 0))
      (fun hdb => decide_eq_true (hnodes hdb 1 operand1 (by omega) h1))
    simp only [if_pos h3, a1]
    exact ⟨_, rfl⟩
  · simp only [if_neg h3]
    exact ⟨_, rfl⟩

/-! ## Boolean combines -/

theorem combine_op_enum_of_tag {pred : Predicate} {tag : graph_op_enum}
    (h : comp_tag pred = some tag) : combine_op_enum pred = (tag, false) := by
  cases pred <;> simp_all [comp_tag, combine_op_enum]

theorem select_op_enum_of_tag {pred : Predicate} {tag : graph_op_enum}
    (h : cexp_tag pred = some tag) : select_op_enum pred = (tag, false) := by
  cases pred <;> simp_all [cexp_tag, select_op_enum]

/-- The graph after a boolean combine has emitted the comparison operators of `cs`. -/
theorem combine_loop_ok (debug : Bool) (operands : List Value) (s : State)
    (hp : ∀ c ∈ recorded_compares s operands, (comp_tag c.pred).isSome = true) :
    combine_loop debug s operands = Except.ok
      { s with
        graph_obj :=
          { s.graph_obj with
            operator_vec := s.graph_obj.operator_vec ++
              (recorded_compares s operands).filterMap (fun c => comp_tag c.pred)
            operator_arg := s.graph_obj.operator_arg ++
              (recorded_compares s operands).flatMap
                (fun c => [s.node c.right, s.node c.left]) } } := by
  induction operands generalizing s with
  | nil =>
    simp [combine_loop, recorded_compares, pure, Except.pure]
  | cons v rest ih =>
    unfold combine_loop
    by_cases hl : (s.llvm_compare2info.lookup v).left = none
    · have hrec : recorded_compares s (v :: rest) = recorded_compares s rest := by
        simp [recorded_compares, hl]
      have h1 : combine_operand debug s v = Except.ok s := by
        simp [combine_operand, hl, pure, Except.pure]
      rw [hrec] at hp ⊢
      simp only [bind, Except.bind, h1]
      exact ih s hp
    · have hrec : recorded_compares s (v :: rest) =
          s.llvm_compare2info.lookup v :: recorded_compares s rest := by
        simp [recorded_compares, hl]
      rw [hrec] at hp ⊢
      obtain ⟨tag, htag⟩ := Option.isSome_iff_exists.mp
        (hp (s.llvm_compare2info.lookup v) (List.mem_cons_self _ _))
      have h1 : combine_operand debug s v = Except.ok
          { s with
            graph_obj :=
              ((s.graph_obj.operator_vec_push_back tag).operator_arg_push_back
                (s.node (s.llvm_compare2info.lookup v).right)).operator_arg_push_back
                (s.node (s.llvm_compare2info.lookup v).left) } := by
        unfold combine_operand
        simp only [bind, Except.bind, pure, Except.pure, ne_eq, hl, not_false_eq_true,
          if_true, combine_op_enum_of_tag htag, Bool.not_false, CPPAD_ASSERT_UNKNOWN_true]
      simp only [bind, Except.bind, h1]
      rw [ih]
      · simp [recorded_compares, State.node, htag, cpp_graph.operator_vec_push_back,
          cpp_graph.operator_arg_push_back]
      · intro c hc
        exact hp c (List.mem_cons_of_mem _ (by simpa [recorded_compares] using hc))

/-- The result of an instruction that is bound to a node is the result of an instruction
other than a boolean combine or a compare. -/
theorem llvm_ir.state_at_value_keys_op {debug : Bool} {ir_obj : llvm_ir}
    {graph_obj : cpp_graph} {k : Nat} {s : State}
    (hk : k ≤ ir_obj.function_ir.length)
    (hs : llvm_ir.state_at debug ir_obj graph_obj k = Except.ok s) :
    ∀ j ty node, DenseMap.find? s.llvm_value2graph_node (Value.Inst j ty) = some node →
      ∃ J, ir_obj.function_ir[j]? = some J ∧ j < k ∧ J.opcode ≠ Opcode.ZExt ∧
        J.opcode ≠ Opcode.Or ∧ J.opcode ≠ Opcode.FCmp ∧ J.opcode ≠ Opcode.ICmp := by
  refine llvm_ir.state_at_induction
    (fun k s => ∀ j ty node,
      DenseMap.find? s.llvm_value2graph_node (Value.Inst j ty) = some node →
      ∃ J, ir_obj.function_ir[j]? = some J ∧ j < k ∧ J.opcode ≠ Opcode.ZExt ∧
        J.opcode ≠ Opcode.Or ∧ J.opcode ≠ Opcode.FCmp ∧ J.opcode ≠ Opcode.ICmp)
    ?_ ?_ k hk s hs
  · intro s0 h0 j ty node hf
    have hkeys := llvm_ir.state_at_value_keys (Nat.zero_le _)
      ((llvm_ir.state_at_zero debug ir_obj graph_obj).trans h0) _ _ hf
    rcases hkeys with ⟨h, dbl, he⟩ | ⟨j2, ty2, hlt, _⟩
    · cases he
    · omega
  · intro k I s s1 hI hs ih hstep j ty node hf
    have hcases : s1.llvm_value2graph_node = s.llvm_value2graph_node ∨
        (I.opcode ≠ Opcode.ZExt ∧ I.opcode ≠ Opcode.Or ∧ I.opcode ≠ Opcode.FCmp ∧
          I.opcode ≠ Opcode.ICmp ∧
          ∃ node, s1.llvm_value2graph_node =
            s.llvm_value2graph_node.insert (I.result k) node) := by
      by_cases hz : I.opcode = Opcode.ZExt
      · left
        unfold step at hstep
        rw [hz] at hstep
        have := (step_zext_frame hstep).1
        rw [this]
      · by_cases ho : I.opcode = Opcode.Or
        · left
          unfold step at hstep
          rw [ho] at hstep
          have := (step_or_frame hstep).1
          rw [this]
        · by_cases hf : I.opcode = Opcode.FCmp
          · left
            unfold step at hstep
            rw [hf] at hstep
            unfold step_fcmp step_cmp at hstep
            simp only [bind, Except.bind, pure, Except.pure] at hstep
            repeat' split at hstep
            all_goals first
              | (cases hstep
                 rfl)
              | cases hstep
          · by_cases hi : I.opcode = Opcode.ICmp
            · left
              unfold step at hstep
              rw [hi] at hstep
              unfold step_icmp step_cmp at hstep
              simp only [bind, Except.bind, pure, Except.pure] at hstep
              repeat' split at hstep
              all_goals first
                | (cases hstep
                   rfl)
                | cases hstep
            · rcases step_value2node hstep with h | h
              · exact Or.inl h
              · exact Or.inr ⟨hz, ho, hf, hi, h⟩
    rcases hcases with h | ⟨hz, ho, hfc, hic, node2, h⟩
    · rw [h] at hf
      obtain ⟨J, h1, h2, h3⟩ := ih j ty node hf
      exact ⟨J, h1, by omega, h3⟩
    · rw [h] at hf
      rcases DenseMap.find?_insert_cases _ _ _ _ _ hf with hold | ⟨_, hkey, _⟩
      · obtain ⟨J, h1, h2, h3⟩ := ih j ty node hold
        exact ⟨J, h1, by omega, h3⟩
      · unfold Instruction.result at hkey
        cases hkey
        exact ⟨I, hI, by omega, hz, ho, hfc, hic⟩

/-! ## Compares and selects -/

/-- A relation between states that every step of the second pass respects holds between any
two states that the second pass reaches, the earlier one first. -/
theorem llvm_ir.state_at_rel {debug : Bool} {ir_obj : llvm_ir} {graph_obj : cpp_graph}
    (R : State → State → Prop) (hrefl : ∀ s, R s s)
    (htrans : ∀ s s1 s2, R s s1 → R s1 s2 → R s s2)
    (hstep : ∀ s s1 k I, step debug s k I = Except.ok s1 → R s s1)
    {j k : Nat} {sj sk : State} (hjk : j ≤ k) (hk : k ≤ ir_obj.function_ir.length)
    (hj : llvm_ir.state_at debug ir_obj graph_obj j = Except.ok sj)
    (hsk : llvm_ir.state_at debug ir_obj graph_obj k = Except.ok sk) : R sj sk := by
  induction k generalizing sk with
  | zero =>
    have : j = 0 := by omega
    subst this
    rw [hj] at hsk
    cases hsk
    exact hrefl _
  | succ k ih =>
    by_cases hjeq : j = k + 1
    · subst hjeq
      rw [hj] at hsk
      cases hsk
      exact hrefl _
    · have hI : ir_obj.function_ir[k]? = some ir_obj.function_ir[k] :=
        List.getElem?_eq_getElem (by omega)
      obtain ⟨s, hs, hst⟩ := llvm_ir.state_at_succ_ok hI hsk
      exact htrans _ _ _ (ih (by omega) (by omega) hs) (hstep _ _ _ _ hst)

/-- What a compare that is processed without failure does: it records its predicate and its
two operands under its result, and nothing else. -/
theorem step_cmp_effect {debug : Bool} {ty : TypeID} {s s1 : State} {k : Nat}
    {I : Instruction} (h : step_cmp debug ty s k I = Except.ok s1) :
    ∃ left right, I.operands[0]? = some left ∧ I.operands[1]? = some right ∧
      s1 = { s with
        llvm_compare2info := s.llvm_compare2info.insert (I.result k)
          { pred := I.predicate, left := some left, right := some right } } ∧
      (debug = true → I.operands.length = 2 ∧ get_type_id left = ty ∧
        get_type_id right = ty) := by
  unfold step_cmp at h
  simp only [bind, Except.bind, pure, Except.pure] at h
  repeat' split at h
  all_goals first
    | (cases h
       have h0 := (vec_get_ok_iff _ _ _ _).1 ‹vec_get debug I.operands 0 = Except.ok _›
       have h1 := (vec_get_ok_iff _ _ _ _).1 ‹vec_get debug I.operands 1 = Except.ok _›
       refine ⟨_, _, h0, h1, rfl, fun hdb => ?_⟩
       have a0 := CPPAD_ASSERT_UNKNOWN_ok
         ‹CPPAD_ASSERT_UNKNOWN debug (decide (I.operands.length = 2)) = Except.ok _› hdb
       have a1 := CPPAD_ASSERT_UNKNOWN_ok
         ‹CPPAD_ASSERT_UNKNOWN debug (decide (get_type_id _ = ty)) = Except.ok _› hdb
       simp only [decide_eq_true_eq] at a0 a1
       refine ⟨a0, ?_, ?_⟩ <;> simp_all [CPPAD_ASSERT_UNKNOWN])
    | cases h

/-- A step of the second pass leaves `llvm_compare2info` as it is unless the instruction is a
compare, which records its predicate and operands under its result and changes nothing
else. -/
theorem step_compare2info {debug : Bool} {s s1 : State} {k : Nat} {I : Instruction}
    (h : step debug s k I = Except.ok s1) :
    (s1.llvm_compare2info = s.llvm_compare2info ∧ I.opcode ≠ Opcode.FCmp ∧
      I.opcode ≠ Opcode.ICmp) ∨
    ((I.opcode = Opcode.FCmp ∨ I.opcode = Opcode.ICmp) ∧
      ∃ left right, I.operands[0]? = some left ∧ I.operands[1]? = some right ∧
        s1 = { s with
          llvm_compare2info := s.llvm_compare2info.insert (I.result k)
            { pred := I.predicate, left := some left, right := some right } } ∧
        (debug = true → I.opcode = Opcode.FCmp → I.operands.length = 2 ∧
          get_type_id left = TypeID.DoubleTyID ∧ get_type_id right = TypeID.DoubleTyID)) := by
  unfold step at h
  split at h
  case h_9 =>
    have hf := ‹I.opcode = Opcode.FCmp›
    obtain ⟨l, r, h0, h1, h2, h3⟩ := step_cmp_effect h
    exact Or.inr ⟨Or.inl hf, l, r, h0, h1, h2, fun hdb _ => h3 hdb⟩
  case h_11 =>
    have hi := ‹I.opcode = Opcode.ICmp›
    right
    unfold step_icmp at h
    simp only [bind, Except.bind] at h
    split at h
    · cases h
    · split at h
      · cases h
      · obtain ⟨l, r, h0, h1, h2, _⟩ := step_cmp_effect h
        refine ⟨Or.inr hi, l, r, h0, h1, h2, fun _ hfc => ?_⟩
        rw [hi] at hfc
        cases hfc
  case h_13 =>
    have hop := ‹I.opcode = Opcode.ZExt›
    obtain ⟨h1, _, _, _⟩ := step_zext_frame h
    refine Or.inl ⟨by rw [h1], by rw [hop]; simp, by rw [hop]; simp⟩
  case h_14 =>
    have hop := ‹I.opcode = Opcode.Or›
    obtain ⟨h1, _, _, _⟩ := step_or_frame h
    refine Or.inl ⟨by rw [h1], by rw [hop]; simp, by rw [hop]; simp⟩
  case h_17 =>
    have hop := ‹I.opcode = Opcode.Store›
    refine Or.inl ⟨?_, by rw [hop]; simp, by rw [hop]; simp⟩
    rcases step_store_effect h with ⟨rfl, _⟩ | ⟨op0, op1, vec, _, _, _, hvec, _, rfl⟩
    · rfl
    · rfl
  all_goals
    have hop := ‹I.opcode = _›
    refine Or.inl ⟨?_, by rw [hop]; simp, by rw [hop]; simp⟩
    simp only [step_load, step_br, step_call, step_binary, step_gep,
      step_fneg, step_ret, step_select, call_atomic, call_discrete,
      call_math, bind, Except.bind, pure, Except.pure, throw, throwThe,
      MonadExceptOf.throw] at h
    repeat' split at h
    all_goals first
      | (cases h
         rfl)
      | cases h

/-- When the second pass is at position `k`, every entry of `llvm_compare2info` was recorded
by a compare at an earlier position, under the result of that compare. -/
theorem llvm_ir.state_at_compare_keys {debug : Bool} {ir_obj : llvm_ir}
    {graph_obj : cpp_graph} {k : Nat} {s : State}
    (hk : k ≤ ir_obj.function_ir.length)
    (hs : llvm_ir.state_at debug ir_obj graph_obj k = Except.ok s) :
    ∀ key cmp_info, DenseMap.find? s.llvm_compare2info key = some cmp_info →
      ∃ j J left right, j < k ∧ ir_obj.function_ir[j]? = some J ∧
        (J.opcode = Opcode.FCmp ∨ J.opcode = Opcode.ICmp) ∧ key = J.result j ∧
        J.operands[0]? = some left ∧ J.operands[1]? = some right ∧
        cmp_info = { pred := J.predicate, left := some left, right := some right } := by
  refine llvm_ir.state_at_induction
    (fun k s => ∀ key cmp_info, DenseMap.find? s.llvm_compare2info key = some cmp_info →
      ∃ j J left right, j < k ∧ ir_obj.function_ir[j]? = some J ∧
        (J.opcode = Opcode.FCmp ∨ J.opcode = Opcode.ICmp) ∧ key = J.result j ∧
        J.operands[0]? = some left ∧ J.operands[1]? = some right ∧
        cmp_info = { pred := J.predicate, left := some left, right := some right })
    ?_ ?_ k hk s hs
  · intro s0 h0 key cmp_info hf
    rw [(llvm_ir.before_pass2_effect h0).2.2.2.2.1] at hf
    cases hf
  · intro k I s s1 hI hs ih hstep key cmp_info hf
    rcases step_compare2info hstep with ⟨h, _, _⟩ | ⟨hop, l, r, h0, h1, h, _⟩
    · rw [h] at hf
      obtain ⟨j, J, l, r, hj, rest⟩ := ih key cmp_info hf
      exact ⟨j, J, l, r, by omega, rest⟩
    · rw [h] at hf
      rcases DenseMap.find?_insert_cases _ _ _ _ _ hf with hold | ⟨_, hkey, hval⟩
      · obtain ⟨j, J, l, r, hj, rest⟩ := ih key cmp_info hold
        exact ⟨j, J, l, r, by omega, rest⟩
      · exact ⟨k, I, l, r, by omega, hI, hop, hkey, h0, h1, hval⟩

/-- When the second pass is at position `k`, a compare at an earlier position `j` is recorded
under its result with its predicate and its two operands; in the debug build the operands of
an `FCmp` have the type double. -/
theorem llvm_ir.state_at_compare_recorded {debug : Bool} {ir_obj : llvm_ir}
    {graph_obj : cpp_graph} {j k : Nat} {s : State} {J : Instruction}
    (hjk : j < k) (hk : k ≤ ir_obj.function_ir.length)
    (hs : llvm_ir.state_at debug ir_obj graph_obj k = Except.ok s)
    (hJ : ir_obj.function_ir[j]? = some J)
    (hop : J.opcode = Opcode.FCmp ∨ J.opcode = Opcode.ICmp) :
    ∃ left right, J.operands[0]? = some left ∧ J.operands[1]? = some right ∧
      DenseMap.find? s.llvm_compare2info (J.result j) =
        some { pred := J.predicate, left := some left, right := some right } ∧
      (debug = true → J.opcode = Opcode.FCmp → J.operands.length = 2 ∧
        get_type_id left = TypeID.DoubleTyID ∧ get_type_id right = TypeID.DoubleTyID) ∧
      ∃ sj sj1, llvm_ir.state_at debug ir_obj graph_obj j = Except.ok sj ∧
        llvm_ir.state_at debug ir_obj graph_obj (j + 1) = Except.ok sj1 ∧
        sj1 = { sj with
          llvm_compare2info := sj.llvm_compare2info.insert (J.result j)
            { pred := J.predicate, left := some left, right := some right } } := by
  obtain ⟨sj1, hsj1⟩ := llvm_ir.state_at_prefix_ok (j := j + 1) (by omega) hk hs
  obtain ⟨sj, hsj, hstep⟩ := llvm_ir.state_at_succ_ok hJ hsj1
  rcases step_compare2info hstep with ⟨_, hf, hi⟩ | ⟨_, l, r, h0, h1, h, hty⟩
  · rcases hop with h | h
    · exact absurd h hf
    · exact absurd h hi
  · have hfresh : DenseMap.find? sj.llvm_compare2info (J.result j) = none := by
      cases hfind : DenseMap.find? sj.llvm_compare2info (J.result j) with
      | none => rfl
      | some c =>
        obtain ⟨j2, J2, _, _, hlt, _, _, hkey, _⟩ :=
          llvm_ir.state_at_compare_keys (by omega) hsj _ _ hfind
        simp only [Instruction.result, Value.Inst.injEq] at hkey
        omega
    have hrec : DenseMap.find? sj1.llvm_compare2info (J.result j) =
        some { pred := J.predicate, left := some l, right := some r } := by
      rw [h]
      exact DenseMap.find?_insert_self _ _ _ hfresh
    have hmono := llvm_ir.state_at_rel
      (fun s s1 => ∀ key (c : compare_info), DenseMap.find? s.llvm_compare2info key = some c →
        DenseMap.find? s1.llvm_compare2info key = some c)
      (fun _ _ _ hf => hf) (fun _ _ _ h1 h2 key c hf => h2 key c (h1 key c hf))
      (fun s s1 k I hst key c hf => by
        rcases step_compare2info hst with ⟨e, _, _⟩ | ⟨_, _, _, _, _, e, _⟩
        · rw [e]; exact hf
        · rw [e]; exact DenseMap.find?_insert_mono _ _ _ _ _ hf)
      (show j + 1 ≤ k by omega) hk hsj1 hs
    exact ⟨l, r, h0, h1, hmono _ _ hrec, hty, sj, sj1, hsj, hsj1, h⟩

/-- A select of float values whose compare is recorded with a predicate of Table B is
processed without failure, with the result that the source computes. -/
theorem step_select_ok (debug : Bool) (s : State) (k : Nat) (I : Instruction)
    (compare val_true val_false left right : Value) (pred : Predicate) (tag : graph_op_enum)
    (hops : I.operands = [compare, val_true, val_false])
    (hrec : DenseMap.find? s.llvm_compare2info compare =
      some { pred := pred, left := some left, right := some right })
    (htag : cexp_tag pred = some tag)
    (ht : get_type_id val_true = TypeID.DoubleTyID)
    (hd : debug = true → get_type_id val_false = TypeID.DoubleTyID ∧
      get_type_id left = TypeID.DoubleTyID ∧ get_type_id right = TypeID.DoubleTyID) :
    step_select debug s k I = Except.ok
      { s with
        graph_obj :=
          { s.graph_obj with
            operator_vec := s.graph_obj.operator_vec ++ [tag]
            operator_arg := s.graph_obj.operator_arg ++
              [s.llvm_value2graph_node.lookup left, s.llvm_value2graph_node.lookup right,
               s.llvm_value2graph_node.lookup val_true,
               s.llvm_value2graph_node.lookup val_false] }
        result_node := s.result_node + 1
        llvm_value2graph_node :=
          s.llvm_value2graph_node.insert (I.result k) (s.result_node + 1) } := by
  have hl := DenseMap.lookup_of_find? _ _ _ hrec
  unfold step_select
  simp only [bind, Except.bind, pure, Except.pure, hops, List.length_cons, List.length_nil,
    vec_get, List.getElem?_cons_zero, List.getElem?_cons_succ, hl, ht, if_true,
    select_op_enum_of_tag htag, Bool.not_false, CPPAD_ASSERT_UNKNOWN_true, ne_eq,
    not_false_eq_true, decide_True, reduceCtorEq, Option.map_some',
    CPPAD_ASSERT_UNKNOWN_of debug _ (fun hdb => decide_eq_true (hd hdb).1),
    CPPAD_ASSERT_UNKNOWN_of debug
      (decide (some (get_type_id left) = some TypeID.DoubleTyID ∧
        some (get_type_id right) = some TypeID.DoubleTyID))
      (fun hdb => decide_eq_true ⟨congrArg some (hd hdb).2.1, congrArg some (hd hdb).2.2⟩)]
  simp [State.node, cpp_graph.operator_vec_push_back, cpp_graph.operator_arg_push_back]

/-! ## Name tables -/

theorem name_index_loop_eq (str : String) (rest : List String) (i index : Nat)
    (h : index = i + rest.length) :
    name_index_loop str rest i index = i + rest.indexOf str := by
  induction rest generalizing i index with
  | nil => simp [name_index_loop, h]
  | cons name rest ih =>
    unfold name_index_loop
    have hlt : i < index := by simp at h; omega
    rw [if_pos hlt]
    by_cases hn : name = str
    · subst hn
      rw [if_pos rfl]
      have : name_index_loop name rest (i + 1) i = i := by
        cases rest with
        | nil => rfl
        | cons b t =>
          unfold name_index_loop
          rw [if_neg (by omega)]
      rw [this]
      simp
    · rw [if_neg hn, ih (i + 1) index (by simp at h; omega)]
      rw [List.indexOf_cons_ne _ hn]
      omega

/-- The index that the source computes is the position of the first occurrence of the name,
and the size of the table when the name does not occur. -/
theorem name_index_eq (name_vec : List String) (str : String) :
    name_index name_vec str = name_vec.indexOf str := by
  unfold name_index
  rw [name_index_loop_eq str name_vec 0 name_vec.length (by omega)]
  omega

/-- After the update the name is in the table at the index that the source computes, which is
its first occurrence; a name that was in the table leaves the table as it was and a new name
is appended. -/
theorem name_vec_update_spec (name_vec : List String) (str : String) :
    (name_vec_update name_vec (name_index name_vec str) str)[name_index name_vec str]? =
      some str ∧
    (name_vec_update name_vec (name_index name_vec str) str).indexOf str =
      name_index name_vec str ∧
    (str ∈ name_vec → name_vec_update name_vec (name_index name_vec str) str = name_vec) ∧
    (str ∉ name_vec →
      name_vec_update name_vec (name_index name_vec str) str = name_vec ++ [str]) := by
  rw [name_index_eq]
  unfold name_vec_update
  by_cases hmem : str ∈ name_vec
  · have hlt : name_vec.indexOf str < name_vec.length := List.indexOf_lt_length.mpr hmem
    rw [if_neg (by omega)]
    refine ⟨?_, rfl, fun _ => rfl, fun h => absurd hmem h⟩
    rw [List.getElem?_eq_getElem hlt]
    simp
  · have heq : name_vec.indexOf str = name_vec.length := List.indexOf_eq_length.mpr hmem
    rw [if_pos heq]
    refine ⟨?_, ?_, fun h => absurd h hmem, fun _ => rfl⟩
    · rw [heq]
      simp
    · rw [List.indexOf_append_of_not_mem hmem]
      simp [heq]

/-- A name that passes the prefix test of the source is the prefix followed by the rest of
the name. -/
theorem starts_with_substr (str pre : String) (h : starts_with str pre = true) :
    str = pre ++ substr_from str pre.length := by
  unfold starts_with at h
  simp only [decide_eq_true_eq] at h
  have h2 := h.2
  apply String.ext
  simp only [String.data_append, substr_from]
  calc str.data = str.data.take pre.length ++ str.data.drop pre.length :=
        (List.take_append_drop _ _).symm
    _ = pre.data ++ str.data.drop pre.length := by rw [h2]

/-- A call of a discrete function with one float operand is processed without failure once
the node of the operand is not zero, which the debug build asserts. -/
theorem call_discrete_ok (debug : Bool) (s : State) (k : Nat) (I : Instruction)
    (x callee_op : Value) (str : String)
    (hops : I.operands = [x, callee_op])
    (hd : debug = true →
      (s.llvm_value2graph_node.insert (I.result k) (s.result_node + 1)).lookup x ≠ 0) :
    call_discrete debug s k I str = Except.ok
      { s with
        graph_obj :=
          { s.graph_obj with
            operator_vec := s.graph_obj.operator_vec ++ [graph_op_enum.discrete_graph_op]
            discrete_name_vec :=
              name_vec_update s.graph_obj.discrete_name_vec
                (name_index s.graph_obj.discrete_name_vec (substr_from str 9))
                (substr_from str 9)
            operator_arg := s.graph_obj.operator_arg ++
              [name_index s.graph_obj.discrete_name_vec (substr_from str 9),
               (s.llvm_value2graph_node.insert (I.result k) (s.result_node + 1)).lookup x] }
        result_node := s.result_node + 1
        llvm_value2graph_node :=
          s.llvm_value2graph_node.insert (I.result k) (s.result_node + 1) } := by
  unfold call_discrete
  simp only [bind, Except.bind, pure, Except.pure, hops, List.length_cons, List.length_nil,
    vec_get, List.getElem?_cons_zero, decide_True, CPPAD_ASSERT_UNKNOWN_true,
    Nat.reduceAdd, CPPAD_ASSERT_UNKNOWN_of debug _ (fun hdb => decide_eq_true (hd hdb))]
  simp [cpp_graph.operator_vec_push_back, cpp_graph.operator_arg_push_back]

/-! ## The scattered tables after the first pass -/

/-- Registering a base keeps the tables registered. -/
theorem registered_insert (s s1 : State) (base : Value) (n : Nat)
    (h1 : s1.llvm_element2info =
      s.llvm_element2info.insert base { base := some base, index := 0 })
    (h2 : s1.vec_index2node = s.vec_index2node ++ [List.replicate n 0])
    (h3 : s1.llvm_base2index2node =
      s.llvm_base2index2node.insert base s.vec_index2node.length)
    (hr : registered s) : registered s1 := by
  obtain ⟨hlen, hok, hinj, hbase, helem, hzero⟩ := hr
  have hok1 : scattered_ok s1 := by
    intro b vi hfind
    rw [h3] at hfind
    rw [h2]
    simp only [List.length_append, List.length_singleton]
    exact DenseMap.insert_bound s.llvm_base2index2node _ s.vec_index2node.length
      (fun x => 1 ≤ x ∧ x < s.vec_index2node.length + 1)
      (fun k2 x hx => ⟨(hok k2 x hx).1, Nat.lt_succ_of_lt (hok k2 x hx).2⟩)
      ⟨hlen, Nat.lt_succ_self _⟩ b vi hfind
  have hzero1 : ∀ index2node ∈ s1.vec_index2node, ∀ node ∈ index2node, node = 0 := by
    intro tbl htbl node hnode
    rw [h2] at htbl
    rcases List.mem_append.mp htbl with h | h
    · exact hzero tbl h node hnode
    · simp only [List.mem_singleton] at h
      subst h
      exact (List.mem_replicate.mp hnode).2
  refine ⟨by rw [h2]; simp, hok1, ?_, ?_, ?_, hzero1⟩
  · intro b1 b2 vi hf1 hf2
    rw [h3] at hf1 hf2
    rcases DenseMap.find?_insert_cases _ _ _ _ _ hf1 with o1 | ⟨_, e1, v1⟩
    · rcases DenseMap.find?_insert_cases _ _ _ _ _ hf2 with o2 | ⟨_, e2, v2⟩
      · exact hinj b1 b2 vi o1 o2
      · have := (hok b1 vi o1).2
        omega
    · rcases DenseMap.find?_insert_cases _ _ _ _ _ hf2 with o2 | ⟨_, e2, v2⟩
      · have := (hok b2 vi o2).2
        omega
      · rw [e1, e2]
  · intro b vi hf
    rw [h3] at hf
    rw [h1]
    rcases DenseMap.find?_insert_cases _ _ _ _ _ hf with o | ⟨hnone, e, _⟩
    · exact DenseMap.find?_insert_mono _ _ _ _ _ (hbase b vi o)
    · subst e
      apply DenseMap.find?_insert_self
      cases hfe : DenseMap.find? s.llvm_element2info b with
      | none => rfl
      | some info =>
        obtain ⟨_, vi2, hvi2⟩ := helem b info hfe
        rw [hnone] at hvi2
        cases hvi2
  · intro key info hf
    rw [h1] at hf
    rw [h3]
    rcases DenseMap.find?_insert_cases _ _ _ _ _ hf with o | ⟨hnone, e, hv⟩
    · obtain ⟨hi, vi, hvi⟩ := helem key info o
      exact ⟨hi, vi, DenseMap.find?_insert_mono _ _ _ _ _ hvi⟩
    · subst e
      refine ⟨hv, ?_⟩
      cases hfb : DenseMap.find? s.llvm_base2index2node key with
      | none => exact ⟨_, DenseMap.find?_insert_self _ _ _ hfb⟩
      | some vi => exact ⟨vi, DenseMap.find?_insert_mono _ _ _ _ _ hfb⟩

/-- The operands of an instruction do not touch the scattered tables in the first pass. -/
theorem pass1_operands_tables (D V : Nat) (s : State) (operands : List Value) :
    (operands.foldl (pass1_operand D V) s).llvm_element2info = s.llvm_element2info ∧
    (operands.foldl (pass1_operand D V) s).llvm_base2index2node = s.llvm_base2index2node ∧
    (operands.foldl (pass1_operand D V) s).vec_index2node = s.vec_index2node := by
  induction operands generalizing s with
  | nil => exact ⟨rfl, rfl, rfl⟩
  | cons x rest ih =>
    simp only [List.foldl_cons]
    obtain ⟨a, b, c⟩ := ih (pass1_operand D V s x)
    rw [a, b, c]
    unfold pass1_operand
    cases x.constantFP? with
    | none => exact ⟨rfl, rfl, rfl⟩
    | some dbl =>
      dsimp only
      split <;> exact ⟨rfl, rfl, rfl⟩

/-- What the first pass does for one instruction: nothing, or it registers the argument base
of an atomic call with a table of zeros of the length that the call declares. -/
theorem pass1_atomic_cases {debug : Bool} {s s1 : State} {I : Instruction}
    (h : pass1_atomic debug s I = Except.ok s1) :
    (s1 = s ∧ ¬ (I.operands.length = 7 ∧ I.opcode = Opcode.Call)) ∨
    (I.operands.length = 7 ∧ I.opcode = Opcode.Call ∧
      ∃ n_arg base, I.operands[0]? = some (Value.ConstantInt n_arg) ∧
        I.operands[1]? = some base ∧
        s1 = { s with
          llvm_element2info :=
            s.llvm_element2info.insert base { base := some base, index := 0 }
          vec_index2node := s.vec_index2node ++ [List.replicate n_arg 0]
          llvm_base2index2node :=
            s.llvm_base2index2node.insert base s.vec_index2node.length }) := by
  unfold pass1_atomic at h
  split at h
  · rename_i hc
    right
    simp only [bind, Except.bind, pure, Except.pure] at h
    split at h
    · cases h
    · split at h
      · cases h
      · split at h
        · cases h
        · cases h
          have h0 := (vec_get_ok_iff _ _ _ _).1 ‹vec_get debug I.operands 0 = Except.ok _›
          have h1 := (vec_get_ok_iff _ _ _ _).1 ‹vec_get debug I.operands 1 = Except.ok _›
          have hc0 := (get_int_constant_ok_iff _ _ _).1
            ‹get_int_constant debug _ = Except.ok _›
          subst hc0
          exact ⟨hc.1, hc.2, _, _, h0, h1, rfl⟩
  · rename_i hc
    left
    cases h
    exact ⟨rfl, hc⟩

/-- The argument base of every atomic call among `seen` is registered. -/
theorem pass1_registered {debug : Bool} {D V : Nat} {F : List Instruction}
    (seen : List Instruction) {s s1 : State}
    (h : pass1 debug D V s F = Except.ok s1)
    (hr : registered s) (ht : table_lengths seen none s)
    (hc : ∀ C ∈ seen, C.opcode = Opcode.Call → C.operands.length = 7 →
      ∀ base, C.operands[1]? = some base →
        ∃ vec_index, DenseMap.find? s.llvm_base2index2node base = some vec_index) :
    registered s1 ∧ table_lengths (seen ++ F) none s1 ∧
      ∀ C ∈ seen ++ F, C.opcode = Opcode.Call → C.operands.length = 7 →
        ∀ base, C.operands[1]? = some base →
          ∃ vec_index, DenseMap.find? s1.llvm_base2index2node base = some vec_index := by
  induction F generalizing s seen with
  | nil =>
    simp only [pass1, pure, Except.pure] at h
    cases h
    simpa using ⟨hr, ht, hc⟩
  | cons I rest ih =>
    simp only [pass1, bind, Except.bind] at h
    split at h
    · cases h
    · rename_i s2 hs2
      have hgoal : registered s2 ∧ table_lengths (seen ++ [I]) none s2 ∧
          ∀ C ∈ seen ++ [I], C.opcode = Opcode.Call → C.operands.length = 7 →
            ∀ base, C.operands[1]? = some base →
              ∃ vec_index, DenseMap.find? s2.llvm_base2index2node base = some vec_index := by
        unfold pass1_step at hs2
        obtain ⟨e1, e2, e3⟩ := pass1_operands_tables D V s I.operands
        have hr0 : registered (I.operands.foldl (pass1_operand D V) s) := by
          unfold registered scattered_ok
          rw [e1, e2, e3]
          exact hr
        rcases pass1_atomic_cases hs2 with ⟨hsame, hnot⟩ | ⟨h7, hcall, n_arg, base, h0, h1, heq⟩
        · rw [hsame]
          refine ⟨hr0, ?_, ?_⟩
          · intro b vi hf
            rw [e2] at hf
            obtain ⟨tbl, htbl, hcase⟩ := ht b vi hf
            refine ⟨tbl, by rw [e3]; exact htbl, ?_⟩
            rcases hcase with ⟨C, hC, rest⟩ | ⟨_, hn, _⟩
            · exact Or.inl ⟨C, List.mem_append_left _ hC, rest⟩
            · cases hn
          · intro C hC hop hlen b hb
            rw [e2]
            rcases List.mem_append.mp hC with hC | hC
            · exact hc C hC hop hlen b hb
            · simp only [List.mem_singleton] at hC
              subst hC
              exact absurd ⟨hlen, hop⟩ hnot
        · have hr2 : registered s2 :=
            registered_insert _ s2 base n_arg (by rw [heq]) (by rw [heq]) (by rw [heq]) hr0
          refine ⟨hr2, ?_, ?_⟩
          · intro b vi hf
            rw [heq] at hf ⊢
            simp only at hf ⊢
            rw [e2, e3] at hf
            rw [e3]
            rcases DenseMap.find?_insert_cases _ _ _ _ _ hf with o | ⟨_, eb, ev⟩
            · obtain ⟨tbl, htbl, hcase⟩ := ht b vi o
              have hlt : vi < s.vec_index2node.length := (hr.2.1 b vi o).2
              refine ⟨tbl, ?_, ?_⟩
              · rw [List.getElem?_append_left hlt]
                exact htbl
              · rcases hcase with ⟨C, hC, rest⟩ | ⟨_, hn, _⟩
                · exact Or.inl ⟨C, List.mem_append_left _ hC, rest⟩
                · cases hn
            · subst eb ev
              refine ⟨List.replicate n_arg 0, by simp, Or.inl ⟨I, by simp, hcall, h7, h1, ?_⟩⟩
              simpa using h0
          · intro C hC hop hlen b hb
            rw [heq]
            simp only
            rw [e2]
            rcases List.mem_append.mp hC with hC | hC
            · obtain ⟨vi, hvi⟩ := hc C hC hop hlen b hb
              exact ⟨vi, DenseMap.find?_insert_mono _ _ _ _ _ hvi⟩
            · simp only [List.mem_singleton] at hC
              subst hC
              rw [h1] at hb
              cases hb
              cases hfb : DenseMap.find? s.llvm_base2index2node base with
              | none => exact ⟨_, DenseMap.find?_insert_self _ _ _ hfb⟩
              | some vi => exact ⟨vi, DenseMap.find?_insert_mono _ _ _ _ _ hfb⟩
      obtain ⟨g1, g2, g3⟩ := hgoal
      have := ih (seen ++ [I]) h g1 g2 g3
      simpa using this

/-- When the second pass starts the scattered tables are registered, the table of every base
has the length that an atomic call declares for it (or the number of dependent variables for
the output pointer), and the argument base of every atomic call is registered. -/
theorem llvm_ir.before_pass2_registered {debug : Bool} {ir_obj : llvm_ir}
    {graph_obj : cpp_graph} {s : State}
    (h : llvm_ir.before_pass2 debug ir_obj graph_obj = Except.ok s) :
    registered s ∧ table_lengths ir_obj.function_ir (some ir_obj.n_variable_dep_) s ∧
      ∀ C ∈ ir_obj.function_ir, C.opcode = Opcode.Call → C.operands.length = 7 →
        ∀ base, C.operands[1]? = some base →
          ∃ vec_index, DenseMap.find? s.llvm_base2index2node base = some vec_index := by
  unfold llvm_ir.before_pass2 at h
  simp only [bind, Except.bind, pure, Except.pure] at h
  split at h
  · cases h
  · rename_i s1 hs1
    cases h
    have hinit : registered (init_state ir_obj.function_name_ ir_obj.n_dynamic_ind_
        ir_obj.n_variable_ind_ graph_obj) := by
      refine ⟨by simp [init_state], ?_, ?_, ?_, ?_, ?_⟩
      · intro b vi hf
        simp [init_state, DenseMap.find?] at hf
      · intro b1 b2 vi hf
        simp [init_state, DenseMap.find?] at hf
      · intro b vi hf
        simp [init_state, DenseMap.find?] at hf
      · intro key info hf
        simp [init_state, DenseMap.find?] at hf
      · intro tbl htbl node hnode
        simp only [init_state, List.mem_singleton] at htbl
        subst htbl
        cases hnode
    obtain ⟨g1, g2, g3⟩ := pass1_registered [] hs1 hinit
      (by
        intro b vi hf
        simp [init_state, DenseMap.find?] at hf)
      (by
        intro C hC
        cases hC)
    simp only [List.nil_append] at g2 g3
    refine ⟨registered_insert s1 _ output_ptr ir_obj.n_variable_dep_ rfl rfl rfl g1, ?_, ?_⟩
    · intro b vi hf
      simp only [between_passes] at hf ⊢
      rcases DenseMap.find?_insert_cases _ _ _ _ _ hf with o | ⟨hnone, eb, ev⟩
      · obtain ⟨tbl, htbl, hcase⟩ := g2 b vi o
        have hlt : vi < s1.vec_index2node.length := (g1.2.1 b vi o).2
        refine ⟨tbl, ?_, ?_⟩
        · rw [List.getElem?_append_left hlt]
          exact htbl
        · rcases hcase with hC | ⟨_, hn, _⟩
          · exact Or.inl hC
          · cases hn
      · subst eb ev
        refine ⟨List.replicate ir_obj.n_variable_dep_ 0, by simp, Or.inr ⟨rfl, by simp, ?_⟩⟩
        intro C hC hop hlen hb
        obtain ⟨vi, hvi⟩ := g3 C hC hop hlen output_ptr hb
        rw [hnone] at hvi
        cases hvi
    · intro C hC hop hlen b hb
      obtain ⟨vi, hvi⟩ := g3 C hC hop hlen b hb
      exact ⟨vi, DenseMap.find?_insert_mono _ _ _ _ _ hvi⟩

/-! ## Element descriptors in the second pass -/

/-- What an address computation that is processed without failure does: on a registered base
it records the element descriptor `(base, index)` under its result, and on any other base it
binds its result to the node `first_node + index`. -/
theorem step_gep_effect {debug : Bool} {s s1 : State} {k : Nat} {I : Instruction}
    (h : step_gep debug s k I = Except.ok s1) :
    ∃ base index, I.operands[0]? = some base ∧
      I.operands[1]? = some (Value.ConstantInt index) ∧
      ((s.llvm_base2index2node.lookup base ≠ 0 ∧
        s1 = { s with
          llvm_element2info := s.llvm_element2info.insert (I.result k)
            { base := some base, index := index } }) ∨
       (s.llvm_base2index2node.lookup base = 0 ∧
        s1 = { s with
          llvm_ptr2graph_node := s.llvm_ptr2graph_node.insert (I.result k)
            (s.llvm_base2first_node.lookup base + index) })) := by
  unfold step_gep at h
  simp only [bind, Except.bind, pure, Except.pure] at h
  repeat' split at h
  all_goals first
    | (cases h
       have h0 := (vec_get_ok_iff _ _ _ _).1 ‹vec_get debug I.operands 0 = Except.ok _›
       have h1 := (vec_get_ok_iff _ _ _ _).1 ‹vec_get debug I.operands 1 = Except.ok _›
       have hc := (get_int_constant_ok_iff _ _ _).1
         ‹get_int_constant debug _ = Except.ok _›
       subst hc
       first
         | exact ⟨_, _, h0, h1, Or.inl ⟨by assumption, rfl⟩⟩
         | exact ⟨_, _, h0, h1, Or.inr ⟨by simp_all, rfl⟩⟩)
    | cases h

/-- A step of the second pass leaves `llvm_element2info` as it is unless the instruction is an
address computation on a registered base, which records its element descriptor. -/
theorem step_element2info {debug : Bool} {s s1 : State} {k : Nat} {I : Instruction}
    (h : step debug s k I = Except.ok s1) :
    s1.llvm_element2info = s.llvm_element2info ∨
    (I.opcode = Opcode.GetElementPtr ∧
      ∃ base index, I.operands[0]? = some base ∧
        I.operands[1]? = some (Value.ConstantInt index) ∧
        s.llvm_base2index2node.lookup base ≠ 0 ∧
        s1.llvm_element2info = s.llvm_element2info.insert (I.result k)
          { base := some base, index := index }) := by
  unfold step at h
  split at h
  case h_10 =>
    have hop := ‹I.opcode = Opcode.GetElementPtr›
    obtain ⟨b, idx, h0, h1, hc⟩ := step_gep_effect h
    rcases hc with ⟨hne, heq⟩ | ⟨_, heq⟩
    · exact Or.inr ⟨hop, b, idx, h0, h1, hne, by rw [heq]⟩
    · exact Or.inl (by rw [heq])
  case h_13 =>
    obtain ⟨h1, _, _, _⟩ := step_zext_frame h
    exact Or.inl (by rw [h1])
  case h_14 =>
    obtain ⟨h1, _, _, _⟩ := step_or_frame h
    exact Or.inl (by rw [h1])
  case h_17 =>
    rcases step_store_effect h with ⟨rfl, _⟩ | ⟨op0, op1, vec, _, _, _, hvec, _, rfl⟩
    · exact Or.inl rfl
    · exact Or.inl rfl
  all_goals
    left
    simp only [step_load, step_br, step_call, step_binary, step_fcmp, step_cmp,
      step_icmp, step_fneg, step_ret, step_select, call_atomic, call_discrete,
      call_math, bind, Except.bind, pure, Except.pure, throw, throwThe,
      MonadExceptOf.throw] at h
    repeat' split at h
    all_goals first
      | (cases h
         rfl)
      | cases h

theorem map_length_getElem? {l l1 : List (List Nat)}
    (h : l1.map List.length = l.map List.length) (vi : Nat) (tbl : List Nat)
    (htbl : l[vi]? = some tbl) : ∃ tbl1, l1[vi]? = some tbl1 ∧ tbl1.length = tbl.length := by
  have h2 : (l1.map List.length)[vi]? = (l.map List.length)[vi]? := by rw [h]
  simp only [List.getElem?_map, htbl, Option.map_some'] at h2
  cases h1 : l1[vi]? with
  | none =>
    rw [h1] at h2
    cases h2
  | some tbl1 =>
    rw [h1] at h2
    simp only [Option.map_some', Option.some.injEq] at h2
    exact ⟨tbl1, rfl, h2⟩

/-- The state of the scattered tables that the second pass maintains at position `k`:
`llvm_base2index2node` is as registered, and every element descriptor is the descriptor
`(base, 0)` of a registered base or was recorded by an address computation on a registered
base at an earlier position. -/
theorem llvm_ir.state_at_scattered {debug : Bool} {ir_obj : llvm_ir}
    {graph_obj : cpp_graph} {k : Nat} {s : State}
    (hk : k ≤ ir_obj.function_ir.length)
    (hs : llvm_ir.state_at debug ir_obj graph_obj k = Except.ok s) :
    scattered_ok s ∧
    (∀ b1 b2 vec_index, DenseMap.find? s.llvm_base2index2node b1 = some vec_index →
      DenseMap.find? s.llvm_base2index2node b2 = some vec_index → b1 = b2) ∧
    (∀ base vec_index, DenseMap.find? s.llvm_base2index2node base = some vec_index →
      DenseMap.find? s.llvm_element2info base = some { base := some base, index := 0 }) ∧
    (∀ key info, DenseMap.find? s.llvm_element2info key = some info →
      (info = { base := some key, index := 0 } ∧
        ∃ vec_index, DenseMap.find? s.llvm_base2index2node key = some vec_index) ∨
      ∃ p G base index, p < k ∧ ir_obj.function_ir[p]? = some G ∧
        G.opcode = Opcode.GetElementPtr ∧ key = G.result p ∧
        G.operands[0]? = some base ∧ G.operands[1]? = some (Value.ConstantInt index) ∧
        info = { base := some base, index := index } ∧
        s.llvm_base2index2node.lookup base ≠ 0) ∧
    table_lengths ir_obj.function_ir (some ir_obj.n_variable_dep_) s ∧
    (∀ C ∈ ir_obj.function_ir, C.opcode = Opcode.Call → C.operands.length = 7 →
      ∀ base, C.operands[1]? = some base →
        ∃ vec_index, DenseMap.find? s.llvm_base2index2node base = some vec_index) := by
  refine llvm_ir.state_at_induction
    (fun k s => scattered_ok s ∧
      (∀ b1 b2 vec_index, DenseMap.find? s.llvm_base2index2node b1 = some vec_index →
        DenseMap.find? s.llvm_base2index2node b2 = some vec_index → b1 = b2) ∧
      (∀ base vec_index, DenseMap.find? s.llvm_base2index2node base = some vec_index →
        DenseMap.find? s.llvm_element2info base = some { base := some base, index := 0 }) ∧
      (∀ key info, DenseMap.find? s.llvm_element2info key = some info →
        (info = { base := some key, index := 0 } ∧
          ∃ vec_index, DenseMap.find? s.llvm_base2index2node key = some vec_index) ∨
        ∃ p G base index, p < k ∧ ir_obj.function_ir[p]? = some G ∧
          G.opcode = Opcode.GetElementPtr ∧ key = G.result p ∧
          G.operands[0]? = some base ∧ G.operands[1]? = some (Value.ConstantInt index) ∧
          info = { base := some base, index := index } ∧
          s.llvm_base2index2node.lookup base ≠ 0) ∧
      table_lengths ir_obj.function_ir (some ir_obj.n_variable_dep_) s ∧
      (∀ C ∈ ir_obj.function_ir, C.opcode = Opcode.Call → C.operands.length = 7 →
        ∀ base, C.operands[1]? = some base →
          ∃ vec_index, DenseMap.find? s.llvm_base2index2node base = some vec_index))
    ?_ ?_ k hk s hs
  · intro s0 h0
    obtain ⟨⟨_, r2, r3, r4, r5, _⟩, t, c⟩ := llvm_ir.before_pass2_registered h0
    exact ⟨r2, r3, r4, fun key info hf => Or.inl (r5 key info hf), t, c⟩
  · intro k I s s1 hI hs ih hstep
    obtain ⟨i1, i2, i3, i4, i5, i6⟩ := ih
    have hb : s1.llvm_base2index2node = s.llvm_base2index2node := (step_frame hstep).2
    have hl := step_vec_lengths hstep
    have hlen : s1.vec_index2node.length = s.vec_index2node.length := by
      have := congrArg List.length hl
      simpa using this
    have hmono : ∀ key info, DenseMap.find? s.llvm_element2info key = some info →
        DenseMap.find? s1.llvm_element2info key = some info := by
      intro key info hf
      rcases step_element2info hstep with e | ⟨_, _, _, _, _, _, e⟩
      · rw [e]; exact hf
      · rw [e]; exact DenseMap.find?_insert_mono _ _ _ _ _ hf
    refine ⟨?_, ?_, ?_, ?_, ?_, ?_⟩
    · intro b vi hf
      rw [hb] at hf
      rw [hlen]
      exact i1 b vi hf
    · rw [hb]
      exact i2
    · intro b vi hf
      rw [hb] at hf
      exact hmono _ _ (i3 b vi hf)
    · intro key info hf
      rw [hb]
      have hold : DenseMap.find? s.llvm_element2info key = some info →
          (info = { base := some key, index := 0 } ∧
            ∃ vec_index, DenseMap.find? s.llvm_base2index2node key = some vec_index) ∨
          ∃ p G base index, p < k + 1 ∧ ir_obj.function_ir[p]? = some G ∧
            G.opcode = Opcode.GetElementPtr ∧ key = G.result p ∧
            G.operands[0]? = some base ∧ G.operands[1]? = some (Value.ConstantInt index) ∧
            info = { base := some base, index := index } ∧
            s.llvm_base2index2node.lookup base ≠ 0 := by
        intro hf0
        rcases i4 key info hf0 with h | ⟨p, G, b, idx, hp, rest⟩
        · exact Or.inl h
        · exact Or.inr ⟨p, G, b, idx, by omega, rest⟩
      rcases step_element2info hstep with e | ⟨hop, b, idx, h0, h1, hne, e⟩
      · rw [e] at hf
        exact hold hf
      · rw [e] at hf
        rcases DenseMap.find?_insert_cases _ _ _ _ _ hf with o | ⟨_, ekey, einfo⟩
        · exact hold o
        · exact Or.inr ⟨k, I, b, idx, by omega, hI, hop, ekey, h0, h1, einfo, hne⟩
    · intro b vi hf
      rw [hb] at hf
      obtain ⟨tbl, htbl, hcase⟩ := i5 b vi hf
      obtain ⟨tbl1, htbl1, hlen1⟩ := map_length_getElem? hl vi tbl htbl
      refine ⟨tbl1, htbl1, ?_⟩
      rw [hlen1]
      exact hcase
    · rw [hb]
      exact i6

/-- Along the second pass `llvm_base2index2node` stays what it is and an element descriptor
stays recorded. -/
theorem llvm_ir.state_at_element_mono {debug : Bool} {ir_obj : llvm_ir}
    {graph_obj : cpp_graph} {j k : Nat} {sj sk : State}
    (hjk : j ≤ k) (hk : k ≤ ir_obj.function_ir.length)
    (hj : llvm_ir.state_at debug ir_obj graph_obj j = Except.ok sj)
    (hsk : llvm_ir.state_at debug ir_obj graph_obj k = Except.ok sk) :
    sk.llvm_base2index2node = sj.llvm_base2index2node ∧
    ∀ key info, DenseMap.find? sj.llvm_element2info key = some info →
      DenseMap.find? sk.llvm_element2info key = some info :=
  llvm_ir.state_at_rel
    (fun s s1 => s1.llvm_base2index2node = s.llvm_base2index2node ∧
      ∀ key info, DenseMap.find? s.llvm_element2info key = some info →
        DenseMap.find? s1.llvm_element2info key = some info)
    (fun _ => ⟨rfl, fun _ _ hf => hf⟩)
    (fun _ _ _ h1 h2 => ⟨h2.1.trans h1.1, fun key info hf => h2.2 key info (h1.2 key info hf)⟩)
    (fun s s1 k I hst => ⟨(step_frame hst).2, fun key info hf => by
      rcases step_element2info hst with e | ⟨_, _, _, _, _, _, e⟩
      · rw [e]; exact hf
      · rw [e]; exact DenseMap.find?_insert_mono _ _ _ _ _ hf⟩)
    hjk hk hj hsk

/-- When no argument base is the result of an address computation, an address computation
`(base, index)` on a registered base at a position before `k` is recorded under its result
when the second pass is at position `k`. -/
theorem llvm_ir.state_at_gep_recorded {debug : Bool} {ir_obj : llvm_ir}
    {graph_obj : cpp_graph} {p k : Nat} {s : State} {G : Instruction} {base : Value}
    {index : Nat}
    (hplain : arg_bases_plain ir_obj.function_ir)
    (hpk : p < k) (hk : k ≤ ir_obj.function_ir.length)
    (hs : llvm_ir.state_at debug ir_obj graph_obj k = Except.ok s)
    (hG : ir_obj.function_ir[p]? = some G)
    (hop : G.opcode = Opcode.GetElementPtr)
    (h0 : G.operands[0]? = some base)
    (h1 : G.operands[1]? = some (Value.ConstantInt index))
    (hreg : s.llvm_base2index2node.lookup base ≠ 0) :
    DenseMap.find? s.llvm_element2info (G.result p) =
      some { base := some base, index := index } := by
  obtain ⟨sp1, hsp1⟩ := llvm_ir.state_at_prefix_ok (j := p + 1) (by omega) hk hs
  obtain ⟨sp, hsp, hstep⟩ := llvm_ir.state_at_succ_ok hG hsp1
  obtain ⟨hb1, hm1⟩ := llvm_ir.state_at_element_mono (show p + 1 ≤ k by omega) hk hsp1 hs
  obtain ⟨hb0, _⟩ := llvm_ir.state_at_element_mono (show p ≤ p + 1 by omega) (by omega)
    hsp hsp1
  have hregp : sp.llvm_base2index2node.lookup base ≠ 0 := by
    rw [← hb0, ← hb1]
    exact hreg
  obtain ⟨_, _, _, esound, tl, _⟩ := llvm_ir.state_at_scattered (show p ≤ _ by omega) hsp
  have hfresh : DenseMap.find? sp.llvm_element2info (G.result p) = none := by
    cases hf : DenseMap.find? sp.llvm_element2info (G.result p) with
    | none => rfl
    | some info =>
      rcases esound _ _ hf with ⟨_, vi, hvi⟩ | ⟨p2, G2, _, _, hp2, _, _, hkey, _⟩
      · obtain ⟨tbl, _, hcase⟩ := tl _ _ hvi
        rcases hcase with ⟨C, hC, hcall, h7, hb, _⟩ | ⟨hout, _, _⟩
        · exact absurd hb (hplain C hC hcall h7 p G hG hop)
        · unfold Instruction.result output_ptr at hout
          cases hout
      · simp only [Instruction.result, Value.Inst.injEq] at hkey
        omega
  unfold step at hstep
  rw [hop] at hstep
  obtain ⟨b, idx, g0, g1, hc⟩ := step_gep_effect hstep
  rw [h0] at g0
  rw [h1] at g1
  cases g0
  cases g1
  rcases hc with ⟨_, heq⟩ | ⟨hz, _⟩
  · apply hm1
    rw [heq]
    exact DenseMap.find?_insert_self _ _ _ hfresh
  · exact absurd hz hregp

/-! ## The scattered tables in the second pass -/

/-- A step of the second pass leaves the scattered tables as they are unless the instruction
is a store other than a store to the message vector, which writes the node of its value
operand into the slot that the element descriptor of its destination denotes. -/
theorem step_tables {debug : Bool} {s s1 : State} {k : Nat} {I : Instruction}
    (h : step debug s k I = Except.ok s1) :
    (s1.vec_index2node = s.vec_index2node ∧
      (I.opcode ≠ Opcode.Store ∨ I.operands[1]? = some msg_ptr)) ∨
    (I.opcode = Opcode.Store ∧ ∃ v dest index2node, I.operands[0]? = some v ∧
      I.operands[1]? = some dest ∧ dest ≠ msg_ptr ∧
      s.vec_index2node[store_vec_index s dest]? = some index2node ∧
      (s.llvm_element2info.lookup dest).index < index2node.length ∧
      s1.vec_index2node = s.vec_index2node.set (store_vec_index s dest)
        (index2node.set (s.llvm_element2info.lookup dest).index
          (s.llvm_value2graph_node.lookup v))) := by
  unfold step at h
  split at h
  case h_13 =>
    have hop := ‹I.opcode = Opcode.ZExt›
    obtain ⟨h1, _, _, _⟩ := step_zext_frame h
    exact Or.inl ⟨by rw [h1], Or.inl (by rw [hop]; simp)⟩
  case h_14 =>
    have hop := ‹I.opcode = Opcode.Or›
    obtain ⟨h1, _, _, _⟩ := step_or_frame h
    exact Or.inl ⟨by rw [h1], Or.inl (by rw [hop]; simp)⟩
  case h_17 =>
    have hop := ‹I.opcode = Opcode.Store›
    rcases step_store_effect h with ⟨rfl, hm⟩ | ⟨v, dest, tbl, h0, h1, hne, htbl, hlt, heq⟩
    · exact Or.inl ⟨rfl, Or.inr hm⟩
    · exact Or.inr ⟨hop, v, dest, tbl, h0, h1, hne, htbl, hlt, by rw [heq]⟩
  all_goals
    have hop := ‹I.opcode = _›
    refine Or.inl ⟨?_, Or.inl (by rw [hop]; simp)⟩
    simp only [step_load, step_br, step_call, step_binary, step_fcmp, step_cmp, step_gep,
      step_icmp, step_fneg, step_ret, step_select, call_atomic, call_discrete,
      call_math, bind, Except.bind, pure, Except.pure, throw, throwThe,
      MonadExceptOf.throw] at h
    repeat' split at h
    all_goals first
      | (cases h
         rfl)
      | cases h

theorem DenseMap.find?_of_lookup_ne_zero (m : DenseMap Value Nat) (key : Value)
    (h : m.lookup key ≠ 0) : DenseMap.find? m key = some (m.lookup key) := by
  cases hf : DenseMap.find? m key with
  | none => exact absurd (DenseMap.lookup_of_none m key hf) h
  | some x => rw [DenseMap.lookup_of_find? m key x hf]

/-- When no argument base is the result of an address computation, a store at position `k`
is a store to offset `i` of the vector with the registered base `base` exactly when the slot
that the element descriptor of its destination denotes is slot `i` of the table of `base`. -/
theorem llvm_ir.store_event_iff {debug : Bool} {ir_obj : llvm_ir} {graph_obj : cpp_graph}
    {k : Nat} {s : State} {I : Instruction} {dest base : Value} {vec_index i : Nat}
    (hplain : arg_bases_plain ir_obj.function_ir)
    (hI : ir_obj.function_ir[k]? = some I)
    (hs : llvm_ir.state_at debug ir_obj graph_obj k = Except.ok s)
    (hop : I.opcode = Opcode.Store)
    (hdest : I.operands[1]? = some dest) (hne : dest ≠ msg_ptr)
    (hbase : DenseMap.find? s.llvm_base2index2node base = some vec_index) :
    store_event ir_obj.function_ir base i k ↔
      (store_vec_index s dest = vec_index ∧ (s.llvm_element2info.lookup dest).index = i) := by
  have hk := llvm_ir.state_at_index_le hI
  obtain ⟨sok, sinj, ebase, esound, _, _⟩ := llvm_ir.state_at_scattered hk hs
  have hlb : s.llvm_base2index2node.lookup base = vec_index :=
    DenseMap.lookup_of_find? _ _ _ hbase
  have hvi := (sok base vec_index hbase).1
  constructor
  · rintro ⟨J, dest2, hJ, _, hd2, _, hres⟩
    rw [hI] at hJ
    cases hJ
    rw [hdest] at hd2
    cases hd2
    have hdesc : DenseMap.find? s.llvm_element2info dest =
        some { base := some base, index := i } := by
      rcases hres with ⟨e1, e2⟩ | ⟨p, G, hp, hG, hgop, g0, g1, e⟩
      · subst e1 e2
        exact ebase _ _ hbase
      · subst e
        exact llvm_ir.state_at_gep_recorded hplain hp hk hs hG hgop g0 g1
          (by rw [hlb]; omega)
    have hl := DenseMap.lookup_of_find? _ _ _ hdesc
    unfold store_vec_index
    rw [hl]
    exact ⟨hlb, rfl⟩
  · rintro ⟨hsv, hidx⟩
    cases hf : DenseMap.find? s.llvm_element2info dest with
    | none =>
      have hl := DenseMap.lookup_of_none s.llvm_element2info dest hf
      unfold store_vec_index at hsv
      rw [hl] at hsv
      simp only [default] at hsv
      omega
    | some info =>
      have hl := DenseMap.lookup_of_find? _ _ _ hf
      rw [hl] at hidx
      unfold store_vec_index at hsv
      rw [hl] at hsv
      cases hb : info.base with
      | none =>
        rw [hb] at hsv
        simp only at hsv
        omega
      | some b =>
        rw [hb] at hsv
        simp only at hsv
        have hfb : DenseMap.find? s.llvm_base2index2node b = some vec_index := by
          have := DenseMap.find?_of_lookup_ne_zero s.llvm_base2index2node b
            (by rw [hsv]; omega)
          rw [hsv] at this
          exact this
        have hbb := sinj b base vec_index hfb hbase
        subst hbb
        refine ⟨I, dest, hI, hop, hdest, hne, ?_⟩
        rcases esound dest info hf with ⟨einfo, _⟩ | ⟨p, G, b2, idx, hp, hG, hgop, hkey, g0, g1, einfo, _⟩
        · rw [einfo] at hb hidx
          simp only [Option.some.injEq] at hb hidx
          exact Or.inl ⟨hb, hidx.symm⟩
        · rw [einfo] at hb hidx
          simp only [Option.some.injEq] at hb hidx
          subst hb hidx
          exact Or.inr ⟨p, G, hp, hG, hgop, g0, g1, hkey⟩

/-- The last store before `k` is the last store before `k + 1` when the instruction at `k` is
not a store to the same slot. -/
theorem last_store_succ {debug : Bool} {ir_obj : llvm_ir} {graph_obj : cpp_graph}
    {base : Value} {i k node : Nat}
    (h : last_store debug ir_obj graph_obj base i k node)
    (hno : ¬ store_event ir_obj.function_ir base i k) :
    last_store debug ir_obj graph_obj base i (k + 1) node := by
  obtain ⟨j, sj, J, v, hj, hsj, hJ, hv, hev, hnode, hlast⟩ := h
  refine ⟨j, sj, J, v, by omega, hsj, hJ, hv, hev, hnode, fun j2 h1 h2 => ?_⟩
  by_cases hjk : j2 = k
  · subst hjk
    exact hno
  · exact hlast j2 h1 (by omega)

/-- There is at most one node of the last store to a slot. -/
theorem last_store_unique {debug : Bool} {ir_obj : llvm_ir} {graph_obj : cpp_graph}
    {base : Value} {i k node node2 : Nat}
    (h : last_store debug ir_obj graph_obj base i k node)
    (h2 : last_store debug ir_obj graph_obj base i k node2) : node = node2 := by
  obtain ⟨j, sj, J, v, hj, hsj, hJ, hv, hev, hnode, hlast⟩ := h
  obtain ⟨j2, sj2, J2, v2, hj2, hsj2, hJ2, hv2, hev2, hnode2, hlast2⟩ := h2
  have hjj : j = j2 := by
    rcases Nat.lt_trichotomy j j2 with hlt | heq | hgt
    · exact absurd hev2 (hlast j2 hlt hj2)
    · exact heq
    · exact absurd hev (hlast2 j hgt hj)
  subst hjj
  rw [hsj] at hsj2
  cases hsj2
  rw [hJ] at hJ2
  cases hJ2
  rw [hv] at hv2
  cases hv2
  rw [hnode, hnode2]

/-- When no argument base is the result of an address computation and the second pass is at
position `k`, a slot of the table of a registered base holds zero if no store to it came
before, and else the node of the value operand of the last store to it. -/
theorem llvm_ir.state_at_cell {debug : Bool} {ir_obj : llvm_ir} {graph_obj : cpp_graph}
    {k : Nat} {s : State}
    (hplain : arg_bases_plain ir_obj.function_ir)
    (hk : k ≤ ir_obj.function_ir.length)
    (hs : llvm_ir.state_at debug ir_obj graph_obj k = Except.ok s) :
    ∀ base vec_index index2node i,
      DenseMap.find? s.llvm_base2index2node base = some vec_index →
      s.vec_index2node[vec_index]? = some index2node → i < index2node.length →
      (index2node[i]? = some 0 ∧ ∀ j, j < k → ¬ store_event ir_obj.function_ir base i j) ∨
      ∃ node, index2node[i]? = some node ∧
        last_store debug ir_obj graph_obj base i k node := by
  refine llvm_ir.state_at_induction
    (fun k s => ∀ base vec_index index2node i,
      DenseMap.find? s.llvm_base2index2node base = some vec_index →
      s.vec_index2node[vec_index]? = some index2node → i < index2node.length →
      (index2node[i]? = some 0 ∧ ∀ j, j < k → ¬ store_event ir_obj.function_ir base i j) ∨
      ∃ node, index2node[i]? = some node ∧
        last_store debug ir_obj graph_obj base i k node)
    ?_ ?_ k hk s hs
  · intro s0 h0 base vi tbl i _ htbl hi
    obtain ⟨⟨_, _, _, _, _, hzero⟩, _, _⟩ := llvm_ir.before_pass2_registered h0
    left
    refine ⟨?_, fun j hj => by omega⟩
    rw [List.getElem?_eq_getElem hi]
    congr 1
    exact hzero tbl (List.getElem?_mem htbl) _ (List.getElem_mem _)
  · intro k I s s1 hI hs ih hstep base vi tbl1 i hf htbl1 hi
    have hb : s1.llvm_base2index2node = s.llvm_base2index2node := (step_frame hstep).2
    rw [hb] at hf
    have extend : ∀ tbl : List Nat, s.vec_index2node[vi]? = some tbl →
        tbl.length = tbl1.length → tbl1[i]? = tbl[i]? →
        ¬ store_event ir_obj.function_ir base i k →
        (tbl1[i]? = some 0 ∧
          ∀ j, j < k + 1 → ¬ store_event ir_obj.function_ir base i j) ∨
        ∃ node, tbl1[i]? = some node ∧
          last_store debug ir_obj graph_obj base i (k + 1) node := by
      intro tbl htbl hlen hcell hno
      rcases ih base vi tbl i hf htbl (by omega) with ⟨hz, hnone⟩ | ⟨node, hn, hlast⟩
      · left
        refine ⟨by rw [hcell]; exact hz, fun j hj => ?_⟩
        by_cases hjk : j = k
        · subst hjk
          exact hno
        · exact hnone j (by omega)
      · right
        exact ⟨node, by rw [hcell]; exact hn, last_store_succ hlast hno⟩
    rcases step_tables hstep with ⟨hvec, hnot⟩ | ⟨hop, v, dest, tblv, h0, h1, hne, htv, hlt, hvec⟩
    · rw [hvec] at htbl1
      apply extend tbl1 htbl1 rfl rfl
      rintro ⟨J, dest, hJ, hop, hd, hne, _⟩
      rw [hI] at hJ
      cases hJ
      rcases hnot with h | h
      · exact h hop
      · rw [hd] at h
        cases h
        exact hne rfl
    · have hiff := llvm_ir.store_event_iff (i := i) hplain hI hs hop h1 hne hf
      rw [hvec] at htbl1
      by_cases hev : store_event ir_obj.function_ir base i k
      · obtain ⟨hsv, hidx⟩ := hiff.mp hev
        rw [hsv] at htbl1 htv
        rw [hidx] at htbl1 hlt
        have hvi : vi < s.vec_index2node.length := by
          rcases List.getElem?_eq_some.mp htv with ⟨h, _⟩
          exact h
        rw [List.getElem?_set, if_pos rfl, if_pos hvi] at htbl1
        cases htbl1
        right
        refine ⟨s.llvm_value2graph_node.lookup v, ?_, k, s, I, v, by omega, hs, hI, h0, hev,
          rfl, fun j2 h1 h2 => by omega⟩
        rw [List.getElem?_set, if_pos rfl, if_pos hlt]
      · have hnot : ¬ (store_vec_index s dest = vi ∧
            (s.llvm_element2info.lookup dest).index = i) := fun h => hev (hiff.mpr h)
        by_cases hsv : store_vec_index s dest = vi
        · rw [hsv] at htbl1 htv
          have hvi : vi < s.vec_index2node.length := by
            rcases List.getElem?_eq_some.mp htv with ⟨h, _⟩
            exact h
          rw [List.getElem?_set, if_pos rfl, if_pos hvi] at htbl1
          cases htbl1
          have hidx : (s.llvm_element2info.lookup dest).index ≠ i := fun h => hnot ⟨hsv, h⟩
          exact extend tblv htv (by simp) (by rw [List.getElem?_set, if_neg hidx]) hev
        · rw [List.getElem?_set, if_neg hsv] at htbl1
          exact extend tbl1 htbl1 rfl rfl hev

/-- When no argument base is the result of an address computation and the second pass is at
position `k`, slot `i` of the table of a registered base holds the node of the value operand
of the last store to offset `i` of the vector. -/
theorem llvm_ir.state_at_cell_last {debug : Bool} {ir_obj : llvm_ir} {graph_obj : cpp_graph}
    {k : Nat} {s : State} {base : Value} {vec_index i node : Nat} {index2node : List Nat}
    (hplain : arg_bases_plain ir_obj.function_ir)
    (hk : k ≤ ir_obj.function_ir.length)
    (hs : llvm_ir.state_at debug ir_obj graph_obj k = Except.ok s)
    (hbase : DenseMap.find? s.llvm_base2index2node base = some vec_index)
    (htbl : s.vec_index2node[vec_index]? = some index2node) (hi : i < index2node.length)
    (hlast : last_store debug ir_obj graph_obj base i k node) :
    index2node[i]? = some node := by
  rcases llvm_ir.state_at_cell hplain hk hs base vec_index index2node i hbase htbl hi with
    ⟨_, hnone⟩ | ⟨node2, hn, hlast2⟩
  · obtain ⟨j, _, _, _, hj, _, _, _, hev, _⟩ := hlast
    exact absurd hev (hnone j hj)
  · rw [hn, last_store_unique hlast hlast2]

/-- A form of `arg_bases_plain` that can be evaluated on a concrete function. -/
theorem arg_bases_plain_of_enum (F : List Instruction)
    (h : ∀ C ∈ F, C.opcode = Opcode.Call → C.operands.length = 7 →
      ∀ pG ∈ F.enum, pG.2.opcode = Opcode.GetElementPtr →
        C.operands[1]? ≠ some (pG.2.result pG.1)) :
    arg_bases_plain F := by
  intro C hC hop h7 p G hG hgop
  exact h C hC hop h7 (p, G) (List.mk_mem_enum_iff_getElem?.mpr hG) hgop

/-- A successful translation took the dependent list from the table of the output pointer at
the end of the second pass, all of whose first `n_variable_dep_` slots are not zero. -/
theorem llvm_ir.to_graph_ok_table {debug : Bool} {ir_obj : llvm_ir} {graph_obj g : cpp_graph}
    (h : llvm_ir.to_graph debug ir_obj graph_obj = Except.ok ("", g)) :
    ∃ s2 vec_index index2node,
      llvm_ir.state_at debug ir_obj graph_obj ir_obj.function_ir.length = Except.ok s2 ∧
      DenseMap.find? s2.llvm_base2index2node output_ptr = some vec_index ∧
      s2.vec_index2node[vec_index]? = some index2node ∧
      ir_obj.n_variable_dep_ ≤ index2node.length ∧
      g = { s2.graph_obj with dependent_vec := index2node.take ir_obj.n_variable_dep_ } ∧
      ∀ i, i < ir_obj.n_variable_dep_ → ∃ node, index2node[i]? = some node ∧ node ≠ 0 := by
  have hrun : llvm_ir.run debug ir_obj graph_obj = Except.ok g := by
    unfold llvm_ir.to_graph at h
    cases hr : llvm_ir.run debug ir_obj graph_obj with
    | ok g1 =>
      rw [hr] at h
      cases h
      rfl
    | error e =>
      rw [hr] at h
      cases e with
      | ret m gx =>
        cases h
        exact absurd rfl (llvm_ir.run_ret_ne_empty hr)
      | assert_fail => cases h
      | undefined => cases h
      | out_of_range => cases h
  rw [llvm_ir.run_eq] at hrun
  cases hs : llvm_ir.state_at debug ir_obj graph_obj ir_obj.function_ir.length with
  | error e =>
    rw [hs] at hrun
    cases hrun
  | ok s2 =>
    rw [hs] at hrun
    simp only [Except.bind] at hrun
    obtain ⟨hslots, index2node, hvec, hg⟩ := finalize_ok hrun
    obtain ⟨_, _, _, hdep, hne, _⟩ := llvm_ir.state_at_effect hs
    have hfind := DenseMap.find?_of_lookup_ne_zero s2.llvm_base2index2node output_ptr hne
    have hslot : ∀ i, i < ir_obj.n_variable_dep_ →
        ∃ node, index2node[i]? = some node ∧ node ≠ 0 := by
      intro i hi
      obtain ⟨node, hn, hne⟩ := hslots i hi
      unfold output_slot at hn
      rw [hvec] at hn
      exact ⟨node, by simpa using hn, hne⟩
    have hlen : ir_obj.n_variable_dep_ ≤ index2node.length := by
      by_contra hc
      have hlt : index2node.length < ir_obj.n_variable_dep_ := by omega
      obtain ⟨node, hn, _⟩ := hslot index2node.length hlt
      rw [List.getElem?_eq_none (Nat.le_refl _)] at hn
      cases hn
    refine ⟨s2, _, index2node, rfl, hfind, hvec, hlen, ?_, hslot⟩
    rw [hg, hdep]
    rfl

/-! ## Atomic calls -/

/-- The loop over the argument table of an atomic call appends the first `n` slots from
position `i` on, once they exist and, in the debug build, are not zero. -/
theorem atomic_arg_loop_ok (debug : Bool) (index2node : List Nat) (n i : Nat) (g : cpp_graph)
    (hlen : i + n ≤ index2node.length)
    (hd : debug = true → ∀ j, j < n → index2node[i + j]? ≠ some 0) :
    atomic_arg_loop debug index2node n i g = Except.ok
      { g with operator_arg := g.operator_arg ++ (index2node.drop i).take n } := by
  induction n generalizing i g with
  | zero => simp [atomic_arg_loop, pure, Except.pure]
  | succ n ih =>
    have hi : i < index2node.length := by omega
    have hget : vec_get debug index2node i = Except.ok index2node[i] :=
      (vec_get_ok_iff _ _ _ _).2 (List.getElem?_eq_getElem hi)
    have hassert := CPPAD_ASSERT_UNKNOWN_of debug (decide (index2node[i] ≠ 0)) (fun hdb => by
      have := hd hdb 0 (by omega)
      simp only [Nat.add_zero, List.getElem?_eq_getElem hi, ne_eq, Option.some.injEq] at this
      exact decide_eq_true this)
    unfold atomic_arg_loop
    simp only [bind, Except.bind, hget, hassert]
    rw [ih (i + 1) _ (by omega) (fun hdb j hj => by
      have := hd hdb (j + 1) (by omega)
      rwa [show i + (j + 1) = i + 1 + j by omega] at this)]
    simp only [cpp_graph.operator_arg_push_back, List.append_assoc, List.singleton_append]
    rw [List.drop_eq_getElem_cons hi, List.take_succ_cons]

/-- An atomic call is processed without failure, with the result that the source computes,
once its argument base is registered with a table of the length that the call declares and,
in the debug build, the slots of the table are not zero. -/
theorem call_atomic_ok (debug : Bool) (s : State) (I : Instruction) (str : String)
    (n m : Nat) (arg_base res_base o4 o5 o6 : Value) (index2node : List Nat)
    (hops : I.operands =
      [Value.ConstantInt n, arg_base, Value.ConstantInt m, res_base, o4, o5, o6])
    (hstr : 7 ≤ str.length)
    (hreg : s.llvm_base2index2node.lookup arg_base ≠ 0)
    (htbl : s.vec_index2node[s.llvm_base2index2node.lookup arg_base]? = some index2node)
    (hlen : index2node.length = n)
    (hd : debug = true → ∀ j, j < n → index2node[j]? ≠ some 0) :
    call_atomic debug s I str = Except.ok
      { s with
        graph_obj :=
          { s.graph_obj with
            operator_vec := s.graph_obj.operator_vec ++ [graph_op_enum.atom_graph_op]
            atomic_name_vec :=
              name_vec_update s.graph_obj.atomic_name_vec
                (name_index s.graph_obj.atomic_name_vec (substr_from str 7))
                (substr_from str 7)
            operator_arg := s.graph_obj.operator_arg ++
              [name_index s.graph_obj.atomic_name_vec (substr_from str 7), m, n] ++
              index2node }
        result_node := s.result_node + m
        llvm_ptr2graph_node := s.llvm_ptr2graph_node.insert res_base (s.result_node + 1)
        llvm_base2first_node := s.llvm_base2first_node.insert res_base (s.result_node + 1)
        llvm_base2length :=
          if debug = true then s.llvm_base2length.insert res_base m
          else s.llvm_base2length } := by
  have hloop := fun g => atomic_arg_loop_ok debug index2node n 0 g (by omega)
    (fun hdb j hj => by rw [Nat.zero_add]; exact hd hdb j hj)
  have htake : (index2node.drop 0).take n = index2node := by
    rw [List.drop_zero, ← hlen, List.take_length]
  unfold call_atomic
  simp only [bind, Except.bind, pure, Except.pure, throw, throwThe, MonadExceptOf.throw,
    if_neg (show ¬ str.length < 7 by omega), hops, vec_get, List.getElem?_cons_zero,
    List.getElem?_cons_succ, get_int_constant,
    CPPAD_ASSERT_UNKNOWN_of debug _ (fun _ => decide_eq_true hreg)]
  rw [show s.vec_index2node[s.llvm_base2index2node.lookup arg_base]? = some index2node
    from htbl]
  simp only [CPPAD_ASSERT_UNKNOWN_of debug _ (fun _ => decide_eq_true hlen), hloop, htake]
  simp [cpp_graph.operator_vec_push_back, cpp_graph.operator_arg_push_back]

/-- The name of the callee of a call with seven operands, once the operand types and the
prefix that the debug build asserts hold. -/
theorem call_name_atomic (debug : Bool) (I : Instruction) (o0 o1 o2 o3 o4 o5 o6 : Value)
    (hops : I.operands = [o0, o1, o2, o3, o4, o5, o6])
    (hd : debug = true →
      get_type_id o0 = TypeID.IntegerTyID ∧ get_type_id o1 = TypeID.PointerTyID ∧
      get_type_id o2 = TypeID.IntegerTyID ∧ get_type_id o3 = TypeID.PointerTyID ∧
      get_type_id o4 = TypeID.IntegerTyID ∧ get_type_id o5 = TypeID.PointerTyID ∧
      starts_with o6.getName "atomic_" = true) :
    call_name debug I = Except.ok o6.getName := by
  unfold call_name
  simp only [hops, List.length_cons, List.length_nil, Nat.reduceAdd, Nat.reduceEqDiff,
    if_false, bind, Except.bind, pure, Except.pure, decide_True, CPPAD_ASSERT_UNKNOWN_true,
    List.getElem?_cons_zero, List.getElem?_cons_succ, Option.map_some', vec_get,
    CPPAD_ASSERT_UNKNOWN_of debug _
      (fun hdb => decide_eq_true (congrArg some (hd hdb).1)),
    CPPAD_ASSERT_UNKNOWN_of debug _
      (fun hdb => decide_eq_true (congrArg some (hd hdb).2.1)),
    CPPAD_ASSERT_UNKNOWN_of debug _
      (fun hdb => decide_eq_true (congrArg some (hd hdb).2.2.1)),
    CPPAD_ASSERT_UNKNOWN_of debug _
      (fun hdb => decide_eq_true (congrArg some (hd hdb).2.2.2.1)),
    CPPAD_ASSERT_UNKNOWN_of debug _
      (fun hdb => decide_eq_true (congrArg some (hd hdb).2.2.2.2.1)),
    CPPAD_ASSERT_UNKNOWN_of debug _
      (fun hdb => decide_eq_true (congrArg some (hd hdb).2.2.2.2.2.1)),
    CPPAD_ASSERT_UNKNOWN_of debug _ (fun hdb => (hd hdb).2.2.2.2.2.2)]


/-! ## What a step of the second pass appends to the graph -/

theorem atomic_arg_loop_effect {debug : Bool} {index2node : List Nat} {n i : Nat}
    {g g1 : cpp_graph} (h : atomic_arg_loop debug index2node n i g = Except.ok g1) :
    g1 = { g with operator_arg := g.operator_arg ++ (index2node.drop i).take n } ∧
      (debug = true → ∀ node ∈ (index2node.drop i).take n, node ≠ 0) := by
  induction n generalizing i g with
  | zero =>
    simp only [atomic_arg_loop, pure, Except.pure] at h
    cases h
    simp
  | succ n ih =>
    simp only [atomic_arg_loop, bind, Except.bind] at h
    split at h
    · cases h
    · rename_i node hnode
      rw [vec_get_ok_iff] at hnode
      split at h
      · cases h
      · rename_i hassert
        obtain ⟨h1, h2⟩ := ih h
        have hi : i < index2node.length := by
          rcases List.getElem?_eq_some.1 hnode with ⟨hi, _⟩
          exact hi
        have hnode2 : index2node[i] = node := by
          rcases List.getElem?_eq_some.1 hnode with ⟨_, e⟩
          exact e
        have hdrop : (index2node.drop i).take (n + 1) =
            node :: (index2node.drop (i + 1)).take n := by
          rw [List.drop_eq_getElem_cons hi, List.take_succ_cons, hnode2]
        refine ⟨?_, ?_⟩
        · rw [h1, hdrop]
          simp [cpp_graph.operator_arg_push_back]
        · intro hd x hx
          rw [hdrop] at hx
          rcases List.mem_cons.1 hx with rfl | hx
          · have := CPPAD_ASSERT_UNKNOWN_ok hassert hd
            simpa using this
          · exact h2 hd x hx

theorem combine_loop_effect {debug : Bool} {s s1 : State} {operands : List Value}
    (h : combine_loop debug s operands = Except.ok s1) :
    s1 = { s with
        graph_obj :=
          { s.graph_obj with
            operator_vec := s.graph_obj.operator_vec ++
              (recorded_compares s operands).map (fun c => (combine_op_enum c.pred).1)
            operator_arg := s.graph_obj.operator_arg ++
              (recorded_compares s operands).flatMap
                (fun c => [s.node c.right, s.node c.left]) } } ∧
      (debug = true → ∀ c ∈ recorded_compares s operands,
        (combine_op_enum c.pred).2 = false) := by
  induction operands generalizing s with
  | nil =>
    simp only [combine_loop, pure, Except.pure] at h
    cases h
    simp [recorded_compares]
  | cons v rest ih =>
    simp only [combine_loop, bind, Except.bind] at h
    split at h
    · cases h
    · rename_i s2 hs2
      obtain ⟨h1, h2⟩ := ih h
      by_cases hl : (s.llvm_compare2info.lookup v).left = none
      · have hrec : recorded_compares s (v :: rest) = recorded_compares s rest := by
          simp [recorded_compares, hl]
        have e2 : s2 = s := by
          simp only [combine_operand, hl, ne_eq, not_true_eq_false, if_false, pure,
            Except.pure, bind, Except.bind] at hs2
          cases hs2
          rfl
        subst e2
        rw [hrec]
        exact ⟨h1, h2⟩
      · have hrec : recorded_compares s (v :: rest) =
            s.llvm_compare2info.lookup v :: recorded_compares s rest := by
          simp [recorded_compares, hl]
        have key : s2 = { s with
            graph_obj :=
              ((s.graph_obj.operator_vec_push_back
                (combine_op_enum (s.llvm_compare2info.lookup v).pred).1).operator_arg_push_back
                (s.node (s.llvm_compare2info.lookup v).right)).operator_arg_push_back
                (s.node (s.llvm_compare2info.lookup v).left) } ∧
            (debug = true → (combine_op_enum (s.llvm_compare2info.lookup v).pred).2 = false) := by
          unfold combine_operand at hs2
          simp only [bind, Except.bind, pure, Except.pure, ne_eq, hl, not_false_eq_true,
            if_true] at hs2
          split at hs2
          · cases hs2
          · rename_i hassert
            cases hs2
            refine ⟨rfl, fun hd => ?_⟩
            have := CPPAD_ASSERT_UNKNOWN_ok hassert hd
            simpa using this
        obtain ⟨k1, k2⟩ := key
        have hrec2 : recorded_compares s2 rest = recorded_compares s rest := by
          rw [k1]
          rfl
        have hnode : ∀ o, s2.node o = s.node o := by
          intro o
          rw [k1]
          rfl
        rw [hrec]
        refine ⟨?_, ?_⟩
        · rw [h1, hrec2]
          simp only [hnode]
          rw [k1]
          simp [cpp_graph.operator_vec_push_back, cpp_graph.operator_arg_push_back]
        · intro hd c hc
          rcases List.mem_cons.1 hc with rfl | hc
          · exact k2 hd
          · rw [hrec2] at h2
            exact h2 hd c hc

theorem operand_node_of {value2node : DenseMap Value Nat} {I : Instruction} {i : Nat}
    {v : Value} (h : I.operands[i]? = some v) :
    operand_node value2node I i = value2node.lookup v := by
  simp [operand_node, h]

theorem operand_constant_of {I : Instruction} {i raw : Nat}
    (h : I.operands[i]? = some (Value.ConstantInt raw)) : operand_constant I i = raw := by
  simp [operand_constant, h]

theorem callee_name_of {I : Instruction} {v : Value} (h : callee I = some v) :
    callee_name I = v.getName := by
  simp [callee_name, h]

/-- An arithmetic step appends its operator and the nodes of its two operands. -/
theorem step_binary_emission {debug : Bool} {s s1 : State} {k : Nat} {I : Instruction}
    (h : step_binary debug s k I = Except.ok s1) :
    s1.graph_obj = { binary_op_push I.opcode s.graph_obj with
      operator_arg := s.graph_obj.operator_arg ++
        [operand_node (s.llvm_value2graph_node.insert (I.result k) (s.result_node + 1)) I 0,
         operand_node (s.llvm_value2graph_node.insert (I.result k) (s.result_node + 1)) I 1] } := by
  unfold step_binary at h
  simp only [bind, Except.bind, pure, Except.pure] at h
  repeat' split at h
  all_goals first
    | (cases h; done)
    | (have h0 := ‹vec_get debug I.operands 0 = Except.ok _›
       have h1 := ‹vec_get debug I.operands 1 = Except.ok _›
       rw [vec_get_ok_iff] at h0 h1
       cases h
       rw [operand_node_of h0, operand_node_of h1]
       have hop : (binary_op_push I.opcode s.graph_obj).operator_arg =
           s.graph_obj.operator_arg := by
         unfold binary_op_push
         split <;> rfl
       simp [cpp_graph.operator_arg_push_back, hop])

/-- A negation appends its operator and the node of its operand. -/
theorem step_fneg_emission {debug : Bool} {s s1 : State} {k : Nat} {I : Instruction}
    (h : step_fneg debug s k I = Except.ok s1) :
    s1.graph_obj = { s.graph_obj with
      operator_vec := s.graph_obj.operator_vec ++ [graph_op_enum.neg_graph_op]
      operator_arg := s.graph_obj.operator_arg ++
        [operand_node (s.llvm_value2graph_node.insert (I.result k) (s.result_node + 1)) I 0] } := by
  unfold step_fneg at h
  simp only [bind, Except.bind, pure, Except.pure] at h
  repeat' split at h
  all_goals first
    | (cases h; done)
    | (have h0 := ‹vec_get debug I.operands 0 = Except.ok _›
       rw [vec_get_ok_iff] at h0
       cases h
       rw [operand_node_of h0]
       simp [cpp_graph.operator_arg_push_back, cpp_graph.operator_vec_push_back])

/-- An atomic call appends the operator `atom`, the index of its name, its result count, its
argument count and the slots of its argument table; the name is added to the name table when
it is new. -/
theorem call_atomic_emission {debug : Bool} {s s1 : State} {I : Instruction} {str : String}
    (h : call_atomic debug s I str = Except.ok s1) :
    s1.graph_obj = { s.graph_obj with
      operator_vec := s.graph_obj.operator_vec ++ [graph_op_enum.atom_graph_op]
      operator_arg := s.graph_obj.operator_arg ++
        ([name_index s.graph_obj.atomic_name_vec (substr_from str 7),
          operand_constant I 2, operand_constant I 0] ++
          (argument_table s I).take (operand_constant I 0))
      atomic_name_vec := name_vec_update s.graph_obj.atomic_name_vec
        (name_index s.graph_obj.atomic_name_vec (substr_from str 7)) (substr_from str 7) } := by
  unfold call_atomic at h
  simp only [bind, Except.bind, pure, Except.pure, throw, throwThe, MonadExceptOf.throw] at h
  repeat' split at h
  all_goals first
    | (cases h; done)
    | (have hloop := ‹atomic_arg_loop _ _ _ _ _ = Except.ok _›
       obtain ⟨e, _⟩ := atomic_arg_loop_effect hloop
       simp only [vec_get_ok_iff, get_int_constant_ok_iff] at *
       subst_vars
       cases h
       simp [operand_constant, argument_table, cpp_graph.operator_arg_push_back,
         cpp_graph.operator_vec_push_back, *])

/-- A discrete call appends the operator `discrete`, the index of its name and the node of
its operand; the name is added to the name table when it is new. -/
theorem call_discrete_emission {debug : Bool} {s s1 : State} {k : Nat} {I : Instruction}
    {str : String} (h : call_discrete debug s k I str = Except.ok s1) :
    s1.graph_obj = { s.graph_obj with
      operator_vec := s.graph_obj.operator_vec ++ [graph_op_enum.discrete_graph_op]
      operator_arg := s.graph_obj.operator_arg ++
        [name_index s.graph_obj.discrete_name_vec (substr_from str 9),
          operand_node (s.llvm_value2graph_node.insert (I.result k) (s.result_node + 1)) I 0]
      discrete_name_vec := name_vec_update s.graph_obj.discrete_name_vec
        (name_index s.graph_obj.discrete_name_vec (substr_from str 9)) (substr_from str 9) } := by
  unfold call_discrete at h
  simp only [bind, Except.bind, pure, Except.pure, throw, throwThe, MonadExceptOf.throw] at h
  repeat' split at h
  all_goals first
    | (cases h; done)
    | (simp only [vec_get_ok_iff] at *
       cases h
       simp [operand_node, cpp_graph.operator_arg_push_back,
         cpp_graph.operator_vec_push_back, *])

/-- A call of a function of the operator name table appends the operator registered under
the name and the node of the first operand, and the node of the second operand when the call
has three operands. -/
theorem call_math_emission {debug : Bool} {s s1 : State} {k : Nat} {I : Instruction}
    {str : String} (h : call_math debug s k I str = Except.ok s1) :
    s1.graph_obj = { s.graph_obj with
      operator_vec := s.graph_obj.operator_vec ++
        [graph_op_cast (name2graph_op.lookup str - 1)]
      operator_arg := s.graph_obj.operator_arg ++
        if I.operands.length = 3 then
          [operand_node (s.llvm_value2graph_node.insert (I.result k) (s.result_node + 1)) I 0,
           operand_node (s.llvm_value2graph_node.insert (I.result k) (s.result_node + 1)) I 1]
        else
          [operand_node (s.llvm_value2graph_node.insert (I.result k) (s.result_node + 1))
            I 0] } := by
  unfold call_math at h
  simp only [bind, Except.bind, pure, Except.pure, throw, throwThe, MonadExceptOf.throw] at h
  repeat' split at h
  all_goals first
    | (cases h; done)
    | (simp only [vec_get_ok_iff] at *
       cases h
       simp [operand_node, cpp_graph.operator_arg_push_back,
         cpp_graph.operator_vec_push_back, *])

/-- A step for an instruction other than arithmetic, a negation, a call, a boolean combine
and a select leaves the graph and the node counter unchanged. -/
theorem step_neutral_frame {debug : Bool} {s s1 : State} {k : Nat} {I : Instruction}
    (hI : I.opcode ∈ [Opcode.Alloca, Opcode.Br, Opcode.Ret, Opcode.Load, Opcode.GetElementPtr,
      Opcode.FCmp, Opcode.ICmp, Opcode.Store])
    (h : step debug s k I = Except.ok s1) :
    s1.graph_obj = s.graph_obj ∧ s1.result_node = s.result_node ∧
      s1.llvm_value2graph_node.map Prod.fst ⊆
        s.llvm_value2graph_node.map Prod.fst ++ [I.result k] := by
  unfold step at h
  split at h
  case h_17 =>
    rcases step_store_effect h with ⟨rfl, _⟩ | ⟨operand0, operand1, vec, _, h1, hne, _, _, rfl⟩
    · exact ⟨rfl, rfl, by simp⟩
    · exact ⟨rfl, rfl, by simp⟩
  all_goals
    have hop := ‹I.opcode = _›
    first
    | (exfalso
       rw [hop] at hI
       simp at hI
       done)
    | (simp only [step_load, step_br, step_fcmp, step_cmp, step_gep, step_icmp, step_ret,
         bind, Except.bind, pure, Except.pure, throw, throwThe, MonadExceptOf.throw] at h
       repeat' split at h
       all_goals first
         | (cases h; done)
         | (cases h
            refine ⟨rfl, rfl, ?_⟩
            first
              | (simp; done)
              | (simp only [DenseMap.insert]
                 split <;> simp)))

theorem select_op_enum_valid (pred : Predicate) (h : (select_op_enum pred).2 = false) :
    (select_op_enum pred).1 ≠ graph_op_enum.n_graph_op := by
  cases pred <;> simp_all [select_op_enum]

theorem combine_op_enum_valid (pred : Predicate) (h : (combine_op_enum pred).2 = false) :
    (combine_op_enum pred).1 ≠ graph_op_enum.n_graph_op := by
  cases pred <;> simp_all [combine_op_enum]

/-- A select of float values appends the conditional-expression operator of its compare with
the nodes of the operands of the compare and of its two values; a select of other values
appends nothing. -/
theorem step_select_emission {debug : Bool} {s s1 : State} {k : Nat} {I : Instruction}
    (hop : I.opcode = Opcode.Select) (h : step_select debug s k I = Except.ok s1) :
    s1.graph_obj = { s.graph_obj with
      operator_vec := s.graph_obj.operator_vec ++ (emission s k I).1
      operator_arg := s.graph_obj.operator_arg ++ (emission s k I).2 } ∧
    (debug = true → ∀ tag ∈ (emission s k I).1, tag ≠ graph_op_enum.n_graph_op) := by
  unfold step_select at h
  simp only [bind, Except.bind, pure, Except.pure, throw, throwThe, MonadExceptOf.throw] at h
  repeat' split at h
  all_goals first
    | (cases h; done)
    | (have hassert := ‹CPPAD_ASSERT_UNKNOWN debug (!_) = Except.ok _›
       have h0 := ‹vec_get debug I.operands 0 = Except.ok _›
       have h1 := ‹vec_get debug I.operands 1 = Except.ok _›
       have h2 := ‹vec_get debug I.operands 2 = Except.ok _›
       have hty := ‹get_type_id _ = TypeID.DoubleTyID›
       rw [vec_get_ok_iff] at h0 h1 h2
       cases h
       refine ⟨?_, fun hd => ?_⟩
       · simp only [emission, hop, h0, h1, h2, operand_node, select_compare, Option.map_some', hty,
           if_true]
         simp [cpp_graph.operator_arg_push_back, cpp_graph.operator_vec_push_back]
       · have hb := CPPAD_ASSERT_UNKNOWN_ok hassert hd
         simp only [emission, hop, h0, h1, h2, operand_node, select_compare, Option.map_some', hty,
           if_true]
         intro tag htag
         rw [List.mem_singleton] at htag
         rw [htag]
         exact select_op_enum_valid _ (by simpa using hb))
    | (simp only [vec_get_ok_iff] at *
       cases h
       refine ⟨?_, fun hd => ?_⟩
       · simp [emission, hop, *]
       · simp [emission, hop, *])

/-- A call appends what `emission` says, and updates the name table of its kind. -/
theorem step_call_emission {debug : Bool} {s s1 : State} {k : Nat} {I : Instruction}
    (hop : I.opcode = Opcode.Call) (h : step_call debug s k I = Except.ok s1) :
    s1.graph_obj = { s.graph_obj with
      operator_vec := s.graph_obj.operator_vec ++ (emission s k I).1
      operator_arg := s.graph_obj.operator_arg ++ (emission s k I).2
      atomic_name_vec :=
        if I.operands.length = 7 then
          name_vec_update s.graph_obj.atomic_name_vec
            (name_index s.graph_obj.atomic_name_vec (substr_from (callee_name I) 7))
            (substr_from (callee_name I) 7)
        else s.graph_obj.atomic_name_vec
      discrete_name_vec :=
        if I.operands.length ≠ 7 ∧ starts_with (callee_name I) "discrete_" = true then
          name_vec_update s.graph_obj.discrete_name_vec
            (name_index s.graph_obj.discrete_name_vec (substr_from (callee_name I) 9))
            (substr_from (callee_name I) 9)
        else s.graph_obj.discrete_name_vec } := by
  obtain ⟨v, hv, _, heq⟩ := step_call_dispatch h
  rw [heq] at h
  have hname := callee_name_of hv
  by_cases h7 : I.operands.length = 7
  · rw [if_pos h7] at h
    rw [call_atomic_emission h]
    simp [emission, hop, h7, hname]
  · rw [if_neg h7] at h
    by_cases hd : starts_with v.getName "discrete_" = true
    · rw [if_pos hd] at h
      rw [call_discrete_emission h]
      simp [emission, hop, h7, hname, hd]
    · rw [if_neg hd] at h
      rw [call_math_emission h]
      by_cases h3 : I.operands.length = 3
      · simp [emission, hop, h7, hname, hd, h3]
      · simp [emission, hop, h7, hname, hd, h3]

/-- A step of the second pass appends to the operator list and to the operator arguments what
`emission` says, updates the name table of the kind of a call, and changes nothing else in
the graph. -/
theorem step_emission {debug : Bool} {s s1 : State} {k : Nat} {I : Instruction}
    (h : step debug s k I = Except.ok s1) :
    s1.graph_obj = { s.graph_obj with
      operator_vec := s.graph_obj.operator_vec ++ (emission s k I).1
      operator_arg := s.graph_obj.operator_arg ++ (emission s k I).2
      atomic_name_vec :=
        if I.opcode = Opcode.Call ∧ I.operands.length = 7 then
          name_vec_update s.graph_obj.atomic_name_vec
            (name_index s.graph_obj.atomic_name_vec (substr_from (callee_name I) 7))
            (substr_from (callee_name I) 7)
        else s.graph_obj.atomic_name_vec
      discrete_name_vec :=
        if I.opcode = Opcode.Call ∧ I.operands.length ≠ 7 ∧
            starts_with (callee_name I) "discrete_" = true then
          name_vec_update s.graph_obj.discrete_name_vec
            (name_index s.graph_obj.discrete_name_vec (substr_from (callee_name I) 9))
            (substr_from (callee_name I) 9)
        else s.graph_obj.discrete_name_vec } := by
  by_cases hn : I.opcode ∈ [Opcode.Alloca, Opcode.Br, Opcode.Ret, Opcode.Load,
      Opcode.GetElementPtr, Opcode.FCmp, Opcode.ICmp, Opcode.Store]
  · obtain ⟨h1, _, _⟩ := step_neutral_frame hn h
    rw [h1]
    simp only [List.mem_cons, List.mem_singleton, List.not_mem_nil, or_false] at hn
    rcases hn with hn | hn | hn | hn | hn | hn | hn | hn <;> simp [emission, hn]
  · unfold step at h
    split at h
    all_goals
      have hop := ‹I.opcode = _›
      first
      | (exfalso
         rw [hop] at hn
         simp at hn
         done)
      | (cases h; done)
      | (rw [step_call_emission hop h]
         simp [hop]
         done)
      | (rw [step_binary_emission h]
         simp [emission, hop, binary_op_push, cpp_graph.operator_vec_push_back]
         done)
      | (rw [step_fneg_emission h]
         simp [emission, hop]
         done)
      | (rw [(step_select_emission hop h).1]
         simp [hop]
         done)
      | (unfold step_or at h
         simp only [bind, Except.bind] at h
         split at h
         · cases h
         · rw [(combine_loop_effect h).1]
           simp [emission, hop])
      | (unfold step_zext step_or at h
         simp only [bind, Except.bind] at h
         split at h
         · cases h
         · split at h
           · cases h
           · rw [(combine_loop_effect h).1]
             cases debug <;> simp [emission, hop, recorded_compares, State.node])

/-! ## The graph is only appended to -/

theorem graph_extends_refl (g : cpp_graph) : graph_extends g g :=
  ⟨List.prefix_refl _, List.prefix_refl _, List.prefix_refl _, List.prefix_refl _,
    List.prefix_refl _, rfl, rfl, rfl, rfl⟩

theorem graph_extends_trans {g g1 g2 : cpp_graph} (h1 : graph_extends g g1)
    (h2 : graph_extends g1 g2) : graph_extends g g2 := by
  obtain ⟨a1, a2, a3, a4, a5, a6, a7, a8, a9⟩ := h1
  obtain ⟨b1, b2, b3, b4, b5, b6, b7, b8, b9⟩ := h2
  exact ⟨a1.trans b1, a2.trans b2, a3.trans b3, a4.trans b4, a5.trans b5, b6.trans a6,
    b7.trans a7, b8.trans a8, b9.trans a9⟩

theorem name_vec_update_prefix (name_vec : List String) (index : Nat) (str : String) :
    name_vec <+: name_vec_update name_vec index str := by
  unfold name_vec_update
  split
  · exact List.prefix_append _ _
  · exact List.prefix_refl _

theorem pass1_operand_extends (D V : Nat) (s : State) (operand : Value) :
    graph_extends s.graph_obj (pass1_operand D V s operand).graph_obj ∧
      (pass1_operand D V s operand).graph_obj =
        { s.graph_obj with
          constant_vec := (pass1_operand D V s operand).graph_obj.constant_vec } := by
  unfold pass1_operand
  split
  · exact ⟨graph_extends_refl _, rfl⟩
  · by_cases h0 : s.llvm_value2graph_node.lookup operand = 0
    · rw [if_pos h0]
      exact ⟨⟨List.prefix_append _ _, List.prefix_refl _, List.prefix_refl _,
        List.prefix_refl _, List.prefix_refl _, rfl, rfl, rfl, rfl⟩, rfl⟩
    · rw [if_neg h0]
      exact ⟨graph_extends_refl _, rfl⟩

theorem pass1_operands_extends (D V : Nat) (s : State) (operands : List Value) :
    graph_extends s.graph_obj (operands.foldl (pass1_operand D V) s).graph_obj ∧
      (operands.foldl (pass1_operand D V) s).graph_obj =
        { s.graph_obj with
          constant_vec := (operands.foldl (pass1_operand D V) s).graph_obj.constant_vec } := by
  induction operands generalizing s with
  | nil => exact ⟨graph_extends_refl _, rfl⟩
  | cons v rest ih =>
    simp only [List.foldl_cons]
    obtain ⟨h1, h2⟩ := pass1_operand_extends D V s v
    obtain ⟨h3, h4⟩ := ih (pass1_operand D V s v)
    refine ⟨graph_extends_trans h1 h3, ?_⟩
    rw [h4, h2]

/-- A step of the first pass only appends to the constant pool. -/
theorem pass1_step_extends {debug : Bool} {D V : Nat} {s s1 : State} {I : Instruction}
    (h : pass1_step debug D V s I = Except.ok s1) :
    graph_extends s.graph_obj s1.graph_obj ∧
      s1.graph_obj = { s.graph_obj with constant_vec := s1.graph_obj.constant_vec } := by
  unfold pass1_step at h
  obtain ⟨_, _, hg, _⟩ := pass1_atomic_effect h
  rw [hg]
  exact pass1_operands_extends D V s I.operands

/-- A step of the second pass only appends to the operator list, to the operator arguments
and to the name tables. -/
theorem step_extends {debug : Bool} {s s1 : State} {k : Nat} {I : Instruction}
    (h : step debug s k I = Except.ok s1) :
    graph_extends s.graph_obj s1.graph_obj ∧
      s1.graph_obj.constant_vec = s.graph_obj.constant_vec := by
  rw [step_emission h]
  refine ⟨⟨List.prefix_refl _, List.prefix_append _ _, List.prefix_append _ _, ?_, ?_, rfl, rfl,
    rfl, rfl⟩, rfl⟩
  · show s.graph_obj.atomic_name_vec <+: if _ then _ else _
    split
    · exact name_vec_update_prefix _ _ _
    · exact List.prefix_refl _
  · show s.graph_obj.discrete_name_vec <+: if _ then _ else _
    split
    · exact name_vec_update_prefix _ _ _
    · exact List.prefix_refl _

/-- Between two positions of the second pass the graph is only appended to, and the constant
pool does not change. -/
theorem llvm_ir.state_at_extends {debug : Bool} {ir_obj : llvm_ir} {graph_obj : cpp_graph}
    {j k : Nat} {sj sk : State} (hjk : j ≤ k) (hk : k ≤ ir_obj.function_ir.length)
    (hj : llvm_ir.state_at debug ir_obj graph_obj j = Except.ok sj)
    (hsk : llvm_ir.state_at debug ir_obj graph_obj k = Except.ok sk) :
    graph_extends sj.graph_obj sk.graph_obj ∧
      sk.graph_obj.constant_vec = sj.graph_obj.constant_vec :=
  llvm_ir.state_at_rel
    (fun s s1 => graph_extends s.graph_obj s1.graph_obj ∧
      s1.graph_obj.constant_vec = s.graph_obj.constant_vec)
    (fun _ => ⟨graph_extends_refl _, rfl⟩)
    (fun _ _ _ h1 h2 => ⟨graph_extends_trans h1.1 h2.1, h2.2.trans h1.2⟩)
    (fun _ _ _ _ h => step_extends h) hjk hk hj hsk

/-! ## The name tables list the names in the order of their first use -/

theorem mem_first_seen (l : List String) (x : String) : x ∈ first_seen l ↔ x ∈ l := by
  simp [first_seen]

theorem nodup_first_seen (l : List String) : (first_seen l).Nodup := by
  unfold first_seen
  exact List.nodup_reverse.2 (List.nodup_dedup _)

theorem first_seen_snoc (l : List String) (x : String) :
    first_seen (l ++ [x]) = if x ∈ l then first_seen l else first_seen l ++ [x] := by
  unfold first_seen
  rw [List.reverse_append, List.reverse_singleton, List.singleton_append]
  split
  · rename_i h
    rw [List.dedup_cons_of_mem (List.mem_reverse.2 h)]
  · rename_i h
    rw [List.dedup_cons_of_not_mem (fun hm => h (List.mem_reverse.1 hm))]
    simp

theorem name_vec_update_eq (name_vec : List String) (str : String) :
    name_vec_update name_vec (name_index name_vec str) str =
      if str ∈ name_vec then name_vec else name_vec ++ [str] := by
  obtain ⟨_, _, h1, h2⟩ := name_vec_update_spec name_vec str
  split
  · rename_i h
    exact h1 h
  · rename_i h
    exact h2 h

theorem name_vec_update_first_seen (l : List String) (str : String) :
    name_vec_update (first_seen l) (name_index (first_seen l) str) str =
      first_seen (l ++ [str]) := by
  rw [name_vec_update_eq, first_seen_snoc]
  simp only [mem_first_seen]

theorem take_succ_of_getElem? {α : Type} (l : List α) (k : Nat) (x : α) (h : l[k]? = some x) :
    l.take (k + 1) = l.take k ++ [x] := by
  rw [List.take_succ, h]
  rfl

/-- At every position of the second pass the name tables list the names of the atomic calls
and of the discrete calls before the position, without repetition and in the order of their
first use. -/
theorem llvm_ir.state_at_names {debug : Bool} {ir_obj : llvm_ir} {graph_obj : cpp_graph}
    {k : Nat} {s : State} (hk : k ≤ ir_obj.function_ir.length)
    (hs : llvm_ir.state_at debug ir_obj graph_obj k = Except.ok s) :
    s.graph_obj.atomic_name_vec = first_seen (atomic_call_names (ir_obj.function_ir.take k)) ∧
      s.graph_obj.discrete_name_vec =
        first_seen (discrete_call_names (ir_obj.function_ir.take k)) := by
  refine llvm_ir.state_at_induction
    (fun k s =>
      s.graph_obj.atomic_name_vec =
        first_seen (atomic_call_names (ir_obj.function_ir.take k)) ∧
      s.graph_obj.discrete_name_vec =
        first_seen (discrete_call_names (ir_obj.function_ir.take k)))
    ?_ ?_ k hk s hs
  · intro s0 h0
    obtain ⟨hg, _⟩ := llvm_ir.before_pass2_effect h0
    rw [hg]
    exact ⟨rfl, rfl⟩
  · intro k I s s1 hI hs ih hstep
    obtain ⟨ih1, ih2⟩ := ih
    rw [take_succ_of_getElem? _ _ _ hI, step_emission hstep]
    constructor
    · show (if _ then _ else _) = _
      by_cases hc : I.opcode = Opcode.Call ∧ I.operands.length = 7
      · have hf : is_atomic_call I = true := by simpa [is_atomic_call] using hc
        rw [if_pos hc, ih1, name_vec_update_first_seen]
        simp [atomic_call_names, List.filter_append, hf]
      · have hf : is_atomic_call I = false := by simpa [is_atomic_call] using hc
        rw [if_neg hc, ih1]
        simp [atomic_call_names, List.filter_append, hf]
    · show (if _ then _ else _) = _
      by_cases hc : I.opcode = Opcode.Call ∧ I.operands.length ≠ 7 ∧
          starts_with (callee_name I) "discrete_" = true
      · have hf : is_discrete_call I = true := by simpa [is_discrete_call] using hc
        rw [if_pos hc, ih2, name_vec_update_first_seen]
        simp [discrete_call_names, List.filter_append, hf]
      · have hf : is_discrete_call I = false := by
          simp only [is_discrete_call, decide_eq_false_iff_not]
          exact hc
        rw [if_neg hc, ih2]
        simp [discrete_call_names, List.filter_append, hf]

theorem nodup_index_unique {α : Type} (l : List α) (hnd : l.Nodup) (i j : Nat) (x : α)
    (hi : l[i]? = some x) (hj : l[j]? = some x) : i = j := by
  obtain ⟨hi1, hi2⟩ := List.getElem?_eq_some.1 hi
  obtain ⟨hj1, hj2⟩ := List.getElem?_eq_some.1 hj
  exact (List.Nodup.getElem_inj_iff hnd).1 (hi2.trans hj2.symm)

theorem name_vec_update_nodup (name_vec : List String) (str : String) (hnd : name_vec.Nodup) :
    (name_vec_update name_vec (name_index name_vec str) str).Nodup := by
  rw [name_vec_update_eq]
  split
  · exact hnd
  · rename_i h
    exact List.Nodup.append hnd (List.nodup_singleton _) (by simpa using h)

theorem getElem?_append_length {α : Type} (l t : List α) (a : α) :
    (l ++ a :: t)[l.length]? = some a := by
  rw [List.getElem?_append_right (Nat.le_refl _)]
  simp

/-! ## The first failing instruction ends the translation -/

theorem no_store_ne_unsupported (i : Nat) (op_name : String) :
    no_store_msg i ≠ unsupported_msg op_name := by
  intro h
  have h2 := congrArg String.data h
  simp [no_store_msg, unsupported_msg, msg_init, String.data_append] at h2

theorem no_store_ne_cannot_call (i : Nat) (name : String) :
    no_store_msg i ≠ cannot_call_msg name := by
  intro h
  have h2 := congrArg String.data h
  simp [no_store_msg, cannot_call_msg, msg_init, String.data_append] at h2

/-- The message that the step for the instruction `I` returns when it returns one: it names
the operator code of `I` or its callee. -/
theorem step_ret_msg {debug : Bool} {s : State} {k : Nat} {I : Instruction} {msg : String}
    {g : cpp_graph} (h : step debug s k I = Except.error (Stop.ret msg g)) :
    (∃ op_name, I.opcode = Opcode.Other op_name ∧ msg = unsupported_msg op_name) ∨
      (I.opcode = Opcode.Call ∧ msg = cannot_call_msg (callee_name I)) := by
  rcases (step_ret_cases h).2 with h1 | ⟨hop, _, v, hv, _, _, hmsg⟩
  · exact Or.inl h1
  · exact Or.inr ⟨hop, by rw [callee_name_of hv]; exact hmsg⟩

theorem pass2_ret_msg {debug : Bool} {s : State} {k : Nat} {F : List Instruction}
    {msg : String} {g : cpp_graph}
    (h : pass2 debug s k F = Except.error (Stop.ret msg g)) :
    (∃ op_name, msg = unsupported_msg op_name) ∨ ∃ name, msg = cannot_call_msg name := by
  induction F generalizing s k with
  | nil =>
    simp only [pass2, pure, Except.pure] at h
    cases h
  | cons I rest ih =>
    simp only [pass2, bind, Except.bind] at h
    split at h
    · rename_i e he
      cases h
      rcases step_ret_msg he with ⟨n, _, hm⟩ | ⟨_, hm⟩
      · exact Or.inl ⟨n, hm⟩
      · exact Or.inr ⟨_, hm⟩
    · exact ih h

theorem llvm_ir.state_at_ret_msg {debug : Bool} {ir_obj : llvm_ir} {graph_obj : cpp_graph}
    {k : Nat} {msg : String} {g : cpp_graph}
    (h : llvm_ir.state_at debug ir_obj graph_obj k = Except.error (Stop.ret msg g)) :
    (∃ op_name, msg = unsupported_msg op_name) ∨ ∃ name, msg = cannot_call_msg name := by
  unfold llvm_ir.state_at at h
  simp only [bind, Except.bind] at h
  split at h
  · rename_i e he
    cases h
    exact absurd he (fun he => llvm_ir.before_pass2_no_ret he)
  · exact pass2_ret_msg h

/-- Every instruction before a position that the second pass reaches was processed without
failure. -/
theorem llvm_ir.state_at_steps_ok {debug : Bool} {ir_obj : llvm_ir} {graph_obj : cpp_graph}
    {k : Nat} {s : State} (hk : k ≤ ir_obj.function_ir.length)
    (hs : llvm_ir.state_at debug ir_obj graph_obj k = Except.ok s) (j : Nat) (hj : j < k) :
    ∃ J sj sj1, ir_obj.function_ir[j]? = some J ∧
      llvm_ir.state_at debug ir_obj graph_obj j = Except.ok sj ∧
      step debug sj j J = Except.ok sj1 := by
  have hjlen : j < ir_obj.function_ir.length := by omega
  obtain ⟨sj1, hsj1⟩ := llvm_ir.state_at_prefix_ok (show j + 1 ≤ k by omega) hk hs
  have hJ : ir_obj.function_ir[j]? = some ir_obj.function_ir[j] :=
    List.getElem?_eq_getElem hjlen
  obtain ⟨sj, hsj, hstep⟩ := llvm_ir.state_at_succ_ok hJ hsj1
  exact ⟨_, sj, sj1, hJ, hsj, hstep⟩

/-! ## The operator tags of the debug build -/

theorem name2graph_op_valid (str : String) (h : name2graph_op.lookup str ≠ 0) :
    graph_op_cast (name2graph_op.lookup str - 1) ∈ math_names.map Prod.snd := by
  cases hf : DenseMap.find? name2graph_op str with
  | none =>
    exact absurd (DenseMap.lookup_of_none _ _ hf) h
  | some i_op =>
    rw [DenseMap.lookup_of_find? _ _ _ hf]
    have hmem := DenseMap.mem_of_find? _ _ _ hf
    rw [name2graph_op_eq] at hmem
    simp only [List.mem_cons, Prod.mk.injEq, List.mem_singleton, List.not_mem_nil,
      or_false] at hmem
    rcases hmem with h | h | h | h | h | h | h | h | h | h | h | h | h | h | h | h | h | h | h |
      h | h | h | h
    all_goals
      rw [h.2]
      decide

/-- In the debug build no step of the second pass appends the placeholder `n_graph_op`. -/
theorem step_tags_valid {s s1 : State} {k : Nat} {I : Instruction}
    (h : step true s k I = Except.ok s1) :
    ∀ tag ∈ (emission s k I).1, tag ≠ graph_op_enum.n_graph_op := by
  unfold step at h
  split at h
  all_goals
    have hop := ‹I.opcode = _›
    first
    | (simp only [emission, hop]
       simp
       done)
    | (exact (step_select_emission hop h).2 rfl)
    | (obtain ⟨v, hv, _, heq⟩ := step_call_dispatch h
       rw [heq] at h
       have hname := callee_name_of hv
       by_cases h7 : I.operands.length = 7
       · simp [emission, hop, h7]
       · rw [if_neg h7] at h
         by_cases hd : starts_with v.getName "discrete_" = true
         · simp [emission, hop, h7, hname, hd]
         · rw [if_neg hd] at h
           have hvalid := name2graph_op_valid _ (call_math_ok h)
           have hne : graph_op_cast (name2graph_op.lookup v.getName - 1) ≠
               graph_op_enum.n_graph_op := by
             intro he
             rw [he] at hvalid
             revert hvalid
             decide
           by_cases h3 : I.operands.length = 3
           · simpa [emission, hop, h7, hname, hd, h3] using hne
           · simpa [emission, hop, h7, hname, hd, h3] using hne)
    | (unfold step_or at h
       simp only [bind, Except.bind] at h
       split at h
       · cases h
       · have hv := (combine_loop_effect h).2 rfl
         simp only [emission, hop, List.mem_map]
         rintro tag ⟨c, hc, rfl⟩
         exact combine_op_enum_valid _ (hv c hc))
    | (unfold step_zext step_or at h
       simp only [bind, Except.bind] at h
       split at h
       · cases h
       · split at h
         · cases h
         · have hv := (combine_loop_effect h).2 rfl
           simp only [emission, hop, List.mem_map]
           rintro tag ⟨c, hc, rfl⟩
           have hc2 : c ∈ recorded_compares
               (if true = true then { s with count_zext := s.count_zext + 1 } else s)
               I.operands := hc
           exact combine_op_enum_valid _ (hv c hc2))

/-- In the debug build no operator of the graph is the placeholder `n_graph_op`, at any
position of the second pass. -/
theorem llvm_ir.state_at_tags_valid {ir_obj : llvm_ir} {graph_obj : cpp_graph}
    {k : Nat} {s : State} (hk : k ≤ ir_obj.function_ir.length)
    (hs : llvm_ir.state_at true ir_obj graph_obj k = Except.ok s) :
    ∀ tag ∈ s.graph_obj.operator_vec, tag ≠ graph_op_enum.n_graph_op := by
  refine llvm_ir.state_at_induction
    (fun _ s => ∀ tag ∈ s.graph_obj.operator_vec, tag ≠ graph_op_enum.n_graph_op)
    ?_ ?_ k hk s hs
  · intro s0 h0
    obtain ⟨hg, _⟩ := llvm_ir.before_pass2_effect h0
    rw [hg]
    intro tag htag
    simp [empty_graph] at htag
  · intro k I s s1 hI hs ih hstep tag htag
    rw [step_emission hstep] at htag
    rcases List.mem_append.1 htag with h | h
    · exact ih tag h
    · exact step_tags_valid hstep tag h

/-! ## Pointer nodes and contiguous vectors, in either build -/

theorem call_atomic_tables {debug : Bool} {s s1 : State} {I : Instruction} {str : String}
    (h : call_atomic debug s I str = Except.ok s1) :
    ∃ base n_result, I.operands[2]? = some (Value.ConstantInt n_result) ∧
      I.operands[3]? = some base ∧
      s1.llvm_ptr2graph_node = s.llvm_ptr2graph_node.insert base (s.result_node + 1) ∧
      s1.llvm_base2first_node = s.llvm_base2first_node.insert base (s.result_node + 1) ∧
      s1.result_node = s.result_node + n_result ∧
      s1.llvm_value2graph_node = s.llvm_value2graph_node ∧
      s1.vec_index2node = s.vec_index2node := by
  unfold call_atomic at h
  simp only [bind, Except.bind, pure, Except.pure, throw, throwThe,
    MonadExceptOf.throw] at h
  repeat' split at h
  all_goals first
    | (cases h; done)
    | (have h2 := ‹vec_get debug I.operands 2 = Except.ok _›
       have h3 := ‹vec_get debug I.operands 3 = Except.ok _›
       rw [vec_get_ok_iff] at h2 h3
       simp only [get_int_constant_ok_iff] at *
       subst_vars
       cases h
       exact ⟨_, _, h2, h3, rfl, rfl, rfl, rfl, rfl⟩)

/-- In either build a step changes the pointer nodes and the registered contiguous vectors in
one of three ways: not at all, by an address computation on a base that is not scattered, or
by an atomic call that registers its result vector after the node counter. -/
theorem step_node_tables {debug : Bool} {s s1 : State} {k : Nat} {I : Instruction}
    (h : step debug s k I = Except.ok s1) :
    (s1.llvm_ptr2graph_node = s.llvm_ptr2graph_node ∧
      s1.llvm_base2first_node = s.llvm_base2first_node) ∨
    (I.opcode = Opcode.GetElementPtr ∧
      ∃ base index, I.operands[0]? = some base ∧
        I.operands[1]? = some (Value.ConstantInt index) ∧
        s.llvm_base2index2node.lookup base = 0 ∧
        s1.llvm_ptr2graph_node = s.llvm_ptr2graph_node.insert (I.result k)
          (s.llvm_base2first_node.lookup base + index) ∧
        s1.llvm_base2first_node = s.llvm_base2first_node) ∨
    (I.opcode = Opcode.Call ∧ I.operands.length = 7 ∧
      ∃ base n_result, I.operands[2]? = some (Value.ConstantInt n_result) ∧
        I.operands[3]? = some base ∧
        s1.llvm_ptr2graph_node = s.llvm_ptr2graph_node.insert base (s.result_node + 1) ∧
        s1.llvm_base2first_node = s.llvm_base2first_node.insert base (s.result_node + 1) ∧
        s1.result_node = s.result_node + n_result ∧
        s1.llvm_value2graph_node = s.llvm_value2graph_node ∧
        s1.vec_index2node = s.vec_index2node) := by
  unfold step at h
  split at h
  case h_13 =>
    obtain ⟨h1, _, _, _⟩ := step_zext_frame h
    left
    rw [h1]
    exact ⟨rfl, rfl⟩
  case h_14 =>
    obtain ⟨h1, _, _, _⟩ := step_or_frame h
    left
    rw [h1]
    exact ⟨rfl, rfl⟩
  case h_17 =>
    rcases step_store_effect h with ⟨rfl, _⟩ | ⟨op0, op1, vec, _, _, _, hvec, _, rfl⟩
    · exact Or.inl ⟨rfl, rfl⟩
    · exact Or.inl ⟨rfl, rfl⟩
  case h_10 hop =>
    obtain ⟨base, index, h0, h1, hcase⟩ := step_gep_effect h
    rcases hcase with ⟨_, rfl⟩ | ⟨hz, rfl⟩
    · exact Or.inl ⟨rfl, rfl⟩
    · exact Or.inr (Or.inl ⟨hop, base, index, h0, h1, hz, rfl, rfl⟩)
  case h_4 hop =>
    unfold step_call at h
    simp only [bind, Except.bind] at h
    split at h
    · cases h
    · split at h
      · rename_i h7
        exact Or.inr (Or.inr ⟨hop, h7, call_atomic_tables h⟩)
      · left
        simp only [call_discrete, call_math, bind, Except.bind, pure, Except.pure, throw,
          throwThe, MonadExceptOf.throw] at h
        repeat' split at h
        all_goals first
          | (cases h
             exact ⟨rfl, rfl⟩)
          | cases h
  all_goals
    left
    simp only [step_load, step_br, step_binary, step_fcmp, step_cmp,
      step_icmp, step_fneg, step_ret, step_select, bind, Except.bind, pure, Except.pure,
      throw, throwThe, MonadExceptOf.throw] at h
    repeat' split at h
    all_goals first
      | (cases h
         exact ⟨rfl, rfl⟩)
      | cases h

/-- The keys of `llvm_base2first_node`: the input pointer and the result bases (operand
three) of the atomic calls before the position. -/
theorem llvm_ir.state_at_first_node_keys {debug : Bool} {ir_obj : llvm_ir}
    {graph_obj : cpp_graph} {k : Nat} {s : State} (hk : k ≤ ir_obj.function_ir.length)
    (hs : llvm_ir.state_at debug ir_obj graph_obj k = Except.ok s) :
    ∀ base first_node, DenseMap.find? s.llvm_base2first_node base = some first_node →
      base = input_ptr ∨
        ∃ j C, j < k ∧ ir_obj.function_ir[j]? = some C ∧ C.opcode = Opcode.Call ∧
          C.operands.length = 7 ∧ C.operands[3]? = some base := by
  refine llvm_ir.state_at_induction
    (fun k s => ∀ base first_node,
      DenseMap.find? s.llvm_base2first_node base = some first_node →
      base = input_ptr ∨
        ∃ j C, j < k ∧ ir_obj.function_ir[j]? = some C ∧ C.opcode = Opcode.Call ∧
          C.operands.length = 7 ∧ C.operands[3]? = some base)
    ?_ ?_ k hk s hs
  · intro s0 h0 base first_node hf
    obtain ⟨_, _, _, hb, _⟩ := llvm_ir.before_pass2_effect h0
    rw [hb] at hf
    simp only [DenseMap.find?] at hf
    split at hf
    · rename_i he
      exact Or.inl he.symm
    · cases hf
  · intro k I s s1 hI hs ih hstep base first_node hf
    have hmono : ∀ b, (b = input_ptr ∨
        ∃ j C, j < k ∧ ir_obj.function_ir[j]? = some C ∧ C.opcode = Opcode.Call ∧
          C.operands.length = 7 ∧ C.operands[3]? = some b) →
        (b = input_ptr ∨
        ∃ j C, j < k + 1 ∧ ir_obj.function_ir[j]? = some C ∧ C.opcode = Opcode.Call ∧
          C.operands.length = 7 ∧ C.operands[3]? = some b) := by
      rintro b (hb | ⟨j, C, hj, hC⟩)
      · exact Or.inl hb
      · exact Or.inr ⟨j, C, by omega, hC⟩
    rcases step_node_tables hstep with ⟨_, hb⟩ | ⟨_, _, _, _, _, _, _, hb⟩ |
      ⟨hop, h7, b, m, _, h3, _, hb, _⟩
    · rw [hb] at hf
      exact hmono _ (ih _ _ hf)
    · rw [hb] at hf
      exact hmono _ (ih _ _ hf)
    · rw [hb] at hf
      rcases DenseMap.find?_insert_cases _ _ _ _ _ hf with hf | ⟨_, rfl, _⟩
      · exact hmono _ (ih _ _ hf)
      · exact Or.inr ⟨k, I, by omega, hI, hop, h7, h3⟩

/-! ## The operators emitted so far and their result counts -/

theorem math_tag_result_count (tag : graph_op_enum) (args : List Nat)
    (h : tag ∈ math_names.map Prod.snd) : result_count tag args = 1 := by
  simp only [math_names, List.map_cons, List.map_nil, List.mem_cons, List.mem_singleton,
    List.not_mem_nil, or_false] at h
  rcases h with h | h | h | h | h | h | h | h | h | h | h | h | h | h | h | h | h | h | h |
    h | h | h | h
  all_goals
    rw [h]
    rfl

theorem combine_tag_result_count (pred : Predicate) (args : List Nat)
    (h : (combine_op_enum pred).1 ≠ graph_op_enum.n_graph_op) :
    result_count (combine_op_enum pred).1 args = 0 := by
  cases pred <;> first | rfl | exact absurd rfl h

theorem select_tag_result_count (pred : Predicate) (args : List Nat) :
    result_count (select_op_enum pred).1 args = 1 := by
  cases pred <;> rfl

/-- The records of a step are a decomposition of what the step appends. -/
theorem step_records_emission (s : State) (k : Nat) (I : Instruction) :
    (step_records s k I).map Prod.fst = (emission s k I).1 ∧
      (step_records s k I).flatMap Prod.snd = (emission s k I).2 := by
  unfold step_records
  by_cases hc : I.opcode = Opcode.ZExt ∨ I.opcode = Opcode.Or
  · rw [if_pos hc]
    rcases hc with hc | hc
    · simp [emission, hc, List.map_map, List.flatMap_map, Function.comp_def]
    · simp [emission, hc, List.map_map, List.flatMap_map, Function.comp_def]
  · rw [if_neg hc]
    constructor
    · simp [List.map_map, Function.comp_def]
    · have hlen : (emission s k I).1 = [] ∧ (emission s k I).2 = [] ∨
          ∃ tag, (emission s k I).1 = [tag] := by
        unfold emission
        split
        all_goals first
          | exact Or.inr ⟨_, rfl⟩
          | (split
             all_goals first
               | exact Or.inr ⟨_, rfl⟩
               | (split
                  all_goals first
                    | exact Or.inr ⟨_, rfl⟩
                    | (split <;> exact Or.inr ⟨_, rfl⟩))
               | exact Or.inl ⟨rfl, rfl⟩)
          | exact Or.inl ⟨rfl, rfl⟩
          | (exfalso
             apply hc
             first
               | exact Or.inl (by assumption)
               | exact Or.inr (by assumption))
      rcases hlen with ⟨h1, h2⟩ | ⟨tag, h1⟩
      · rw [h1, h2]
        rfl
      · rw [h1]
        simp

/-- The result counts of the operators that a step appends add up to the number of nodes that
the step allocates, unless a boolean combine appends the placeholder `n_graph_op`. -/
theorem step_total_results {debug : Bool} {s s1 : State} {k : Nat} {I : Instruction}
    (h : step debug s k I = Except.ok s1)
    (hvalid : ∀ tag ∈ (emission s k I).1, tag ≠ graph_op_enum.n_graph_op) :
    total_results (step_records s k I) = allocated I := by
  unfold total_results step_records
  by_cases hc : I.opcode = Opcode.ZExt ∨ I.opcode = Opcode.Or
  · rw [if_pos hc]
    have hem : (emission s k I).1 =
        (recorded_compares s I.operands).map (fun c => (combine_op_enum c.pred).1) := by
      rcases hc with hc | hc <;> simp [emission, hc]
    have hall : allocated I = 0 := by
      rcases hc with hc | hc <;> simp [allocated, hc]
    rw [hall, List.map_map]
    apply List.sum_eq_zero
    intro x hx
    obtain ⟨c, hcm, rfl⟩ := List.mem_map.1 hx
    refine combine_tag_result_count _ _ (hvalid _ ?_)
    rw [hem]
    exact List.mem_map.2 ⟨c, hcm, rfl⟩
  · rw [if_neg hc, List.map_map]
    unfold step at h
    split at h
    all_goals
      have hop := ‹I.opcode = _›
      first
      | (exfalso
         apply hc
         first
           | exact Or.inl hop
           | exact Or.inr hop)
      | (simp [emission, allocated, hop, result_count]
         done)
      | (obtain ⟨v, hv, _, heq⟩ := step_call_dispatch h
         rw [heq] at h
         have hname := callee_name_of hv
         by_cases h7 : I.operands.length = 7
         · simp only [emission, allocated, hop, h7, if_true, List.map_cons, List.map_nil,
             Function.comp_apply, List.sum_cons, List.sum_nil, Nat.add_zero, result_count,
             operand_constant]
           simp only [List.getD_eq_getElem?_getD, List.cons_append, List.getElem?_cons_succ,
             List.getElem?_cons_zero, Option.getD_some]
         · rw [if_neg h7] at h
           by_cases hd : starts_with v.getName "discrete_" = true
           · simp [emission, allocated, hop, h7, hname, hd, result_count]
           · rw [if_neg hd] at h
             have hvalid2 := name2graph_op_valid _ (call_math_ok h)
             by_cases h3 : I.operands.length = 3
             · simp [emission, allocated, hop, h7, hname, hd, h3,
                 math_tag_result_count _ _ hvalid2]
             · simp [emission, allocated, hop, h7, hname, hd, h3,
                 math_tag_result_count _ _ hvalid2])
      | (by_cases hty : I.operands[1]?.map get_type_id = some TypeID.DoubleTyID
         · simp only [emission, allocated, hop, hty, if_true, List.map_cons, List.map_nil,
             Function.comp_apply, List.sum_cons, List.sum_nil, Nat.add_zero,
             select_tag_result_count]
         · simp only [emission, allocated, hop, hty, if_false, List.map_nil, List.sum_nil])

theorem total_results_append (A B : List (graph_op_enum × List Nat)) :
    total_results (A ++ B) = total_results A + total_results B := by
  simp [total_results]

theorem llvm_ir.records_before_succ {debug : Bool} {ir_obj : llvm_ir} {graph_obj : cpp_graph}
    {k : Nat} {s : State} {I : Instruction}
    (hs : llvm_ir.state_at debug ir_obj graph_obj k = Except.ok s)
    (hI : ir_obj.function_ir[k]? = some I) :
    llvm_ir.records_before debug ir_obj graph_obj (k + 1) =
      llvm_ir.records_before debug ir_obj graph_obj k ++ step_records s k I := by
  rw [llvm_ir.records_before]
  simp only [hs, hI]

/-- At every position of the second pass the operator list and the operator arguments of the
graph are those of the operators emitted so far, and the node counter is `D + V + C` plus the
sum of their result counts unless the placeholder `n_graph_op` is among the operators. -/
theorem llvm_ir.state_at_records {debug : Bool} {ir_obj : llvm_ir} {graph_obj : cpp_graph}
    {k : Nat} {s : State} (hk : k ≤ ir_obj.function_ir.length)
    (hs : llvm_ir.state_at debug ir_obj graph_obj k = Except.ok s) :
    s.graph_obj.operator_vec =
        (llvm_ir.records_before debug ir_obj graph_obj k).map Prod.fst ∧
      s.graph_obj.operator_arg =
        (llvm_ir.records_before debug ir_obj graph_obj k).flatMap Prod.snd ∧
      (graph_op_enum.n_graph_op ∉ s.graph_obj.operator_vec →
        s.result_node = ir_obj.n_dynamic_ind_ + ir_obj.n_variable_ind_ +
          s.graph_obj.constant_vec.length +
          total_results (llvm_ir.records_before debug ir_obj graph_obj k)) := by
  refine llvm_ir.state_at_induction
    (fun k s =>
      s.graph_obj.operator_vec =
        (llvm_ir.records_before debug ir_obj graph_obj k).map Prod.fst ∧
      s.graph_obj.operator_arg =
        (llvm_ir.records_before debug ir_obj graph_obj k).flatMap Prod.snd ∧
      (graph_op_enum.n_graph_op ∉ s.graph_obj.operator_vec →
        s.result_node = ir_obj.n_dynamic_ind_ + ir_obj.n_variable_ind_ +
          s.graph_obj.constant_vec.length +
          total_results (llvm_ir.records_before debug ir_obj graph_obj k)))
    ?_ ?_ k hk s hs
  · intro s0 h0
    obtain ⟨hg, hr, _⟩ := llvm_ir.before_pass2_effect h0
    refine ⟨?_, ?_, fun _ => ?_⟩
    · rw [hg]
      rfl
    · rw [hg]
      rfl
    · rw [hr]
      simp [llvm_ir.records_before, total_results]
  · intro k I s s1 hI hs ih hstep
    obtain ⟨ih1, ih2, ih3⟩ := ih
    obtain ⟨hr1, hr2⟩ := step_records_emission s k I
    have hg := step_emission hstep
    have hvec : s1.graph_obj.operator_vec = s.graph_obj.operator_vec ++ (emission s k I).1 := by
      rw [hg]
    have harg : s1.graph_obj.operator_arg = s.graph_obj.operator_arg ++ (emission s k I).2 := by
      rw [hg]
    have hconst : s1.graph_obj.constant_vec = s.graph_obj.constant_vec := by
      rw [hg]
    rw [llvm_ir.records_before_succ hs hI]
    refine ⟨?_, ?_, fun hno => ?_⟩
    · rw [hvec, ih1, List.map_append, hr1]
    · rw [harg, ih2, List.flatMap_append, hr2]
    · rw [hvec] at hno
      have hno1 : graph_op_enum.n_graph_op ∉ s.graph_obj.operator_vec :=
        fun hm => hno (List.mem_append_left _ hm)
      have hno2 : ∀ tag ∈ (emission s k I).1, tag ≠ graph_op_enum.n_graph_op := by
        intro tag htag he
        rw [he] at htag
        exact hno (List.mem_append_right _ htag)
      rw [step_result_node hstep, ih3 hno1, total_results_append,
        step_total_results hstep hno2, hconst]
      omega

/-! ## Every node in the tables is at most the node counter, in either build -/

theorem llvm_ir.contiguous_length_mono (ir_obj : llvm_ir) (base : Value) (k length : Nat)
    (h : llvm_ir.contiguous_length ir_obj base k = some length) :
    llvm_ir.contiguous_length ir_obj base (k + 1) = some length := by
  rw [llvm_ir.contiguous_length, h]

theorem llvm_ir.contiguous_length_succ_cases (ir_obj : llvm_ir) (base : Value)
    (k length : Nat)
    (h : llvm_ir.contiguous_length ir_obj base (k + 1) = some length) :
    llvm_ir.contiguous_length ir_obj base k = some length ∨
      (llvm_ir.contiguous_length ir_obj base k = none ∧
        ∃ I, ir_obj.function_ir[k]? = some I ∧ I.opcode = Opcode.Call ∧
          I.operands.length = 7 ∧ I.operands[3]? = some base ∧
          I.operands[2]? = some (Value.ConstantInt length)) := by
  rw [llvm_ir.contiguous_length] at h
  split at h
  · rename_i n hn
    cases h
    exact Or.inl hn
  · rename_i hn
    right
    refine ⟨hn, ?_⟩
    split at h
    · rename_i I hI
      split at h
      · rename_i hc
        split at h
        · rename_i m hm
          cases h
          exact ⟨I, hI, hc.1, hc.2.1, hc.2.2, hm⟩
        · cases h
      · cases h
    · cases h

theorem llvm_ir.contiguous_length_new (ir_obj : llvm_ir) (base : Value) (k m : Nat)
    (I : Instruction) (hnone : llvm_ir.contiguous_length ir_obj base k = none)
    (hI : ir_obj.function_ir[k]? = some I) (hop : I.opcode = Opcode.Call)
    (h7 : I.operands.length = 7) (h3 : I.operands[3]? = some base)
    (h2 : I.operands[2]? = some (Value.ConstantInt m)) :
    llvm_ir.contiguous_length ir_obj base (k + 1) = some m := by
  rw [llvm_ir.contiguous_length, hnone]
  simp only [hI, hop, h7, h3, h2, and_self, if_true]

/-- The step for an atomic call registers the result vector of the call. -/
theorem step_atomic_tables {debug : Bool} {s s1 : State} {k : Nat} {I : Instruction}
    (h : step debug s k I = Except.ok s1) (hop : I.opcode = Opcode.Call)
    (h7 : I.operands.length = 7) :
    ∃ base n_result, I.operands[2]? = some (Value.ConstantInt n_result) ∧
      I.operands[3]? = some base ∧
      s1.llvm_ptr2graph_node = s.llvm_ptr2graph_node.insert base (s.result_node + 1) ∧
      s1.llvm_base2first_node = s.llvm_base2first_node.insert base (s.result_node + 1) ∧
      s1.result_node = s.result_node + n_result ∧
      s1.llvm_value2graph_node = s.llvm_value2graph_node ∧
      s1.vec_index2node = s.vec_index2node := by
  unfold step at h
  rw [hop] at h
  simp only at h
  unfold step_call at h
  simp only [bind, Except.bind] at h
  split at h
  · cases h
  · rw [if_pos h7] at h
    exact call_atomic_tables h

theorem DenseMap.find?_insert_isSome {κ β : Type} [DecidableEq κ] (m : DenseMap κ β) (k : κ)
    (v : β) : ∃ x, DenseMap.find? (m.insert k v) k = some x := by
  cases hf : DenseMap.find? m k with
  | some x => exact ⟨x, DenseMap.find?_insert_mono _ _ _ _ _ hf⟩
  | none => exact ⟨v, DenseMap.find?_insert_self _ _ _ hf⟩

theorem nodes_below_lookup {ir_obj : llvm_ir} {k : Nat} {s : State}
    (hP : nodes_below ir_obj k s) :
    (∀ v, s.llvm_value2graph_node.lookup v ≤ s.result_node) ∧
      (∀ ptr, s.llvm_ptr2graph_node.lookup ptr ≤ s.result_node) ∧
      ∀ o, s.node o ≤ s.result_node := by
  obtain ⟨p1, p2, _, _, _⟩ := hP
  have hv : ∀ v, s.llvm_value2graph_node.lookup v ≤ s.result_node := by
    intro v
    cases hf : DenseMap.find? s.llvm_value2graph_node v with
    | none =>
      rw [DenseMap.lookup_of_none _ _ hf]
      exact Nat.zero_le _
    | some node =>
      rw [DenseMap.lookup_of_find? _ _ _ hf]
      exact p1 v node hf
  refine ⟨hv, ?_, ?_⟩
  · intro ptr
    cases hf : DenseMap.find? s.llvm_ptr2graph_node ptr with
    | none =>
      rw [DenseMap.lookup_of_none _ _ hf]
      exact Nat.zero_le _
    | some node =>
      rw [DenseMap.lookup_of_find? _ _ _ hf]
      exact p2 ptr node hf
  · intro o
    cases o with
    | none => exact Nat.zero_le _
    | some v => exact hv v

/-- A base without an entry in `llvm_base2index2node` is not a scattered base. -/
theorem llvm_ir.not_scattered_of_lookup {debug : Bool} {ir_obj : llvm_ir}
    {graph_obj : cpp_graph} {k : Nat} {s : State} (hk : k ≤ ir_obj.function_ir.length)
    (hs : llvm_ir.state_at debug ir_obj graph_obj k = Except.ok s) (base : Value)
    (h0 : s.llvm_base2index2node.lookup base = 0) :
    ¬ scattered_base ir_obj.function_ir base := by
  rintro (rfl | ⟨C, hC, hop, h7, h1⟩)
  · exact (llvm_ir.state_at_effect hs).2.2.2.2.1 h0
  · obtain ⟨hok, _, _, _, _, hreg⟩ := llvm_ir.state_at_scattered hk hs
    obtain ⟨vi, hvi⟩ := hreg C hC hop h7 base h1
    have := (hok base vi hvi).1
    rw [DenseMap.lookup_of_find? _ _ _ hvi] at h0
    omega

/-- A step keeps every node in the tables at most the node counter, in either build, when
every atomic call declares at least one result and the offsets of the address computations
on contiguous vectors are in range. -/
theorem step_nodes_below {debug : Bool} {ir_obj : llvm_ir} {graph_obj : cpp_graph}
    {k : Nat} {s s1 : State} {I : Instruction}
    (hI : ir_obj.function_ir[k]? = some I)
    (hs : llvm_ir.state_at debug ir_obj graph_obj k = Except.ok s)
    (h : step debug s k I = Except.ok s1)
    (hres : atomic_results_nonempty ir_obj.function_ir)
    (hoff : offsets_in_range ir_obj)
    (hP : nodes_below ir_obj k s) : nodes_below ir_obj (k + 1) s1 := by
  have hk : k ≤ ir_obj.function_ir.length := llvm_ir.state_at_index_le hI
  obtain ⟨hlookv, hlook, _⟩ := nodes_below_lookup hP
  obtain ⟨p1, p2, p3, p4, p5⟩ := hP
  have hr : s.result_node ≤ s1.result_node := by
    rw [step_result_node h]
    omega
  have q1 : ∀ key node, DenseMap.find? s1.llvm_value2graph_node key = some node →
      node ≤ s1.result_node := by
    intro key node hf
    rcases step_value2node_node h with e | ⟨n, e, hn⟩
    · rw [e] at hf
      exact le_trans (p1 key node hf) hr
    · rw [e] at hf
      rcases DenseMap.find?_insert_cases _ _ _ _ _ hf with h2 | ⟨_, _, h2⟩
      · exact le_trans (p1 key node h2) hr
      · subst h2
        rcases hn with ⟨hn1, hn2⟩ | ⟨ptr, hn1⟩
        · omega
        · rw [hn1]
          exact le_trans (hlook ptr) hr
  have q5 : ∀ index2node ∈ s1.vec_index2node, ∀ node ∈ index2node,
      node ≤ s1.result_node := by
    intro index2node hmem node hnode
    rcases step_vec_index2node h with e | ⟨vi, vec, idx, op0, hvec, e⟩
    · rw [e] at hmem
      exact le_trans (p5 index2node hmem node hnode) hr
    · rw [e] at hmem
      rcases mem_set_cases _ _ _ _ hmem with h2 | h2
      · exact le_trans (p5 index2node h2 node hnode) hr
      · subst h2
        rcases mem_set_cases _ _ _ _ hnode with h3 | h3
        · exact le_trans (p5 vec (List.getElem?_mem hvec) node h3) hr
        · rw [h3]
          exact le_trans (hlookv op0) hr
  by_cases hcall : I.opcode = Opcode.Call ∧ I.operands.length = 7
  · obtain ⟨hop, h7⟩ := hcall
    obtain ⟨base, m, h2, h3, e1, e2, e3, _, _⟩ := step_atomic_tables h hop h7
    have hm : 1 ≤ m := hres I (List.getElem?_mem hI) hop h7 m h2
    refine ⟨q1, ?_, ?_, ?_, q5⟩
    · intro key node hf
      rw [e1] at hf
      rcases DenseMap.find?_insert_cases _ _ _ _ _ hf with h4 | ⟨_, _, h4⟩
      · exact le_trans (p2 key node h4) hr
      · omega
    · intro b f hf
      rw [e2] at hf
      rw [e3]
      rcases DenseMap.find?_insert_cases _ _ _ _ _ hf with h4 | ⟨hnone, hb, hf2⟩
      · obtain ⟨len, h5, h6⟩ := p3 b f h4
        exact ⟨len, llvm_ir.contiguous_length_mono _ _ _ _ h5, by omega⟩
      · subst hb
        have hnone2 : llvm_ir.contiguous_length ir_obj b k = none := by
          cases hl : llvm_ir.contiguous_length ir_obj b k with
          | none => rfl
          | some len =>
            obtain ⟨_, f2, hf3⟩ := p4 b len hl
            rw [hnone] at hf3
            cases hf3
        exact ⟨m, llvm_ir.contiguous_length_new _ _ _ _ _ hnone2 hI hop h7 h3 h2, by omega⟩
    · intro b len hl
      rw [e2]
      rcases llvm_ir.contiguous_length_succ_cases _ _ _ _ hl with h4 | ⟨_, J, hJ, _, _, hJ3, hJ2⟩
      · obtain ⟨h5, f, h6⟩ := p4 b len h4
        exact ⟨h5, f, DenseMap.find?_insert_mono _ _ _ _ _ h6⟩
      · rw [hI] at hJ
        cases hJ
        rw [h3] at hJ3
        cases hJ3
        rw [h2] at hJ2
        cases hJ2
        exact ⟨hm, DenseMap.find?_insert_isSome _ _ _⟩
  · have hlen : ∀ b, llvm_ir.contiguous_length ir_obj b (k + 1) =
        llvm_ir.contiguous_length ir_obj b k := by
      intro b
      cases hl : llvm_ir.contiguous_length ir_obj b k with
      | some len => exact llvm_ir.contiguous_length_mono _ _ _ _ hl
      | none =>
        cases hl1 : llvm_ir.contiguous_length ir_obj b (k + 1) with
        | none => rfl
        | some len =>
          rcases llvm_ir.contiguous_length_succ_cases _ _ _ _ hl1 with h4 |
            ⟨_, J, hJ, hop, h7, _, _⟩
          · rw [hl] at h4
            cases h4
          · rw [hI] at hJ
            cases hJ
            exact absurd ⟨hop, h7⟩ hcall
    have q3 : s1.llvm_base2first_node = s.llvm_base2first_node →
        (∀ base first_node, DenseMap.find? s1.llvm_base2first_node base = some first_node →
          ∃ length, llvm_ir.contiguous_length ir_obj base (k + 1) = some length ∧
            first_node + length ≤ s1.result_node + 1) ∧
        (∀ base length, llvm_ir.contiguous_length ir_obj base (k + 1) = some length →
          1 ≤ length ∧
            ∃ first_node, DenseMap.find? s1.llvm_base2first_node base = some first_node) := by
      intro e2
      constructor
      · intro b f hf
        rw [e2] at hf
        obtain ⟨len, h5, h6⟩ := p3 b f hf
        exact ⟨len, by rw [hlen]; exact h5, by omega⟩
      · intro b len hl
        rw [hlen] at hl
        rw [e2]
        exact p4 b len hl
    rcases step_node_tables h with ⟨e1, e2⟩ | ⟨hop, base, index, h0, h1, hz, e1, e2⟩ |
      ⟨hop, h7, _⟩
    · refine ⟨q1, ?_, (q3 e2).1, (q3 e2).2, q5⟩
      intro key node hf
      rw [e1] at hf
      exact le_trans (p2 key node hf) hr
    · refine ⟨q1, ?_, (q3 e2).1, (q3 e2).2, q5⟩
      intro key node hf
      rw [e1] at hf
      rcases DenseMap.find?_insert_cases _ _ _ _ _ hf with h2 | ⟨_, _, h2⟩
      · exact le_trans (p2 key node h2) hr
      · subst h2
        obtain ⟨len, hl, hi⟩ := hoff k I base index hI hop h0 h1
          (llvm_ir.not_scattered_of_lookup hk hs base hz)
        obtain ⟨_, f, hf1⟩ := p4 base len hl
        obtain ⟨len2, hl2, hb⟩ := p3 base f hf1
        rw [hl] at hl2
        cases hl2
        rw [DenseMap.lookup_of_find? _ _ _ hf1]
        omega
    · exact absurd ⟨hop, h7⟩ hcall

/-- With at least one input, at least one result for every atomic call and the offsets of
the address computations on contiguous vectors in range, every node in the tables is at most
the node counter in every state that the second pass reaches, in either build. -/
theorem llvm_ir.state_at_nodes_below {debug : Bool} {ir_obj : llvm_ir}
    {graph_obj : cpp_graph} {k : Nat} {s : State} (hk : k ≤ ir_obj.function_ir.length)
    (hDV : 1 ≤ ir_obj.n_dynamic_ind_ + ir_obj.n_variable_ind_)
    (hres : atomic_results_nonempty ir_obj.function_ir)
    (hoff : offsets_in_range ir_obj)
    (hs : llvm_ir.state_at debug ir_obj graph_obj k = Except.ok s) :
    nodes_below ir_obj k s := by
  refine llvm_ir.state_at_induction (fun k s => nodes_below ir_obj k s) ?_ ?_ k hk s hs
  · intro s0 h0
    obtain ⟨_, e2, e3, e4, _, _, _⟩ := llvm_ir.before_pass2_effect h0
    unfold llvm_ir.before_pass2 at h0
    simp only [bind, Except.bind, pure, Except.pure] at h0
    split at h0
    · cases h0
    · rename_i s1 hs1
      cases h0
      have hinit : const_inv ir_obj.n_dynamic_ind_ ir_obj.n_variable_ind_
          (init_state ir_obj.function_name_ ir_obj.n_dynamic_ind_ ir_obj.n_variable_ind_
            graph_obj) [] := by
        constructor <;> simp [init_state, first_occurrences, bind_from, cpp_graph.initialize]
      obtain ⟨c1, c2⟩ := const_inv_pass1 [] hinit hs1
      have hlen : s1.graph_obj.constant_vec.length =
          (first_occurrences (([] ++ ir_obj.function_ir.flatMap
            (fun I => I.operands)).filter is_fp)).length := by
        rw [c2]
        apply filterMap_constantFP_length
        intro h hh
        have := (mem_first_occurrences _ _).1 hh
        exact (List.mem_filter.1 this).2
      have hvecs : ∀ index2node ∈ s1.vec_index2node, ∀ node ∈ index2node, node = 0 := by
        have hgen : ∀ (F : List Instruction) (t t1 : State),
            pass1 debug ir_obj.n_dynamic_ind_ ir_obj.n_variable_ind_ t F = Except.ok t1 →
            (∀ index2node ∈ t.vec_index2node, ∀ node ∈ index2node, node = 0) →
            ∀ index2node ∈ t1.vec_index2node, ∀ node ∈ index2node, node = 0 := by
          intro F
          induction F with
          | nil =>
            intro t t1 ht hz
            simp only [pass1, pure, Except.pure] at ht
            cases ht
            exact hz
          | cons I rest ih =>
            intro t t1 ht hz
            simp only [pass1, bind, Except.bind] at ht
            split at ht
            · cases ht
            · rename_i t2 ht2
              apply ih t2 t1 ht
              unfold pass1_step pass1_atomic at ht2
              simp only [bind, Except.bind, pure, Except.pure] at ht2
              have hfold := (pass1_operands_frame ir_obj.n_dynamic_ind_
                ir_obj.n_variable_ind_ t I.operands).2.2
              repeat' split at ht2
              all_goals first
                | (cases ht2
                   intro index2node hmem node hnode
                   simp only [List.mem_append, List.mem_singleton] at hmem
                   rcases hmem with hm | hm
                   · rw [hfold] at hm
                     exact hz index2node hm node hnode
                   · subst hm
                     exact List.eq_of_mem_replicate hnode)
                | (cases ht2
                   rw [hfold]
                   exact hz)
                | cases ht2
        apply hgen _ _ _ hs1
        intro index2node hmem node hnode
        simp only [init_state, List.mem_singleton] at hmem
        subst hmem
        cases hnode
      refine ⟨?_, ?_, ?_, ?_, ?_⟩
      · intro key node hf
        simp only [between_passes] at hf ⊢
        rw [c1] at hf
        have := find?_bind_from_bound _ _ _ _ hf
        omega
      · intro key node hf
        rw [e3] at hf
        simp only [DenseMap.find?] at hf
        split at hf
        · cases hf
          simp only [between_passes]
          omega
        · cases hf
      · intro base f hf
        rw [e4] at hf
        simp only [DenseMap.find?] at hf
        split at hf
        · rename_i hb
          cases hf
          subst hb
          refine ⟨ir_obj.n_dynamic_ind_ + ir_obj.n_variable_ind_, ?_, ?_⟩
          · simp [llvm_ir.contiguous_length]
          · simp only [between_passes]
            omega
        · cases hf
      · intro base len hl
        rw [e4]
        simp only [llvm_ir.contiguous_length] at hl
        split at hl
        · rename_i hb
          cases hl
          exact ⟨hDV, 1, by simp [DenseMap.find?, hb]⟩
        · cases hl
      · intro index2node hmem node hnode
        simp only [between_passes, List.mem_append, List.mem_singleton] at hmem
        rcases hmem with hm | hm
        · rw [hvecs index2node hm node hnode]
          exact Nat.zero_le _
        · subst hm
          rw [List.eq_of_mem_replicate hnode]
          exact Nat.zero_le _
  · intro k I s s1 hI hs hP hstep
    exact step_nodes_below hI hs hstep hres hoff hP

theorem operand_node_below {ir_obj : llvm_ir} {k : Nat} {s : State} {I : Instruction}
    (hI : ir_obj.function_ir[k]? = some I) (hssa : operands_earlier ir_obj.function_ir)
    (hP : nodes_below ir_obj k s) (i node : Nat) :
    operand_node (s.llvm_value2graph_node.insert (I.result k) node) I i ≤ s.result_node ∧
      operand_node s.llvm_value2graph_node I i ≤ s.result_node := by
  obtain ⟨hlookv, _, _⟩ := nodes_below_lookup hP
  unfold operand_node
  cases hv : I.operands[i]? with
  | none => exact ⟨Nat.zero_le _, Nat.zero_le _⟩
  | some v =>
    refine ⟨?_, hlookv v⟩
    have hne : I.result k ≠ v := by
      intro he
      have := hssa k I hI v (List.getElem?_mem hv) k I.type_id he.symm
      omega
    show (s.llvm_value2graph_node.insert (I.result k) node).lookup v ≤ s.result_node
    rw [DenseMap.lookup_insert_ne _ _ _ _ hne]
    exact hlookv v

theorem argument_table_below {ir_obj : llvm_ir} {k : Nat} {s : State}
    (hP : nodes_below ir_obj k s) (I : Instruction) :
    ∀ node ∈ argument_table s I, node ≤ s.result_node := by
  obtain ⟨_, _, _, _, p5⟩ := hP
  intro node hnode
  unfold argument_table at hnode
  split at hnode
  · rename_i base _
    cases hv : s.vec_index2node[s.llvm_base2index2node.lookup base]? with
    | none =>
      rw [hv] at hnode
      cases hnode
    | some tbl =>
      rw [hv] at hnode
      exact p5 tbl (List.getElem?_mem hv) node hnode
  · cases hnode

/-- Every node among the arguments that a step appends is at most the node counter before
the step, when every operand that is the result of an instruction is the result of an
earlier one and every node in the tables is at most the node counter. -/
theorem step_node_args_below {ir_obj : llvm_ir} {k : Nat} {s : State} {I : Instruction}
    (hI : ir_obj.function_ir[k]? = some I) (hssa : operands_earlier ir_obj.function_ir)
    (hP : nodes_below ir_obj k s) :
    ∀ a ∈ node_args s k I, a ≤ s.result_node := by
  have hop0 := fun i => (operand_node_below hI hssa hP i (s.result_node + 1)).1
  have hop1 := fun i => (operand_node_below hI hssa hP i (s.result_node + 1)).2
  obtain ⟨_, _, hnode⟩ := nodes_below_lookup hP
  have htbl := argument_table_below hP I
  have hboth : ∀ (x y : Nat), x ≤ s.result_node → y ≤ s.result_node →
      ∀ a ∈ [x, y], a ≤ s.result_node := by
    intro x y hx hy a ha
    simp only [List.mem_cons, List.mem_singleton, List.not_mem_nil, or_false] at ha
    rcases ha with rfl | rfl
    · exact hx
    · exact hy
  have hone : ∀ (x : Nat), x ≤ s.result_node → ∀ a ∈ [x], a ≤ s.result_node := by
    intro x hx a ha
    rw [List.mem_singleton] at ha
    rw [ha]
    exact hx
  cases hop : I.opcode
  case Call =>
    by_cases h7 : I.operands.length = 7
    · have hargs : node_args s k I =
          (argument_table s I).take (operand_constant I 0) := by
        simp [node_args, emission, hop, h7]
      rw [hargs]
      intro a ha
      exact htbl a (List.mem_of_mem_take ha)
    · by_cases hd : starts_with (callee_name I) "discrete_" = true
      · have hargs : node_args s k I =
            [operand_node (s.llvm_value2graph_node.insert (I.result k) (s.result_node + 1))
              I 0] := by
          simp [node_args, emission, hop, h7, hd]
        rw [hargs]
        exact hone _ (hop0 0)
      · by_cases h3 : I.operands.length = 3
        · have hargs : node_args s k I =
              [operand_node (s.llvm_value2graph_node.insert (I.result k) (s.result_node + 1))
                I 0,
               operand_node (s.llvm_value2graph_node.insert (I.result k) (s.result_node + 1))
                I 1] := by
            simp [node_args, emission, hop, h7, hd, h3]
          rw [hargs]
          exact hboth _ _ (hop0 0) (hop0 1)
        · have hargs : node_args s k I =
              [operand_node (s.llvm_value2graph_node.insert (I.result k) (s.result_node + 1))
                I 0] := by
            simp [node_args, emission, hop, h7, hd, h3]
          rw [hargs]
          exact hone _ (hop0 0)
  case ZExt =>
    have hargs : node_args s k I =
        (recorded_compares s I.operands).flatMap
          (fun c => [s.node c.right, s.node c.left]) := by
      simp [node_args, emission, hop]
    rw [hargs]
    intro a ha
    obtain ⟨c, _, hc⟩ := List.mem_flatMap.1 ha
    exact hboth _ _ (hnode _) (hnode _) a hc
  case Or =>
    have hargs : node_args s k I =
        (recorded_compares s I.operands).flatMap
          (fun c => [s.node c.right, s.node c.left]) := by
      simp [node_args, emission, hop]
    rw [hargs]
    intro a ha
    obtain ⟨c, _, hc⟩ := List.mem_flatMap.1 ha
    exact hboth _ _ (hnode _) (hnode _) a hc
  case Select =>
    by_cases hty : I.operands[1]?.map get_type_id = some TypeID.DoubleTyID
    · have hargs : node_args s k I =
          [s.node (select_compare s I).left, s.node (select_compare s I).right] ++
            [operand_node s.llvm_value2graph_node I 1,
             operand_node s.llvm_value2graph_node I 2] := by
        simp [node_args, emission, hop, hty]
      rw [hargs]
      intro a ha
      rcases List.mem_append.1 ha with h | h
      · exact hboth _ _ (hnode _) (hnode _) a h
      · exact hboth _ _ (hop1 1) (hop1 2) a h
    · have hargs : node_args s k I = [] := by
        simp [node_args, emission, hop, hty]
      rw [hargs]
      intro a ha
      cases ha
  all_goals first
    | (have hargs : node_args s k I = [] := by simp [node_args, emission, hop]
       rw [hargs]
       intro a ha
       cases ha)
    | (have hargs : node_args s k I =
           [operand_node (s.llvm_value2graph_node.insert (I.result k) (s.result_node + 1))
             I 0,
            operand_node (s.llvm_value2graph_node.insert (I.result k) (s.result_node + 1))
             I 1] := by
         simp [node_args, emission, hop]
       rw [hargs]
       exact hboth _ _ (hop0 0) (hop0 1))
    | (have hargs : node_args s k I =
           [operand_node (s.llvm_value2graph_node.insert (I.result k) (s.result_node + 1))
             I 0] := by
         simp [node_args, emission, hop]
       rw [hargs]
       exact hone _ (hop0 0))
/-! ## C2: a binary operation end to end -/

/-- C2: for every `D`, `V` with `D + V >= 2`, all input offsets `i, j < D + V` and every
operator code among `FAdd, FSub, FMul, FDiv`, translating the program
`load input[i]; load input[j]; r = op(input[i], input[j]); store r to output[0]` with one
dependent variable returns the empty message and the graph with no constants, the single
operator with the matching tag and the arguments `(1 + i, 1 + j)`, and the dependent list
`[D + V + 1]`; this holds in both builds. -/
theorem to_graph_load_binary_store (debug : Bool) (name : String) (D V i j : Nat)
    (graph_obj : cpp_graph) (op_code : Opcode)
    (hop : op_code ∈ [Opcode.FAdd, Opcode.FSub, Opcode.FMul, Opcode.FDiv])
    (_hDV : 2 ≤ D + V) (hi : i < D + V) (hj : j < D + V) :
    llvm_ir.to_graph debug
        { function_name_ := name, n_dynamic_ind_ := D, n_variable_ind_ := V,
          n_variable_dep_ := 1, function_ir := load_binary_store op_code i j } graph_obj =
      Except.ok ("",
        { empty_graph name D V with
          operator_vec := [arith_tag op_code]
          operator_arg := [1 + i, 1 + j]
          dependent_vec := [D + V + 1] }) := by
  simp only [List.mem_cons, List.mem_singleton, List.not_mem_nil, or_false] at hop
  rcases hop with h | h | h | h <;> subst h <;> cases debug <;>
    simp [llvm_ir.to_graph, llvm_ir.run, llvm_ir.before_pass2, load_binary_store, instr, pass1,
      pass1_step, pass1_atomic, pass1_operand, Value.constantFP?, input_ptr, output_ptr,
      msg_ptr, init_state, cpp_graph.initialize, between_passes, pass2, step, step_gep,
      step_load, step_binary, step_store, step_ret, finalize, dependent_loop,
      CPPAD_ASSERT_UNKNOWN, vec_get, vec_set, get_int_constant, DenseMap.lookup,
      DenseMap.insert, DenseMap.find?, Instruction.result, get_type_id, bind, Except.bind,
      pure, Except.pure, binary_op_push, cpp_graph.operator_vec_push_back,
      cpp_graph.operator_arg_push_back, cpp_graph.dependent_vec_push_back, empty_graph,
      arith_tag, hi, hj]

/-- Scenario 1 of the specification as an instance of C2: `D = 0`, `V = 2`, `FMul`,
`i = 0`, `j = 1` gives the operator list `[mul(1, 2)]` and the dependent list `[3]`. -/
theorem to_graph_load_binary_store_witness :
    llvm_ir.to_graph false
        { function_name_ := "f", n_dynamic_ind_ := 0, n_variable_ind_ := 2,
          n_variable_dep_ := 1, function_ir := load_binary_store Opcode.FMul 0 1 }
        (empty_graph "" 0 0) =
      Except.ok ("",
        { empty_graph "f" 0 2 with
          operator_vec := [graph_op_enum.mul_graph_op]
          operator_arg := [1, 2]
          dependent_vec := [3] }) :=
  to_graph_load_binary_store false "f" 0 2 0 1 (empty_graph "" 0 0) Opcode.FMul
    (by decide) (by decide) (by decide) (by decide)

/-! ## C1: when the returned message is empty -/

/-- C1: for every instruction sequence, every `D`, `V` and number of dependent variables and
both builds, whenever `to_graph` returns, the message is empty if and only if (i) every
operator code is supported, (ii) every call by name that is not a discrete call resolves in
the operator name table and (iii) after the second pass every output slot holds a non-zero
node, so in every other case the returned message is not empty; and in the build without
assertions `to_graph` returns the empty message exactly under (i), (ii) and (iii). -/
theorem to_graph_empty_iff (debug : Bool) (ir_obj : llvm_ir) (graph_obj : cpp_graph) :
    (∀ msg g, llvm_ir.to_graph debug ir_obj graph_obj = Except.ok (msg, g) →
      (msg = "" ↔ opcodes_supported ir_obj.function_ir ∧ calls_resolve ir_obj.function_ir ∧
        outputs_stored debug ir_obj graph_obj)) ∧
    ((∃ g, llvm_ir.to_graph false ir_obj graph_obj = Except.ok ("", g)) ↔
      opcodes_supported ir_obj.function_ir ∧ calls_resolve ir_obj.function_ir ∧
        outputs_stored false ir_obj graph_obj) := by
  have key : ∀ (dbg : Bool) (msg : String) (g : cpp_graph),
      llvm_ir.to_graph dbg ir_obj graph_obj = Except.ok (msg, g) →
      (msg = "" ↔ opcodes_supported ir_obj.function_ir ∧ calls_resolve ir_obj.function_ir ∧
        outputs_stored dbg ir_obj graph_obj) := by
    intro dbg msg g h
    unfold llvm_ir.to_graph at h
    cases hrun : llvm_ir.run dbg ir_obj graph_obj with
    | ok g1 =>
      rw [hrun] at h
      cases h
      refine ⟨fun _ => ?_, fun _ => rfl⟩
      rw [llvm_ir.run_eq] at hrun
      cases hs : llvm_ir.state_at dbg ir_obj graph_obj ir_obj.function_ir.length with
      | error e =>
        rw [hs] at hrun
        cases hrun
      | ok s2 =>
        rw [hs] at hrun
        obtain ⟨h1, h2⟩ := llvm_ir.state_at_length_conds hs
        exact ⟨h1, h2, s2, hs, (finalize_ok hrun).1⟩
    | error e =>
      rw [hrun] at h
      cases e with
      | ret m gx =>
        cases h
        have hne := llvm_ir.run_ret_ne_empty hrun
        refine ⟨fun he => absurd he hne, ?_⟩
        rintro ⟨_, _, s2, hs, hslots⟩
        exfalso
        rw [llvm_ir.run_eq, hs] at hrun
        obtain ⟨i, hi, hz, _, _⟩ := finalize_ret hrun
        obtain ⟨node, hn, hnz⟩ := hslots i hi
        rw [hz] at hn
        exact hnz (Option.some.inj hn).symm
      | assert_fail => cases h
      | undefined => cases h
      | out_of_range => cases h
  refine ⟨key debug, ?_⟩
  constructor
  · rintro ⟨g, hg⟩
    exact (key false "" g hg).1 rfl
  · rintro ⟨_, _, s2, hs, hslots⟩
    obtain ⟨_, _, _, _, hne, hlt⟩ := llvm_ir.state_at_effect hs
    obtain ⟨index2node, hvec⟩ : ∃ index2node,
        s2.vec_index2node[s2.llvm_base2index2node.lookup output_ptr]? = some index2node :=
      ⟨_, List.getElem?_eq_getElem hlt⟩
    have hfin := finalize_eq false ir_obj.n_variable_dep_ s2 index2node hvec hne
      (fun hd => by cases hd)
    have hall : ∀ j, j < ir_obj.n_variable_dep_ →
        ∃ node, index2node[0 + j]? = some node ∧ node ≠ 0 := by
      intro j hj
      obtain ⟨node, hn, hnz⟩ := hslots j hj
      unfold output_slot at hn
      rw [hvec] at hn
      exact ⟨node, by simpa using hn, hnz⟩
    have hok := (dependent_loop_ok_iff false index2node ir_obj.n_variable_dep_ 0
      s2.graph_obj _).2 ⟨hall, rfl⟩
    refine ⟨{ s2.graph_obj with
      dependent_vec := s2.graph_obj.dependent_vec ++
        (index2node.drop 0).take ir_obj.n_variable_dep_ }, ?_⟩
    unfold llvm_ir.to_graph
    rw [llvm_ir.run_eq, hs]
    simp only [Except.bind]
    rw [hfin, hok]

/-- An instance of C1: the program of scenario 1 meets (i), (ii) and (iii), and an empty
program with one dependent variable does not meet (iii). -/
theorem to_graph_empty_iff_witness :
    (opcodes_supported (load_binary_store Opcode.FMul 0 1) ∧
      calls_resolve (load_binary_store Opcode.FMul 0 1) ∧
      outputs_stored false
        { function_name_ := "f", n_dynamic_ind_ := 0, n_variable_ind_ := 2,
          n_variable_dep_ := 1, function_ir := load_binary_store Opcode.FMul 0 1 }
        (empty_graph "" 0 0)) ∧
    ¬ outputs_stored false
        { function_name_ := "f", n_dynamic_ind_ := 0, n_variable_ind_ := 0,
          n_variable_dep_ := 1, function_ir := [] } (empty_graph "" 0 0) := by
  constructor
  · exact ((to_graph_empty_iff false
      { function_name_ := "f", n_dynamic_ind_ := 0, n_variable_ind_ := 2,
        n_variable_dep_ := 1, function_ir := load_binary_store Opcode.FMul 0 1 }
      (empty_graph "" 0 0)).1 ""
      { empty_graph "f" 0 2 with
        operator_vec := [graph_op_enum.mul_graph_op]
        operator_arg := [1, 2]
        dependent_vec := [3] } (by decide)).1 rfl
  · intro h
    have h2 := ((to_graph_empty_iff false
      { function_name_ := "f", n_dynamic_ind_ := 0, n_variable_ind_ := 0,
        n_variable_dep_ := 1, function_ir := [] } (empty_graph "" 0 0)).1
      (no_store_msg 0) (empty_graph "f" 0 0) (by decide)).2
      ⟨fun I hI => (by cases hI), fun I hI => (by cases hI), h⟩
    exact absurd h2 (by decide)

/-! ## C3: the message for an output without store -/

/-- C3 as stated fails: with one dependent variable and no store, the returned message is
not the text `No store instruction for dependent variable index 0` itself; it starts with
the name of the routine. -/
theorem no_store_message_counterexample :
    llvm_ir.to_graph false
        { function_name_ := "f", n_dynamic_ind_ := 0, n_variable_ind_ := 0,
          n_variable_dep_ := 1, function_ir := [] } (empty_graph "" 0 0) =
      Except.ok ("llvm_ir::to_graph: No store instruction for dependent variable index 0",
        empty_graph "f" 0 0) ∧
    "llvm_ir::to_graph: No store instruction for dependent variable index 0" ≠
      "No store instruction for dependent variable index " ++ to_string 0 := by
  decide

/-- C3, amended: when the second pass completes and `i` is the smallest index below the
number of dependent variables whose output slot holds the zero node, `to_graph` returns the
message `llvm_ir::to_graph: No store instruction for dependent variable index ` followed by
the decimal digits of `i`, and the dependent list holds the slots before `i` (in the debug
build the table of the output pointer is asserted to have one slot for each dependent
variable). -/
theorem to_graph_no_store (debug : Bool) (ir_obj : llvm_ir) (graph_obj : cpp_graph) (s2 : State)
    (index2node : List Nat) (i : Nat)
    (hs : llvm_ir.state_at debug ir_obj graph_obj ir_obj.function_ir.length = Except.ok s2)
    (hvec : s2.vec_index2node[s2.llvm_base2index2node.lookup output_ptr]? = some index2node)
    (hlen : debug = true → index2node.length = ir_obj.n_variable_dep_)
    (hi : i < ir_obj.n_variable_dep_) (hzero : index2node[i]? = some 0)
    (hmin : ∀ j, j < i → ∃ node, index2node[j]? = some node ∧ node ≠ 0) :
    llvm_ir.to_graph debug ir_obj graph_obj =
      Except.ok
        ("llvm_ir::to_graph: " ++ "No store instruction for dependent variable index " ++
          to_string i,
         { s2.graph_obj with dependent_vec := index2node.take i }) := by
  obtain ⟨_, _, _, hdep, hne, _⟩ := llvm_ir.state_at_effect hs
  have hfin := finalize_eq debug ir_obj.n_variable_dep_ s2 index2node hvec hne hlen
  have hloop := (dependent_loop_ret_iff debug index2node ir_obj.n_variable_dep_ 0 s2.graph_obj
    { s2.graph_obj with dependent_vec := index2node.take i } (no_store_msg i)).2
    ⟨i, hi, by simpa using hzero, fun j hj => by simpa using hmin j hj, by simp,
      by simp [hdep]⟩
  unfold llvm_ir.to_graph
  rw [llvm_ir.run_eq, hs]
  simp only [Except.bind]
  rw [hfin, hloop]
  rfl

/-- Scenario 2 of the specification as an instance of the amended C3: one dependent variable
and no store. -/
theorem to_graph_no_store_witness :
    llvm_ir.to_graph true
        { function_name_ := "f", n_dynamic_ind_ := 0, n_variable_ind_ := 2,
          n_variable_dep_ := 1, function_ir := [] } (empty_graph "" 0 0) =
      Except.ok
        ("llvm_ir::to_graph: " ++ "No store instruction for dependent variable index " ++
          to_string 0,
         empty_graph "f" 0 2) :=
  to_graph_no_store true
    { function_name_ := "f", n_dynamic_ind_ := 0, n_variable_ind_ := 2,
      n_variable_dep_ := 1, function_ir := [] } (empty_graph "" 0 0)
    (between_passes true 0 2 1 (init_state "f" 0 2 (empty_graph "" 0 0))) [0] 0
    (by decide) (by decide) (by decide) (by decide) (by decide) (by decide)

/-! ## C4: a callee name that does not resolve -/

/-- C4: when the second pass reaches a call with two or three operands whose callee name `N`
has no prefix `discrete_` and is not in the operator name table, `to_graph` stops at that
instruction and returns the message `llvm_ir::to_graph: Cannot call the function N`, which
contains `Cannot call the function ` immediately followed by `N`; the returned graph is the
graph before the call, so no operator was appended and no node allocated for it (in the
debug build the operand types of the call are asserted first). -/
theorem to_graph_cannot_call (debug : Bool) (ir_obj : llvm_ir) (graph_obj : cpp_graph)
    (k : Nat) (I : Instruction) (s : State) (v : Value)
    (hI : ir_obj.function_ir[k]? = some I)
    (hs : llvm_ir.state_at debug ir_obj graph_obj k = Except.ok s)
    (hcall : I.opcode = Opcode.Call)
    (hn : I.operands.length = 2 ∨ I.operands.length = 3)
    (hv : callee I = some v)
    (hd : starts_with v.getName "discrete_" = false)
    (hmiss : DenseMap.find? name2graph_op v.getName = none)
    (hty : debug = true → call_types_ok I) :
    step debug s k I =
        Except.error (Stop.ret (msg_init ++ ("Cannot call the function " ++ v.getName))
          s.graph_obj) ∧
      llvm_ir.to_graph debug ir_obj graph_obj =
        Except.ok (msg_init ++ ("Cannot call the function " ++ v.getName), s.graph_obj) ∧
      contains_text (msg_init ++ ("Cannot call the function " ++ v.getName))
        ("Cannot call the function " ++ v.getName) := by
  have hlookup : name2graph_op.lookup v.getName = 0 := DenseMap.lookup_of_none _ _ hmiss
  have hname : call_name debug I = Except.ok v.getName := by
    unfold call_name
    unfold callee at hv
    rcases hn with h2 | h3
    · rw [if_pos h2] at hv ⊢
      have h0 : ∃ operand0, I.operands[0]? = some operand0 :=
        ⟨_, List.getElem?_eq_getElem (by omega)⟩
      obtain ⟨operand0, h0⟩ := h0
      have t0 : debug = true → get_type_id operand0 = TypeID.DoubleTyID := by
        intro hdb
        have := ((hty hdb).1 h2).1
        simpa [h0] using this
      have t1 : debug = true → get_type_id v = TypeID.PointerTyID := by
        intro hdb
        have := ((hty hdb).1 h2).2
        simpa [hv] using this
      simp only [bind, Except.bind, pure, Except.pure, (vec_get_ok_iff debug _ _ _).2 h0,
        (vec_get_ok_iff debug _ _ _).2 hv,
        CPPAD_ASSERT_UNKNOWN_of debug _ (fun hdb => decide_eq_true (t0 hdb)),
        CPPAD_ASSERT_UNKNOWN_of debug _ (fun hdb => decide_eq_true (t1 hdb))]
    · have h2 : ¬ I.operands.length = 2 := by omega
      rw [if_neg h2, if_pos h3] at hv
      rw [if_neg h2, if_pos h3]
      have h0 : ∃ operand0, I.operands[0]? = some operand0 :=
        ⟨_, List.getElem?_eq_getElem (by omega)⟩
      obtain ⟨operand0, h0⟩ := h0
      have h1 : ∃ operand1, I.operands[1]? = some operand1 :=
        ⟨_, List.getElem?_eq_getElem (by omega)⟩
      obtain ⟨operand1, h1⟩ := h1
      have t0 : debug = true → get_type_id operand0 = TypeID.DoubleTyID := by
        intro hdb
        have := ((hty hdb).2 h3).1
        simpa [h0] using this
      have t1 : debug = true → get_type_id operand1 = TypeID.DoubleTyID := by
        intro hdb
        have := ((hty hdb).2 h3).2.1
        simpa [h1] using this
      have t2 : debug = true → get_type_id v = TypeID.PointerTyID := by
        intro hdb
        have := ((hty hdb).2 h3).2.2
        simpa [hv] using this
      simp only [bind, Except.bind, pure, Except.pure, (vec_get_ok_iff debug _ _ _).2 h0,
        (vec_get_ok_iff debug _ _ _).2 h1, (vec_get_ok_iff debug _ _ _).2 hv,
        CPPAD_ASSERT_UNKNOWN_of debug _ (fun hdb => decide_eq_true (t0 hdb)),
        CPPAD_ASSERT_UNKNOWN_of debug _ (fun hdb => decide_eq_true (t1 hdb)),
        CPPAD_ASSERT_UNKNOWN_of debug _ (fun hdb => decide_eq_true (t2 hdb))]
  have h7 : ¬ I.operands.length = 7 := by omega
  have hstep : step debug s k I =
      Except.error (Stop.ret (msg_init ++ ("Cannot call the function " ++ v.getName))
        s.graph_obj) := by
    unfold step
    rw [hcall]
    simp only [step_call, bind, Except.bind, hname, if_neg h7, hd, call_math, hlookup]
    rfl
  refine ⟨hstep, ?_, contains_text_msg_init _⟩
  unfold llvm_ir.to_graph
  rw [llvm_ir.run_of_step_error hI hs hstep]

/-- Scenario 3 of the specification as an instance of C4: a call with two operands of the
unknown function `foo`. -/
theorem to_graph_cannot_call_witness :
    llvm_ir.to_graph true
        { function_name_ := "f", n_dynamic_ind_ := 0, n_variable_ind_ := 1,
          n_variable_dep_ := 1,
          function_ir :=
            [ instr Opcode.Load [input_ptr] TypeID.DoubleTyID,
              instr Opcode.Call [Value.Inst 0 TypeID.DoubleTyID, Value.Global "foo"]
                TypeID.DoubleTyID ] } (empty_graph "" 0 0) =
      Except.ok ("llvm_ir::to_graph: Cannot call the function foo", empty_graph "f" 0 1) ∧
    contains_text "llvm_ir::to_graph: Cannot call the function foo"
      "Cannot call the function foo" :=
  ⟨(to_graph_cannot_call true
      { function_name_ := "f", n_dynamic_ind_ := 0, n_variable_ind_ := 1,
        n_variable_dep_ := 1,
        function_ir :=
          [ instr Opcode.Load [input_ptr] TypeID.DoubleTyID,
            instr Opcode.Call [Value.Inst 0 TypeID.DoubleTyID, Value.Global "foo"]
              TypeID.DoubleTyID ] } (empty_graph "" 0 0) 1
      (instr Opcode.Call [Value.Inst 0 TypeID.DoubleTyID, Value.Global "foo"]
        TypeID.DoubleTyID)
      { between_passes true 0 1 1 (init_state "f" 0 1 (empty_graph "" 0 0)) with
        llvm_value2graph_node := [(Value.Inst 0 TypeID.DoubleTyID, 1)] }
      (Value.Global "foo") (by decide) (by decide) (by decide) (by decide) (by decide)
      (by decide) (by decide) (fun _ => by unfold call_types_ok; decide)).2.1,
   (to_graph_cannot_call true
      { function_name_ := "f", n_dynamic_ind_ := 0, n_variable_ind_ := 1,
        n_variable_dep_ := 1,
        function_ir :=
          [ instr Opcode.Load [input_ptr] TypeID.DoubleTyID,
            instr Opcode.Call [Value.Inst 0 TypeID.DoubleTyID, Value.Global "foo"]
              TypeID.DoubleTyID ] } (empty_graph "" 0 0) 1
      (instr Opcode.Call [Value.Inst 0 TypeID.DoubleTyID, Value.Global "foo"]
        TypeID.DoubleTyID)
      { between_passes true 0 1 1 (init_state "f" 0 1 (empty_graph "" 0 0)) with
        llvm_value2graph_node := [(Value.Inst 0 TypeID.DoubleTyID, 1)] }
      (Value.Global "foo") (by decide) (by decide) (by decide) (by decide) (by decide)
      (by decide) (by decide) (fun _ => by unfold call_types_ok; decide)).2.2⟩

/-! ## C5: unsupported operator codes -/

/-- C5: a step of the second pass returns the unsupported-opcode message exactly for an
instruction whose operator code is not one of the seventeen supported ones; in that case the
message is `llvm_ir::to_graph: Cannot handle the llvm instruction ` followed by the name of
the operator code, so it contains `Cannot handle the llvm instruction ` followed by that
name, and an instruction with a supported operator code never produces a message of this
form. -/
theorem step_unsupported_iff (debug : Bool) (s : State) (k : Nat) (I : Instruction) :
    (I.opcode ∉ supported_opcodes ↔
      ∃ op_name g, step debug s k I = Except.error (Stop.ret (unsupported_msg op_name) g)) ∧
    (∀ op_name, I.opcode = Opcode.Other op_name →
      step debug s k I =
        Except.error (Stop.ret
          (msg_init ++ ("Cannot handle the llvm instruction " ++ op_name)) s.graph_obj) ∧
      contains_text (msg_init ++ ("Cannot handle the llvm instruction " ++ op_name))
        ("Cannot handle the llvm instruction " ++ op_name)) := by
  have hother : ∀ op_name, I.opcode = Opcode.Other op_name →
      step debug s k I =
        Except.error (Stop.ret
          (msg_init ++ ("Cannot handle the llvm instruction " ++ op_name)) s.graph_obj) := by
    intro op_name hop
    unfold step
    rw [hop]
    rfl
  refine ⟨⟨?_, ?_⟩, fun op_name hop => ⟨hother op_name hop, contains_text_msg_init _⟩⟩
  · intro hns
    obtain ⟨op_name, hop⟩ := (opcode_not_supported_iff I.opcode).1 hns
    exact ⟨op_name, s.graph_obj, hother op_name hop⟩
  · rintro ⟨op_name, g, hstep⟩
    obtain ⟨_, h1 | h1⟩ := step_ret_cases hstep
    · obtain ⟨op_name2, hop, _⟩ := h1
      exact (opcode_not_supported_iff I.opcode).2 ⟨op_name2, hop⟩
    · obtain ⟨_, _, v, _, _, _, hmsg⟩ := h1
      exact absurd hmsg.symm (cannot_call_ne_unsupported _ _)

/-! ## C6: the dependent list -/

/-- C6 as stated fails: with `D = V = 0` the program `x = load input; store x to output[0]`
passes every assertion of the debug build and returns the empty message with the dependent
list `[1]`, while the final value of the node counter is 0; and in the build without
assertions, with `D = 0`, `V = 1`, a load through the address computation
`(input pointer, 5)` gives the dependent list `[6]`, while the final value of the node
counter is 1. -/
theorem dependent_above_counter :
    (llvm_ir.to_graph true
        { function_name_ := "f", n_dynamic_ind_ := 0, n_variable_ind_ := 0,
          n_variable_dep_ := 1,
          function_ir :=
            [ instr Opcode.Load [input_ptr] TypeID.DoubleTyID,
              instr Opcode.Store [Value.Inst 0 TypeID.DoubleTyID, output_ptr]
                TypeID.VoidTyID ] } (empty_graph "" 0 0) =
      Except.ok ("", { empty_graph "f" 0 0 with dependent_vec := [1] }) ∧
    (llvm_ir.state_at true
        { function_name_ := "f", n_dynamic_ind_ := 0, n_variable_ind_ := 0,
          n_variable_dep_ := 1,
          function_ir :=
            [ instr Opcode.Load [input_ptr] TypeID.DoubleTyID,
              instr Opcode.Store [Value.Inst 0 TypeID.DoubleTyID, output_ptr]
                TypeID.VoidTyID ] } (empty_graph "" 0 0) 2).map
      (fun s => s.result_node) = Except.ok 0) ∧
    (llvm_ir.to_graph false
        { function_name_ := "f", n_dynamic_ind_ := 0, n_variable_ind_ := 1,
          n_variable_dep_ := 1,
          function_ir :=
            [ instr Opcode.GetElementPtr [input_ptr, Value.ConstantInt 5] TypeID.PointerTyID,
              instr Opcode.Load [Value.Inst 0 TypeID.PointerTyID] TypeID.DoubleTyID,
              instr Opcode.Store [Value.Inst 1 TypeID.DoubleTyID, output_ptr]
                TypeID.VoidTyID ] } (empty_graph "" 0 0) =
      Except.ok ("", { empty_graph "f" 0 1 with dependent_vec := [6] }) ∧
    (llvm_ir.state_at false
        { function_name_ := "f", n_dynamic_ind_ := 0, n_variable_ind_ := 1,
          n_variable_dep_ := 1,
          function_ir :=
            [ instr Opcode.GetElementPtr [input_ptr, Value.ConstantInt 5] TypeID.PointerTyID,
              instr Opcode.Load [Value.Inst 0 TypeID.PointerTyID] TypeID.DoubleTyID,
              instr Opcode.Store [Value.Inst 1 TypeID.DoubleTyID, output_ptr]
                TypeID.VoidTyID ] } (empty_graph "" 0 0) 3).map
      (fun s => s.result_node) = Except.ok 1) := by
  decide

/-- C6, amended: on every input on which `to_graph` returns the empty message, the dependent
list has exactly as many entries as there are dependent variables and every entry is at
least 1; in the debug build, where the bound of an address computation is asserted, with at
least one input (`D + V >= 1`) and at least one result for every atomic call, every entry is
also at most the final value of the node counter. -/
theorem dependent_bounds (debug : Bool) (ir_obj : llvm_ir) (graph_obj g : cpp_graph)
    (h : llvm_ir.to_graph debug ir_obj graph_obj = Except.ok ("", g)) :
    g.dependent_vec.length = ir_obj.n_variable_dep_ ∧
    (∀ d ∈ g.dependent_vec, 1 ≤ d) ∧
    (debug = true → 1 ≤ ir_obj.n_dynamic_ind_ + ir_obj.n_variable_ind_ →
      atomic_results_nonempty ir_obj.function_ir →
      ∃ s2, llvm_ir.state_at debug ir_obj graph_obj ir_obj.function_ir.length =
          Except.ok s2 ∧
        ∀ d ∈ g.dependent_vec, d ≤ s2.result_node) := by
  have hrun : llvm_ir.run debug ir_obj graph_obj = Except.ok g := by
    unfold llvm_ir.to_graph at h
    cases hr : llvm_ir.run debug ir_obj graph_obj with
    | ok g1 =>
      rw [hr] at h
      cases h
      rfl
    | error e =>
      rw [hr] at h
      cases e with
      | ret m gx =>
        cases h
        exact absurd rfl (llvm_ir.run_ret_ne_empty hr)
      | assert_fail => cases h
      | undefined => cases h
      | out_of_range => cases h
  rw [llvm_ir.run_eq] at hrun
  cases hs : llvm_ir.state_at debug ir_obj graph_obj ir_obj.function_ir.length with
  | error e =>
    rw [hs] at hrun
    cases hrun
  | ok s2 =>
    rw [hs] at hrun
    simp only [Except.bind] at hrun
    obtain ⟨hslots, index2node, hvec, hg⟩ := finalize_ok hrun
    obtain ⟨_, _, _, hdep, _, _⟩ := llvm_ir.state_at_effect hs
    have hdv : g.dependent_vec = index2node.take ir_obj.n_variable_dep_ := by
      rw [hg, hdep]
      rfl
    have hslot : ∀ i, i < ir_obj.n_variable_dep_ →
        ∃ node, index2node[i]? = some node ∧ node ≠ 0 := by
      intro i hi
      obtain ⟨node, hn, hne⟩ := hslots i hi
      unfold output_slot at hn
      rw [hvec] at hn
      exact ⟨node, by simpa using hn, hne⟩
    have hlen : ir_obj.n_variable_dep_ ≤ index2node.length := by
      by_contra hc
      have hlt : index2node.length < ir_obj.n_variable_dep_ := by omega
      obtain ⟨node, hn, _⟩ := hslot index2node.length hlt
      rw [List.getElem?_eq_none (Nat.le_refl _)] at hn
      cases hn
    refine ⟨?_, ?_, ?_⟩
    · rw [hdv, List.length_take]
      omega
    · intro d hd
      rw [hdv] at hd
      obtain ⟨i, hi⟩ := List.getElem?_of_mem hd
      have hil : i < ir_obj.n_variable_dep_ := by
        rcases List.getElem?_eq_some.1 hi with ⟨hl, _⟩
        rw [List.length_take] at hl
        omega
      rw [List.getElem?_take_of_lt hil] at hi
      obtain ⟨node, hn, hne⟩ := hslot i hil
      rw [hi] at hn
      cases hn
      omega
    · intro hdb hDV hres
      subst hdb
      refine ⟨s2, rfl, ?_⟩
      intro d hd
      rw [hdv] at hd
      have hmem : index2node ∈ s2.vec_index2node := List.getElem?_mem hvec
      exact (llvm_ir.state_at_nodes_bounded (Nat.le_refl _) hDV hres hs).2.2.2.2
        index2node hmem d (List.mem_of_mem_take hd)

/-- An instance of the amended C6: the program of scenario 1 in the debug build returns the
dependent list `[3]`, one entry that lies between 1 and the final node counter. -/
theorem dependent_bounds_witness :
    ([3] : List Nat).length = 1 ∧ (∀ d ∈ ([3] : List Nat), 1 ≤ d) ∧
    ∃ s2, llvm_ir.state_at true
        { function_name_ := "f", n_dynamic_ind_ := 0, n_variable_ind_ := 2,
          n_variable_dep_ := 1, function_ir := load_binary_store Opcode.FMul 0 1 }
        (empty_graph "" 0 0) 7 = Except.ok s2 ∧ ∀ d ∈ ([3] : List Nat), d ≤ s2.result_node :=
  have h := dependent_bounds true
    { function_name_ := "f", n_dynamic_ind_ := 0, n_variable_ind_ := 2,
      n_variable_dep_ := 1, function_ir := load_binary_store Opcode.FMul 0 1 }
    (empty_graph "" 0 0)
    { empty_graph "f" 0 2 with
      operator_vec := [graph_op_enum.mul_graph_op]
      operator_arg := [1, 2]
      dependent_vec := [3] } (by decide)
  ⟨h.1, h.2.1, h.2.2 rfl (by decide) (by
    intro I hI hop
    simp only [load_binary_store, instr, List.mem_cons, List.mem_singleton,
      List.not_mem_nil, or_false] at hI
    rcases hI with rfl | rfl | rfl | rfl | rfl | rfl | rfl <;> cases hop)⟩

/-! ## C7: node numbering -/

/-- C7 as stated fails: an atomic call with result count 2 emits one operator, the atomic
operator, and advances the node counter from 0 to 2, not by exactly one. -/
theorem atomic_call_advances_by_result_count :
    ((llvm_ir.state_at false
        { function_name_ := "f", n_dynamic_ind_ := 0, n_variable_ind_ := 0,
          n_variable_dep_ := 0,
          function_ir :=
            [ instr Opcode.Alloca [Value.ConstantInt 1] TypeID.PointerTyID,
              instr Opcode.Alloca [Value.ConstantInt 2] TypeID.PointerTyID,
              instr Opcode.Call
                [Value.ConstantInt 0, Value.Inst 0 TypeID.PointerTyID, Value.ConstantInt 2,
                 Value.Inst 1 TypeID.PointerTyID, Value.ConstantInt 0, Value.Global "msg",
                 Value.Global "atomic_foo"] TypeID.IntegerTyID ] }
        (empty_graph "" 0 0) 2).map
        (fun s => (s.result_node, s.graph_obj.operator_vec))) = Except.ok (0, []) ∧
    ((llvm_ir.state_at false
        { function_name_ := "f", n_dynamic_ind_ := 0, n_variable_ind_ := 0,
          n_variable_dep_ := 0,
          function_ir :=
            [ instr Opcode.Alloca [Value.ConstantInt 1] TypeID.PointerTyID,
              instr Opcode.Alloca [Value.ConstantInt 2] TypeID.PointerTyID,
              instr Opcode.Call
                [Value.ConstantInt 0, Value.Inst 0 TypeID.PointerTyID, Value.ConstantInt 2,
                 Value.Inst 1 TypeID.PointerTyID, Value.ConstantInt 0, Value.Global "msg",
                 Value.Global "atomic_foo"] TypeID.IntegerTyID ] }
        (empty_graph "" 0 0) 3).map
        (fun s => (s.result_node, s.graph_obj.operator_vec))) =
      Except.ok (2, [graph_op_enum.atom_graph_op]) := by
  decide

/-- C7, amended: the node counter starts at `D + V + C`; every step advances it by the number
of nodes that the instruction allocates, which is one for an arithmetic instruction, a
negation, a call by name and a select of float values, the result count for an atomic call
and zero for every other instruction; an instruction of the first kind binds its result to
the node after the old counter, and the counter of every earlier state is at most the old
counter, so the new node is strictly greater than every node allocated before. -/
theorem node_numbering (debug : Bool) (ir_obj : llvm_ir) (graph_obj : cpp_graph) :
    (∀ s0, llvm_ir.state_at debug ir_obj graph_obj 0 = Except.ok s0 →
      s0.result_node = ir_obj.n_dynamic_ind_ + ir_obj.n_variable_ind_ +
        s0.graph_obj.constant_vec.length) ∧
    (∀ k I s s1, ir_obj.function_ir[k]? = some I →
      llvm_ir.state_at debug ir_obj graph_obj k = Except.ok s →
      step debug s k I = Except.ok s1 →
      s1.result_node = s.result_node + allocated I ∧
      (binds_result I → allocated I = 1 ∧
        s1.llvm_value2graph_node.lookup (I.result k) = s.result_node + 1) ∧
      (∀ j sj, j ≤ k → llvm_ir.state_at debug ir_obj graph_obj j = Except.ok sj →
        sj.result_node < s.result_node + 1)) := by
  constructor
  · intro s0 h0
    rw [llvm_ir.state_at_zero] at h0
    exact (llvm_ir.before_pass2_effect h0).2.1
  · intro k I s s1 hI hs hstep
    refine ⟨step_result_node hstep, ?_, ?_⟩
    · intro hb
      obtain ⟨h1, h2⟩ := step_binds_result hstep hb
      refine ⟨h1, ?_⟩
      rw [h2]
      exact DenseMap.lookup_insert_self _ _ _ (llvm_ir.state_at_fresh hI hs)
    · intro j sj hj hsj
      have := llvm_ir.state_at_result_node_mono hj (llvm_ir.state_at_index_le hI) hsj hs
      omega

/-- An instance of the amended C7: the `FMul` of scenario 1 is reached with node counter 2,
allocates one node and binds its result to node 3. -/
theorem node_numbering_witness :
    (step false
        { between_passes false 0 2 1 (init_state "f" 0 2 (empty_graph "" 0 0)) with
          llvm_ptr2graph_node :=
            [(input_ptr, 1), (Value.Inst 0 TypeID.PointerTyID, 1),
             (Value.Inst 2 TypeID.PointerTyID, 2)]
          llvm_value2graph_node :=
            [(Value.Inst 1 TypeID.DoubleTyID, 1), (Value.Inst 3 TypeID.DoubleTyID, 2)] }
        4 (instr Opcode.FMul [Value.Inst 1 TypeID.DoubleTyID, Value.Inst 3 TypeID.DoubleTyID]
          TypeID.DoubleTyID)).map
        (fun s1 => (s1.result_node,
          s1.llvm_value2graph_node.lookup (Value.Inst 4 TypeID.DoubleTyID))) =
      Except.ok (2 + 1, 2 + 1) := by
  obtain ⟨s1, hstep⟩ : ∃ s1, step false
      { between_passes false 0 2 1 (init_state "f" 0 2 (empty_graph "" 0 0)) with
        llvm_ptr2graph_node :=
          [(input_ptr, 1), (Value.Inst 0 TypeID.PointerTyID, 1),
           (Value.Inst 2 TypeID.PointerTyID, 2)]
        llvm_value2graph_node :=
          [(Value.Inst 1 TypeID.DoubleTyID, 1), (Value.Inst 3 TypeID.DoubleTyID, 2)] }
      4 (instr Opcode.FMul [Value.Inst 1 TypeID.DoubleTyID, Value.Inst 3 TypeID.DoubleTyID]
        TypeID.DoubleTyID) = Except.ok s1 := ⟨_, rfl⟩
  obtain ⟨h1, h2, _⟩ := (node_numbering false
    { function_name_ := "f", n_dynamic_ind_ := 0, n_variable_ind_ := 2,
      n_variable_dep_ := 1, function_ir := load_binary_store Opcode.FMul 0 1 }
    (empty_graph "" 0 0)).2 4
    (instr Opcode.FMul [Value.Inst 1 TypeID.DoubleTyID, Value.Inst 3 TypeID.DoubleTyID]
      TypeID.DoubleTyID)
    { between_passes false 0 2 1 (init_state "f" 0 2 (empty_graph "" 0 0)) with
      llvm_ptr2graph_node :=
        [(input_ptr, 1), (Value.Inst 0 TypeID.PointerTyID, 1),
         (Value.Inst 2 TypeID.PointerTyID, 2)]
      llvm_value2graph_node :=
        [(Value.Inst 1 TypeID.DoubleTyID, 1), (Value.Inst 3 TypeID.DoubleTyID, 2)] }
    s1 (by decide) (by decide) hstep
  rw [hstep]
  have h3 := (h2 (Or.inl (by decide))).2
  show Except.ok (s1.result_node, _) = _
  rw [h1]
  exact congrArg (fun n => Except.ok (_, n)) h3

/-! ## C8: the constant pool -/

/-- C8: the distinct float-constant handles among the operands, in order of first occurrence
(`fp_handles`: each handle once, exactly the float-constant operands, and the handles of a
prefix of the function are a prefix of the handles of the function), determine the result of
the first pass: the constant pool holds their values in that order, and the `j`-th handle is
bound to node `1 + D + V + j`, at every point of the first pass after its first occurrence
and at every point of the second pass, where the pool does not change either; two distinct
handles are bound to distinct nodes, whatever their values. -/
theorem constant_pool (debug : Bool) (ir_obj : llvm_ir) (graph_obj : cpp_graph) :
    ((fp_handles ir_obj.function_ir).Nodup ∧
      (∀ h, h ∈ fp_handles ir_obj.function_ir ↔ h ∈ fp_operands ir_obj.function_ir) ∧
      (∀ F1 F2, ir_obj.function_ir = F1 ++ F2 →
        fp_handles F1 <+: fp_handles ir_obj.function_ir)) ∧
    (∀ s1, pass1 debug ir_obj.n_dynamic_ind_ ir_obj.n_variable_ind_
        (init_state ir_obj.function_name_ ir_obj.n_dynamic_ind_ ir_obj.n_variable_ind_
          graph_obj) ir_obj.function_ir = Except.ok s1 →
      s1.graph_obj.constant_vec =
        (fp_handles ir_obj.function_ir).filterMap Value.constantFP? ∧
      s1.llvm_value2graph_node =
        bind_from (1 + ir_obj.n_dynamic_ind_ + ir_obj.n_variable_ind_)
          (fp_handles ir_obj.function_ir)) ∧
    (∀ (j : Nat) (h : Value), (fp_handles ir_obj.function_ir)[j]? = some h →
      (∀ F1 F2 s1, ir_obj.function_ir = F1 ++ F2 → h ∈ fp_handles F1 →
        pass1 debug ir_obj.n_dynamic_ind_ ir_obj.n_variable_ind_
          (init_state ir_obj.function_name_ ir_obj.n_dynamic_ind_ ir_obj.n_variable_ind_
            graph_obj) F1 = Except.ok s1 →
        s1.llvm_value2graph_node.lookup h =
          1 + ir_obj.n_dynamic_ind_ + ir_obj.n_variable_ind_ + j) ∧
      (∀ k s, llvm_ir.state_at debug ir_obj graph_obj k = Except.ok s →
        s.llvm_value2graph_node.lookup h =
          1 + ir_obj.n_dynamic_ind_ + ir_obj.n_variable_ind_ + j ∧
        s.graph_obj.constant_vec =
          (fp_handles ir_obj.function_ir).filterMap Value.constantFP?)) ∧
    (∀ (j1 j2 : Nat) (h1 h2 : Value) (k : Nat) (s : State),
      (fp_handles ir_obj.function_ir)[j1]? = some h1 →
      (fp_handles ir_obj.function_ir)[j2]? = some h2 → h1 ≠ h2 →
      llvm_ir.state_at debug ir_obj graph_obj k = Except.ok s →
      s.llvm_value2graph_node.lookup h1 ≠ s.llvm_value2graph_node.lookup h2) := by
  have hinit : const_inv ir_obj.n_dynamic_ind_ ir_obj.n_variable_ind_
      (init_state ir_obj.function_name_ ir_obj.n_dynamic_ind_ ir_obj.n_variable_ind_
        graph_obj) [] := by
    constructor <;> simp [init_state, first_occurrences, bind_from, cpp_graph.initialize]
  have hpass1 : ∀ F s1, pass1 debug ir_obj.n_dynamic_ind_ ir_obj.n_variable_ind_
      (init_state ir_obj.function_name_ ir_obj.n_dynamic_ind_ ir_obj.n_variable_ind_
        graph_obj) F = Except.ok s1 →
      s1.graph_obj.constant_vec = (fp_handles F).filterMap Value.constantFP? ∧
      s1.llvm_value2graph_node =
        bind_from (1 + ir_obj.n_dynamic_ind_ + ir_obj.n_variable_ind_) (fp_handles F) := by
    intro F s1 hp
    have := const_inv_pass1 [] hinit hp
    simp only [List.nil_append] at this
    exact ⟨this.2, this.1⟩
  have hprefix : ∀ F1 F2, ir_obj.function_ir = F1 ++ F2 →
      fp_handles F1 <+: fp_handles ir_obj.function_ir := by
    intro F1 F2 hF
    rw [hF]
    unfold fp_handles fp_operands
    rw [List.flatMap_append, List.filter_append]
    exact first_occurrences_prefix _ _
  have hstate : ∀ j h, (fp_handles ir_obj.function_ir)[j]? = some h → ∀ k s,
      llvm_ir.state_at debug ir_obj graph_obj k = Except.ok s →
      s.llvm_value2graph_node.lookup h =
        1 + ir_obj.n_dynamic_ind_ + ir_obj.n_variable_ind_ + j ∧
      s.graph_obj.constant_vec =
        (fp_handles ir_obj.function_ir).filterMap Value.constantFP? := by
    intro j h hj k s hs
    unfold llvm_ir.state_at llvm_ir.before_pass2 at hs
    simp only [bind, Except.bind, pure, Except.pure] at hs
    split at hs
    · cases hs
    · rename_i s0 hs0
      split at hs0
      · cases hs0
      · rename_i s1 hs1
        cases hs0
        obtain ⟨hc, hv⟩ := hpass1 _ s1 hs1
        have hfind : DenseMap.find? (between_passes debug ir_obj.n_dynamic_ind_
            ir_obj.n_variable_ind_ ir_obj.n_variable_dep_ s1).llvm_value2graph_node h =
            some (1 + ir_obj.n_dynamic_ind_ + ir_obj.n_variable_ind_ + j) := by
          simp only [between_passes]
          rw [hv]
          exact find?_bind_from _ _ (nodup_first_occurrences _) j h hj
        obtain ⟨⟨_, _, _, hcv, _⟩, _, _⟩ := pass2_frame hs
        refine ⟨DenseMap.lookup_of_find? _ _ _ (pass2_value_mono hs h _ hfind), ?_⟩
        rw [hcv]
        simpa [between_passes] using hc
  refine ⟨⟨nodup_first_occurrences _, fun h => mem_first_occurrences _ h, hprefix⟩,
    hpass1 _, ?_, ?_⟩
  · intro j h hj
    refine ⟨?_, hstate j h hj⟩
    intro F1 F2 s1 hF hmem hp
    obtain ⟨_, hv⟩ := hpass1 F1 s1 hp
    obtain ⟨j1, hj1⟩ := List.getElem?_of_mem hmem
    have hfind := find?_bind_from (1 + ir_obj.n_dynamic_ind_ + ir_obj.n_variable_ind_)
      (fp_handles F1) (nodup_first_occurrences _) j1 h hj1
    obtain ⟨t, ht⟩ := hprefix F1 F2 hF
    have hj1' : (fp_handles ir_obj.function_ir)[j1]? = some h := by
      rw [← ht]
      have hlt : j1 < (fp_handles F1).length := by
        rcases List.getElem?_eq_some.1 hj1 with ⟨hl, _⟩
        exact hl
      rw [List.getElem?_append_left hlt]
      exact hj1
    have hjj : j1 = j := by
      have hnd := nodup_first_occurrences (fp_operands ir_obj.function_ir)
      rcases List.getElem?_eq_some.1 hj1' with ⟨hl1, he1⟩
      rcases List.getElem?_eq_some.1 hj with ⟨hl2, he2⟩
      exact (List.Nodup.getElem_inj_iff hnd).1 (he1.trans he2.symm)
    rw [hv, DenseMap.lookup_of_find? _ _ _ hfind, hjj]
  · intro j1 j2 h1 h2 k s hj1 hj2 hne hs
    rw [(hstate j1 h1 hj1 k s hs).1, (hstate j2 h2 hj2 k s hs).1]
    intro he
    have hjj : j1 = j2 := by omega
    subst hjj
    rw [hj1] at hj2
    exact hne (Option.some.inj hj2)

/-- An instance of C8: in `x = fmul c0, c1; y = fadd x, c0` with two distinct handles `c0` and
`c1` of equal value 5, the pool is `[5, 5]`, and in the second pass `c0` resolves to node
`1 + D + V` and `c1` to a different node. -/
theorem constant_pool_witness :
    (llvm_ir.state_at false
        { function_name_ := "f", n_dynamic_ind_ := 1, n_variable_ind_ := 1,
          n_variable_dep_ := 1,
          function_ir :=
            [ instr Opcode.FMul [Value.ConstantFP 0 5, Value.ConstantFP 1 5] TypeID.DoubleTyID,
              instr Opcode.FAdd [Value.Inst 0 TypeID.DoubleTyID, Value.ConstantFP 0 5]
                TypeID.DoubleTyID ] } (empty_graph "" 0 0) 2).map
      (fun s => (s.graph_obj.constant_vec,
        s.llvm_value2graph_node.lookup (Value.ConstantFP 0 5),
        decide (s.llvm_value2graph_node.lookup (Value.ConstantFP 0 5) ≠
          s.llvm_value2graph_node.lookup (Value.ConstantFP 1 5)))) =
      Except.ok ([5, 5], 1 + 1 + 1 + 0, true) := by
  obtain ⟨s, hs⟩ : ∃ s, llvm_ir.state_at false
      { function_name_ := "f", n_dynamic_ind_ := 1, n_variable_ind_ := 1,
        n_variable_dep_ := 1,
        function_ir :=
          [ instr Opcode.FMul [Value.ConstantFP 0 5, Value.ConstantFP 1 5] TypeID.DoubleTyID,
            instr Opcode.FAdd [Value.Inst 0 TypeID.DoubleTyID, Value.ConstantFP 0 5]
              TypeID.DoubleTyID ] } (empty_graph "" 0 0) 2 = Except.ok s := ⟨_, rfl⟩
  have hthm := constant_pool false
    { function_name_ := "f", n_dynamic_ind_ := 1, n_variable_ind_ := 1,
      n_variable_dep_ := 1,
      function_ir :=
        [ instr Opcode.FMul [Value.ConstantFP 0 5, Value.ConstantFP 1 5] TypeID.DoubleTyID,
          instr Opcode.FAdd [Value.Inst 0 TypeID.DoubleTyID, Value.ConstantFP 0 5]
            TypeID.DoubleTyID ] } (empty_graph "" 0 0)
  obtain ⟨h1, h2⟩ := (hthm.2.2.1 0 (Value.ConstantFP 0 5) (by decide)).2 2 s hs
  have h3 := hthm.2.2.2 0 1 (Value.ConstantFP 0 5) (Value.ConstantFP 1 5) 2 s
    (by decide) (by decide) (by decide) hs
  rw [hs]
  show Except.ok (s.graph_obj.constant_vec, _, _) = _
  rw [h2, decide_eq_true h3, h1]
  decide

/-! ## C9: loads from the input vector -/

/-- C9: for every offset `off < D + V`, when the second pass reaches a load through the input
pointer itself (`off = 0`) or through the result of an earlier address computation
`(input pointer, off)`, the load binds its result to node `1 + off`, and every later state
resolves that result to node `1 + off`, which is what a later operator takes as argument;
neither an address computation nor a load changes the graph or the node counter.  The input
vector is taken to be registered as contiguous only (no atomic call names the input pointer
as its argument base), and the result of the address computation is not named as a result
base before it is computed. -/
theorem load_input (debug : Bool) (ir_obj : llvm_ir) (graph_obj : cpp_graph) (q : Nat)
    (L : Instruction) (t : State) (off : Nat)
    (hL : ir_obj.function_ir[q]? = some L)
    (ht : llvm_ir.state_at debug ir_obj graph_obj q = Except.ok t)
    (hop : L.opcode = Opcode.Load)
    (_hoff : off < ir_obj.n_dynamic_ind_ + ir_obj.n_variable_ind_)
    (hin : input_contiguous ir_obj.function_ir)
    (hptr : (off = 0 ∧ L.operands = [input_ptr]) ∨
      ∃ p G, p < q ∧ ir_obj.function_ir[p]? = some G ∧ G.opcode = Opcode.GetElementPtr ∧
        G.operands = [input_ptr, Value.ConstantInt off] ∧ L.operands = [G.result p] ∧
        ∀ j J, j < p → ir_obj.function_ir[j]? = some J →
          J.operands[3]? ≠ some (G.result p)) :
    (∃ t1, step debug t q L = Except.ok t1 ∧
      t1.llvm_value2graph_node.lookup (L.result q) = 1 + off ∧
      ∀ k u, q < k → k ≤ ir_obj.function_ir.length →
        llvm_ir.state_at debug ir_obj graph_obj k = Except.ok u →
        u.llvm_value2graph_node.lookup (L.result q) = 1 + off) ∧
    (∀ k I s s1, I.opcode = Opcode.GetElementPtr ∨ I.opcode = Opcode.Load →
      step debug s k I = Except.ok s1 →
      s1.graph_obj = s.graph_obj ∧ s1.result_node = s.result_node) := by
  refine ⟨?_, fun k I s s1 hopI hstep => step_gep_load_frame hopI hstep⟩
  have hq := llvm_ir.state_at_index_le hL
  have hqlt : q < ir_obj.function_ir.length := by
    rcases List.getElem?_eq_some.1 hL with ⟨h, _⟩
    exact h
  obtain ⟨ptr, hops, hfind, hty⟩ : ∃ ptr, L.operands = [ptr] ∧
      DenseMap.find? t.llvm_ptr2graph_node ptr = some (1 + off) ∧
      (debug = true → get_type_id ptr = TypeID.PointerTyID) := by
    rcases hptr with ⟨h0, hops⟩ | ⟨p, G, hpq, hG, hGop, hGops, hops, hfwd⟩
    · subst h0
      exact ⟨input_ptr, hops, (llvm_ir.state_at_input hq ht).2.1, fun _ => rfl⟩
    · obtain ⟨sp1, hsp1⟩ := llvm_ir.state_at_prefix_ok (j := p + 1) (by omega) hq ht
      obtain ⟨sp, hsp, hstep⟩ := llvm_ir.state_at_succ_ok hG hsp1
      have hp := llvm_ir.state_at_index_le hG
      obtain ⟨i1, _, i3⟩ := llvm_ir.state_at_input hp hsp
      have hstep2 : step_gep debug sp p G = Except.ok sp1 := by
        unfold step at hstep
        rw [hGop] at hstep
        exact hstep
      obtain ⟨e1, e2⟩ := step_gep_contiguous hGops (i1 hin) hstep2
      rw [DenseMap.lookup_of_find? _ _ _ i3] at e1
      have hfresh : DenseMap.find? sp.llvm_ptr2graph_node (G.result p) = none := by
        cases hf : DenseMap.find? sp.llvm_ptr2graph_node (G.result p) with
        | none => rfl
        | some node =>
          exfalso
          rcases llvm_ir.state_at_ptr_keys hp hsp _ _ hf with h1 | ⟨j, ty, hj, h1⟩ |
            ⟨j, J, hj, h1, h2⟩
          · simp [Instruction.result, input_ptr] at h1
          · simp only [Instruction.result, Value.Inst.injEq] at h1
            omega
          · exact hfwd j J hj h1 h2
      have hf1 : DenseMap.find? sp1.llvm_ptr2graph_node (G.result p) = some (1 + off) := by
        rw [e1]
        exact DenseMap.find?_insert_self _ _ _ hfresh
      refine ⟨G.result p, hops,
        (llvm_ir.state_at_mono (by omega) hq hsp1 ht _ _).2.1 hf1, fun hd => ?_⟩
      exact e2 hd
  have hfresh := llvm_ir.state_at_fresh hL ht
  have hlook := DenseMap.lookup_of_find? _ _ _ hfind
  have hstep : step debug t q L = Except.ok
      { t with
        llvm_value2graph_node :=
          t.llvm_value2graph_node.insert (L.result q) (t.llvm_ptr2graph_node.lookup ptr) } := by
    unfold step
    rw [hop]
    exact step_load_ok debug t q L ptr hops
      (fun hd => ⟨hty hd, by rw [hlook]; omega⟩)
  have hf2 : DenseMap.find?
      (t.llvm_value2graph_node.insert (L.result q) (t.llvm_ptr2graph_node.lookup ptr))
      (L.result q) = some (1 + off) := by
    rw [hlook]
    exact DenseMap.find?_insert_self _ _ _ hfresh
  refine ⟨_, hstep, DenseMap.lookup_of_find? _ _ _ hf2, ?_⟩
  intro k u hk hkl hu
  have hsucc : llvm_ir.state_at debug ir_obj graph_obj (q + 1) = step debug t q L := by
    rw [llvm_ir.state_at_succ debug ir_obj graph_obj q L hL, ht]
    rfl
  rw [hstep] at hsucc
  exact DenseMap.lookup_of_find? _ _ _
    ((llvm_ir.state_at_mono (by omega) hkl hsucc hu _ _).1 hf2)

/-- An instance of C9: in the program of scenario 1 with inputs at offsets 0 and 1, the load
at position 3 goes through the address computation `(input pointer, 1)` at position 2 and
binds its result to node 2. -/
theorem load_input_witness :
    ∃ t1, step true
        { between_passes true 0 2 1 (init_state "f" 0 2 (empty_graph "" 0 0)) with
          llvm_ptr2graph_node :=
            [(input_ptr, 1), (Value.Inst 0 TypeID.PointerTyID, 1),
             (Value.Inst 2 TypeID.PointerTyID, 2)]
          llvm_value2graph_node := [(Value.Inst 1 TypeID.DoubleTyID, 1)] }
        3 (instr Opcode.Load [Value.Inst 2 TypeID.PointerTyID] TypeID.DoubleTyID) =
          Except.ok t1 ∧
      t1.llvm_value2graph_node.lookup (Value.Inst 3 TypeID.DoubleTyID) = 1 + 1 :=
  have h := (load_input true
    { function_name_ := "f", n_dynamic_ind_ := 0, n_variable_ind_ := 2,
      n_variable_dep_ := 1, function_ir := load_binary_store Opcode.FMul 0 1 }
    (empty_graph "" 0 0) 3
    (instr Opcode.Load [Value.Inst 2 TypeID.PointerTyID] TypeID.DoubleTyID)
    { between_passes true 0 2 1 (init_state "f" 0 2 (empty_graph "" 0 0)) with
      llvm_ptr2graph_node :=
        [(input_ptr, 1), (Value.Inst 0 TypeID.PointerTyID, 1),
         (Value.Inst 2 TypeID.PointerTyID, 2)]
      llvm_value2graph_node := [(Value.Inst 1 TypeID.DoubleTyID, 1)] }
    1 (by decide) (by decide) (by decide) (by decide)
    (by unfold input_contiguous; decide)
    (Or.inr ⟨2, instr Opcode.GetElementPtr [input_ptr, Value.ConstantInt 1]
      TypeID.PointerTyID, by decide, by decide, by decide, by decide, by decide,
      by
        intro j J hj hJ
        have hj2 : j = 0 ∨ j = 1 := by omega
        rcases hj2 with rfl | rfl
        · cases hJ
          decide
        · cases hJ
          decide⟩)).1
  match h with
  | ⟨t1, h1, h2, _⟩ => ⟨t1, h1, h2⟩

/-! ## C10: arithmetic and negation -/

/-- C10: when the second pass reaches an `FAdd`, `FSub`, `FMul`, `FDiv` or `FNeg` instruction
with its two operands (one for `FNeg`) and the node counter is `r`, the step appends exactly
one operator, with tag add, sub, mul, div or neg, appends as its arguments the nodes of the
operands in operand order, binds the result of the instruction to node `r + 1` and leaves the
node counter at `r + 1`; an operand other than the result itself has the node it had before
(in the debug build the types and the nodes of the operands are asserted first). -/
theorem step_arith (debug : Bool) (ir_obj : llvm_ir) (graph_obj : cpp_graph) (k : Nat)
    (I : Instruction) (s : State) (r : Nat)
    (hI : ir_obj.function_ir[k]? = some I)
    (hs : llvm_ir.state_at debug ir_obj graph_obj k = Except.ok s)
    (hr : s.result_node = r)
    (hop : I.opcode ∈ [Opcode.FAdd, Opcode.FSub, Opcode.FMul, Opcode.FDiv, Opcode.FNeg])
    (hn : I.operands.length = arith_arity I.opcode)
    (hd : debug = true → I.type_id = TypeID.DoubleTyID ∧
      ∀ operand ∈ I.operands, get_type_id operand = TypeID.DoubleTyID ∧
        s.llvm_value2graph_node.lookup operand ≠ 0) :
    ∃ s1, step debug s k I = Except.ok s1 ∧
      s1.graph_obj.operator_vec = s.graph_obj.operator_vec ++ [arith_tag I.opcode] ∧
      s1.graph_obj.operator_arg = s.graph_obj.operator_arg ++
        I.operands.map (fun operand => s1.llvm_value2graph_node.lookup operand) ∧
      (∀ operand ∈ I.operands, operand ≠ I.result k →
        s1.llvm_value2graph_node.lookup operand = s.llvm_value2graph_node.lookup operand) ∧
      s1.llvm_value2graph_node.lookup (I.result k) = r + 1 ∧
      s1.result_node = r + 1 := by
  have hfresh := llvm_ir.state_at_fresh hI hs
  subst hr
  have hself := DenseMap.lookup_insert_self s.llvm_value2graph_node (I.result k)
    (s.result_node + 1) hfresh
  have hother : ∀ operand, operand ≠ I.result k →
      (s.llvm_value2graph_node.insert (I.result k) (s.result_node + 1)).lookup operand =
        s.llvm_value2graph_node.lookup operand :=
    fun operand hne => DenseMap.lookup_insert_ne _ _ _ _ (Ne.symm hne)
  by_cases hneg : I.opcode = Opcode.FNeg
  · rw [hneg] at hn
    obtain ⟨a, hops⟩ : ∃ a, I.operands = [a] := by
      match hl : I.operands, hn with
      | [a], _ => exact ⟨a, rfl⟩
    have hstep := step_fneg_ok debug s k I a hops (fun hdb => by
      obtain ⟨h1, h2⟩ := hd hdb
      obtain ⟨h3, h4⟩ := h2 a (by simp [hops])
      exact ⟨h1, h3, by
        rw [(DenseMap.lookup_insert_of_ne_zero _ _ _ _ hfresh h4).1]; exact h4⟩)
    refine ⟨_, by unfold step; rw [hneg]; exact hstep, ?_, ?_, ?_, hself, rfl⟩
    · simp [hneg, arith_tag, cpp_graph.operator_vec_push_back,
        cpp_graph.operator_arg_push_back]
    · simp [hops, cpp_graph.operator_vec_push_back, cpp_graph.operator_arg_push_back]
    · intro operand _ hne
      exact hother operand hne
  · have hbin : I.opcode ∈ [Opcode.FAdd, Opcode.FSub, Opcode.FMul, Opcode.FDiv] := by
      simp only [List.mem_cons, List.mem_singleton, List.not_mem_nil, or_false] at hop ⊢
      tauto
    have hn2 : I.operands.length = 2 := by
      rw [hn]
      simp only [List.mem_cons, List.mem_singleton, List.not_mem_nil, or_false] at hbin
      rcases hbin with h | h | h | h <;> rw [h] <;> rfl
    obtain ⟨a, b, hops⟩ : ∃ a b, I.operands = [a, b] := by
      match hl : I.operands, hn2 with
      | [a, b], _ => exact ⟨a, b, rfl⟩
    have hstep := step_binary_ok debug s k I a b hops (fun hdb => by
      obtain ⟨h1, h2⟩ := hd hdb
      obtain ⟨h3, h4⟩ := h2 a (by simp [hops])
      obtain ⟨h5, h6⟩ := h2 b (by simp [hops])
      exact ⟨h1, h3, h5, by
        rw [(DenseMap.lookup_insert_of_ne_zero _ _ _ _ hfresh h4).1]; exact h4, by
        rw [(DenseMap.lookup_insert_of_ne_zero _ _ _ _ hfresh h6).1]; exact h6⟩)
    have hstep2 : step debug s k I = step_binary debug s k I := by
      unfold step
      simp only [List.mem_cons, List.mem_singleton, List.not_mem_nil, or_false] at hbin
      rcases hbin with h | h | h | h <;> rw [h]
    refine ⟨_, hstep2.trans hstep, ?_, ?_, ?_, hself, rfl⟩
    · simp only [List.mem_cons, List.mem_singleton, List.not_mem_nil, or_false] at hbin
      rcases hbin with h | h | h | h <;>
        simp [h, arith_tag, binary_op_push, cpp_graph.operator_vec_push_back,
          cpp_graph.operator_arg_push_back]
    · simp only [List.mem_cons, List.mem_singleton, List.not_mem_nil, or_false] at hbin
      rcases hbin with h | h | h | h <;>
        simp [h, hops, binary_op_push, cpp_graph.operator_vec_push_back,
          cpp_graph.operator_arg_push_back]
    · intro operand _ hne
      exact hother operand hne

/-- An instance of C10: the `FSub` of the two loaded inputs in the program
`load_binary_store`, reached with node counter 2, appends `sub(1, 2)` and binds its result to
node 3. -/
theorem step_arith_witness :
    ∃ s1, step true
        { between_passes true 0 2 1 (init_state "f" 0 2 (empty_graph "" 0 0)) with
          llvm_ptr2graph_node :=
            [(input_ptr, 1), (Value.Inst 0 TypeID.PointerTyID, 1),
             (Value.Inst 2 TypeID.PointerTyID, 2)]
          llvm_value2graph_node :=
            [(Value.Inst 1 TypeID.DoubleTyID, 1), (Value.Inst 3 TypeID.DoubleTyID, 2)] }
        4 (instr Opcode.FSub [Value.Inst 1 TypeID.DoubleTyID, Value.Inst 3 TypeID.DoubleTyID]
          TypeID.DoubleTyID) = Except.ok s1 ∧
      s1.graph_obj.operator_vec = [graph_op_enum.sub_graph_op] ∧
      s1.graph_obj.operator_arg = [1, 2] ∧
      s1.llvm_value2graph_node.lookup (Value.Inst 4 TypeID.DoubleTyID) = 3 ∧
      s1.result_node = 3 := by
  obtain ⟨s1, h1, h2, h3, h4, h5, h6⟩ := step_arith true
    { function_name_ := "f", n_dynamic_ind_ := 0, n_variable_ind_ := 2,
      n_variable_dep_ := 1, function_ir := load_binary_store Opcode.FSub 0 1 }
    (empty_graph "" 0 0) 4
    (instr Opcode.FSub [Value.Inst 1 TypeID.DoubleTyID, Value.Inst 3 TypeID.DoubleTyID]
      TypeID.DoubleTyID)
    { between_passes true 0 2 1 (init_state "f" 0 2 (empty_graph "" 0 0)) with
      llvm_ptr2graph_node :=
        [(input_ptr, 1), (Value.Inst 0 TypeID.PointerTyID, 1),
         (Value.Inst 2 TypeID.PointerTyID, 2)]
      llvm_value2graph_node :=
        [(Value.Inst 1 TypeID.DoubleTyID, 1), (Value.Inst 3 TypeID.DoubleTyID, 2)] }
    2 (by decide) (by decide) (by decide) (by decide) (by decide)
    (fun _ => by decide)
  have ha := h4 (Value.Inst 1 TypeID.DoubleTyID) (by decide) (by decide)
  have hb := h4 (Value.Inst 3 TypeID.DoubleTyID) (by decide) (by decide)
  refine ⟨s1, h1, h2.trans (by decide), ?_, h5, h6⟩
  rw [h3]
  show _ ++ [s1.llvm_value2graph_node.lookup (Value.Inst 1 TypeID.DoubleTyID),
    s1.llvm_value2graph_node.lookup (Value.Inst 3 TypeID.DoubleTyID)] = [1, 2]
  rw [ha, hb]
  decide

/-! ## C11: a select of float values -/

/-- C11: when the second pass reaches a select of float values whose condition is the result
of an earlier `FCmp` of `left` and `right` with a predicate of Table B (ordered-equal,
ordered-less-or-equal, ordered-less-than), the step appends exactly one operator, with the
tag `cexp_eq`, `cexp_le` or `cexp_lt` of the predicate and the four arguments
`(node(left), node(right), node(if_true), node(if_false))` in that order, binds the result of
the select to the node after the node counter and advances the counter by one; the compare
itself left the graph, the node counter and the nodes of values as they were, and its result
is never bound to a node. -/
theorem select_cexp (debug : Bool) (ir_obj : llvm_ir) (graph_obj : cpp_graph)
    (j k : Nat) (J I : Instruction) (s : State) (left right val_true val_false : Value)
    (tag : graph_op_enum)
    (hs : llvm_ir.state_at debug ir_obj graph_obj k = Except.ok s)
    (hjk : j < k)
    (hJ : ir_obj.function_ir[j]? = some J)
    (hJop : J.opcode = Opcode.FCmp)
    (hJo : J.operands = [left, right])
    (htag : cexp_tag J.predicate = some tag)
    (hI : ir_obj.function_ir[k]? = some I)
    (hIop : I.opcode = Opcode.Select)
    (hIo : I.operands = [J.result j, val_true, val_false])
    (ht : get_type_id val_true = TypeID.DoubleTyID)
    (hf : get_type_id val_false = TypeID.DoubleTyID) :
    (∃ s1, step debug s k I = Except.ok s1 ∧
      s1.graph_obj.operator_vec = s.graph_obj.operator_vec ++ [tag] ∧
      s1.graph_obj.operator_arg = s.graph_obj.operator_arg ++
        [s.llvm_value2graph_node.lookup left, s.llvm_value2graph_node.lookup right,
         s.llvm_value2graph_node.lookup val_true,
         s.llvm_value2graph_node.lookup val_false] ∧
      s1.llvm_value2graph_node.lookup (I.result k) = s.result_node + 1 ∧
      s1.result_node = s.result_node + 1) ∧
    (∃ sj sj1, llvm_ir.state_at debug ir_obj graph_obj j = Except.ok sj ∧
      llvm_ir.state_at debug ir_obj graph_obj (j + 1) = Except.ok sj1 ∧
      sj1.graph_obj = sj.graph_obj ∧ sj1.result_node = sj.result_node ∧
      sj1.llvm_value2graph_node = sj.llvm_value2graph_node) ∧
    (∀ k2 s2, k2 ≤ ir_obj.function_ir.length →
      llvm_ir.state_at debug ir_obj graph_obj k2 = Except.ok s2 →
      DenseMap.find? s2.llvm_value2graph_node (J.result j) = none) ∧
    cexp_tag Predicate.FCMP_OEQ = some graph_op_enum.cexp_eq_graph_op ∧
    cexp_tag Predicate.FCMP_OLE = some graph_op_enum.cexp_le_graph_op ∧
    cexp_tag Predicate.FCMP_OLT = some graph_op_enum.cexp_lt_graph_op := by
  have hk := llvm_ir.state_at_index_le hI
  obtain ⟨l, r, h0, h1, hrec, hty, sj, sj1, hsj, hsj1, hsj1eq⟩ :=
    llvm_ir.state_at_compare_recorded hjk hk hs hJ (Or.inl hJop)
  rw [hJo] at h0 h1
  simp only [List.getElem?_cons_zero, List.getElem?_cons_succ, Option.some.injEq] at h0 h1
  subst h0 h1
  have hstep := step_select_ok debug s k I (J.result j) val_true val_false left right
    J.predicate tag hIo hrec htag ht
    (fun hdb => ⟨hf, (hty hdb hJop).2.1, (hty hdb hJop).2.2⟩)
  refine ⟨⟨_, by unfold step; rw [hIop]; exact hstep, rfl, rfl, ?_, rfl⟩,
    ⟨sj, sj1, hsj, hsj1, by rw [hsj1eq], by rw [hsj1eq], by rw [hsj1eq]⟩, ?_, rfl, rfl, rfl⟩
  · exact DenseMap.lookup_insert_self _ _ _ (llvm_ir.state_at_fresh hI hs)
  · intro k2 s2 hk2 hs2
    cases hfind : DenseMap.find? s2.llvm_value2graph_node (J.result j) with
    | none => rfl
    | some node =>
      obtain ⟨J2, hJ2, _, _, _, hfc, _⟩ :=
        llvm_ir.state_at_value_keys_op hk2 hs2 j J.type_id node hfind
      rw [hJ] at hJ2
      cases hJ2
      exact absurd hJop hfc

/-- Scenario 4 of the specification as an instance of C11: in `select_program` the compare
`a < b` feeds `select(a, b)`; the select appends `cexp_lt(node(a), node(b), node(a), node(b))`,
that is `cexp_lt(1, 2, 1, 2)`, and binds its result to node 3. -/
theorem select_cexp_witness :
    ∃ s1, llvm_ir.state_at true (ir_of 2 select_program) (empty_graph "" 0 0) 5 =
        Except.ok s1 ∧
      s1.graph_obj.operator_vec = [graph_op_enum.cexp_lt_graph_op] ∧
      s1.graph_obj.operator_arg = [1, 2, 1, 2] ∧
      s1.llvm_value2graph_node.lookup (Value.Inst 4 TypeID.DoubleTyID) = 3 ∧
      s1.result_node = 3 := by
  obtain ⟨s, hs⟩ : ∃ s, llvm_ir.state_at true (ir_of 2 select_program) (empty_graph "" 0 0) 4
      = Except.ok s := ⟨_, rfl⟩
  obtain ⟨⟨s1, h1, h2, h3, h4, h5⟩, _⟩ := select_cexp true (ir_of 2 select_program)
    (empty_graph "" 0 0) 3 4
    (instr_cmp Opcode.FCmp Predicate.FCMP_OLT (Value.Inst 0 TypeID.DoubleTyID)
      (Value.Inst 2 TypeID.DoubleTyID))
    (instr Opcode.Select
      [Value.Inst 3 TypeID.IntegerTyID, Value.Inst 0 TypeID.DoubleTyID,
       Value.Inst 2 TypeID.DoubleTyID] TypeID.DoubleTyID)
    s (Value.Inst 0 TypeID.DoubleTyID) (Value.Inst 2 TypeID.DoubleTyID)
    (Value.Inst 0 TypeID.DoubleTyID) (Value.Inst 2 TypeID.DoubleTyID)
    graph_op_enum.cexp_lt_graph_op hs (by decide) (by decide) (by decide) (by decide)
    (by decide) (by decide) (by decide) (by decide) (by decide) (by decide)
  have hsucc : llvm_ir.state_at true (ir_of 2 select_program) (empty_graph "" 0 0) 5
      = Except.ok s1 := by
    rw [llvm_ir.state_at_succ true (ir_of 2 select_program) (empty_graph "" 0 0) 4
      (instr Opcode.Select
        [Value.Inst 3 TypeID.IntegerTyID, Value.Inst 0 TypeID.DoubleTyID,
         Value.Inst 2 TypeID.DoubleTyID] TypeID.DoubleTyID)
      (by decide), hs]
    exact h1
  cases hs
  exact ⟨s1, hsucc, h2.trans (by decide), h3.trans (by decide), h4.trans (by decide),
    h5.trans (by decide)⟩

/-! ## C12: the comparison operators of a boolean combine -/

/-- C12: when the second pass processes a `ZExt` or an `Or`, it appends, for each operand in
operand order that is a recorded compare `(pred, left, right)`, one comparison operator with
the tag of Table A (`comp_eq` for ordered-not-equal, `comp_le` for ordered-less-than,
`comp_lt` for ordered-less-or-equal, `comp_ne` for ordered-equal) and the two arguments
`(node(right), node(left))`; operands that are not recorded compares emit nothing.  The
predicates of the recorded compares are taken from Table A, and in the debug build the
instruction has at most two operands and a `ZExt` is the first one. -/
theorem step_combine (debug : Bool) (s : State) (k : Nat) (I : Instruction)
    (hop : I.opcode = Opcode.ZExt ∨ I.opcode = Opcode.Or)
    (hn : debug = true → I.operands.length ≤ 2)
    (hz : debug = true → I.opcode = Opcode.ZExt → s.count_zext = 0)
    (hp : ∀ c ∈ recorded_compares s I.operands, (comp_tag c.pred).isSome = true) :
    (∃ s1, step debug s k I = Except.ok s1 ∧
      s1.graph_obj.operator_vec = s.graph_obj.operator_vec ++
        (recorded_compares s I.operands).filterMap (fun c => comp_tag c.pred) ∧
      s1.graph_obj.operator_arg = s.graph_obj.operator_arg ++
        (recorded_compares s I.operands).flatMap
          (fun c => [s.node c.right, s.node c.left])) ∧
    comp_tag Predicate.FCMP_ONE = some graph_op_enum.comp_eq_graph_op ∧
    comp_tag Predicate.FCMP_OLT = some graph_op_enum.comp_le_graph_op ∧
    comp_tag Predicate.FCMP_OLE = some graph_op_enum.comp_lt_graph_op ∧
    comp_tag Predicate.FCMP_OEQ = some graph_op_enum.comp_ne_graph_op := by
  refine ⟨?_, rfl, rfl, rfl, rfl⟩
  have hlen := CPPAD_ASSERT_UNKNOWN_of debug (decide (I.operands.length ≤ 2))
    (fun hdb => decide_eq_true (hn hdb))
  have hor : ∀ s0 : State, s0.llvm_compare2info = s.llvm_compare2info →
      s0.llvm_value2graph_node = s.llvm_value2graph_node → s0.graph_obj = s.graph_obj →
      ∃ s1, step_or debug s0 I = Except.ok s1 ∧
        s1.graph_obj.operator_vec = s.graph_obj.operator_vec ++
          (recorded_compares s I.operands).filterMap (fun c => comp_tag c.pred) ∧
        s1.graph_obj.operator_arg = s.graph_obj.operator_arg ++
          (recorded_compares s I.operands).flatMap
            (fun c => [s.node c.right, s.node c.left]) := by
    intro s0 hc hv hg
    have hrec : recorded_compares s0 I.operands = recorded_compares s I.operands := by
      unfold recorded_compares
      rw [hc]
    have hnode : s0.node = s.node := by
      funext o
      cases o <;> simp [State.node, hv]
    have hloop := combine_loop_ok debug I.operands s0 (by rw [hrec]; exact hp)
    have hstep : step_or debug s0 I = combine_loop debug s0 I.operands := by
      unfold step_or
      simp only [bind, Except.bind, hlen]
    rw [hloop] at hstep
    refine ⟨_, hstep, ?_, ?_⟩
    · simp only [hrec, hg]
    · simp only [hrec, hg, hnode]
  rcases hop with hzext | hor2
  · unfold step
    rw [hzext]
    unfold step_zext
    cases debug with
    | false =>
      simp only [bind, Except.bind, CPPAD_ASSERT_UNKNOWN_release, Bool.false_eq_true,
        if_false]
      exact hor s rfl rfl rfl
    | true =>
      have hc := hz rfl hzext
      simp only [bind, Except.bind, if_true, hc, Nat.zero_add, decide_True,
        CPPAD_ASSERT_UNKNOWN_true]
      exact hor _ rfl rfl rfl
  · unfold step
    rw [hor2]
    exact hor s rfl rfl rfl

/-- An instance of C12: an `Or` of a recorded compare `a < b` and of a value that is not a
recorded compare appends the single operator `comp_le` with the arguments
`(node(b), node(a))`. -/
theorem step_combine_witness :
    ∃ s1, step true
        { between_passes true 0 2 1 (init_state "f" 0 2 (empty_graph "" 0 0)) with
          llvm_value2graph_node :=
            [(Value.Inst 0 TypeID.DoubleTyID, 1), (Value.Inst 1 TypeID.DoubleTyID, 2)]
          llvm_compare2info :=
            [(Value.Inst 2 TypeID.IntegerTyID,
              { pred := Predicate.FCMP_OLT, left := some (Value.Inst 0 TypeID.DoubleTyID),
                right := some (Value.Inst 1 TypeID.DoubleTyID) })] }
        4 (instr Opcode.Or [Value.Inst 2 TypeID.IntegerTyID, Value.Inst 3 TypeID.IntegerTyID]
          TypeID.IntegerTyID) = Except.ok s1 ∧
      s1.graph_obj.operator_vec = [graph_op_enum.comp_le_graph_op] ∧
      s1.graph_obj.operator_arg = [2, 1] := by
  obtain ⟨⟨s1, h1, h2, h3⟩, _⟩ := step_combine true
    { between_passes true 0 2 1 (init_state "f" 0 2 (empty_graph "" 0 0)) with
      llvm_value2graph_node :=
        [(Value.Inst 0 TypeID.DoubleTyID, 1), (Value.Inst 1 TypeID.DoubleTyID, 2)]
      llvm_compare2info :=
        [(Value.Inst 2 TypeID.IntegerTyID,
          { pred := Predicate.FCMP_OLT, left := some (Value.Inst 0 TypeID.DoubleTyID),
            right := some (Value.Inst 1 TypeID.DoubleTyID) })] }
    4 (instr Opcode.Or [Value.Inst 2 TypeID.IntegerTyID, Value.Inst 3 TypeID.IntegerTyID]
      TypeID.IntegerTyID)
    (by decide) (fun _ => by decide) (fun _ => by decide) (by decide)
  exact ⟨s1, h1, h2.trans (by decide), h3.trans (by decide)⟩

/-! ## C13: the operator of an atomic call -/

/-- C13: when the second pass reaches an atomic call with seven operands, callee name
`atomic_` followed by `N`, argument count `n` and result count `m`, the step appends exactly
one operator `atom` with exactly `3 + n` arguments: the index of `N` in the table of atomic
names (where `N` is, at its first occurrence, after the step), then `m`, then `n`, then for
each `i < n` the node of the value operand of the last store before the call to offset `i`
of the argument vector, which the argument base itself denotes for offset zero.  Every atomic
call with this argument base declares the argument count `n`, no argument base is the result
of an address computation, and in the debug build the operand types are asserted and every
offset has been stored with a node that is not zero. -/
theorem call_atomic_emits (debug : Bool) (ir_obj : llvm_ir) (graph_obj : cpp_graph)
    (k : Nat) (I : Instruction) (s : State) (n m : Nat)
    (arg_base res_base len_msg ptr_msg : Value) (name : String)
    (hI : ir_obj.function_ir[k]? = some I)
    (hs : llvm_ir.state_at debug ir_obj graph_obj k = Except.ok s)
    (hop : I.opcode = Opcode.Call)
    (hops : I.operands =
      [Value.ConstantInt n, arg_base, Value.ConstantInt m, res_base, len_msg, ptr_msg,
       Value.Global name])
    (hpre : starts_with name "atomic_" = true)
    (hplain : arg_bases_plain ir_obj.function_ir)
    (hsame : ∀ C ∈ ir_obj.function_ir, C.opcode = Opcode.Call → C.operands.length = 7 →
      C.operands[1]? = some arg_base → C.operands[0]? = some (Value.ConstantInt n))
    (hd : debug = true →
      get_type_id arg_base = TypeID.PointerTyID ∧ get_type_id res_base = TypeID.PointerTyID ∧
      get_type_id len_msg = TypeID.IntegerTyID ∧ get_type_id ptr_msg = TypeID.PointerTyID ∧
      ∀ i, i < n → ∃ node, node ≠ 0 ∧ last_store debug ir_obj graph_obj arg_base i k node) :
    name = "atomic_" ++ substr_from name 7 ∧
    ∃ s1 nodes, step debug s k I = Except.ok s1 ∧
      s1.graph_obj.operator_vec = s.graph_obj.operator_vec ++ [graph_op_enum.atom_graph_op] ∧
      s1.graph_obj.operator_arg = s.graph_obj.operator_arg ++
        [s1.graph_obj.atomic_name_vec.indexOf (substr_from name 7), m, n] ++ nodes ∧
      nodes.length = n ∧
      (∀ i node, i < n → last_store debug ir_obj graph_obj arg_base i k node →
        nodes[i]? = some node) ∧
      s1.graph_obj.atomic_name_vec[
        s1.graph_obj.atomic_name_vec.indexOf (substr_from name 7)]? =
          some (substr_from name 7) ∧
      (substr_from name 7 ∈ s.graph_obj.atomic_name_vec →
        s1.graph_obj.atomic_name_vec = s.graph_obj.atomic_name_vec) ∧
      (substr_from name 7 ∉ s.graph_obj.atomic_name_vec →
        s1.graph_obj.atomic_name_vec =
          s.graph_obj.atomic_name_vec ++ [substr_from name 7]) := by
  have hk := llvm_ir.state_at_index_le hI
  have hmem : I ∈ ir_obj.function_ir := List.getElem?_mem hI
  have h7 : I.operands.length = 7 := by rw [hops]; rfl
  have h1 : I.operands[1]? = some arg_base := by rw [hops]; rfl
  obtain ⟨_, _, _, _, tl, creg⟩ := llvm_ir.state_at_scattered hk hs
  obtain ⟨vi, hvi⟩ := creg I hmem hop h7 arg_base h1
  obtain ⟨tbl, htbl, hcase⟩ := tl arg_base vi hvi
  have hlen : tbl.length = n := by
    rcases hcase with ⟨C, hC, hcall, hc7, hb, h0⟩ | ⟨hout, _, hnone⟩
    · have := hsame C hC hcall hc7 hb
      rw [h0] at this
      simp only [Option.some.injEq, Value.ConstantInt.injEq] at this
      exact this
    · subst hout
      exact absurd h1 (hnone I hmem hop h7)
  have hl : s.llvm_base2index2node.lookup arg_base = vi := DenseMap.lookup_of_find? _ _ _ hvi
  have hvi1 : 1 ≤ vi := ((llvm_ir.state_at_scattered hk hs).1 arg_base vi hvi).1
  have hcell : ∀ i node, i < n → last_store debug ir_obj graph_obj arg_base i k node →
      tbl[i]? = some node := fun i node hi hlast =>
    llvm_ir.state_at_cell_last hplain hk hs hvi htbl (by omega) hlast
  have hname : call_name debug I = Except.ok name :=
    call_name_atomic debug I _ _ _ _ _ _ (Value.Global name) hops (fun hdb =>
      ⟨rfl, (hd hdb).1, rfl, (hd hdb).2.1, (hd hdb).2.2.1, (hd hdb).2.2.2.1, hpre⟩)
  have hstr : 7 ≤ name.length := by
    unfold starts_with at hpre
    simp only [decide_eq_true_eq] at hpre
    have : "atomic_".length = 7 := by decide
    omega
  have hcall := call_atomic_ok debug s I name n m arg_base res_base len_msg ptr_msg
    (Value.Global name) tbl hops hstr (by rw [hl]; omega) (by rw [hl]; exact htbl) hlen
    (fun hdb j hj => by
      obtain ⟨node, hne, hlast⟩ := (hd hdb).2.2.2.2 j hj
      rw [hcell j node hj hlast]
      simpa using hne)
  have hstep : step debug s k I = call_atomic debug s I name := by
    unfold step
    rw [hop]
    simp only [step_call, bind, Except.bind, hname, if_pos h7]
  rw [hcall] at hstep
  obtain ⟨u1, u2, u3, u4⟩ :=
    name_vec_update_spec s.graph_obj.atomic_name_vec (substr_from name 7)
  refine ⟨starts_with_substr name "atomic_" hpre, _, tbl, hstep, rfl, ?_, hlen, hcell, ?_,
    u3, u4⟩
  · show _ ++ [_, _, _] ++ _ = _ ++ [_, _, _] ++ _
    rw [u2]
  · show (name_vec_update _ _ _)[List.indexOf _ (name_vec_update _ _ _)]? = _
    rw [u2]
    exact u1

/-- Scenario 5 of the specification as an instance of C13: in `atomic_program` the call of
`atomic_foo` with two arguments and one result appends the operator `atom` with the arguments
`(0, 1, 2, 1, 2)`: the index of `foo`, the result count, the argument count, and the nodes 1
and 2 of the values stored last at the offsets 0 and 1 of the argument vector. -/
theorem call_atomic_emits_witness :
    ∃ s1, llvm_ir.state_at true (ir_of 2 atomic_program) (empty_graph "" 0 0) 9 =
        Except.ok s1 ∧
      s1.graph_obj.operator_vec = [graph_op_enum.atom_graph_op] ∧
      s1.graph_obj.operator_arg = [0, 1, 2, 1, 2] ∧
      s1.graph_obj.atomic_name_vec = ["foo"] := by
  obtain ⟨s, hs⟩ : ∃ s, llvm_ir.state_at true (ir_of 2 atomic_program) (empty_graph "" 0 0) 8
      = Except.ok s := ⟨_, rfl⟩
  have hl0 : last_store true (ir_of 2 atomic_program) (empty_graph "" 0 0)
      (Value.Inst 3 TypeID.PointerTyID) 0 8 1 := by
    refine ⟨5, _, _, _, by decide, rfl, rfl, rfl,
      ⟨_, _, rfl, rfl, rfl, by decide, Or.inl ⟨rfl, rfl⟩⟩, by decide, ?_⟩
    rintro j2 h1 h2 ⟨J, dest, hJ, hop, hd, hne, hres⟩
    interval_cases j2
    · cases hJ
      cases hop
    · have hdest : dest = Value.Inst 6 TypeID.PointerTyID := by
        cases hJ
        cases hd
        rfl
      subst hdest
      rcases hres with ⟨e, _⟩ | ⟨p, G, hp, hG, hgop, g0, g1, e⟩
      · cases e
      · have hp6 : p = 6 := by
          simp only [Instruction.result, Value.Inst.injEq] at e
          exact e.1.symm
        subst hp6
        have hG2 : G = instr Opcode.GetElementPtr
            [Value.Inst 3 TypeID.PointerTyID, Value.ConstantInt 1] TypeID.PointerTyID := by
          cases hG
          rfl
        subst hG2
        cases g1
  have hl1 : last_store true (ir_of 2 atomic_program) (empty_graph "" 0 0)
      (Value.Inst 3 TypeID.PointerTyID) 1 8 2 := by
    refine ⟨7, _, _, _, by decide, rfl, rfl, rfl,
      ⟨_, _, rfl, rfl, rfl, by decide, Or.inr ⟨6, _, by decide, rfl, rfl, rfl, rfl, rfl⟩⟩,
      by decide, ?_⟩
    intro j2 h1 h2
    omega
  obtain ⟨_, s1, nodes, h1, h2, h3, h4, h5, _, _, h8⟩ := call_atomic_emits true
    (ir_of 2 atomic_program) (empty_graph "" 0 0) 8
    (instr_atomic 2 (Value.Inst 3 TypeID.PointerTyID) 1 (Value.Inst 4 TypeID.PointerTyID)
      "atomic_foo")
    s 2 1 (Value.Inst 3 TypeID.PointerTyID) (Value.Inst 4 TypeID.PointerTyID)
    (Value.Argument 4) msg_ptr "atomic_foo" (by decide) hs (by decide) (by decide)
    (by decide) (arg_bases_plain_of_enum _ (by decide)) (by decide)
    (fun _ => ⟨by decide, by decide, by decide, by decide, fun i hi => by
      interval_cases i
      · exact ⟨1, by decide, hl0⟩
      · exact ⟨2, by decide, hl1⟩⟩)
  have n0 := h5 0 1 (by decide) hl0
  have n1 := h5 1 2 (by decide) hl1
  obtain ⟨a, b, hab⟩ : ∃ a b, nodes = [a, b] := by
    match nodes, h4 with
    | [a, b], _ => exact ⟨a, b, rfl⟩
  subst hab
  simp only [List.getElem?_cons_zero, List.getElem?_cons_succ, Option.some.injEq] at n0 n1
  subst n0 n1
  have hsucc : llvm_ir.state_at true (ir_of 2 atomic_program) (empty_graph "" 0 0) 9
      = Except.ok s1 := by
    rw [llvm_ir.state_at_succ true (ir_of 2 atomic_program) (empty_graph "" 0 0) 8
      (instr_atomic 2 (Value.Inst 3 TypeID.PointerTyID) 1 (Value.Inst 4 TypeID.PointerTyID)
        "atomic_foo")
      (by decide), hs]
    exact h1
  have hsv : (llvm_ir.state_at true (ir_of 2 atomic_program) (empty_graph "" 0 0) 8).map
      (fun s => (s.graph_obj.operator_vec, s.graph_obj.operator_arg,
        s.graph_obj.atomic_name_vec)) = Except.ok ([], [], []) := by decide
  rw [hs] at hsv
  simp only [Except.map, Except.ok.injEq, Prod.mk.injEq] at hsv
  obtain ⟨hvec, harg, hanv⟩ := hsv
  have e8 := h8 (by rw [hanv]; exact List.not_mem_nil _)
  rw [hvec] at h2
  rw [harg, e8, hanv] at h3
  rw [hanv] at e8
  exact ⟨s1, hsucc, h2.trans (by decide), h3.trans (by decide), e8.trans (by decide)⟩
/-! ## C14: the result vector of an atomic call -/

/-- C14 at the program `atomic_twice`, in which the second call of `foo` names the result
vector of the first call: the second call is processed with node counter 2 and leaves the
counter at 3, but the result base stays bound to node 2, the first node of the first call,
so the load after the second call binds its value to node 2 and not to node 3; the
translation returns the empty message and the dependent list `[2]`, the node of `foo(x)`,
where the function computes `foo(foo(x))`, whose node is 3.  Both builds do so. -/
theorem atomic_second_call_result_base :
    (llvm_ir.state_at true (ir_of 1 atomic_twice) (empty_graph "" 0 0) 7).map
        (fun s => s.result_node) = Except.ok 2 ∧
    (llvm_ir.state_at true (ir_of 1 atomic_twice) (empty_graph "" 0 0) 8).map
        (fun s => (s.result_node,
          s.llvm_ptr2graph_node.lookup (Value.Inst 2 TypeID.PointerTyID))) =
      Except.ok (3, 2) ∧
    (llvm_ir.state_at true (ir_of 1 atomic_twice) (empty_graph "" 0 0) 9).map
        (fun s => s.llvm_value2graph_node.lookup (Value.Inst 8 TypeID.DoubleTyID)) =
      Except.ok 2 ∧
    llvm_ir.to_graph true (ir_of 1 atomic_twice) (empty_graph "" 0 0) =
      Except.ok ("",
        { empty_graph "f" 0 1 with
          operator_vec := [graph_op_enum.atom_graph_op, graph_op_enum.atom_graph_op]
          operator_arg := [0, 1, 1, 1, 0, 1, 1, 2]
          atomic_name_vec := ["foo"]
          dependent_vec := [2] }) ∧
    llvm_ir.to_graph false (ir_of 1 atomic_twice) (empty_graph "" 0 0) =
      llvm_ir.to_graph true (ir_of 1 atomic_twice) (empty_graph "" 0 0) := by
  decide

/-! ## C15: a call of a discrete function -/

/-- C15: when the second pass reaches a call with two operands whose callee name passes the
prefix test for `discrete_`, the name is `discrete_` followed by `N`, and the step appends
exactly one operator `discrete` with the two arguments (index of `N` in the table of discrete
names, node of the float operand), where `N` is in the table at that index, which is its
first occurrence (a new name is appended, a known one leaves the table as it was); the step
binds the result of the call to the node after the node counter and advances the counter by
one (in the debug build the type and the node of the operand are asserted first). -/
theorem call_discrete_emits (debug : Bool) (ir_obj : llvm_ir) (graph_obj : cpp_graph)
    (k : Nat) (I : Instruction) (s : State) (x : Value) (name : String)
    (hI : ir_obj.function_ir[k]? = some I)
    (hs : llvm_ir.state_at debug ir_obj graph_obj k = Except.ok s)
    (hop : I.opcode = Opcode.Call)
    (hops : I.operands = [x, Value.Global name])
    (hpre : starts_with name "discrete_" = true)
    (hd : debug = true → get_type_id x = TypeID.DoubleTyID ∧
      s.llvm_value2graph_node.lookup x ≠ 0) :
    name = "discrete_" ++ substr_from name 9 ∧
    ∃ s1, step debug s k I = Except.ok s1 ∧
      s1.graph_obj.operator_vec =
        s.graph_obj.operator_vec ++ [graph_op_enum.discrete_graph_op] ∧
      s1.graph_obj.operator_arg = s.graph_obj.operator_arg ++
        [s1.graph_obj.discrete_name_vec.indexOf (substr_from name 9),
         s1.llvm_value2graph_node.lookup x] ∧
      s1.graph_obj.discrete_name_vec[
        s1.graph_obj.discrete_name_vec.indexOf (substr_from name 9)]? =
          some (substr_from name 9) ∧
      (substr_from name 9 ∈ s.graph_obj.discrete_name_vec →
        s1.graph_obj.discrete_name_vec = s.graph_obj.discrete_name_vec) ∧
      (substr_from name 9 ∉ s.graph_obj.discrete_name_vec →
        s1.graph_obj.discrete_name_vec =
          s.graph_obj.discrete_name_vec ++ [substr_from name 9]) ∧
      (x ≠ I.result k →
        s1.llvm_value2graph_node.lookup x = s.llvm_value2graph_node.lookup x) ∧
      s1.llvm_value2graph_node.lookup (I.result k) = s.result_node + 1 ∧
      s1.result_node = s.result_node + 1 := by
  have hfresh := llvm_ir.state_at_fresh hI hs
  have hname : call_name debug I = Except.ok name := by
    have : call_name debug I = Except.ok (Value.Global name).getName := call_name_of_types
      (Or.inl (by rw [hops]; rfl)) (by unfold callee; rw [hops]; rfl)
      (fun hdb => by
        unfold call_types_ok
        rw [hops]
        refine ⟨fun _ => ⟨?_, rfl⟩, fun h3 => ?_⟩
        · simp [(hd hdb).1]
        · simp at h3)
    exact this
  have h7 : ¬ I.operands.length = 7 := by rw [hops]; simp
  have hdisc := call_discrete_ok debug s k I x (Value.Global name) name hops (fun hdb => by
    rw [(DenseMap.lookup_insert_of_ne_zero _ _ _ _ hfresh (hd hdb).2).1]
    exact (hd hdb).2)
  have hstep : step debug s k I = call_discrete debug s k I name := by
    unfold step
    rw [hop]
    simp only [step_call, bind, Except.bind, hname, if_neg h7, hpre, if_true]
  rw [hdisc] at hstep
  obtain ⟨u1, u2, u3, u4⟩ :=
    name_vec_update_spec s.graph_obj.discrete_name_vec (substr_from name 9)
  refine ⟨starts_with_substr name "discrete_" hpre, _, hstep, rfl, ?_, ?_, u3, u4, ?_, ?_,
    rfl⟩
  · show _ ++ [_, _] = _ ++ [_, _]
    rw [u2]
  · show (name_vec_update _ _ _)[List.indexOf _ (name_vec_update _ _ _)]? = _
    rw [u2]
    exact u1
  · intro hne
    exact DenseMap.lookup_insert_ne _ _ _ _ (Ne.symm hne)
  · exact DenseMap.lookup_insert_self _ _ _ hfresh

/-- An instance of C15: in `discrete_program` the call of `discrete_heav` appends the operator
`discrete` with the arguments `(0, 1)`, the name `heav` being new in the table and the
operand having node 1, and binds its result to node 2. -/
theorem call_discrete_emits_witness :
    ∃ s1, llvm_ir.state_at true (ir_of 1 discrete_program) (empty_graph "" 0 0) 2 =
        Except.ok s1 ∧
      s1.graph_obj.operator_vec = [graph_op_enum.discrete_graph_op] ∧
      s1.graph_obj.operator_arg = [0, 1] ∧
      s1.graph_obj.discrete_name_vec = ["heav"] ∧
      s1.llvm_value2graph_node.lookup (Value.Inst 1 TypeID.DoubleTyID) = 2 ∧
      s1.result_node = 2 := by
  obtain ⟨s, hs⟩ : ∃ s, llvm_ir.state_at true (ir_of 1 discrete_program) (empty_graph "" 0 0) 1
      = Except.ok s := ⟨_, rfl⟩
  obtain ⟨_, s1, h1, h2, h3, _, _, h6, h7, h8, h9⟩ := call_discrete_emits true
    (ir_of 1 discrete_program) (empty_graph "" 0 0) 1
    (instr Opcode.Call [Value.Inst 0 TypeID.DoubleTyID, Value.Global "discrete_heav"]
      TypeID.DoubleTyID)
    s (Value.Inst 0 TypeID.DoubleTyID) "discrete_heav" (by decide) hs (by decide) (by decide)
    (by decide) (fun _ => by cases hs; decide)
  have hsucc : llvm_ir.state_at true (ir_of 1 discrete_program) (empty_graph "" 0 0) 2
      = Except.ok s1 := by
    rw [llvm_ir.state_at_succ true (ir_of 1 discrete_program) (empty_graph "" 0 0) 1
      (instr Opcode.Call [Value.Inst 0 TypeID.DoubleTyID, Value.Global "discrete_heav"]
        TypeID.DoubleTyID)
      (by decide), hs]
    exact h1
  cases hs
  have e6 := h6 (by decide)
  have e7 := h7 (by decide)
  refine ⟨s1, hsucc, h2.trans (by decide), ?_, e6.trans (by decide), h8.trans (by decide),
    h9.trans (by decide)⟩
  rw [h3, e6, e7]
  decide

/-! ## C16: which callee names resolve -/

/-- C16: for a call with two or three operands whose callee name `N` has no prefix
`discrete_`, the name resolves (its entry in the operator name table is not the sentinel
zero) exactly when `N` is one of the names of `math_names`; when the step returns a message
`N` is not one of them, and when `N` is not one of them the step returns the message
`Cannot call the function N`; on a hit the entry minus one is the tag registered under the
name, the step is processed once the operand nodes are bound and the operator tag that it
appends is that tag; the literal names `abs`, `azmul` and `sign` do not resolve. -/
theorem call_resolves_iff (debug : Bool) (s : State) (k : Nat) (I : Instruction) (v : Value)
    (hop : I.opcode = Opcode.Call)
    (hn : I.operands.length = 2 ∨ I.operands.length = 3)
    (hv : callee I = some v)
    (hd : starts_with v.getName "discrete_" = false)
    (hty : debug = true → call_types_ok I) :
    (name2graph_op.lookup v.getName ≠ 0 ↔ v.getName ∈ math_names.map Prod.fst) ∧
    ((∃ msg g, step debug s k I = Except.error (Stop.ret msg g)) →
      v.getName ∉ math_names.map Prod.fst) ∧
    (v.getName ∉ math_names.map Prod.fst →
      step debug s k I = Except.error (Stop.ret (cannot_call_msg v.getName) s.graph_obj)) ∧
    (∀ tag, (v.getName, tag) ∈ math_names →
      1 ≤ name2graph_op.lookup v.getName ∧
      graph_op_cast (name2graph_op.lookup v.getName - 1) = tag ∧
      ((debug = true → ∀ i x, i + 1 < I.operands.length → I.operands[i]? = some x →
          (s.llvm_value2graph_node.insert (I.result k) (s.result_node + 1)).lookup x ≠ 0) →
        ∃ s1, step debug s k I = Except.ok s1) ∧
      ∀ s1, step debug s k I = Except.ok s1 →
        s1.graph_obj.operator_vec = s.graph_obj.operator_vec ++ [tag]) ∧
    name2graph_op.lookup "abs" = 0 ∧ name2graph_op.lookup "azmul" = 0 ∧
    name2graph_op.lookup "sign" = 0 := by
  have h7 : ¬ I.operands.length = 7 := by omega
  have hname := call_name_of_types hn hv hty
  have hstep : step debug s k I = call_math debug s k I v.getName := by
    unfold step
    rw [hop]
    simp only [step_call, bind, Except.bind, hname, if_neg h7, hd]
    rfl
  have hiff : name2graph_op.lookup v.getName ≠ 0 ↔ v.getName ∈ math_names.map Prod.fst := by
    constructor
    · intro hne
      by_contra hnot
      exact hne (DenseMap.lookup_of_none _ _ ((name2graph_op_find? v.getName).2 hnot))
    · intro hmem
      obtain ⟨⟨name, tag⟩, hp, hname2⟩ := List.mem_map.mp hmem
      simp only at hname2
      subst hname2
      obtain ⟨i_op, hf, _⟩ := (name2graph_op_find? v.getName).1 tag hp
      rw [DenseMap.lookup_of_find? _ _ _ hf]
      omega
  refine ⟨hiff, ?_, ?_, ?_, by decide, by decide, by decide⟩
  · rintro ⟨msg, g, hret⟩ hmem
    rw [hstep] at hret
    exact hiff.mpr hmem (call_math_ret hret).1
  · intro hnot
    have hz : name2graph_op.lookup v.getName = 0 := by
      by_contra hne
      exact hnot (hiff.mp hne)
    rw [hstep]
    unfold call_math
    simp only [bind, Except.bind, throw, throwThe, MonadExceptOf.throw, if_pos hz]
    rfl
  · intro tag hp
    obtain ⟨i_op, hf, hcast⟩ := (name2graph_op_find? v.getName).1 tag hp
    have hl := DenseMap.lookup_of_find? _ _ _ hf
    refine ⟨by omega, by rw [hl]; exact hcast, ?_, ?_⟩
    · intro hnodes
      rw [hstep]
      exact call_math_total debug s k I v.getName hn (by omega) hnodes
    · intro s1 h1
      rw [hstep] at h1
      rw [(call_math_effect h1).1, hl]
      simp only [Nat.add_sub_cancel, hcast]

/-- An instance of C16: the call `sin(x)` with `x` bound to node 1 resolves and appends the
operator `sin`. -/
theorem call_resolves_iff_witness :
    name2graph_op.lookup "sin" ≠ 0 ∧
    ∃ s1, step true
        { between_passes true 0 1 1 (init_state "f" 0 1 (empty_graph "" 0 0)) with
          llvm_value2graph_node := [(Value.Inst 0 TypeID.DoubleTyID, 1)] }
        1 (instr Opcode.Call [Value.Inst 0 TypeID.DoubleTyID, Value.Global "sin"]
          TypeID.DoubleTyID) = Except.ok s1 ∧
      s1.graph_obj.operator_vec = [graph_op_enum.sin_graph_op] := by
  obtain ⟨h1, _, _, h4, _⟩ := call_resolves_iff true
    { between_passes true 0 1 1 (init_state "f" 0 1 (empty_graph "" 0 0)) with
      llvm_value2graph_node := [(Value.Inst 0 TypeID.DoubleTyID, 1)] }
    1 (instr Opcode.Call [Value.Inst 0 TypeID.DoubleTyID, Value.Global "sin"]
      TypeID.DoubleTyID)
    (Value.Global "sin") (by decide) (by decide) (by decide) (by decide)
    (fun _ => by unfold call_types_ok; decide)
  obtain ⟨_, _, htotal, hemit⟩ := h4 graph_op_enum.sin_graph_op (by decide)
  obtain ⟨s1, hs1⟩ := htotal (by
    intro _ i x hi hx
    have hi0 : i = 0 := by
      simp only [instr, List.length_cons, List.length_nil] at hi
      omega
    subst hi0
    simp only [instr, List.getElem?_cons_zero, Option.some.injEq] at hx
    subst hx
    decide)
  exact ⟨h1.mpr (by decide), s1, hs1, (hemit s1 hs1).trans (by decide)⟩

/-! ## C17: the dependent list -/

/-- C17: when `to_graph` returns the empty message, the dependent list has one entry for each
of the `n_variable_dep_` slots of the output vector, in slot order, and entry `i` is the node,
which is not zero, of the value operand of the last store in program order whose destination
denotes offset `i` of the output vector: the output pointer itself for offset zero, or the
result of an earlier address computation `(output pointer, i)`.  No argument vector of an
atomic call is the result of an address computation. -/
theorem dependent_last_store (debug : Bool) (ir_obj : llvm_ir) (graph_obj g : cpp_graph)
    (hplain : arg_bases_plain ir_obj.function_ir)
    (h : llvm_ir.to_graph debug ir_obj graph_obj = Except.ok ("", g)) :
    g.dependent_vec.length = ir_obj.n_variable_dep_ ∧
    ∀ i, i < ir_obj.n_variable_dep_ →
      ∃ node, g.dependent_vec[i]? = some node ∧ node ≠ 0 ∧
        last_store debug ir_obj graph_obj output_ptr i ir_obj.function_ir.length node ∧
        ∀ node2,
          last_store debug ir_obj graph_obj output_ptr i ir_obj.function_ir.length node2 →
          node2 = node := by
  obtain ⟨s2, vi, tbl, hs2, hfind, htbl, hlen, hg, hslot⟩ := llvm_ir.to_graph_ok_table h
  have hdep : g.dependent_vec = tbl.take ir_obj.n_variable_dep_ := by rw [hg]
  refine ⟨by rw [hdep, List.length_take]; omega, fun i hi => ?_⟩
  obtain ⟨node, hn, hne⟩ := hslot i hi
  have hcell := llvm_ir.state_at_cell hplain (Nat.le_refl _) hs2 output_ptr vi tbl i hfind
    htbl (by omega)
  rcases hcell with ⟨hz, _⟩ | ⟨node2, hn2, hlast⟩
  · rw [hn] at hz
    cases hz
    exact absurd rfl hne
  · rw [hn] at hn2
    cases hn2
    refine ⟨node, ?_, hne, hlast, fun node2 h2 => last_store_unique h2 hlast⟩
    rw [hdep, List.getElem?_take_of_lt hi]
    exact hn

/-- An instance of C17: in `two_outputs` slot 1 is stored first, with the value `a` of node 1,
and slot 0 is stored twice, last with the value `b` of node 2; the dependent list is
`[2, 1]`, and the node 2 of slot 0 is the node of the last store to it. -/
theorem dependent_last_store_witness :
    llvm_ir.to_graph true two_outputs (empty_graph "" 0 0) =
      Except.ok ("", { empty_graph "f" 0 2 with dependent_vec := [2, 1] }) ∧
    last_store true two_outputs (empty_graph "" 0 0) output_ptr 0 8 2 ∧
    last_store true two_outputs (empty_graph "" 0 0) output_ptr 1 8 1 := by
  have hto : llvm_ir.to_graph true two_outputs (empty_graph "" 0 0) =
      Except.ok ("", { empty_graph "f" 0 2 with dependent_vec := [2, 1] }) := by decide
  have h := (dependent_last_store true two_outputs (empty_graph "" 0 0) _
    (arg_bases_plain_of_enum _ (by decide)) hto).2
  obtain ⟨node0, hn0, _, hl0, _⟩ := h 0 (by decide)
  obtain ⟨node1, hn1, _, hl1, _⟩ := h 1 (by decide)
  simp only [empty_graph, List.getElem?_cons_zero, List.getElem?_cons_succ,
    Option.some.injEq] at hn0 hn1
  subst hn0 hn1
  exact ⟨hto, hl0, hl1⟩

/-! ## C18: the input value of the graph object -/

/-- C18: the input value of `graph_obj` does not matter: for any two graph objects `g1` and
`g2` and the same `llvm_ir` object, `to_graph` gives the same outcome, that is the same
message and the same content of the graph (function name, numbers of independents, constant
pool, operators, operator arguments, name tables and dependent list), or it stops the same
way. -/
theorem to_graph_input_graph (debug : Bool) (ir_obj : llvm_ir) (g1 g2 : cpp_graph) :
    llvm_ir.to_graph debug ir_obj g1 = llvm_ir.to_graph debug ir_obj g2 := by
  have h : init_state ir_obj.function_name_ ir_obj.n_dynamic_ind_ ir_obj.n_variable_ind_ g1 =
      init_state ir_obj.function_name_ ir_obj.n_dynamic_ind_ ir_obj.n_variable_ind_ g2 := rfl
  unfold llvm_ir.to_graph llvm_ir.run llvm_ir.before_pass2
  rw [h]

/-! ## C19: the operator codes of the documentation -/

/-- C19 as stated fails: `FNeg` is not among the operator codes that the documentation lists,
and the function `x = load input; y = -x; store y to output[0]; ret` is translated with the
empty message; and a function can contain an operator code that is not handled without
`to_graph` returning at all, as here where a store through a pointer that comes from an
`alloca` stops the translation before the instruction `fptosi` is reached. -/
theorem fneg_is_translated :
    Opcode.FNeg ∉ documented_opcodes ∧
    llvm_ir.to_graph true
        (ir_of 1
          [ instr Opcode.Load [input_ptr] TypeID.DoubleTyID,
            instr Opcode.FNeg [Value.Inst 0 TypeID.DoubleTyID] TypeID.DoubleTyID,
            instr Opcode.Store [Value.Inst 1 TypeID.DoubleTyID, output_ptr] TypeID.VoidTyID,
            instr Opcode.Ret [Value.ConstantInt 0] TypeID.VoidTyID ]) (empty_graph "" 0 0) =
      Except.ok ("",
        { empty_graph "f" 0 1 with
          operator_vec := [graph_op_enum.neg_graph_op], operator_arg := [1],
          dependent_vec := [2] }) ∧
    llvm_ir.to_graph true
        (ir_of 1
          [ instr Opcode.Load [input_ptr] TypeID.DoubleTyID,
            instr Opcode.Alloca [Value.ConstantInt 1] TypeID.PointerTyID,
            instr Opcode.Store [Value.Inst 0 TypeID.DoubleTyID, Value.Inst 1 TypeID.PointerTyID]
              TypeID.VoidTyID,
            instr (Opcode.Other "fptosi") [Value.Inst 0 TypeID.DoubleTyID]
              TypeID.IntegerTyID ]) (empty_graph "" 0 0) =
      Except.error Stop.assert_fail ∧
    llvm_ir.to_graph false
        (ir_of 1
          [ instr Opcode.Load [input_ptr] TypeID.DoubleTyID,
            instr Opcode.Alloca [Value.ConstantInt 1] TypeID.PointerTyID,
            instr Opcode.Store [Value.Inst 0 TypeID.DoubleTyID, Value.Inst 1 TypeID.PointerTyID]
              TypeID.VoidTyID,
            instr (Opcode.Other "fptosi") [Value.Inst 0 TypeID.DoubleTyID]
              TypeID.IntegerTyID ]) (empty_graph "" 0 0) =
      Except.error Stop.undefined := by
  decide

/-- C19, amended: the supported operator codes are the seventeen cases of the switch
(`supported_opcodes`); whenever `to_graph` returns for a function that contains an
instruction whose operator code is outside this set, the message is not empty; and when the
second pass reaches such an instruction, `to_graph` returns, with the message
`llvm_ir::to_graph: Cannot handle the llvm instruction` followed by the name of the operator
code and with the graph as it stands. -/
theorem to_graph_unsupported (debug : Bool) (ir_obj : llvm_ir) (graph_obj : cpp_graph) :
    (∀ msg g, llvm_ir.to_graph debug ir_obj graph_obj = Except.ok (msg, g) →
      (∃ I ∈ ir_obj.function_ir, I.opcode ∉ supported_opcodes) → msg ≠ "") ∧
    (∀ k I s, ir_obj.function_ir[k]? = some I → I.opcode ∉ supported_opcodes →
      llvm_ir.state_at debug ir_obj graph_obj k = Except.ok s →
      ∃ op_name, I.opcode = Opcode.Other op_name ∧
        llvm_ir.to_graph debug ir_obj graph_obj =
          Except.ok (unsupported_msg op_name, s.graph_obj) ∧
        unsupported_msg op_name ≠ "") := by
  constructor
  · rintro msg g h ⟨I, hI, hnot⟩ hmsg
    subst hmsg
    have hrun : llvm_ir.run debug ir_obj graph_obj = Except.ok g := by
      unfold llvm_ir.to_graph at h
      cases hr : llvm_ir.run debug ir_obj graph_obj with
      | ok g1 =>
        rw [hr] at h
        cases h
        rfl
      | error e =>
        rw [hr] at h
        cases e with
        | ret m gx =>
          cases h
          exact absurd rfl (llvm_ir.run_ret_ne_empty hr)
        | assert_fail => cases h
        | undefined => cases h
        | out_of_range => cases h
    rw [llvm_ir.run_eq] at hrun
    cases hs : llvm_ir.state_at debug ir_obj graph_obj ir_obj.function_ir.length with
    | error e =>
      rw [hs] at hrun
      cases hrun
    | ok s2 =>
      exact hnot ((llvm_ir.state_at_length_conds hs).1 I hI)
  · intro k I s hI hnot hs
    obtain ⟨op_name, hop⟩ := (opcode_not_supported_iff I.opcode).mp hnot
    have hstep : step debug s k I =
        Except.error (Stop.ret (unsupported_msg op_name) s.graph_obj) := by
      unfold step
      rw [hop]
      rfl
    refine ⟨op_name, hop, ?_, unsupported_msg_ne_empty op_name⟩
    unfold llvm_ir.to_graph
    rw [llvm_ir.run_of_step_error hI hs hstep]

/-- An instance of the amended C19, scenario 6 of the specification: a function whose second
instruction has the operator code `fptosi`. -/
theorem to_graph_unsupported_witness :
    llvm_ir.to_graph true
        (ir_of 1
          [ instr Opcode.Load [input_ptr] TypeID.DoubleTyID,
            instr (Opcode.Other "fptosi") [Value.Inst 0 TypeID.DoubleTyID]
              TypeID.IntegerTyID ]) (empty_graph "" 0 0) =
      Except.ok ("llvm_ir::to_graph: Cannot handle the llvm instruction fptosi",
        empty_graph "f" 0 1) := by
  obtain ⟨s, hs⟩ : ∃ s, llvm_ir.state_at true
      (ir_of 1
        [ instr Opcode.Load [input_ptr] TypeID.DoubleTyID,
          instr (Opcode.Other "fptosi") [Value.Inst 0 TypeID.DoubleTyID]
            TypeID.IntegerTyID ]) (empty_graph "" 0 0) 1 = Except.ok s := ⟨_, rfl⟩
  obtain ⟨op_name, hop, hto, _⟩ := (to_graph_unsupported true
    (ir_of 1
      [ instr Opcode.Load [input_ptr] TypeID.DoubleTyID,
        instr (Opcode.Other "fptosi") [Value.Inst 0 TypeID.DoubleTyID]
          TypeID.IntegerTyID ]) (empty_graph "" 0 0)).2 1
    (instr (Opcode.Other "fptosi") [Value.Inst 0 TypeID.DoubleTyID] TypeID.IntegerTyID)
    s (by decide) (by decide) hs
  cases hop
  cases hs
  exact hto

/-! ## C20: a boolean combine allocates no node -/

/-- C20: when the second pass processes a `ZExt` or an `Or`, the node counter, the nodes of
values, the nodes of pointers and the scattered tables are what they were before, so the
step allocates no node; and in no state that the second pass reaches is the result of the
instruction bound to a node, so no node denotes the output of a comparison operator that the
step emits and no argument of a later operator can be such a node. -/
theorem combine_allocates_no_node (debug : Bool) (ir_obj : llvm_ir) (graph_obj : cpp_graph)
    (k : Nat) (I : Instruction) (s s1 : State)
    (hI : ir_obj.function_ir[k]? = some I)
    (hop : I.opcode = Opcode.ZExt ∨ I.opcode = Opcode.Or)
    (hstep : step debug s k I = Except.ok s1) :
    s1.result_node = s.result_node ∧
    s1.llvm_value2graph_node = s.llvm_value2graph_node ∧
    s1.llvm_ptr2graph_node = s.llvm_ptr2graph_node ∧
    s1.llvm_base2first_node = s.llvm_base2first_node ∧
    s1.vec_index2node = s.vec_index2node ∧
    ∀ k2 s2, k2 ≤ ir_obj.function_ir.length →
      llvm_ir.state_at debug ir_obj graph_obj k2 = Except.ok s2 →
      DenseMap.find? s2.llvm_value2graph_node (I.result k) = none := by
  have hframe : s1 = { s with graph_obj := s1.graph_obj, count_zext := s1.count_zext } := by
    unfold step at hstep
    rcases hop with h | h
    · rw [h] at hstep
      exact (step_zext_frame hstep).1
    · rw [h] at hstep
      have h2 := (step_or_frame hstep).1
      rw [h2]
  refine ⟨by rw [hframe], by rw [hframe], by rw [hframe], by rw [hframe], by rw [hframe], ?_⟩
  intro k2 s2 hk2 hs2
  cases hf : DenseMap.find? s2.llvm_value2graph_node (I.result k) with
  | none => rfl
  | some node =>
    obtain ⟨J, hJ, _, hz, ho, _⟩ := llvm_ir.state_at_value_keys_op hk2 hs2 k I.type_id node hf
    rw [hI] at hJ
    cases hJ
    rcases hop with h | h
    · exact absurd h hz
    · exact absurd h ho

/-- An instance of C20: the `ZExt` at position 4 of `combine_program` leaves the node counter
and the nodes of values as they are, and at the end of the second pass its result is not
bound. -/
theorem combine_allocates_no_node_witness :
    (llvm_ir.state_at true (ir_of 2 combine_program) (empty_graph "" 0 0) 5).map
        (fun s => (s.result_node, s.llvm_value2graph_node)) =
      (llvm_ir.state_at true (ir_of 2 combine_program) (empty_graph "" 0 0) 4).map
        (fun s => (s.result_node, s.llvm_value2graph_node)) ∧
    (llvm_ir.state_at true (ir_of 2 combine_program) (empty_graph "" 0 0) 7).map
        (fun s => DenseMap.find? s.llvm_value2graph_node (Value.Inst 4 TypeID.IntegerTyID)) =
      Except.ok none := by
  obtain ⟨s, hs⟩ : ∃ s, llvm_ir.state_at true (ir_of 2 combine_program) (empty_graph "" 0 0) 4
      = Except.ok s := ⟨_, rfl⟩
  obtain ⟨s1, hstep⟩ : ∃ s1, step true s 4
      (instr Opcode.ZExt [Value.Inst 3 TypeID.IntegerTyID] TypeID.IntegerTyID)
      = Except.ok s1 := by
    cases hs
    exact ⟨_, rfl⟩
  obtain ⟨s2, hs2⟩ : ∃ s2, llvm_ir.state_at true (ir_of 2 combine_program)
      (empty_graph "" 0 0) 7 = Except.ok s2 := ⟨_, rfl⟩
  obtain ⟨h1, h2, _, _, _, h6⟩ := combine_allocates_no_node true (ir_of 2 combine_program)
    (empty_graph "" 0 0) 4
    (instr Opcode.ZExt [Value.Inst 3 TypeID.IntegerTyID] TypeID.IntegerTyID) s s1
    (by decide) (Or.inl (by decide)) hstep
  have h5 : llvm_ir.state_at true (ir_of 2 combine_program) (empty_graph "" 0 0) 5
      = Except.ok s1 := by
    rw [llvm_ir.state_at_succ true (ir_of 2 combine_program) (empty_graph "" 0 0) 4
      (instr Opcode.ZExt [Value.Inst 3 TypeID.IntegerTyID] TypeID.IntegerTyID)
      (by decide), hs]
    exact hstep
  constructor
  · rw [h5, hs]
    show Except.ok (s1.result_node, s1.llvm_value2graph_node) = _
    rw [h1, h2]
    rfl
  · rw [hs2]
    exact congrArg Except.ok (h6 7 s2 (by decide) hs2)


/-! ## C21: the two layouts of a base pointer -/

/-- C21 fails: in the program `input_as_argument` the atomic call names the input pointer as
its argument base, and the input pointer is registered in both layouts from the start of the
second pass on; in the program `argument_as_result` the atomic call at position three names
the pointer `%1` as argument base and as result base, and `%1` is registered in both layouts
after the call.  Both translations return the empty message in the debug build. -/
theorem base_in_both_layouts :
    (llvm_ir.state_at true (ir_of 1 input_as_argument) (empty_graph "" 0 0) 0).map
        (fun s => in_both_layouts s input_ptr) = Except.ok true ∧
    (llvm_ir.to_graph true (ir_of 1 input_as_argument) (empty_graph "" 0 0)).map
        (fun r => r.1) = Except.ok "" ∧
    (llvm_ir.state_at true (ir_of 1 argument_as_result) (empty_graph "" 0 0) 4).map
        (fun s => in_both_layouts s (Value.Inst 1 TypeID.PointerTyID)) = Except.ok true ∧
    (llvm_ir.to_graph true (ir_of 1 argument_as_result) (empty_graph "" 0 0)).map
        (fun r => r.1) = Except.ok "" := by
  decide

/-- C21, amended: when no atomic call of the function names the input pointer or the result
base of an atomic call as its argument base, and none names the output pointer as its result
base, then at every position of the second pass no pointer is registered in both layouts;
and during the first pass, in every function, the contiguous map is empty. -/
theorem layouts_exclusive (debug : Bool) (ir_obj : llvm_ir) (graph_obj : cpp_graph) (k : Nat)
    (s : State) (hsep : bases_separate ir_obj.function_ir)
    (hk : k ≤ ir_obj.function_ir.length)
    (hs : llvm_ir.state_at debug ir_obj graph_obj k = Except.ok s) :
    (∀ base, in_both_layouts s base = false) ∧
      ∀ (F1 : List Instruction) (s1 : State),
        pass1 debug ir_obj.n_dynamic_ind_ ir_obj.n_variable_ind_
          (init_state ir_obj.function_name_ ir_obj.n_dynamic_ind_ ir_obj.n_variable_ind_
            graph_obj) F1 = Except.ok s1 →
        s1.llvm_base2first_node = [] := by
  constructor
  · intro base
    by_contra hboth
    have hb : in_both_layouts s base = true := by
      cases h : in_both_layouts s base
      · exact absurd h hboth
      · rfl
    simp only [in_both_layouts, Bool.and_eq_true, Option.isSome_iff_exists] at hb
    obtain ⟨⟨vi, hvi⟩, ⟨first, hfirst⟩⟩ := hb
    obtain ⟨_, _, _, _, hlen, _⟩ := llvm_ir.state_at_scattered hk hs
    obtain ⟨tbl, _, hsc⟩ := hlen base vi hvi
    have hkeys := llvm_ir.state_at_first_node_keys hk hs base first hfirst
    rcases hsc with ⟨C, hC, hop, h7, h1, _⟩ | ⟨hout, _, _⟩
    · obtain ⟨hin, _, hres⟩ := hsep C hC hop h7
      rcases hkeys with rfl | ⟨j, C2, _, hC2, hop2, h72, h3⟩
      · exact hin h1
      · exact hres C2 (List.getElem?_mem hC2) hop2 h72 (h1.trans h3.symm)
    · rcases hkeys with rfl | ⟨j, C2, _, hC2, hop2, h72, h3⟩
      · revert hout
        decide
      · obtain ⟨_, hno, _⟩ := hsep C2 (List.getElem?_mem hC2) hop2 h72
        rw [hout] at h3
        exact hno h3
  · intro F1 s1 h1
    obtain ⟨hframe, _⟩ := pass1_effect h1
    exact hframe.2.1

/-- C21, amended, on the program `atomic_program`, whose atomic call has an argument vector
and a result vector of its own. -/
theorem layouts_exclusive_witness :
    ∃ s, llvm_ir.state_at true (ir_of 2 atomic_program) (empty_graph "" 0 0) 12 = Except.ok s ∧
      ∀ base, in_both_layouts s base = false := by
  obtain ⟨s, hs⟩ : ∃ s, llvm_ir.state_at true (ir_of 2 atomic_program) (empty_graph "" 0 0) 12
      = Except.ok s := ⟨_, rfl⟩
  have hsep : bases_separate (ir_of 2 atomic_program).function_ir := by
    unfold bases_separate
    decide
  exact ⟨s, hs, (layouts_exclusive true (ir_of 2 atomic_program) (empty_graph "" 0 0) 12 s
    hsep (by decide) hs).1⟩

/-! ## C22: a recorded compare is never consumed -/

/-- C22 fails: in the program `compare_twice` the compare `c = (a < b)` at position three
feeds the select at position four and the boolean combine at position five.  The translation
returns the empty message with the two operators `cexp_lt` and `comp_le`, both for this one
compare, and the record of `c` is still found after both uses. -/
theorem compare_used_twice :
    (llvm_ir.to_graph true (ir_of 2 compare_twice) (empty_graph "" 0 0)).map
        (fun r => (r.1, r.2.operator_vec, r.2.operator_arg)) =
      Except.ok ("", [graph_op_enum.cexp_lt_graph_op, graph_op_enum.comp_le_graph_op],
        [1, 2, 1, 2, 2, 1]) ∧
    (llvm_ir.state_at true (ir_of 2 compare_twice) (empty_graph "" 0 0) 6).map
        (fun s => DenseMap.find? s.llvm_compare2info (Value.Inst 3 TypeID.IntegerTyID)) =
      Except.ok (some
        { pred := Predicate.FCMP_OLT, left := some (Value.Inst 0 TypeID.DoubleTyID),
          right := some (Value.Inst 2 TypeID.DoubleTyID) }) := by
  decide

theorem count_le_recorded (s : State) (c : Value) (operands : List Value)
    (hc : (s.llvm_compare2info.lookup c).left ≠ none) :
    operands.count c ≤ (recorded_compares s operands).length := by
  induction operands with
  | nil => simp
  | cons v rest ih =>
    by_cases hv : v = c
    · subst hv
      have : recorded_compares s (v :: rest) =
          s.llvm_compare2info.lookup v :: recorded_compares s rest := by
        simp [recorded_compares, hc]
      rw [this, List.count_cons_self, List.length_cons]
      omega
    · have hle : (recorded_compares s rest).length ≤
          (recorded_compares s (v :: rest)).length := by
        unfold recorded_compares
        rw [List.map_cons, List.filter_cons]
        split
        · simp
        · exact Nat.le_refl _
      rw [List.count_cons_of_ne (Ne.symm hv)]
      exact Nat.le_trans ih hle

/-- C22, amended: a recorded compare is never consumed.  Once the second pass has processed
the comparison instruction `J` at position `j`, the record of its handle `c` is found at
every later position `k`, with the predicate and the operands of `J`; and every later
instruction that names `c` finds it again: a boolean combine appends one comparison operator
for each of its operands that is a recorded compare, so at least one for each occurrence of
`c`, and a select of float values with the condition `c` appends the conditional-expression
operator of the predicate of `J`.  So a comparison instruction contributes one operator for
each of its uses. -/
theorem compare_never_consumed (debug : Bool) (ir_obj : llvm_ir) (graph_obj : cpp_graph)
    (j k : Nat) (J : Instruction) (s : State) (hjk : j < k)
    (hk : k ≤ ir_obj.function_ir.length)
    (hs : llvm_ir.state_at debug ir_obj graph_obj k = Except.ok s)
    (hJ : ir_obj.function_ir[j]? = some J)
    (hop : J.opcode = Opcode.FCmp ∨ J.opcode = Opcode.ICmp) :
    ∃ left right, J.operands[0]? = some left ∧ J.operands[1]? = some right ∧
      DenseMap.find? s.llvm_compare2info (J.result j) =
        some { pred := J.predicate, left := some left, right := some right } ∧
      ∀ I s1, step debug s k I = Except.ok s1 →
        ((I.opcode = Opcode.ZExt ∨ I.opcode = Opcode.Or) →
          s1.graph_obj.operator_vec.length =
            s.graph_obj.operator_vec.length + (recorded_compares s I.operands).length ∧
          I.operands.count (J.result j) ≤ (recorded_compares s I.operands).length) ∧
        (I.opcode = Opcode.Select → I.operands[0]? = some (J.result j) →
          I.operands[1]?.map get_type_id = some TypeID.DoubleTyID →
          s1.graph_obj.operator_vec =
            s.graph_obj.operator_vec ++ [(select_op_enum J.predicate).1]) := by
  obtain ⟨left, right, h0, h1, hrec, _⟩ :=
    llvm_ir.state_at_compare_recorded hjk hk hs hJ hop
  have hlook := DenseMap.lookup_of_find? _ _ _ hrec
  refine ⟨left, right, h0, h1, hrec, ?_⟩
  intro I s1 hstep
  have hg := step_emission hstep
  constructor
  · intro hI
    constructor
    · rw [hg]
      rcases hI with hI | hI <;> simp [emission, hI]
    · exact count_le_recorded s _ _ (by rw [hlook]; simp)
  · intro hI hc hty
    rw [hg]
    simp [emission, select_compare, hI, hc, hty, hlook]

/-- C22, amended, on the program `compare_twice`: at the boolean combine at position five the
record of the compare at position three is found, although the select at position four has
used it. -/
theorem compare_never_consumed_witness :
    ∃ s, llvm_ir.state_at true (ir_of 2 compare_twice) (empty_graph "" 0 0) 5 = Except.ok s ∧
      DenseMap.find? s.llvm_compare2info (Value.Inst 3 TypeID.IntegerTyID) =
        some
          { pred := Predicate.FCMP_OLT, left := some (Value.Inst 0 TypeID.DoubleTyID),
            right := some (Value.Inst 2 TypeID.DoubleTyID) } := by
  obtain ⟨s, hs⟩ : ∃ s, llvm_ir.state_at true (ir_of 2 compare_twice) (empty_graph "" 0 0) 5
      = Except.ok s := ⟨_, rfl⟩
  obtain ⟨left, right, h0, h1, hrec, _⟩ := compare_never_consumed true (ir_of 2 compare_twice)
    (empty_graph "" 0 0) 3 5
    (instr_cmp Opcode.FCmp Predicate.FCMP_OLT (Value.Inst 0 TypeID.DoubleTyID)
      (Value.Inst 2 TypeID.DoubleTyID)) s (by decide) (by decide) hs (by decide)
    (Or.inl rfl)
  have e0 : left = Value.Inst 0 TypeID.DoubleTyID := by
    simp only [instr_cmp, List.getElem?_cons_zero, Option.some.injEq] at h0
    exact h0.symm
  have e1 : right = Value.Inst 2 TypeID.DoubleTyID := by
    simp only [instr_cmp, List.getElem?_cons_succ, List.getElem?_cons_zero,
      Option.some.injEq] at h1
    exact h1.symm
  subst e0 e1
  exact ⟨s, hs, hrec⟩

/-! ## C23: the graph content is append-only -/

/-- C23: between two positions `j ≤ k` of the second pass the constant pool, the operator
list, the operator arguments and the two name tables at `j` are prefixes of those at `k`, the
constant pool is the same, and the dependent list is empty.  Step by step: a step of the
first pass appends to the constant pool and changes nothing else in the graph; a step of the
second pass appends to the operator list, the operator arguments and the name tables, and
leaves the constant pool and the dependent list as they are; a step that returns a message
returns the graph as it was; and the finalizer changes the dependent list only. -/
theorem graph_append_only (debug : Bool) (ir_obj : llvm_ir) (graph_obj : cpp_graph)
    (j k : Nat) (sj sk : State) (hjk : j ≤ k) (hk : k ≤ ir_obj.function_ir.length)
    (hj : llvm_ir.state_at debug ir_obj graph_obj j = Except.ok sj)
    (hsk : llvm_ir.state_at debug ir_obj graph_obj k = Except.ok sk) :
    graph_extends sj.graph_obj sk.graph_obj ∧
      sk.graph_obj.constant_vec = sj.graph_obj.constant_vec ∧
      sk.graph_obj.dependent_vec = [] ∧
      (∀ D V s I s1, pass1_step debug D V s I = Except.ok s1 →
        graph_extends s.graph_obj s1.graph_obj ∧
        s1.graph_obj = { s.graph_obj with constant_vec := s1.graph_obj.constant_vec }) ∧
      (∀ s n I s1, step debug s n I = Except.ok s1 →
        graph_extends s.graph_obj s1.graph_obj ∧
        s1.graph_obj.constant_vec = s.graph_obj.constant_vec) ∧
      (∀ s n I msg g, step debug s n I = Except.error (Stop.ret msg g) → g = s.graph_obj) ∧
      (∀ n_dep g, finalize debug n_dep sk = Except.ok g →
        g = { sk.graph_obj with dependent_vec := g.dependent_vec }) := by
  obtain ⟨h1, h2⟩ := llvm_ir.state_at_extends hjk hk hj hsk
  refine ⟨h1, h2, (llvm_ir.state_at_effect hsk).2.2.2.1, ?_, ?_, ?_, ?_⟩
  · intro D V s I s1 h
    exact pass1_step_extends h
  · intro s n I s1 h
    exact step_extends h
  · intro s n I msg g h
    exact (step_ret_cases h).1
  · intro n_dep g h
    obtain ⟨_, index2node, _, hg⟩ := finalize_ok h
    rw [hg]

/-- C23 on the program `select_program`, between the position of its select and its end. -/
theorem graph_append_only_witness :
    ∃ sj sk,
      llvm_ir.state_at true (ir_of 2 select_program) (empty_graph "" 0 0) 4 = Except.ok sj ∧
      llvm_ir.state_at true (ir_of 2 select_program) (empty_graph "" 0 0) 7 = Except.ok sk ∧
      graph_extends sj.graph_obj sk.graph_obj ∧
      sk.graph_obj.constant_vec = sj.graph_obj.constant_vec ∧
      sk.graph_obj.dependent_vec = [] := by
  obtain ⟨sj, hj⟩ : ∃ s, llvm_ir.state_at true (ir_of 2 select_program) (empty_graph "" 0 0) 4
      = Except.ok s := ⟨_, rfl⟩
  obtain ⟨sk, hsk⟩ : ∃ s, llvm_ir.state_at true (ir_of 2 select_program) (empty_graph "" 0 0) 7
      = Except.ok s := ⟨_, rfl⟩
  obtain ⟨h1, h2, h3, _⟩ := graph_append_only true (ir_of 2 select_program)
    (empty_graph "" 0 0) 4 7 sj sk (by decide) (by decide) hj hsk
  exact ⟨sj, sk, hj, hsk, h1, h2, h3⟩

/-! ## C24: graph-neutral instructions -/

/-- C24: a step of the second pass for an `Alloca`, `Br`, `Ret`, `Load`, `GetElementPtr`,
`FCmp`, `ICmp` or `Store` instruction, or for a `Select` whose value operand is not of float
type, leaves the whole graph object (operator list, operator arguments, both name tables,
constant pool) and the node counter unchanged; a store whose destination is the message
pointer leaves the whole state, and so every side table, unchanged; and so does a `Select` of
values that are not float, an `Alloca`, a `Br` and a `Ret`. -/
theorem step_graph_neutral (debug : Bool) (s s1 : State) (k : Nat) (I : Instruction)
    (hI : graph_neutral I) (h : step debug s k I = Except.ok s1) :
    s1.graph_obj = s.graph_obj ∧ s1.result_node = s.result_node ∧
      (I.opcode = Opcode.Store → I.operands[1]? = some msg_ptr → s1 = s) ∧
      (I.opcode ∈ [Opcode.Alloca, Opcode.Br, Opcode.Ret, Opcode.Select] → s1 = s) := by
  unfold step at h
  split at h
  case h_17 =>
    have hop := ‹I.opcode = Opcode.Store›
    rcases step_store_effect h with ⟨rfl, _⟩ | ⟨operand0, operand1, vec, _, h1, hne, _, _, rfl⟩
    · exact ⟨rfl, rfl, fun _ _ => rfl, fun _ => rfl⟩
    · refine ⟨rfl, rfl, fun _ hm => ?_, fun hmem => ?_⟩
      · rw [h1] at hm
        exact absurd (Option.some.inj hm) hne
      · rw [hop] at hmem
        simp at hmem
  case h_16 =>
    have hop := ‹I.opcode = Opcode.Select›
    have hty : I.operands[1]?.map get_type_id ≠ some TypeID.DoubleTyID := by
      rcases hI with hI | ⟨_, hI⟩
      · rw [hop] at hI
        simp at hI
      · exact hI
    unfold step_select at h
    simp only [bind, Except.bind, pure, Except.pure] at h
    repeat' split at h
    all_goals first
      | (cases h
         refine ⟨rfl, rfl, fun hst => ?_, fun _ => rfl⟩
         rw [hop] at hst
         cases hst)
      | (exfalso
         have h1 := ‹vec_get debug I.operands 1 = Except.ok _›
         rw [vec_get_ok_iff] at h1
         rw [h1] at hty
         exact hty (by simpa using ‹get_type_id _ = TypeID.DoubleTyID›))
      | cases h
  all_goals
    have hop := ‹I.opcode = _›
    first
    | (exfalso
       rcases hI with hI | ⟨hI, _⟩
       · rw [hop] at hI
         simp at hI
       · rw [hop] at hI
         cases hI)
    | (simp only [step_load, step_br, step_fcmp, step_cmp, step_gep, step_icmp, step_ret,
         bind, Except.bind, pure, Except.pure, throw, throwThe, MonadExceptOf.throw] at h
       repeat' split at h
       all_goals first
         | (cases h
            refine ⟨rfl, rfl, fun hst => ?_, fun hmem => ?_⟩
            · rw [hop] at hst
              cases hst
            · first
              | rfl
              | (rw [hop] at hmem
                 simp at hmem))
         | cases h)

/-- C24 at the step of the program `select_program` for its compare `%3 = fcmp olt %0, %2`:
the graph object and the node counter at position four are those at position three. -/
theorem step_graph_neutral_witness :
    (llvm_ir.state_at true (ir_of 2 select_program) (empty_graph "" 0 0) 4).map
        (fun s => (s.graph_obj, s.result_node)) =
      (llvm_ir.state_at true (ir_of 2 select_program) (empty_graph "" 0 0) 3).map
        (fun s => (s.graph_obj, s.result_node)) := by
  obtain ⟨s, hs⟩ : ∃ s, llvm_ir.state_at true (ir_of 2 select_program) (empty_graph "" 0 0) 3
      = Except.ok s := ⟨_, rfl⟩
  obtain ⟨s1, hs1⟩ : ∃ s1, llvm_ir.state_at true (ir_of 2 select_program)
      (empty_graph "" 0 0) 4 = Except.ok s1 := ⟨_, rfl⟩
  have hstep : step true s 3
      (instr_cmp Opcode.FCmp Predicate.FCMP_OLT (Value.Inst 0 TypeID.DoubleTyID)
        (Value.Inst 2 TypeID.DoubleTyID)) = Except.ok s1 := by
    have h := llvm_ir.state_at_succ true (ir_of 2 select_program) (empty_graph "" 0 0) 3
      (instr_cmp Opcode.FCmp Predicate.FCMP_OLT (Value.Inst 0 TypeID.DoubleTyID)
        (Value.Inst 2 TypeID.DoubleTyID)) (by decide)
    rw [hs, hs1] at h
    exact h.symm
  obtain ⟨h1, h2, _, _⟩ := step_graph_neutral true s s1 3
    (instr_cmp Opcode.FCmp Predicate.FCMP_OLT (Value.Inst 0 TypeID.DoubleTyID)
      (Value.Inst 2 TypeID.DoubleTyID)) (Or.inl (by decide)) hstep
  rw [hs, hs1]
  show Except.ok (s1.graph_obj, s1.result_node) = Except.ok (s.graph_obj, s.result_node)
  rw [h1, h2]

/-! ## C25: the name tables hold every name once, in the order of first use -/

/-- C25: at every position `k` of the second pass the atomic name table and the discrete name
table contain no string twice and list the prefix-stripped callee names of the atomic calls
and of the discrete calls before `k` in the order of their first occurrence.  The step for an
atomic call or a discrete call at `k` appends the stripped name `N` of its callee to the
table of its kind exactly when `N` is not in the table yet, and the first operator argument
that it appends is the only index `i` at which the table then holds `N`. -/
theorem name_tables_first_seen (debug : Bool) (ir_obj : llvm_ir) (graph_obj : cpp_graph)
    (k : Nat) (s : State) (hk : k ≤ ir_obj.function_ir.length)
    (hs : llvm_ir.state_at debug ir_obj graph_obj k = Except.ok s) :
    s.graph_obj.atomic_name_vec.Nodup ∧ s.graph_obj.discrete_name_vec.Nodup ∧
      s.graph_obj.atomic_name_vec =
        first_seen (atomic_call_names (ir_obj.function_ir.take k)) ∧
      s.graph_obj.discrete_name_vec =
        first_seen (discrete_call_names (ir_obj.function_ir.take k)) ∧
      ∀ I s1, ir_obj.function_ir[k]? = some I → step debug s k I = Except.ok s1 →
        I.opcode = Opcode.Call →
        (I.operands.length = 7 →
          s1.graph_obj.atomic_name_vec =
            (if substr_from (callee_name I) 7 ∈ s.graph_obj.atomic_name_vec then
              s.graph_obj.atomic_name_vec
            else s.graph_obj.atomic_name_vec ++ [substr_from (callee_name I) 7]) ∧
          s1.graph_obj.discrete_name_vec = s.graph_obj.discrete_name_vec ∧
          ∃ i, s1.graph_obj.operator_arg[s.graph_obj.operator_arg.length]? = some i ∧
            s1.graph_obj.atomic_name_vec[i]? = some (substr_from (callee_name I) 7) ∧
            ∀ i2, s1.graph_obj.atomic_name_vec[i2]? = some (substr_from (callee_name I) 7) →
              i2 = i) ∧
        (I.operands.length ≠ 7 → starts_with (callee_name I) "discrete_" = true →
          s1.graph_obj.discrete_name_vec =
            (if substr_from (callee_name I) 9 ∈ s.graph_obj.discrete_name_vec then
              s.graph_obj.discrete_name_vec
            else s.graph_obj.discrete_name_vec ++ [substr_from (callee_name I) 9]) ∧
          s1.graph_obj.atomic_name_vec = s.graph_obj.atomic_name_vec ∧
          ∃ i, s1.graph_obj.operator_arg[s.graph_obj.operator_arg.length]? = some i ∧
            s1.graph_obj.discrete_name_vec[i]? = some (substr_from (callee_name I) 9) ∧
            ∀ i2, s1.graph_obj.discrete_name_vec[i2]? = some (substr_from (callee_name I) 9) →
              i2 = i) := by
  obtain ⟨h1, h2⟩ := llvm_ir.state_at_names hk hs
  have hnd1 : s.graph_obj.atomic_name_vec.Nodup := by
    rw [h1]
    exact nodup_first_seen _
  have hnd2 : s.graph_obj.discrete_name_vec.Nodup := by
    rw [h2]
    exact nodup_first_seen _
  refine ⟨hnd1, hnd2, h1, h2, ?_⟩
  intro I s1 hI hstep hop
  have hg := step_emission hstep
  constructor
  · intro h7
    have hatom : s1.graph_obj.atomic_name_vec =
        name_vec_update s.graph_obj.atomic_name_vec
          (name_index s.graph_obj.atomic_name_vec (substr_from (callee_name I) 7))
          (substr_from (callee_name I) 7) := by
      rw [hg]
      simp [hop, h7]
    have hdisc : s1.graph_obj.discrete_name_vec = s.graph_obj.discrete_name_vec := by
      rw [hg]
      simp [hop, h7]
    have harg : s1.graph_obj.operator_arg[s.graph_obj.operator_arg.length]? =
        some (name_index s.graph_obj.atomic_name_vec (substr_from (callee_name I) 7)) := by
      have hem : (emission s k I).2 =
          name_index s.graph_obj.atomic_name_vec (substr_from (callee_name I) 7) ::
            ([operand_constant I 2, operand_constant I 0] ++
              (argument_table s I).take (operand_constant I 0)) := by
        simp [emission, hop, h7]
      rw [hg]
      show (s.graph_obj.operator_arg ++ (emission s k I).2)[_]? = _
      rw [hem]
      exact getElem?_append_length _ _ _
    refine ⟨?_, hdisc, _, harg, ?_, ?_⟩
    · rw [hatom, name_vec_update_eq]
    · rw [hatom]
      exact (name_vec_update_spec _ _).1
    · intro i2 hi2
      refine nodup_index_unique _ ?_ _ _ _ hi2 ?_
      · rw [hatom]
        exact name_vec_update_nodup _ _ hnd1
      · rw [hatom]
        exact (name_vec_update_spec _ _).1
  · intro h7 hd
    have hdisc : s1.graph_obj.discrete_name_vec =
        name_vec_update s.graph_obj.discrete_name_vec
          (name_index s.graph_obj.discrete_name_vec (substr_from (callee_name I) 9))
          (substr_from (callee_name I) 9) := by
      rw [hg]
      simp [hop, h7, hd]
    have hatom : s1.graph_obj.atomic_name_vec = s.graph_obj.atomic_name_vec := by
      rw [hg]
      simp [hop, h7]
    have harg : s1.graph_obj.operator_arg[s.graph_obj.operator_arg.length]? =
        some (name_index s.graph_obj.discrete_name_vec (substr_from (callee_name I) 9)) := by
      have hem : (emission s k I).2 =
          name_index s.graph_obj.discrete_name_vec (substr_from (callee_name I) 9) ::
            [operand_node (s.llvm_value2graph_node.insert (I.result k) (s.result_node + 1))
              I 0] := by
        simp [emission, hop, h7, hd]
      rw [hg]
      show (s.graph_obj.operator_arg ++ (emission s k I).2)[_]? = _
      rw [hem]
      exact getElem?_append_length _ _ _
    refine ⟨?_, hatom, _, harg, ?_, ?_⟩
    · rw [hdisc, name_vec_update_eq]
    · rw [hdisc]
      exact (name_vec_update_spec _ _).1
    · intro i2 hi2
      refine nodup_index_unique _ ?_ _ _ _ hi2 ?_
      · rw [hdisc]
        exact name_vec_update_nodup _ _ hnd2
      · rw [hdisc]
        exact (name_vec_update_spec _ _).1

/-- C25 on the program `atomic_twice`, which calls the atomic function `foo` twice: at its end
the atomic name table is `["foo"]`. -/
theorem name_tables_first_seen_witness :
    ∃ s, llvm_ir.state_at true (ir_of 1 atomic_twice) (empty_graph "" 0 0) 11 = Except.ok s ∧
      s.graph_obj.atomic_name_vec.Nodup ∧
      s.graph_obj.atomic_name_vec = first_seen (atomic_call_names (atomic_twice.take 11)) ∧
      first_seen (atomic_call_names (atomic_twice.take 11)) = ["foo"] := by
  obtain ⟨s, hs⟩ : ∃ s, llvm_ir.state_at true (ir_of 1 atomic_twice) (empty_graph "" 0 0) 11
      = Except.ok s := ⟨_, rfl⟩
  obtain ⟨h1, _, h3, _⟩ := name_tables_first_seen true (ir_of 1 atomic_twice)
    (empty_graph "" 0 0) 11 s (by decide) hs
  exact ⟨s, hs, h1, h3, by decide⟩

/-! ## C26: the second pass fails fast -/

/-- C26: let the second pass reach the instruction `I` at position `k` in the state `s` (so
that every instruction before `k` was processed without failure) and let the step for `I`
return a message.  Then `to_graph` returns this message together with the graph of `s`: no
operator of `I` or of a later instruction is appended, and the dependent list is empty.  The
message names the operator code of `I` or the callee of `I`, and it is the message that the
step for `I` returns in any state, at any position and in either build.  Moreover, `to_graph`
returns a message about a missing store only when the second pass has processed every
instruction without failure. -/
theorem to_graph_fail_fast (debug : Bool) (ir_obj : llvm_ir) (graph_obj : cpp_graph) :
    (∀ k I s msg gk, ir_obj.function_ir[k]? = some I →
      llvm_ir.state_at debug ir_obj graph_obj k = Except.ok s →
      step debug s k I = Except.error (Stop.ret msg gk) →
      llvm_ir.to_graph debug ir_obj graph_obj = Except.ok (msg, s.graph_obj) ∧
      ((∃ op_name, I.opcode = Opcode.Other op_name ∧ msg = unsupported_msg op_name) ∨
        (I.opcode = Opcode.Call ∧ msg = cannot_call_msg (callee_name I))) ∧
      (∀ debug2 s2 k2 msg2 g2, step debug2 s2 k2 I = Except.error (Stop.ret msg2 g2) →
        msg2 = msg) ∧
      s.graph_obj.dependent_vec = [] ∧
      (∀ j, j < k → ∃ J sj sj1, ir_obj.function_ir[j]? = some J ∧
        llvm_ir.state_at debug ir_obj graph_obj j = Except.ok sj ∧
        step debug sj j J = Except.ok sj1) ∧
      (∀ i, msg ≠ no_store_msg i)) ∧
    (∀ i g, llvm_ir.to_graph debug ir_obj graph_obj = Except.ok (no_store_msg i, g) →
      ∃ s2, llvm_ir.state_at debug ir_obj graph_obj ir_obj.function_ir.length = Except.ok s2 ∧
        ∀ j, j < ir_obj.function_ir.length → ∃ J sj sj1, ir_obj.function_ir[j]? = some J ∧
          llvm_ir.state_at debug ir_obj graph_obj j = Except.ok sj ∧
          step debug sj j J = Except.ok sj1) := by
  constructor
  · intro k I s msg gk hI hs hfail
    have hg : gk = s.graph_obj := (step_ret_cases hfail).1
    have hmsg := step_ret_msg hfail
    have hrun := llvm_ir.run_of_step_error hI hs hfail
    refine ⟨?_, hmsg, ?_, (llvm_ir.state_at_effect hs).2.2.2.1, ?_, ?_⟩
    · unfold llvm_ir.to_graph
      rw [hrun, hg]
    · intro debug2 s2 k2 msg2 g2 h2
      rcases hmsg with ⟨n, hop, hm⟩ | ⟨hop, hm⟩
      · rcases step_ret_msg h2 with ⟨n2, hop2, hm2⟩ | ⟨hop2, _⟩
        · rw [hop] at hop2
          cases hop2
          rw [hm, hm2]
        · rw [hop] at hop2
          cases hop2
      · rcases step_ret_msg h2 with ⟨n2, hop2, _⟩ | ⟨_, hm2⟩
        · rw [hop] at hop2
          cases hop2
        · rw [hm, hm2]
    · intro j hj
      exact llvm_ir.state_at_steps_ok (llvm_ir.state_at_index_le hI) hs j hj
    · intro i hi
      rcases hmsg with ⟨n, _, hm⟩ | ⟨_, hm⟩
      · exact no_store_ne_unsupported i n (hi.symm.trans hm)
      · exact no_store_ne_cannot_call i _ (hi.symm.trans hm)
  · intro i g h
    rw [llvm_ir.to_graph, llvm_ir.run_eq] at h
    cases hs2 : llvm_ir.state_at debug ir_obj graph_obj ir_obj.function_ir.length with
    | ok s2 =>
      exact ⟨s2, rfl, fun j hj => llvm_ir.state_at_steps_ok (Nat.le_refl _) hs2 j hj⟩
    | error e =>
      rw [hs2] at h
      simp only [Except.bind] at h
      cases e with
      | ret msg g2 =>
        simp only [Except.ok.injEq, Prod.mk.injEq] at h
        rcases llvm_ir.state_at_ret_msg hs2 with ⟨n, hm⟩ | ⟨n, hm⟩
        · exact absurd (h.1.symm.trans hm) (no_store_ne_unsupported i n)
        · exact absurd (h.1.symm.trans hm) (no_store_ne_cannot_call i n)
      | assert_fail => cases h
      | undefined => cases h
      | out_of_range => cases h

/-- C26 on the program `failing_program`, whose instruction at position one has the operator
code `frem`: the message names `frem` and the graph is the one that position one starts from,
so the negation at position two has appended nothing. -/
theorem to_graph_fail_fast_witness :
    ∃ s, llvm_ir.state_at true (ir_of 1 failing_program) (empty_graph "" 0 0) 1 = Except.ok s ∧
      llvm_ir.to_graph true (ir_of 1 failing_program) (empty_graph "" 0 0) =
        Except.ok (unsupported_msg "frem", s.graph_obj) ∧
      s.graph_obj.dependent_vec = [] := by
  obtain ⟨s, hs⟩ : ∃ s, llvm_ir.state_at true (ir_of 1 failing_program) (empty_graph "" 0 0) 1
      = Except.ok s := ⟨_, rfl⟩
  obtain ⟨h1, _, _, h4, _⟩ := (to_graph_fail_fast true (ir_of 1 failing_program)
    (empty_graph "" 0 0)).1 1
    (instr (Opcode.Other "frem")
      [Value.Inst 0 TypeID.DoubleTyID, Value.Inst 0 TypeID.DoubleTyID] TypeID.DoubleTyID)
    s (unsupported_msg "frem") s.graph_obj (by decide) hs rfl
  exact ⟨s, hs, h1, h4⟩

/-! ## C27: a predicate outside the tables -/

/-- C27 fails in the build without assertions: for the program `a = input[0]; b = input[1];
c = (a > b); r = select(c, a, b); output[0] = r`, whose compare has the predicate `FCMP_OGT`
outside Table B, `to_graph` returns the empty message and the operator list of the graph is
the placeholder `n_graph_op`. -/
theorem placeholder_tag_emitted :
    (llvm_ir.to_graph false (ir_of 2 select_ogt_program) (empty_graph "" 0 0)).map
        (fun r => (r.1, r.2.operator_vec, r.2.operator_arg, r.2.dependent_vec)) =
      Except.ok ("", [graph_op_enum.n_graph_op], [1, 2, 1, 2], [3]) := by
  decide

/-- C27, amended: in the debug build, for every input on which `to_graph` returns the empty
message, every tag in the operator list is a valid graph operator tag and never the
placeholder `n_graph_op`; there a recorded compare whose predicate is outside Table A stops
a boolean combine with a failing assertion. -/
theorem to_graph_tags_valid (ir_obj : llvm_ir) (graph_obj g : cpp_graph)
    (h : llvm_ir.to_graph true ir_obj graph_obj = Except.ok ("", g)) :
    (∀ tag ∈ g.operator_vec, tag ≠ graph_op_enum.n_graph_op ∧ tag ∈ graph_op_list) ∧
      ∀ (s : State) (c : Value) (info : compare_info),
        DenseMap.find? s.llvm_compare2info c = some info → info.left ≠ none →
        comp_tag info.pred = none →
        combine_operand true s c = Except.error Stop.assert_fail := by
  constructor
  · obtain ⟨s2, _, _, hs2, _, _, _, hg, _⟩ := llvm_ir.to_graph_ok_table h
    intro tag htag
    rw [hg] at htag
    have hne := llvm_ir.state_at_tags_valid (Nat.le_refl _) hs2 tag htag
    refine ⟨hne, ?_⟩
    cases tag <;> first | decide | exact absurd rfl hne
  · intro s c info hf hl hp
    have hlook : s.llvm_compare2info.lookup c = info := DenseMap.lookup_of_find? _ _ _ hf
    have hdef : (combine_op_enum info.pred).2 = true := by
      cases hpred : info.pred <;> simp_all [comp_tag, combine_op_enum]
    unfold combine_operand
    simp only [hlook, ne_eq, hl, not_false_eq_true, if_true, bind, Except.bind]
    simp [hdef, CPPAD_ASSERT_UNKNOWN]

/-- C27, amended, on the program `select_program` in the debug build. -/
theorem to_graph_tags_valid_witness :
    ∃ g, llvm_ir.to_graph true (ir_of 2 select_program) (empty_graph "" 0 0) =
        Except.ok ("", g) ∧
      ∀ tag ∈ g.operator_vec, tag ≠ graph_op_enum.n_graph_op ∧ tag ∈ graph_op_list := by
  obtain ⟨g, hg⟩ : ∃ g, llvm_ir.to_graph true (ir_of 2 select_program) (empty_graph "" 0 0) =
      Except.ok ("", g) := ⟨_, rfl⟩
  exact ⟨g, hg, (to_graph_tags_valid (ir_of 2 select_program) (empty_graph "" 0 0) g hg).1⟩

/-! ## C28: the node counter and the result counts of the emitted operators -/

/-- C28: when the second pass reaches position `k`, in the debug build, or in the build
without assertions with a graph whose operators are valid tags (none is the placeholder
`n_graph_op`, which the debug build excludes by an assertion), the operator list and the operator arguments of
the graph are those of the operators emitted so far, and the node counter is `D + V + C` plus
the sum of the result counts of these operators, where a comparison operator counts zero, the
operator `atom` counts its result count argument and every other operator counts one.  So
the node bound to the result of an instruction at position `k` that binds its result
(arithmetic, negation, call by name, select of float values) is `1 + D + V + C` plus the sum
of the result counts of the operators emitted before its own. -/
theorem node_counter_sum (debug : Bool) (ir_obj : llvm_ir) (graph_obj : cpp_graph) (k : Nat)
    (s : State) (hk : k ≤ ir_obj.function_ir.length)
    (hs : llvm_ir.state_at debug ir_obj graph_obj k = Except.ok s)
    (hvalid : debug = false → graph_op_enum.n_graph_op ∉ s.graph_obj.operator_vec) :
    s.graph_obj.operator_vec =
        (llvm_ir.records_before debug ir_obj graph_obj k).map Prod.fst ∧
      s.graph_obj.operator_arg =
        (llvm_ir.records_before debug ir_obj graph_obj k).flatMap Prod.snd ∧
      s.result_node = ir_obj.n_dynamic_ind_ + ir_obj.n_variable_ind_ +
        s.graph_obj.constant_vec.length +
        total_results (llvm_ir.records_before debug ir_obj graph_obj k) ∧
      ∀ I s1, ir_obj.function_ir[k]? = some I → step debug s k I = Except.ok s1 →
        binds_result I →
        DenseMap.find? s1.llvm_value2graph_node (I.result k) =
          some (1 + ir_obj.n_dynamic_ind_ + ir_obj.n_variable_ind_ +
            s.graph_obj.constant_vec.length +
            total_results (llvm_ir.records_before debug ir_obj graph_obj k)) := by
  obtain ⟨h1, h2, h3⟩ := llvm_ir.state_at_records hk hs
  have hvalid : graph_op_enum.n_graph_op ∉ s.graph_obj.operator_vec := by
    cases debug
    · exact hvalid rfl
    · exact fun hm => llvm_ir.state_at_tags_valid hk hs _ hm rfl
  refine ⟨h1, h2, h3 hvalid, ?_⟩
  intro I s1 hI hstep hb
  obtain ⟨_, hv⟩ := step_binds_result hstep hb
  rw [hv, DenseMap.find?_insert_self _ _ _ (llvm_ir.state_at_fresh hI hs), h3 hvalid]
  congr 1
  omega

/-- C28 at the end of the program `atomic_program` with two independent variables, in the
build without assertions: the operator `atom` with result count one has been emitted and the
node counter is three. -/
theorem node_counter_sum_witness :
    ∃ s, llvm_ir.state_at false (ir_of 2 atomic_program) (empty_graph "" 0 0) 12 =
        Except.ok s ∧
      s.result_node = 0 + 2 + s.graph_obj.constant_vec.length +
        total_results (llvm_ir.records_before false (ir_of 2 atomic_program)
          (empty_graph "" 0 0) 12) ∧
      total_results (llvm_ir.records_before false (ir_of 2 atomic_program)
          (empty_graph "" 0 0) 12) = 1 := by
  obtain ⟨s, hs⟩ : ∃ s, llvm_ir.state_at false (ir_of 2 atomic_program) (empty_graph "" 0 0) 12
      = Except.ok s := ⟨_, rfl⟩
  have hvalid : (llvm_ir.state_at false (ir_of 2 atomic_program) (empty_graph "" 0 0) 12).map
      (fun s => decide (graph_op_enum.n_graph_op ∉ s.graph_obj.operator_vec)) =
      Except.ok true := by decide
  rw [hs] at hvalid
  simp only [Except.map, Except.ok.injEq, decide_eq_true_eq] at hvalid
  obtain ⟨_, _, h3, _⟩ := node_counter_sum false (ir_of 2 atomic_program) (empty_graph "" 0 0)
    12 s (by decide) hs (fun _ => hvalid)
  exact ⟨s, hs, h3, by decide⟩

/-! ## C29: no forward reference and no self reference -/

theorem neg_program_operands_earlier : operands_earlier neg_program := by
  intro k I hI v hv j ty he
  have hk : k < 4 := by
    rcases List.getElem?_eq_some.1 hI with ⟨h, _⟩
    exact h
  subst he
  interval_cases k <;>
    simp only [neg_program, List.getElem?_cons_zero, List.getElem?_cons_succ,
      Option.some.injEq] at hI <;>
    subst hI <;>
    simp [instr, input_ptr, output_ptr] at hv
  · omega
  · omega

/-- C29 fails when the input vector is empty: the program `x = input[0]; y = -x;
output[0] = y` with `D = V = 0` has only operands that are formal arguments, constants or
results of earlier instructions, and no address computation.  The load through the input
pointer binds `x` to node one although the node counter is zero, so the negation appends the
argument one when the node counter is zero, and its own result node is one as well. -/
theorem argument_is_own_result :
    operands_earlier neg_program ∧
    (∀ I ∈ neg_program, I.opcode ≠ Opcode.GetElementPtr) ∧
    (llvm_ir.state_at true (ir_of 0 neg_program) (empty_graph "" 0 0) 1).map
        (fun s => (s.result_node, node_args s 1
          (instr Opcode.FNeg [Value.Inst 0 TypeID.DoubleTyID] TypeID.DoubleTyID))) =
      Except.ok (0, [1]) ∧
    (llvm_ir.state_at true (ir_of 0 neg_program) (empty_graph "" 0 0) 2).map
        (fun s => (s.graph_obj.operator_arg,
          DenseMap.find? s.llvm_value2graph_node (Value.Inst 1 TypeID.DoubleTyID))) =
      Except.ok ([1], some 1) ∧
    (llvm_ir.to_graph true (ir_of 0 neg_program) (empty_graph "" 0 0)).map
        (fun r => (r.1, r.2.operator_vec, r.2.operator_arg, r.2.dependent_vec)) =
      Except.ok ("", [graph_op_enum.neg_graph_op], [1], [1]) :=
  ⟨neg_program_operands_earlier, by decide, by decide, by decide, by decide⟩

/-- C29, amended: let the function have at least one input (`D + V ≥ 1`) and let every
atomic call declare at least one result, so that every contiguous vector has a first slot;
let every operand that is the result of an instruction be the result of a strictly earlier
one, and let every address computation on a contiguous base use an offset smaller than the
registered length of the base.  Then for every step of the second pass, in either build,
every node among the operator arguments that the step appends is at most the node counter
before the step, hence smaller than every result node of the operator, the result nodes being
the nodes after the old counter up to the new one. -/
theorem no_forward_reference (debug : Bool) (ir_obj : llvm_ir) (graph_obj : cpp_graph)
    (k : Nat) (s s1 : State) (I : Instruction)
    (hDV : 1 ≤ ir_obj.n_dynamic_ind_ + ir_obj.n_variable_ind_)
    (hres : atomic_results_nonempty ir_obj.function_ir)
    (hssa : operands_earlier ir_obj.function_ir)
    (hoff : offsets_in_range ir_obj)
    (hI : ir_obj.function_ir[k]? = some I)
    (hs : llvm_ir.state_at debug ir_obj graph_obj k = Except.ok s)
    (hstep : step debug s k I = Except.ok s1) :
    s1.graph_obj.operator_arg = s.graph_obj.operator_arg ++ (emission s k I).2 ∧
      s1.result_node = s.result_node + allocated I ∧
      ∀ a ∈ node_args s k I, a ≤ s.result_node ∧ a < s.result_node + 1 := by
  have hP := llvm_ir.state_at_nodes_below (llvm_ir.state_at_index_le hI) hDV hres hoff hs
  refine ⟨?_, step_result_node hstep, ?_⟩
  · rw [step_emission hstep]
  · intro a ha
    have := step_node_args_below hI hssa hP a ha
    exact ⟨this, by omega⟩

/-- C29, amended, at the addition of the program `load_binary_store` with two independent
variables: its arguments are at most the node counter before the addition. -/
theorem no_forward_reference_witness :
    ∃ s, llvm_ir.state_at true (ir_of 2 (load_binary_store Opcode.FAdd 0 1))
        (empty_graph "" 0 0) 4 = Except.ok s ∧
      ∀ a ∈ node_args s 4
        (instr Opcode.FAdd [Value.Inst 1 TypeID.DoubleTyID, Value.Inst 3 TypeID.DoubleTyID]
          TypeID.DoubleTyID), a ≤ s.result_node ∧ a < s.result_node + 1 := by
  obtain ⟨s, hs⟩ : ∃ s, llvm_ir.state_at true (ir_of 2 (load_binary_store Opcode.FAdd 0 1))
      (empty_graph "" 0 0) 4 = Except.ok s := ⟨_, rfl⟩
  obtain ⟨s1, hs1⟩ : ∃ s1, llvm_ir.state_at true (ir_of 2 (load_binary_store Opcode.FAdd 0 1))
      (empty_graph "" 0 0) 5 = Except.ok s1 := ⟨_, rfl⟩
  have hstep : step true s 4
      (instr Opcode.FAdd [Value.Inst 1 TypeID.DoubleTyID, Value.Inst 3 TypeID.DoubleTyID]
        TypeID.DoubleTyID) = Except.ok s1 := by
    have h := llvm_ir.state_at_succ true (ir_of 2 (load_binary_store Opcode.FAdd 0 1))
      (empty_graph "" 0 0) 4
      (instr Opcode.FAdd [Value.Inst 1 TypeID.DoubleTyID, Value.Inst 3 TypeID.DoubleTyID]
        TypeID.DoubleTyID) (by decide)
    rw [hs, hs1] at h
    exact h.symm
  have hres : atomic_results_nonempty (ir_of 2 (load_binary_store Opcode.FAdd 0 1)).function_ir := by
    intro C hC hop
    simp only [ir_of, load_binary_store, List.mem_cons, List.mem_singleton, List.not_mem_nil,
      or_false] at hC
    rcases hC with rfl | rfl | rfl | rfl | rfl | rfl | rfl <;> cases hop
  have hssa : operands_earlier (ir_of 2 (load_binary_store Opcode.FAdd 0 1)).function_ir := by
    intro k I hI v hv j ty he
    have hk : k < 7 := by
      rcases List.getElem?_eq_some.1 hI with ⟨h, _⟩
      exact h
    subst he
    interval_cases k <;>
      simp only [ir_of, load_binary_store, List.getElem?_cons_zero, List.getElem?_cons_succ,
        Option.some.injEq] at hI <;>
      subst hI <;>
      simp [instr, input_ptr, output_ptr] at hv <;>
      omega
  have hoff : offsets_in_range (ir_of 2 (load_binary_store Opcode.FAdd 0 1)) := by
    intro k G base index hG hop h0 h1 _
    have hk : k < 7 := by
      rcases List.getElem?_eq_some.1 hG with ⟨h, _⟩
      exact h
    interval_cases k <;>
      simp only [ir_of, load_binary_store, List.getElem?_cons_zero, List.getElem?_cons_succ,
        Option.some.injEq] at hG <;>
      subst hG <;>
      first
      | (cases hop; done)
      | (simp only [instr, List.getElem?_cons_zero, List.getElem?_cons_succ,
           Option.some.injEq, Value.ConstantInt.injEq] at h0 h1
         subst h0 h1
         exact ⟨2, by decide, by decide⟩)
  obtain ⟨_, _, h3⟩ := no_forward_reference true (ir_of 2 (load_binary_store Opcode.FAdd 0 1))
    (empty_graph "" 0 0) 4 s s1 _ (by decide) hres hssa hoff (by decide) hs hstep
  exact ⟨s, hs, h3⟩

/-! ## C30: the comparison that a boolean combine emits negates the source compare -/

/-- C30: let the compare `c` be recorded with a predicate `P` of Table A, left operand `x` and
right operand `y`.  The body of the combine loop for `c` succeeds in either build and appends
the operator `Q` of Table A with the two arguments `node y`, `node x`, in this swapped order;
and for every assignment `val` of elements of a linear order to the nodes, `Q` holds of the
emitted arguments if and only if `P` does not hold of `(x, y)`.  Entry by entry:
`eq(y, x)` iff not `x != y`, `le(y, x)` iff not `x < y`, `lt(y, x)` iff not `x <= y`, and
`ne(y, x)` iff not `x == y`. -/
theorem combine_negates_compare (debug : Bool) (s : State) (c x y : Value) (P : Predicate)
    (hrec : DenseMap.find? s.llvm_compare2info c =
      some { pred := P, left := some x, right := some y })
    (htab : (comp_tag P).isSome = true) :
    ∃ Q, comp_tag P = some Q ∧
      combine_operand debug s c = Except.ok
        { s with
          graph_obj :=
            ((s.graph_obj.operator_vec_push_back Q).operator_arg_push_back
              (s.llvm_value2graph_node.lookup y)).operator_arg_push_back
              (s.llvm_value2graph_node.lookup x) } ∧
      (∀ (α : Type) [LinearOrder α] (val : Nat → α),
        comp_holds Q (val (s.llvm_value2graph_node.lookup y))
            (val (s.llvm_value2graph_node.lookup x)) ↔
          ¬ pred_holds P (val (s.llvm_value2graph_node.lookup x))
            (val (s.llvm_value2graph_node.lookup y))) ∧
      (∀ (α : Type) [LinearOrder α] (a b : α),
        (comp_holds graph_op_enum.comp_eq_graph_op b a ↔
          ¬ pred_holds Predicate.FCMP_ONE a b) ∧
        (comp_holds graph_op_enum.comp_le_graph_op b a ↔
          ¬ pred_holds Predicate.FCMP_OLT a b) ∧
        (comp_holds graph_op_enum.comp_lt_graph_op b a ↔
          ¬ pred_holds Predicate.FCMP_OLE a b) ∧
        (comp_holds graph_op_enum.comp_ne_graph_op b a ↔
          ¬ pred_holds Predicate.FCMP_OEQ a b)) := by
  have hlook : s.llvm_compare2info.lookup c = { pred := P, left := some x, right := some y } := by
    simp [DenseMap.lookup, hrec]
  have htable : ∀ (α : Type) [LinearOrder α] (a b : α),
      (comp_holds graph_op_enum.comp_eq_graph_op b a ↔
        ¬ pred_holds Predicate.FCMP_ONE a b) ∧
      (comp_holds graph_op_enum.comp_le_graph_op b a ↔
        ¬ pred_holds Predicate.FCMP_OLT a b) ∧
      (comp_holds graph_op_enum.comp_lt_graph_op b a ↔
        ¬ pred_holds Predicate.FCMP_OLE a b) ∧
      (comp_holds graph_op_enum.comp_ne_graph_op b a ↔
        ¬ pred_holds Predicate.FCMP_OEQ a b) := by
    intro α _ a b
    refine ⟨?_, ?_, ?_, ?_⟩
    · simp only [comp_holds, pred_holds, not_not, ne_eq]
      exact eq_comm
    · simp only [comp_holds, pred_holds, not_lt]
    · simp only [comp_holds, pred_holds, not_le]
    · simp only [comp_holds, pred_holds, ne_eq]
      exact ⟨fun h e => h e.symm, fun h e => h e.symm⟩
  cases P <;> simp [comp_tag] at htab
  all_goals
    refine ⟨_, rfl, ?_, ?_, htable⟩
    · cases debug <;>
        simp [combine_operand, hlook, combine_op_enum, CPPAD_ASSERT_UNKNOWN, State.node, bind,
          Except.bind, pure, Except.pure]
    · intro α _ val
      first
        | exact (htable α _ _).1
        | exact (htable α _ _).2.1
        | exact (htable α _ _).2.2.1
        | exact (htable α _ _).2.2.2

/-- C30 at a state in which the compare `%3 = fcmp olt %0, %2` is recorded. -/
theorem combine_negates_compare_witness :
    ∃ Q, comp_tag Predicate.FCMP_OLT = some Q ∧
      combine_operand true
        { graph_obj := empty_graph "f" 0 2
          llvm_value2graph_node :=
            [(Value.Inst 0 TypeID.DoubleTyID, 1), (Value.Inst 2 TypeID.DoubleTyID, 2)]
          llvm_ptr2graph_node := []
          llvm_compare2info :=
            [(Value.Inst 3 TypeID.IntegerTyID,
              { pred := Predicate.FCMP_OLT, left := some (Value.Inst 0 TypeID.DoubleTyID),
                right := some (Value.Inst 2 TypeID.DoubleTyID) })]
          llvm_element2info := []
          vec_index2node := [[]]
          llvm_base2index2node := []
          llvm_base2first_node := []
          llvm_base2length := []
          count_zext := 0
          result_node := 2 } (Value.Inst 3 TypeID.IntegerTyID) =
        Except.ok
          { graph_obj :=
              { empty_graph "f" 0 2 with
                operator_vec := [Q]
                operator_arg := [2, 1] }
            llvm_value2graph_node :=
              [(Value.Inst 0 TypeID.DoubleTyID, 1), (Value.Inst 2 TypeID.DoubleTyID, 2)]
            llvm_ptr2graph_node := []
            llvm_compare2info :=
              [(Value.Inst 3 TypeID.IntegerTyID,
                { pred := Predicate.FCMP_OLT, left := some (Value.Inst 0 TypeID.DoubleTyID),
                  right := some (Value.Inst 2 TypeID.DoubleTyID) })]
            llvm_element2info := []
            vec_index2node := [[]]
            llvm_base2index2node := []
            llvm_base2first_node := []
            llvm_base2length := []
            count_zext := 0
            result_node := 2 } ∧
      (comp_holds Q (2 : Nat) 1 ↔ ¬ pred_holds Predicate.FCMP_OLT (1 : Nat) 2) := by
  obtain ⟨Q, hQ, hrun, hneg, _⟩ := combine_negates_compare true
    { graph_obj := empty_graph "f" 0 2
      llvm_value2graph_node :=
        [(Value.Inst 0 TypeID.DoubleTyID, 1), (Value.Inst 2 TypeID.DoubleTyID, 2)]
      llvm_ptr2graph_node := []
      llvm_compare2info :=
        [(Value.Inst 3 TypeID.IntegerTyID,
          { pred := Predicate.FCMP_OLT, left := some (Value.Inst 0 TypeID.DoubleTyID),
            right := some (Value.Inst 2 TypeID.DoubleTyID) })]
      llvm_element2info := []
      vec_index2node := [[]]
      llvm_base2index2node := []
      llvm_base2first_node := []
      llvm_base2length := []
      count_zext := 0
      result_node := 2 } (Value.Inst 3 TypeID.IntegerTyID) (Value.Inst 0 TypeID.DoubleTyID)
    (Value.Inst 2 TypeID.DoubleTyID) Predicate.FCMP_OLT (by decide) (by decide)
  exact ⟨Q, hQ, hrun, hneg Nat id⟩

/-! ## C31: the number of arguments of a math call -/

/-- C31: let `I` be a call with two or with three operands whose callee name is not a
discrete name and resolves in the operator name table, and, in the debug build, let the
operands have the asserted types and the value operands have nodes.  Then the step for `I`
succeeds and appends the operator registered under the name, whatever it is, with one
argument (the node of operand zero) when the call has two operands and with two arguments
(the nodes of operands zero and one) when it has three. -/
theorem math_call_arity (debug : Bool) (s : State) (k : Nat) (I : Instruction) (v : Value)
    (hop : I.opcode = Opcode.Call)
    (hn : I.operands.length = 2 ∨ I.operands.length = 3)
    (hv : callee I = some v)
    (hnd : starts_with v.getName "discrete_" = false)
    (hhit : name2graph_op.lookup v.getName ≠ 0)
    (hty : debug = true → call_types_ok I)
    (hnodes : debug = true → ∀ i x, i + 1 < I.operands.length → I.operands[i]? = some x →
      (s.llvm_value2graph_node.insert (I.result k) (s.result_node + 1)).lookup x ≠ 0) :
    ∃ s1, step debug s k I = Except.ok s1 ∧
      s1.graph_obj.operator_vec =
        s.graph_obj.operator_vec ++ [graph_op_cast (name2graph_op.lookup v.getName - 1)] ∧
      s1.graph_obj.operator_arg.length =
        s.graph_obj.operator_arg.length + (I.operands.length - 1) ∧
      (I.operands.length = 2 →
        s1.graph_obj.operator_arg = s.graph_obj.operator_arg ++
          [operand_node (s.llvm_value2graph_node.insert (I.result k) (s.result_node + 1))
            I 0]) ∧
      (I.operands.length = 3 →
        s1.graph_obj.operator_arg = s.graph_obj.operator_arg ++
          [operand_node (s.llvm_value2graph_node.insert (I.result k) (s.result_node + 1)) I 0,
           operand_node (s.llvm_value2graph_node.insert (I.result k) (s.result_node + 1))
            I 1]) := by
  have hname : call_name debug I = Except.ok v.getName := call_name_of_types hn hv hty
  have h7 : I.operands.length ≠ 7 := by omega
  obtain ⟨s1, hs1⟩ := call_math_total debug s k I v.getName hn hhit hnodes
  have hstep : step debug s k I = Except.ok s1 := by
    unfold step
    rw [hop]
    simp only [step_call, hname, bind, Except.bind, h7, if_false, hnd]
    simpa using hs1
  have hg := call_math_emission hs1
  refine ⟨s1, hstep, ?_, ?_, ?_, ?_⟩
  · rw [hg]
  · rw [hg]
    rcases hn with hn | hn <;> simp [hn]
  · intro h2
    rw [hg]
    simp [h2]
  · intro h3
    rw [hg]
    simp [h3]

/-- C31 on the call `pow(x)` with two operands of the program `pow_program`: the operator
`pow` is appended with the single argument node one; and the whole translations of
`pow_program` and of `sin_program`, whose call of `sin` has three operands, return the empty
message with the operators `pow` of one argument and `sin` of two arguments. -/
theorem math_call_arity_witness :
    ∃ s s1,
      llvm_ir.state_at true (ir_of 1 pow_program) (empty_graph "" 0 0) 1 = Except.ok s ∧
      step true s 1
        (instr Opcode.Call [Value.Inst 0 TypeID.DoubleTyID, Value.Global "pow"]
          TypeID.DoubleTyID) = Except.ok s1 ∧
      s1.graph_obj.operator_vec = s.graph_obj.operator_vec ++ [graph_op_enum.pow_graph_op] ∧
      s1.graph_obj.operator_arg.length = s.graph_obj.operator_arg.length + 1 ∧
      (llvm_ir.to_graph true (ir_of 1 pow_program) (empty_graph "" 0 0)).map
          (fun r => (r.1, r.2.operator_vec, r.2.operator_arg)) =
        Except.ok ("", [graph_op_enum.pow_graph_op], [1]) ∧
      (llvm_ir.to_graph true (ir_of 1 sin_program) (empty_graph "" 0 0)).map
          (fun r => (r.1, r.2.operator_vec, r.2.operator_arg)) =
        Except.ok ("", [graph_op_enum.sin_graph_op], [1, 1]) := by
  obtain ⟨s, hs⟩ : ∃ s, llvm_ir.state_at true (ir_of 1 pow_program) (empty_graph "" 0 0) 1
      = Except.ok s := ⟨_, rfl⟩
  have hnode : (llvm_ir.state_at true (ir_of 1 pow_program) (empty_graph "" 0 0) 1).map
      (fun s => DenseMap.find? s.llvm_value2graph_node (Value.Inst 0 TypeID.DoubleTyID)) =
      Except.ok (some 1) := by decide
  rw [hs] at hnode
  simp only [Except.map, Except.ok.injEq] at hnode
  obtain ⟨s1, h1, h2, h3, _⟩ := math_call_arity true s 1
    (instr Opcode.Call [Value.Inst 0 TypeID.DoubleTyID, Value.Global "pow"] TypeID.DoubleTyID)
    (Value.Global "pow") rfl (Or.inl rfl) rfl (by decide) (by decide)
    (fun _ => by
      unfold call_types_ok
      decide)
    (fun _ i x hi hx => by
      have hi0 : i = 0 := by
        simp only [instr, List.length_cons, List.length_nil] at hi
        omega
      subst hi0
      have hx2 : x = Value.Inst 0 TypeID.DoubleTyID := by
        simp only [instr, List.getElem?_cons_zero, Option.some.injEq] at hx
        exact hx.symm
      subst hx2
      rw [DenseMap.lookup_of_find? _ _ 1 (DenseMap.find?_insert_mono _ _ _ _ _ hnode)]
      decide)
  exact ⟨s, s1, hs, h1, h2, h3, by decide, by decide⟩
end CppAD
